import Mathlib

/-!
# Taint bitmap, write log, commit and rollback of `sim_unicorn.cpp`

A shallow embedding of `State` in `src/native/sim_unicorn.cpp`: the memory-taint
bookkeeping, the feasibility and taint flow analyses of a block, taint propagation, the
emulator hooks, the session start, the dirty ranges and the page cache.

Conventions of the embedding:

* `address_t` / `uint64_t` values are `Nat`; arithmetic that can wrap is written
  with an explicit `% 2 ^ 64`.
* The C `int` field `clean` of a write record is held as its 32-bit two's-complement
  bit pattern, so the value `-1` is `0xFFFFFFFF` (`int_minus_one`).
* A page bitmap (`taint_t[0x1000]`) is a function from the page offset to the tag;
  only the offsets `0 .. 0xFFF` are meaningful.
* `std::unordered_set` is a list of elements, `std::unordered_map` and `std::map` are
  lists of key-value pairs; set equality is stated through membership.
* The emulator is an external collaborator: its memory is a byte map with a set of
  mapped addresses, and `uc_mem_read` / `uc_mem_write` succeed exactly on mapped ranges.
* A C++ exception or a dereferenced null pointer is the result `none`.
-/

namespace SimUnicorn

/-! ## Data model -/

/-- Taint tag of one byte of guest memory (`taint_t`). -/
inductive taint_t where
  | TAINT_NONE
  | TAINT_DIRTY
  | TAINT_SYMBOLIC
  deriving DecidableEq, Repr

/-- Numeric value of a tag in the `uint8_t` enumeration. -/
def taint_t.toNat : taint_t → Nat
  | .TAINT_NONE => 0
  | .TAINT_DIRTY => 1
  | .TAINT_SYMBOLIC => 2

/-- Stop reasons (`stop_t`). -/
inductive stop_t where
  | STOP_NORMAL
  | STOP_STOPPOINT
  | STOP_ERROR
  | STOP_SYSCALL
  | STOP_EXECNONE
  | STOP_ZEROPAGE
  | STOP_NOSTART
  | STOP_SEGFAULT
  | STOP_ZERO_DIV
  | STOP_NODECODE
  | STOP_HLT
  | STOP_VEX_LIFT_FAILED
  | STOP_SYMBOLIC_CONDITION
  | STOP_SYMBOLIC_READ_ADDR
  | STOP_SYMBOLIC_WRITE_ADDR
  deriving DecidableEq, Repr

/-- One page bitmap, `taint_t[PAGE_SIZE]`, indexed by the page offset. -/
abbrev PageBitmap := Nat → taint_t

/-- The table `active_pages`: page address to bitmap. -/
abbrev ActivePages := List (Nat × PageBitmap)

/-- A write record (`mem_access_t`). `value` holds the pre-image bytes, `clean` the
32-bit pattern of the pre-taint mask. -/
structure mem_access_t where
  address : Nat
  value : List Nat
  size : Nat
  clean : Nat
  deriving DecidableEq

/-- The bit pattern of the `int` value `-1`. -/
def int_minus_one : Nat := 0xFFFFFFFF

/-- The emulator as far as the write log needs it: byte memory, the set of mapped
addresses, and the program counter and stack pointer registers. -/
structure uc_engine where
  mem : Nat → Nat
  mapped : Nat → Bool
  pc : Nat
  sp : Nat

/-! ## Intermediate representation

The IR comes from the lifter (libvex), an external collaborator. The embedding keeps
what `sim_unicorn.cpp` inspects: statement and expression kinds, register offsets,
temporary ids, instruction addresses and the types of register accesses. A primitive
operation is represented by its result type, which is what `typeOfIRExpr` reads off it.
Register offsets are VEX `Int`s, so sums of an offset and a size do not wrap in 64 bits. -/

/-- IR types (`IRType`). -/
inductive IRType where
  | Ity_INVALID
  | Ity_I1
  | Ity_I8
  | Ity_I16
  | Ity_I32
  | Ity_I64
  | Ity_I128
  | Ity_F16
  | Ity_F32
  | Ity_F64
  | Ity_D32
  | Ity_D64
  | Ity_D128
  | Ity_F128
  | Ity_V128
  | Ity_V256
  deriving DecidableEq, Repr

/-- The libvex function `sizeofIRType`, in bytes. libvex panics on `Ity_I1` and
`Ity_INVALID`; the value 0 stands for that here. -/
def sizeofIRType : IRType → Nat
  | .Ity_INVALID => 0
  | .Ity_I1 => 0
  | .Ity_I8 => 1
  | .Ity_I16 => 2
  | .Ity_I32 => 4
  | .Ity_I64 => 8
  | .Ity_I128 => 16
  | .Ity_F16 => 2
  | .Ity_F32 => 4
  | .Ity_F64 => 8
  | .Ity_D32 => 4
  | .Ity_D64 => 8
  | .Ity_D128 => 16
  | .Ity_F128 => 16
  | .Ity_V128 => 16
  | .Ity_V256 => 32

/-- IR expressions (`IRExpr`), by tag. -/
inductive IRExpr where
  | Iex_Binder (binder : Nat)
  | Iex_Get (offset : Nat) (ty : IRType)
  | Iex_GetI (elemTy : IRType) (ix : IRExpr)
  | Iex_RdTmp (tmp : Nat)
  | Iex_Qop (ty : IRType) (arg1 arg2 arg3 arg4 : IRExpr)
  | Iex_Triop (ty : IRType) (arg1 arg2 arg3 : IRExpr)
  | Iex_Binop (ty : IRType) (arg1 arg2 : IRExpr)
  | Iex_Unop (ty : IRType) (arg : IRExpr)
  | Iex_Load (ty : IRType) (addr : IRExpr)
  | Iex_Const (ty : IRType) (value : Nat)
  | Iex_ITE (cond iftrue iffalse : IRExpr)
  | Iex_CCall (retty : IRType) (args : List IRExpr)
  | Iex_VECRET
  | Iex_GSPTR

/-- IR statements (`IRStmt`), by tag. A field that may be `NULL` is an `Option`. -/
inductive IRStmt where
  | Ist_NoOp
  | Ist_IMark (addr : Nat) (len : Nat)
  | Ist_AbiHint (base : IRExpr) (len : Nat) (nia : IRExpr)
  | Ist_Put (offset : Nat) (data : IRExpr)
  | Ist_PutI (ix : IRExpr) (data : IRExpr)
  | Ist_WrTmp (tmp : Nat) (data : IRExpr)
  | Ist_Store (addr : IRExpr) (data : IRExpr)
  | Ist_CAS (addr : IRExpr) (expdHi : Option IRExpr) (expdLo : IRExpr)
      (dataHi : Option IRExpr) (dataLo : IRExpr)
  | Ist_LLSC (addr : IRExpr) (storedata : Option IRExpr)
  | Ist_Dirty (guard : IRExpr) (mAddr : Option IRExpr) (args : List IRExpr)
  | Ist_MBE
  | Ist_Exit (guard : IRExpr) (dst : Nat)
  | Ist_LoadG (addr : IRExpr) (alt : IRExpr) (guard : IRExpr)
  | Ist_StoreG (addr : IRExpr) (data : IRExpr) (guard : IRExpr)

/-- A lifted block (`IRSB`): the types of the temporaries (by id), the statements and
the `next` expression. -/
structure IRSB where
  tyenv : List IRType
  stmts : List IRStmt
  next : IRExpr

/-- The libvex function `typeOfIRExpr`. libvex panics on a binder and on the `VECRET` /
`GSPTR` markers, which the lifter never places where a type is asked for; `Ity_INVALID`
stands for that here. -/
def typeOfIRExpr (tyenv : List IRType) : IRExpr → IRType
  | .Iex_Binder _ => .Ity_INVALID
  | .Iex_Get _ ty => ty
  | .Iex_GetI elemTy _ => elemTy
  | .Iex_RdTmp tmp => tyenv.getD tmp .Ity_INVALID
  | .Iex_Qop ty _ _ _ _ => ty
  | .Iex_Triop ty _ _ _ => ty
  | .Iex_Binop ty _ _ => ty
  | .Iex_Unop ty _ => ty
  | .Iex_Load ty _ => ty
  | .Iex_Const ty _ => ty
  | .Iex_ITE _ _ iffalse => typeOfIRExpr tyenv iffalse
  | .Iex_CCall retty _ => retty
  | .Iex_VECRET => .Ity_INVALID
  | .Iex_GSPTR => .Ity_INVALID

/-- The lifter call `vex_lift`, as used by `check_block` (`allow_arch_optimizations`
0) and by `propagate_taints` (`allow_arch_optimizations` 1): from the emulator, whose
memory holds the instruction bytes, the block address and the byte count to the lifted
block, or `none` for `NULL`. -/
abbrev VexLift := Bool → uc_engine → Nat → Nat → Option IRSB

/-- The value `VexArch_INVALID` of the libvex enumeration `VexArch`. -/
def VexArch_INVALID : Nat := 0x400

/-! ## Taint entities and block summaries -/

/-- A taint entity (`taint_entity_t`), by `entity_type`; each variant keeps the fields
that are valid for it and `instr_addr`. -/
inductive taint_entity_t where
  | TAINT_ENTITY_REG (reg_offset : Nat) (instr_addr : Nat)
  | TAINT_ENTITY_TMP (tmp_id : Nat) (instr_addr : Nat)
  | TAINT_ENTITY_MEM (mem_ref_entity_list : List taint_entity_t) (instr_addr : Nat)
  | TAINT_ENTITY_NONE (instr_addr : Nat)

/-- The field `instr_addr` of a taint entity. -/
def taint_entity_t.instr_addr : taint_entity_t → Nat
  | .TAINT_ENTITY_REG _ a => a
  | .TAINT_ENTITY_TMP _ a => a
  | .TAINT_ENTITY_MEM _ a => a
  | .TAINT_ENTITY_NONE a => a

/-- The comparison `taint_entity_t::operator==`: entity types, then the register offset,
the temporary id, or the lists of address entities; `instr_addr` is not compared. -/
def taint_entity_t.beq : taint_entity_t → taint_entity_t → Bool
  | .TAINT_ENTITY_REG a _, .TAINT_ENTITY_REG b _ => a == b
  | .TAINT_ENTITY_TMP a _, .TAINT_ENTITY_TMP b _ => a == b
  | .TAINT_ENTITY_MEM l _, .TAINT_ENTITY_MEM m _ => beq_list l m
  | .TAINT_ENTITY_NONE _, .TAINT_ENTITY_NONE _ => true
  | _, _ => false
where
  /-- Comparison of two `std::vector<taint_entity_t>`. -/
  beq_list : List taint_entity_t → List taint_entity_t → Bool
    | [], [] => true
    | a :: l, b :: m => taint_entity_t.beq a b && beq_list l m
    | _, _ => false

/-- A `std::unordered_set<taint_entity_t>`: the elements, in the order in which the
model iterates over them (the order of insertion; C++ leaves the order unspecified). -/
abbrev TaintEntitySet := List taint_entity_t

/-- The test `set.count(e) > 0`. -/
def entity_count (set : TaintEntitySet) (e : taint_entity_t) : Bool :=
  set.any (fun x => taint_entity_t.beq x e)

/-- The call `set.emplace(e)`: no effect when an equal element is present. -/
def entity_emplace (set : TaintEntitySet) (e : taint_entity_t) : TaintEntitySet :=
  if entity_count set e then set else set ++ [e]

/-- The call `set.insert(other.begin(), other.end())`. -/
def entity_insert_all (set other : TaintEntitySet) : TaintEntitySet :=
  other.foldl entity_emplace set

/-- A feasibility summary (`block_entry_t`). -/
structure block_entry_t where
  try_unicorn : Bool
  used_registers : List Nat
  clobbered_registers : List Nat
  deriving DecidableEq

/-- A block taint summary (`block_taint_entry_t`). -/
structure block_taint_entry_t where
  taint_sink_src_data : List (taint_entity_t × TaintEntitySet)
  exit_stmt_guard_expr_deps : TaintEntitySet
  ite_cond_map : List (Nat × TaintEntitySet)

/-- The result of `get_final_taint_status` (`taint_status_result_t`). -/
structure taint_status_result_t where
  is_symbolic : Bool
  depends_on_read_from_symbolic_addr : Bool
  depends_on_read_from_concrete_addr : Bool
  concrete_mem_read_instr_addr : Nat
  deriving DecidableEq

/-- The call `map.emplace(k, v)` on a `std::unordered_map`: no effect when the key is
present. -/
def map_emplace {β : Type} (m : List (Nat × β)) (k : Nat) (v : β) : List (Nat × β) :=
  if (m.lookup k).isSome then m else m ++ [(k, v)]

/-- Assignment through `map.at(k)` or `map[k]` for a key that is present. -/
def map_assign {β : Type} (m : List (Nat × β)) (k : Nat) (v : β) : List (Nat × β) :=
  m.map (fun e => if e.1 = k then (e.1, v) else e)

/-- The fields of `State`. The block cache, which `State` holds by pointer, is a field. -/
structure State where
  uc : uc_engine
  saved_regs : Nat × Nat
  mem_writes : List mem_access_t
  mem_writes_taint_map : List (Nat × Bool)
  block_symbolic_registers : List Nat
  block_concrete_registers : List Nat
  block_symbolic_temps : List Nat
  active_pages : ActivePages
  stop_points : List Nat
  prev_block_addr : Nat
  bbl_addrs : List Nat
  stack_pointers : List Nat
  executed_pages : List Nat
  syscall_count : Nat
  cur_steps : Nat
  max_steps : Nat
  stopped : Bool
  stop_reason : stop_t
  stopping_register : Nat
  ignore_next_block : Bool
  ignore_next_selfmod : Bool
  cur_address : Nat
  cur_size : Nat
  interrupt_handled : Bool
  transmit_sysno : Nat
  symbolic_registers : List Nat
  symbolic_temps : List Nat
  track_bbls : Bool
  track_stack : Bool
  vex_guest : Nat
  block_cache : List (Nat × block_entry_t)
  block_taint_cache : List (Nat × block_taint_entry_t)
  mem_reads_taint_dst_map : List (Nat × (List taint_entity_t × Bool))
  temp_ite_cond_map : List (Nat × TaintEntitySet)

/-- The constructor `State::State`. It leaves `track_bbls`, `track_stack` and the
addresses unset; they are given here (the tracking flags as arguments). -/
def simunicorn_alloc (uc : uc_engine) (track_bbls track_stack : Bool) : State :=
  { uc := uc
    saved_regs := (0, 0)
    mem_writes := []
    mem_writes_taint_map := []
    block_symbolic_registers := []
    block_concrete_registers := []
    block_symbolic_temps := []
    active_pages := []
    stop_points := []
    prev_block_addr := 0
    bbl_addrs := []
    stack_pointers := []
    executed_pages := []
    syscall_count := 0
    cur_steps := 0
    max_steps := 0
    stopped := true
    stop_reason := .STOP_NOSTART
    stopping_register := 0
    ignore_next_block := false
    ignore_next_selfmod := false
    cur_address := 0
    cur_size := 0
    interrupt_handled := false
    transmit_sysno := 0xFFFFFFFF
    symbolic_registers := []
    symbolic_temps := []
    track_bbls := track_bbls
    track_stack := track_stack
    vex_guest := VexArch_INVALID
    block_cache := []
    block_taint_cache := []
    mem_reads_taint_dst_map := []
    temp_ite_cond_map := [] }

/-! ## Emulator memory interface -/

/-- Success condition of `uc_mem_read` / `uc_mem_write`: the range lies in the
64-bit address space and every byte of it is mapped. -/
def range_mapped (uc : uc_engine) (address size : Nat) : Bool :=
  decide (address + size ≤ 2 ^ 64) && (List.range size).all (fun k => uc.mapped (address + k))

/-- The bytes that `uc_mem_read` returns for a mapped range. -/
def read_bytes (mem : Nat → Nat) (address size : Nat) : List Nat :=
  (List.range size).map (fun k => mem (address + k))

/-- The call `uc_mem_read(uc, address, buf, size)`: the bytes read, or `none` for an
error code. -/
def uc_mem_read (uc : uc_engine) (address size : Nat) : Option (List Nat) :=
  if range_mapped uc address size then
    some (read_bytes uc.mem address size)
  else none

/-- Memory after storing the first `size` bytes of `value` at `address`. -/
def store_bytes (mem : Nat → Nat) (address : Nat) (value : List Nat) (size : Nat) : Nat → Nat :=
  fun x => if address ≤ x ∧ x < address + size then value.getD (x - address) 0 else mem x

/-- The call `uc_mem_write(uc, address, value, size)`: the emulator after the write,
or `none` for an error code. -/
def uc_mem_write (uc : uc_engine) (address : Nat) (value : List Nat) (size : Nat) :
    Option uc_engine :=
  if range_mapped uc address size then
    some { uc with mem := store_bytes uc.mem address value size }
  else none

/-! ## Taint bitmap store -/

/-- The masking `address & ~0xFFFULL`. -/
def page_base (address : Nat) : Nat := address &&& 0xFFFFFFFFFFFFF000

/-- The method `page_lookup`: the bitmap of the page that holds `address`, or `none`
(`NULL`) when that page is not active. -/
def page_lookup (active_pages : ActivePages) (address : Nat) : Option PageBitmap :=
  active_pages.lookup (page_base address)

/-- The assignment `bitmap[i] = v`. -/
def set_taint (bitmap : PageBitmap) (i : Nat) (v : taint_t) : PageBitmap :=
  fun j => if j = i then v else bitmap j

/-- The call `memset(&bitmap[off], v, n)`. -/
def memset_taint (bitmap : PageBitmap) (off : Nat) (v : taint_t) (n : Nat) : PageBitmap :=
  fun j => if off ≤ j ∧ j < off + n then v else bitmap j

/-- Writing through the bitmap pointer of the page that holds `address`: the table
with that page's bitmap replaced. -/
def bitmap_store (active_pages : ActivePages) (address : Nat) (bitmap : PageBitmap) :
    ActivePages :=
  active_pages.map (fun e => if e.1 = page_base address then (e.1, bitmap) else e)

/-! ## Block-level taint sets -/

/-- The method `mark_register_symbolic`. -/
def mark_register_symbolic (s : State) (reg_offset : Nat) (do_block_level : Bool) : State :=
  if do_block_level then
    { s with block_symbolic_registers := s.block_symbolic_registers.insert reg_offset }
  else
    { s with symbolic_registers := s.symbolic_registers.insert reg_offset }

/-- The method `mark_temp_symbolic`. -/
def mark_temp_symbolic (s : State) (temp_id : Nat) (do_block_level : Bool) : State :=
  if do_block_level then
    { s with block_symbolic_temps := s.block_symbolic_temps.insert temp_id }
  else
    { s with symbolic_temps := s.symbolic_temps.insert temp_id }

/-- The method `mark_register_concrete`. -/
def mark_register_concrete (s : State) (reg_offset : Nat) (do_block_level : Bool) : State :=
  if do_block_level then
    { s with block_concrete_registers := s.block_concrete_registers.insert reg_offset }
  else
    { s with symbolic_registers := s.symbolic_registers.filter (fun r => r ≠ reg_offset) }

/-! ## Commit -/

/-- The first loop of `commit`: every deferred record (`clean == -1`) has its bytes
set to `TAINT_DIRTY` in the bitmap returned by `page_lookup`. The bitmap pointer is
used unchecked, so a deferred record of an inactive page gives `none`. The new
`clean` value stored in the record is dropped, `commit` clears the log next. -/
def commit_lazy (active_pages : ActivePages) : List mem_access_t → Option ActivePages
  | [] => some active_pages
  | r :: rest =>
    if r.clean = int_minus_one then
      match page_lookup active_pages r.address with
      | none => none
      | some bitmap =>
        commit_lazy
          (bitmap_store active_pages r.address
            (memset_taint bitmap (r.address &&& 0xFFF) .TAINT_DIRTY r.size)) rest
    else commit_lazy active_pages rest

/-- The method `commit`. -/
def commit (s : State) : Option State :=
  match commit_lazy s.active_pages s.mem_writes with
  | none => none
  | some pages =>
    let s1 := { s with
      saved_regs := (s.uc.pc, s.uc.sp)
      active_pages := pages
      mem_writes := []
      cur_steps := (s.cur_steps + 1) % 2 ^ 64 }
    let s2 := s1.block_symbolic_registers.foldl (fun st r => mark_register_symbolic st r false) s1
    let s3 := s2.block_concrete_registers.foldl (fun st r => mark_register_concrete st r false) s2
    let s4 := s3.block_symbolic_temps.foldl (fun st t => mark_temp_symbolic st t false) s3
    some { s4 with
      block_symbolic_registers := []
      block_concrete_registers := []
      block_symbolic_temps := [] }

/-- The method `stop`: `STOP_SYSCALL` commits first. -/
def stop (s : State) (reason : stop_t) : Option State :=
  match reason with
  | .STOP_SYSCALL =>
    (commit { s with stopped := true }).map (fun s1 => { s1 with stop_reason := reason })
  | _ => some { s with stopped := true, stop_reason := reason }

/-! ## Write log -/

/-- The method `log_write`: the state and the returned flag. -/
def log_write (s : State) (address size clean : Nat) : Option (State × Bool) :=
  if clean = int_minus_one then
    some ({ s with mem_writes := s.mem_writes ++
      [{ address := address, value := List.replicate 8 0, size := size, clean := clean }] }, true)
  else
    match uc_mem_read s.uc address size with
    | none => (stop s .STOP_ERROR).map (fun s1 => (s1, false))
    | some value =>
      some ({ s with mem_writes := s.mem_writes ++
        [{ address := address, value := value, size := size, clean := clean }] }, true)

/-- The expression `1 << i` on a 32-bit `int`, as a bit pattern. For `i < 32` it is the
single bit `i`. For `i ≥ 32` C++ leaves the shift undefined; the shift count is taken
modulo 32, as the x86 shift instruction does. -/
def shl_one (i : Nat) : Nat := 2 ^ (i % 32)

/-- Body of the byte loop of `handle_write` for a write inside one page. -/
def mark_byte (is_dst_symbolic : Bool) (acc : PageBitmap × Nat) (i : Nat) : PageBitmap × Nat :=
  if is_dst_symbolic then (set_taint acc.1 i .TAINT_SYMBOLIC, acc.2)
  else if acc.1 i ≠ .TAINT_DIRTY then (set_taint acc.1 i .TAINT_DIRTY, acc.2 ||| shl_one i)
  else acc

/-- Body of the two byte loops of `handle_write` for a write that crosses a page
boundary. -/
def mark_byte_cross (is_dst_symbolic : Bool) (acc : PageBitmap × Nat) (i : Nat) :
    PageBitmap × Nat :=
  if is_dst_symbolic then (set_taint acc.1 i .TAINT_SYMBOLIC, acc.2)
  else if acc.1 i = .TAINT_DIRTY then (set_taint acc.1 i .TAINT_DIRTY, acc.2 ||| shl_one i)
  else acc

/-- The indices of `for (int i = lo; i <= hi; i++)`. -/
def loop_range (lo hi : Nat) : List Nat := List.range' lo (hi + 1 - lo)

/-- The method `get_instruction_pointer`. -/
def get_instruction_pointer (s : State) : Nat := s.uc.pc

/-- The method `handle_write`. The result is `none` when `mem_writes_taint_map.at`
throws `std::out_of_range`. -/
def handle_write (s : State) (address size : Nat) : Option State :=
  let bitmap := page_lookup s.active_pages address
  let start := address &&& 0xFFF
  let last := (address + size + (2 ^ 64 - 1)) % 2 ^ 64
  let end_ := last &&& 0xFFF
  match s.mem_writes_taint_map.lookup (get_instruction_pointer s) with
  | none => none
  | some is_dst_symbolic =>
    if end_ ≥ start then
      match bitmap with
      | some bm =>
        let r := (loop_range start end_).foldl (mark_byte is_dst_symbolic) (bm, 0)
        (log_write { s with active_pages := bitmap_store s.active_pages address r.1 }
          address size r.2).map Prod.fst
      | none => (log_write s address size int_minus_one).map Prod.fst
    else
      let first :=
        match bitmap with
        | some bm =>
          let r := (loop_range start 0xFFF).foldl (mark_byte_cross is_dst_symbolic) (bm, 0)
          log_write { s with active_pages := bitmap_store s.active_pages address r.1 }
            address (0x1000 - start) r.2
        | none => log_write s address (0x1000 - start) int_minus_one
      match first with
      | none => none
      | some (s1, false) => some s1
      | some (s1, true) =>
        match page_lookup s1.active_pages last with
        | some bm =>
          let r := (loop_range 0 end_).foldl (mark_byte_cross is_dst_symbolic) (bm, 0)
          (log_write { s1 with active_pages := bitmap_store s1.active_pages last r.1 }
            ((address - start + 0x1000) % 2 ^ 64) (end_ + 1) r.2).map Prod.fst
        | none =>
          (log_write s1 ((address - start + 0x1000) % 2 ^ 64) (end_ + 1) int_minus_one).map
            Prod.fst

/-! ## Rollback -/

/-- The inner loop of `rollback`: `bitmap[start + i] = TAINT_NONE` for every `i < size`
with `(clean >> i) & 1`. For `i < 32` bit 0 of the arithmetic shift of the `int` is bit `i`
of its bit pattern. -/
def untaint_bits (bitmap : PageBitmap) (start size clean : Nat) : PageBitmap :=
  (List.range size).foldl
    (fun bm i => if (clean >>> i) &&& 1 = 1 then set_taint bm (start + i) .TAINT_NONE else bm)
    bitmap

/-- The record loop of `rollback`, most recent record first. `break` on a failed
`uc_mem_write` ends the loop with the state reached; a null bitmap that is written
through gives `none`. -/
def rollback_loop (uc : uc_engine) (active_pages : ActivePages) :
    List mem_access_t → Option (uc_engine × ActivePages)
  | [] => some (uc, active_pages)
  | r :: rest =>
    if r.clean = int_minus_one then
      match page_lookup active_pages r.address with
      | some bitmap =>
        rollback_loop uc
          (bitmap_store active_pages r.address (memset_taint bitmap 0 .TAINT_NONE r.size)) rest
      | none => rollback_loop uc active_pages rest
    else
      match uc_mem_write uc r.address r.value r.size with
      | none => some (uc, active_pages)
      | some uc1 =>
        if r.clean ≠ 0 then
          match page_lookup active_pages r.address with
          | some bitmap =>
            rollback_loop uc1
              (bitmap_store active_pages r.address
                (untaint_bits bitmap (r.address &&& 0xFFF) r.size r.clean)) rest
          | none =>
            if (List.range r.size).any (fun i => (r.clean >>> i) &&& 1 = 1) then none
            else rollback_loop uc1 active_pages rest
        else rollback_loop uc1 active_pages rest

/-- The method `rollback`. `uc_context_restore` puts the saved registers back;
`bbl_addrs.pop_back()` drops the last entry (on an empty vector C++ leaves it
undefined, the list stays empty here). -/
def rollback (s : State) : Option State :=
  match rollback_loop s.uc s.active_pages s.mem_writes.reverse with
  | none => none
  | some (uc, pages) =>
    some { s with
      uc := { uc with pc := s.saved_regs.1, sp := s.saved_regs.2 }
      active_pages := pages
      mem_writes := []
      bbl_addrs := s.bbl_addrs.dropLast }

/-! ## Search for symbolic bytes -/

/-- The scan `for (i = lo; i <= hi; i++) if (bitmap[i] & TAINT_SYMBOLIC) return ...`:
the first index found. -/
def scan_symbolic (bitmap : PageBitmap) (lo hi : Nat) : Option Nat :=
  (loop_range lo hi).find? (fun i => decide ((bitmap i).toNat &&& 2 ≠ 0))

/-- The method `find_tainted`; the result `-1` is `2 ^ 64 - 1`. The parameter `size`
is the C `int`. -/
def find_tainted (s : State) (address : Nat) (size : Int) : Nat :=
  let bitmap := page_lookup s.active_pages address
  let start := address &&& 0xFFF
  let last := (((address : Int) + size - 1) % 2 ^ 64).toNat
  let end_ := last &&& 0xFFF
  if end_ ≥ start then
    match bitmap.bind (fun bm => scan_symbolic bm start end_) with
    | some i => (page_base address + i) % 2 ^ 64
    | none => 2 ^ 64 - 1
  else
    match bitmap.bind (fun bm => scan_symbolic bm start 0xFFF) with
    | some i => (page_base address + i) % 2 ^ 64
    | none =>
      match (page_lookup s.active_pages last).bind (fun bm => scan_symbolic bm 0 end_) with
      | some i => (page_base last + i) % 2 ^ 64
      | none => 2 ^ 64 - 1

/-! ## Symbolic registers and temporaries -/

/-- The method `is_symbolic_register`. -/
def is_symbolic_register (s : State) (reg_offset : Nat) : Bool :=
  if s.block_symbolic_registers.contains reg_offset then true
  else if s.block_concrete_registers.contains reg_offset then false
  else if s.symbolic_registers.contains reg_offset then true
  else false

/-- The method `is_symbolic_temp`. -/
def is_symbolic_temp (s : State) (temp_id : Nat) : Bool :=
  s.symbolic_temps.contains temp_id || s.block_symbolic_temps.contains temp_id

/-! ## Page activation -/

/-- The value `(1ULL << size) - 1` stored into the `int` field `clean`, as a bit pattern.
For `size ≥ 64` C++ leaves the shift undefined; the count is taken modulo 64. -/
def lazy_mask (size : Nat) : Nat :=
  ((2 ^ (size % 64)) % 2 ^ 64 + (2 ^ 64 - 1)) % 2 ^ 64 % 2 ^ 32

/-- Body of the record loop of `page_activate` for the page `page`: a deferred record of
that page has its bytes set to `TAINT_DIRTY` in the bitmap and its mask replaced. -/
def realize_record (page : Nat) (acc : PageBitmap × List mem_access_t) (a : mem_access_t) :
    PageBitmap × List mem_access_t :=
  if a.clean = int_minus_one ∧ page_base a.address = page then
    (memset_taint acc.1 (a.address &&& 0xFFF) .TAINT_DIRTY a.size,
      acc.2 ++ [{ a with clean := lazy_mask a.size }])
  else (acc.1, acc.2 ++ [a])

/-- The method `page_activate`. The taint image of the caller, when given, is the
function from its index to the tag stored there. -/
def page_activate (s : State) (address : Nat) (taint : Option (Nat → taint_t))
    (taint_offset : Nat) : State :=
  let page := page_base address
  let found := s.active_pages.lookup page
  let bitmap0 : PageBitmap :=
    match found with
    | some bitmap => bitmap
    | none =>
      match taint with
      | some image => fun i => image (taint_offset + i)
      | none => fun _ => .TAINT_NONE
  let pages0 : ActivePages :=
    match found with
    | some _ => s.active_pages
    | none => s.active_pages ++ [(page, bitmap0)]
  let r := s.mem_writes.foldl (realize_record page) (bitmap0, [])
  { s with
    active_pages := pages0.map (fun e => if e.1 = page then (e.1, r.1) else e)
    mem_writes := r.2 }

/-! ## Block entry -/

/-- The constant `MAX_BB_SIZE`. -/
def MAX_BB_SIZE : Nat := 800

/-- The call `stop_points.lower_bound(a)` on the `std::set`: the least element that is
not below `a`, or `none` for `end()`. -/
def lower_bound (stop_points : List Nat) (a : Nat) : Option Nat :=
  stop_points.foldl
    (fun acc x =>
      if a ≤ x then
        match acc with
        | none => some x
        | some m => some (min m x)
      else acc)
    none

/-- The method `get_stack_pointer`. -/
def get_stack_pointer (s : State) : Nat := s.uc.sp

/-- The method `step`; `size` is the non-negative `int32_t` block size. -/
def step (s : State) (current_address size : Nat) (check_stop_points : Bool) : Option State :=
  let s1 := if s.track_bbls then { s with bbl_addrs := s.bbl_addrs ++ [current_address] } else s
  let s2 :=
    if s1.track_stack then
      { s1 with stack_pointers := s1.stack_pointers ++ [get_stack_pointer s1] }
    else s1
  let s3 := { s2 with
    executed_pages := s2.executed_pages.insert (page_base current_address)
    cur_address := current_address
    cur_size := size }
  if s3.cur_steps ≥ s3.max_steps then stop s3 .STOP_NORMAL
  else if check_stop_points then
    let real_size := if size = 0 then MAX_BB_SIZE else size
    match lower_bound s3.stop_points current_address with
    | some stop_point =>
      if stop_point < (current_address + real_size) % 2 ^ 64 then stop s3 .STOP_STOPPOINT
      else some s3
    | none => some s3
  else some s3

/-! ## Feasibility analysis -/

/-- The method `mark_register_clobbered`. -/
def mark_register_clobbered (clobbered : List Nat) (offset size : Nat) : List Nat :=
  (List.range size).foldl (fun c i => c.insert (offset + i)) clobbered

/-- The method `check_register_read`: the set `danger` afterwards. -/
def check_register_read (clobbered danger : List Nat) (offset size : Nat) : List Nat :=
  (List.range size).foldl
    (fun d i => if clobbered.contains (offset + i) then d else d.insert (offset + i)) danger

/-- Sequencing of two checks: the second runs on the set left by the first, when the
first returned true. -/
def and_check (r : Bool × List Nat) (f : List Nat → Bool × List Nat) : Bool × List Nat :=
  if r.1 then f r.2 else (false, r.2)

/-- The method `check_expr` on a non-null expression: the returned flag and the set
`danger` afterwards. -/
def check_expr (clobbered : List Nat) : List Nat → IRExpr → Bool × List Nat
  | danger, .Iex_Binder _ => (true, danger)
  | danger, .Iex_VECRET => (true, danger)
  | danger, .Iex_GSPTR => (true, danger)
  | danger, .Iex_GetI _ _ => (false, danger)
  | danger, .Iex_RdTmp _ => (true, danger)
  | danger, .Iex_Get offset ty =>
    if ty = .Ity_I1 then (false, danger)
    else (true, check_register_read clobbered danger offset (sizeofIRType ty))
  | danger, .Iex_Qop _ arg1 arg2 arg3 arg4 =>
    and_check (check_expr clobbered danger arg1) fun d1 =>
    and_check (check_expr clobbered d1 arg2) fun d2 =>
    and_check (check_expr clobbered d2 arg3) fun d3 =>
    check_expr clobbered d3 arg4
  | danger, .Iex_Triop _ arg1 arg2 arg3 =>
    and_check (check_expr clobbered danger arg1) fun d1 =>
    and_check (check_expr clobbered d1 arg2) fun d2 =>
    check_expr clobbered d2 arg3
  | danger, .Iex_Binop _ arg1 arg2 =>
    and_check (check_expr clobbered danger arg1) fun d1 =>
    check_expr clobbered d1 arg2
  | danger, .Iex_Unop _ arg => check_expr clobbered danger arg
  | danger, .Iex_Load _ addr => check_expr clobbered danger addr
  | danger, .Iex_Const _ _ => (true, danger)
  | danger, .Iex_ITE cond iftrue iffalse =>
    and_check (check_expr clobbered danger cond) fun d1 =>
    and_check (check_expr clobbered d1 iffalse) fun d2 =>
    check_expr clobbered d2 iftrue
  | danger, .Iex_CCall _ args => check_args danger args
where
  /-- The loop of `check_expr` over a `NULL`-terminated argument vector. -/
  check_args : List Nat → List IRExpr → Bool × List Nat
    | danger, [] => (true, danger)
    | danger, e :: es => and_check (check_expr clobbered danger e) fun d1 => check_args d1 es

/-- The method `check_expr` on a field that may be `NULL`. -/
def check_expr_opt (clobbered danger : List Nat) : Option IRExpr → Bool × List Nat
  | none => (true, danger)
  | some e => check_expr clobbered danger e

/-- The method `check_stmt`: the returned flag and the sets `clobbered` and `danger`
afterwards. -/
def check_stmt (tyenv : List IRType) (clobbered danger : List Nat) :
    IRStmt → Bool × List Nat × List Nat
  | .Ist_Put offset data =>
    let r := check_expr clobbered danger data
    if !r.1 then (false, clobbered, r.2)
    else
      let expr_type := typeOfIRExpr tyenv data
      if expr_type = .Ity_I1 then (false, clobbered, r.2)
      else (true, mark_register_clobbered clobbered offset (sizeofIRType expr_type), r.2)
  | .Ist_PutI _ _ => (false, clobbered, danger)
  | .Ist_WrTmp _ data =>
    let r := check_expr clobbered danger data
    (r.1, clobbered, r.2)
  | .Ist_Store addr data =>
    let r := and_check (check_expr clobbered danger addr) fun d1 => check_expr clobbered d1 data
    (r.1, clobbered, r.2)
  | .Ist_CAS addr expdHi expdLo dataHi dataLo =>
    let r :=
      and_check (check_expr clobbered danger addr) fun d1 =>
      and_check (check_expr clobbered d1 dataLo) fun d2 =>
      and_check (check_expr_opt clobbered d2 dataHi) fun d3 =>
      and_check (check_expr clobbered d3 expdLo) fun d4 =>
      check_expr_opt clobbered d4 expdHi
    (r.1, clobbered, r.2)
  | .Ist_LLSC addr storedata =>
    let r :=
      and_check (check_expr clobbered danger addr) fun d1 =>
      check_expr_opt clobbered d1 storedata
    (r.1, clobbered, r.2)
  | .Ist_Dirty guard mAddr args =>
    let r :=
      and_check (check_expr clobbered danger guard) fun d1 =>
      and_check (check_expr_opt clobbered d1 mAddr) fun d2 =>
      check_expr.check_args clobbered d2 args
    (r.1, clobbered, r.2)
  | .Ist_Exit guard _ =>
    let r := check_expr clobbered danger guard
    (r.1, clobbered, r.2)
  | .Ist_LoadG addr alt guard =>
    let r :=
      and_check (check_expr clobbered danger addr) fun d1 =>
      and_check (check_expr clobbered d1 alt) fun d2 =>
      check_expr clobbered d2 guard
    (r.1, clobbered, r.2)
  | .Ist_StoreG addr data guard =>
    let r :=
      and_check (check_expr clobbered danger addr) fun d1 =>
      and_check (check_expr clobbered d1 data) fun d2 =>
      check_expr clobbered d2 guard
    (r.1, clobbered, r.2)
  | .Ist_NoOp => (true, clobbered, danger)
  | .Ist_IMark _ _ => (true, clobbered, danger)
  | .Ist_AbiHint _ _ _ => (true, clobbered, danger)
  | .Ist_MBE => (true, clobbered, danger)

/-- The statement loop of `check_block`: it ends at the first statement for which
`check_stmt` returns false. -/
def check_stmts (tyenv : List IRType) :
    List Nat → List Nat → List IRStmt → Bool × List Nat × List Nat
  | clobbered, danger, [] => (true, clobbered, danger)
  | clobbered, danger, st :: rest =>
    let r := check_stmt tyenv clobbered danger st
    if r.1 then check_stmts tyenv r.2.1 r.2.2 rest else r

/-- The analysis that `check_block` runs on a lifted block: the statements, then the
`next` expression. The result is the flag `try_unicorn` and the sets `clobbered` and
`used`. -/
def analyse_block (the_block : IRSB) : Bool × List Nat × List Nat :=
  let r := check_stmts the_block.tyenv [] [] the_block.stmts
  if r.1 then
    let rn := check_expr r.2.1 r.2.2 the_block.next
    (rn.1, r.2.1, rn.2)
  else r

/-- The end of `check_block`, with the sets of the block at hand: the first symbolic
register found in `used_registers` is reported, otherwise the clobbered registers stop
being symbolic. -/
def check_block_sets (s : State) (clobbered_registers used_registers : List Nat) :
    Bool × State :=
  match s.symbolic_registers.find? (fun off => used_registers.contains off) with
  | some off => (false, { s with stopping_register := off })
  | none =>
    (true, { s with symbolic_registers :=
      (clobbered_registers.foldl (fun regs off => regs.filter (fun r => r ≠ off))
        s.symbolic_registers) })

/-- The method `check_block`: the returned flag and the state afterwards. -/
def check_block (vex : VexLift) (s : State) (address size : Nat) : Bool × State :=
  if s.vex_guest = VexArch_INVALID then (true, s)
  else if s.symbolic_registers.length = 0 then (true, s)
  else
    match s.block_cache.lookup address with
    | some entry =>
      if !entry.try_unicorn then (false, s)
      else check_block_sets s entry.clobbered_registers entry.used_registers
    | none =>
      match vex false s.uc address size with
      | none =>
        (false, { s with block_cache := s.block_cache ++
          [(address, (⟨true, [], []⟩ : block_entry_t))] })
      | some the_block =>
        let r := analyse_block the_block
        let s1 := { s with block_cache := s.block_cache ++
          [(address, (⟨r.1, r.2.2, r.2.1⟩ : block_entry_t))] }
        if !r.1 then (false, s1)
        else check_block_sets s1 r.2.1 r.2.2

/-! ## Taint flow analysis

`uninit` stands for the value found in an `address_t` that is read before it is written:
the field `instr_addr` of the entities built by `get_taint_sources`, and the variable
`curr_instr_addr` of `compute_taint_sink_source_relation_of_block` before the first
`IMark` (the variable is declared in the loop body and keeps its storage from one
statement to the next). An `assert(false)` that is reached is the result `none`. -/

/-- The method `get_taint_sources`: the set of sources and `temp_ite_cond_map`
afterwards. -/
def get_taint_sources (uninit instr_addr : Nat) :
    List (Nat × TaintEntitySet) → IRExpr → Option (TaintEntitySet × List (Nat × TaintEntitySet))
  | ite, .Iex_RdTmp tmp => some ([.TAINT_ENTITY_TMP tmp uninit], ite)
  | ite, .Iex_Get offset _ => some ([.TAINT_ENTITY_REG offset uninit], ite)
  | ite, .Iex_Unop _ arg =>
    match get_taint_sources uninit instr_addr ite arg with
    | none => none
    | some (t1, ite1) => some (entity_insert_all [] t1, ite1)
  | ite, .Iex_Binop _ arg1 arg2 =>
    match get_taint_sources uninit instr_addr ite arg1 with
    | none => none
    | some (t1, ite1) =>
      match get_taint_sources uninit instr_addr ite1 arg2 with
      | none => none
      | some (t2, ite2) => some (entity_insert_all (entity_insert_all [] t1) t2, ite2)
  | ite, .Iex_Triop _ arg1 arg2 arg3 =>
    match get_taint_sources uninit instr_addr ite arg1 with
    | none => none
    | some (t1, ite1) =>
      match get_taint_sources uninit instr_addr ite1 arg2 with
      | none => none
      | some (t2, ite2) =>
        match get_taint_sources uninit instr_addr ite2 arg3 with
        | none => none
        | some (t3, ite3) =>
          some (entity_insert_all (entity_insert_all (entity_insert_all [] t1) t2) t3, ite3)
  | ite, .Iex_Qop _ arg1 arg2 arg3 arg4 =>
    match get_taint_sources uninit instr_addr ite arg1 with
    | none => none
    | some (t1, ite1) =>
      match get_taint_sources uninit instr_addr ite1 arg2 with
      | none => none
      | some (t2, ite2) =>
        match get_taint_sources uninit instr_addr ite2 arg3 with
        | none => none
        | some (t3, ite3) =>
          match get_taint_sources uninit instr_addr ite3 arg4 with
          | none => none
          | some (t4, ite4) =>
            some (entity_insert_all (entity_insert_all (entity_insert_all
              (entity_insert_all [] t1) t2) t3) t4, ite4)
  | ite, .Iex_ITE cond iftrue iffalse =>
    match get_taint_sources uninit instr_addr ite cond with
    | none => none
    | some (t1, ite1) =>
      let ite1a :=
        match ite1.lookup instr_addr with
        | none => ite1 ++ [(instr_addr, t1)]
        | some old => map_assign ite1 instr_addr (entity_insert_all old t1)
      match get_taint_sources uninit instr_addr ite1a iffalse with
      | none => none
      | some (t2, ite2) =>
        match get_taint_sources uninit instr_addr ite2 iftrue with
        | none => none
        | some (t3, ite3) =>
          some (entity_insert_all (entity_insert_all (entity_insert_all [] t1) t2) t3, ite3)
  | ite, .Iex_CCall _ args => sources_of_args ite [] args
  | ite, .Iex_Load _ addr =>
    match get_taint_sources uninit instr_addr ite addr with
    | none => none
    | some (t1, ite1) => some ([.TAINT_ENTITY_MEM t1 uninit], ite1)
  | _, .Iex_GetI _ _ => none
  | ite, .Iex_Const _ _ => some ([], ite)
  | ite, .Iex_VECRET => some ([], ite)
  | ite, .Iex_GSPTR => some ([], ite)
  | ite, .Iex_Binder _ => some ([], ite)
where
  /-- The loop of `get_taint_sources` over the arguments of a helper call. -/
  sources_of_args : List (Nat × TaintEntitySet) → TaintEntitySet → List IRExpr →
      Option (TaintEntitySet × List (Nat × TaintEntitySet))
    | ite, sources, [] => some (sources, ite)
    | ite, sources, e :: es =>
      match get_taint_sources uninit instr_addr ite e with
      | none => none
      | some (t1, ite1) => sources_of_args ite1 (entity_insert_all sources t1) es

/-- The loop state of `compute_taint_sink_source_relation_of_block`: the summary under
construction, `temp_ite_cond_map` and `curr_instr_addr`. -/
structure taint_loop_t where
  entry : block_taint_entry_t
  temp_ite_cond_map : List (Nat × TaintEntitySet)
  curr_instr_addr : Nat

/-- One statement of the loop of `compute_taint_sink_source_relation_of_block`. -/
def taint_stmt (uninit : Nat) (st : taint_loop_t) : IRStmt → Option taint_loop_t
  | .Ist_Put offset data =>
    match get_taint_sources uninit st.curr_instr_addr st.temp_ite_cond_map data with
    | none => none
    | some (srcs, ite1) =>
      let sink := taint_entity_t.TAINT_ENTITY_REG offset st.curr_instr_addr
      some { st with
        temp_ite_cond_map := ite1
        entry := if srcs.length > 0 then
            { st.entry with taint_sink_src_data := st.entry.taint_sink_src_data ++ [(sink, srcs)] }
          else st.entry }
  | .Ist_WrTmp tmp data =>
    match get_taint_sources uninit st.curr_instr_addr st.temp_ite_cond_map data with
    | none => none
    | some (srcs, ite1) =>
      let sink := taint_entity_t.TAINT_ENTITY_TMP tmp st.curr_instr_addr
      some { st with
        temp_ite_cond_map := ite1
        entry := if srcs.length > 0 then
            { st.entry with taint_sink_src_data := st.entry.taint_sink_src_data ++ [(sink, srcs)] }
          else st.entry }
  | .Ist_Store addr data =>
    match get_taint_sources uninit st.curr_instr_addr st.temp_ite_cond_map addr with
    | none => none
    | some (temp, ite1) =>
      match get_taint_sources uninit st.curr_instr_addr ite1 data with
      | none => none
      | some (srcs, ite2) =>
        let sink := taint_entity_t.TAINT_ENTITY_MEM temp st.curr_instr_addr
        some { st with
          temp_ite_cond_map := ite2
          entry := if srcs.length > 0 then
              { st.entry with
                taint_sink_src_data := st.entry.taint_sink_src_data ++ [(sink, srcs)] }
            else st.entry }
  | .Ist_Exit guard _ =>
    match get_taint_sources uninit st.curr_instr_addr st.temp_ite_cond_map guard with
    | none => none
    | some (deps, ite1) =>
      some { st with
        temp_ite_cond_map := ite1
        entry := { st.entry with exit_stmt_guard_expr_deps := deps } }
  | .Ist_IMark addr _ => some { st with curr_instr_addr := addr }
  | .Ist_PutI _ _ => none
  | .Ist_StoreG _ _ _ => none
  | .Ist_LoadG _ _ _ => none
  | .Ist_CAS _ _ _ _ _ => none
  | .Ist_LLSC _ _ => none
  | .Ist_Dirty _ _ _ => none
  | .Ist_MBE => some st
  | .Ist_NoOp => some st
  | .Ist_AbiHint _ _ _ => some st

/-- The statement loop of `compute_taint_sink_source_relation_of_block`. -/
def taint_stmts (uninit : Nat) : taint_loop_t → List IRStmt → Option taint_loop_t
  | st, [] => some st
  | st, stmt :: rest =>
    match taint_stmt uninit st stmt with
    | none => none
    | some st1 => taint_stmts uninit st1 rest

/-- The method `compute_taint_sink_source_relation_of_block`, started with the given
`temp_ite_cond_map` (which it leaves empty). -/
def compute_taint_sink_source_relation_of_block (uninit : Nat)
    (temp_ite_cond_map : List (Nat × TaintEntitySet)) (vex_block : IRSB) :
    Option block_taint_entry_t :=
  match taint_stmts uninit
      { entry := { taint_sink_src_data := [], exit_stmt_guard_expr_deps := [],
                   ite_cond_map := [] }
        temp_ite_cond_map := temp_ite_cond_map
        curr_instr_addr := uninit } vex_block.stmts with
  | none => none
  | some st => some { st.entry with ite_cond_map := st.temp_ite_cond_map }

/-! ## Taint propagation -/

/-- The start value of the result of `get_final_taint_status`. -/
def taint_status_start : taint_status_result_t :=
  { is_symbolic := false, depends_on_read_from_symbolic_addr := false,
    depends_on_read_from_concrete_addr := false, concrete_mem_read_instr_addr := 0 }

/-- The scan of `mem_reads_taint_dst_map` in `get_final_taint_status` for a register or
temporary that is not symbolic. -/
def scan_mem_reads (s : State) (taint_source : taint_entity_t) (r : taint_status_result_t) :
    taint_status_result_t :=
  s.mem_reads_taint_dst_map.foldl
    (fun acc mem_read_entry =>
      if mem_read_entry.2.1.any (fun e => taint_entity_t.beq taint_source e) then
        { acc with
          depends_on_read_from_concrete_addr := true
          concrete_mem_read_instr_addr := taint_source.instr_addr }
      else acc)
    r

mutual
/-- The recursive call of `get_final_taint_status` on the address entities of a memory
reference. -/
def mem_ref_status (s : State) : taint_entity_t → taint_status_result_t
  | .TAINT_ENTITY_MEM l _ => taint_status_loop s [] l taint_status_start
  | _ => taint_status_start
/-- The loop of `get_final_taint_status` over the sources. `seen` holds the entities
already visited: the overload for a vector first builds a set, so an entity equal to an
earlier one is visited once. -/
def taint_status_loop (s : State) :
    List taint_entity_t → List taint_entity_t → taint_status_result_t → taint_status_result_t
  | _, [], r => r
  | seen, e :: rest, r =>
    match e with
    | .TAINT_ENTITY_NONE ia =>
      taint_status_loop s (entity_emplace seen (.TAINT_ENTITY_NONE ia)) rest r
    | .TAINT_ENTITY_REG reg_offset ia =>
      if entity_count seen (.TAINT_ENTITY_REG reg_offset ia) then taint_status_loop s seen rest r
      else if is_symbolic_register s reg_offset then
        taint_status_loop s (seen ++ [.TAINT_ENTITY_REG reg_offset ia]) rest
          { r with is_symbolic := true }
      else
        taint_status_loop s (seen ++ [.TAINT_ENTITY_REG reg_offset ia]) rest
          (scan_mem_reads s (.TAINT_ENTITY_REG reg_offset ia) r)
    | .TAINT_ENTITY_TMP tmp_id ia =>
      if entity_count seen (.TAINT_ENTITY_TMP tmp_id ia) then taint_status_loop s seen rest r
      else if is_symbolic_temp s tmp_id then
        taint_status_loop s (seen ++ [.TAINT_ENTITY_TMP tmp_id ia]) rest
          { r with is_symbolic := true }
      else
        taint_status_loop s (seen ++ [.TAINT_ENTITY_TMP tmp_id ia]) rest
          (scan_mem_reads s (.TAINT_ENTITY_TMP tmp_id ia) r)
    | .TAINT_ENTITY_MEM l ia =>
      if entity_count seen (.TAINT_ENTITY_MEM l ia) then taint_status_loop s seen rest r
      else
        let mem_address_status := mem_ref_status s e
        if mem_address_status.is_symbolic || mem_address_status.depends_on_read_from_symbolic_addr
        then { r with depends_on_read_from_symbolic_addr := true }
        else if mem_address_status.depends_on_read_from_concrete_addr
        then { r with depends_on_read_from_symbolic_addr := true }
        else
          taint_status_loop s (seen ++ [.TAINT_ENTITY_MEM l ia]) rest
            { r with
              depends_on_read_from_concrete_addr := true
              concrete_mem_read_instr_addr := ia }
end

/-- The method `get_final_taint_status` (both overloads). -/
def get_final_taint_status (s : State) (taint_sources : List taint_entity_t) :
    taint_status_result_t :=
  taint_status_loop s [] taint_sources taint_status_start

/-- Appending a sink to `mem_reads_taint_dst_map[addr]`, as `propagate_taints` does. -/
def append_mem_read_dst (m : List (Nat × (List taint_entity_t × Bool))) (addr : Nat)
    (taint_sink : taint_entity_t) : List (Nat × (List taint_entity_t × Bool)) :=
  match m.lookup addr with
  | none => m ++ [(addr, ([taint_sink], false))]
  | some dsts => map_assign m addr (dsts.1 ++ [taint_sink], dsts.2)

/-- The loop of `propagate_taints` over the pairs of the block summary. -/
def propagate_pairs (ite_cond_map : List (Nat × TaintEntitySet)) :
    State → List (taint_entity_t × TaintEntitySet) → Option State
  | s, [] => some s
  | s, (taint_sink, taint_srcs) :: rest =>
    let ite_stop :=
      match ite_cond_map.lookup taint_sink.instr_addr with
      | some conds =>
        let c := get_final_taint_status s conds
        c.depends_on_read_from_concrete_addr || c.depends_on_read_from_symbolic_addr ||
          c.is_symbolic
      | none => false
    if ite_stop then stop s .STOP_SYMBOLIC_CONDITION
    else
      match taint_sink with
      | .TAINT_ENTITY_NONE _ => propagate_pairs ite_cond_map s rest
      | .TAINT_ENTITY_MEM l ia =>
        let a := get_final_taint_status s l
        if a.depends_on_read_from_concrete_addr || a.depends_on_read_from_symbolic_addr ||
            a.is_symbolic then stop s .STOP_SYMBOLIC_WRITE_ADDR
        else
          let t := get_final_taint_status s taint_srcs
          if t.depends_on_read_from_symbolic_addr then stop s .STOP_SYMBOLIC_READ_ADDR
          else if t.is_symbolic then
            if (s.mem_writes_taint_map.lookup ia).isSome then none
            else
              propagate_pairs ite_cond_map
                { s with mem_writes_taint_map := map_emplace s.mem_writes_taint_map ia true } rest
          else if t.depends_on_read_from_concrete_addr then
            if (s.mem_writes_taint_map.lookup ia).isSome then none
            else
              propagate_pairs ite_cond_map
                { s with
                  mem_reads_taint_dst_map :=
                    (append_mem_read_dst s.mem_reads_taint_dst_map
                      t.concrete_mem_read_instr_addr (.TAINT_ENTITY_MEM l ia))
                  mem_writes_taint_map := map_emplace s.mem_writes_taint_map ia false } rest
          else
            propagate_pairs ite_cond_map
              { s with mem_writes_taint_map := map_emplace s.mem_writes_taint_map ia false } rest
      | .TAINT_ENTITY_REG reg_offset ia =>
        let t := get_final_taint_status s taint_srcs
        if t.depends_on_read_from_symbolic_addr then stop s .STOP_SYMBOLIC_READ_ADDR
        else if t.is_symbolic then
          propagate_pairs ite_cond_map (mark_register_symbolic s reg_offset true) rest
        else if t.depends_on_read_from_concrete_addr then
          propagate_pairs ite_cond_map
            (mark_register_concrete
              { s with mem_reads_taint_dst_map :=
                  (append_mem_read_dst s.mem_reads_taint_dst_map
                    t.concrete_mem_read_instr_addr (.TAINT_ENTITY_REG reg_offset ia)) }
              reg_offset true) rest
        else propagate_pairs ite_cond_map (mark_register_concrete s reg_offset true) rest
      | .TAINT_ENTITY_TMP tmp_id ia =>
        let t := get_final_taint_status s taint_srcs
        if t.depends_on_read_from_symbolic_addr then stop s .STOP_SYMBOLIC_READ_ADDR
        else if t.is_symbolic then
          propagate_pairs ite_cond_map (mark_temp_symbolic s tmp_id true) rest
        else if t.depends_on_read_from_concrete_addr then
          propagate_pairs ite_cond_map
            { s with mem_reads_taint_dst_map :=
                (append_mem_read_dst s.mem_reads_taint_dst_map
                  t.concrete_mem_read_instr_addr (.TAINT_ENTITY_TMP tmp_id ia)) } rest
        else propagate_pairs ite_cond_map s rest

/-- The method `propagate_taints`. -/
def propagate_taints (vex : VexLift) (uninit : Nat) (s : State) (address size : Nat) :
    Option State :=
  match s.block_taint_cache.lookup address with
  | none =>
    match vex true s.uc address size with
    | none => stop s .STOP_VEX_LIFT_FAILED
    | some irsb =>
      match compute_taint_sink_source_relation_of_block uninit s.temp_ite_cond_map irsb with
      | none => none
      | some block_taint_entry =>
        propagate_pairs block_taint_entry.ite_cond_map
          { s with
            temp_ite_cond_map := []
            block_taint_cache := map_emplace s.block_taint_cache address block_taint_entry
            mem_reads_taint_dst_map := [] }
          block_taint_entry.taint_sink_src_data
  | some block_taint_entry =>
    propagate_pairs block_taint_entry.ite_cond_map { s with mem_reads_taint_dst_map := [] }
      block_taint_entry.taint_sink_src_data

/-- The method `is_symbolic_exit_guard_previous_block`; `none` when
`block_taint_cache.at(prev_block_addr)` throws. -/
def is_symbolic_exit_guard_previous_block (s : State) : Option Bool :=
  match s.block_taint_cache.lookup s.prev_block_addr with
  | none => none
  | some prev_block_taint_entry =>
    some (get_final_taint_status s prev_block_taint_entry.exit_stmt_guard_expr_deps).is_symbolic

/-- The method `set_previous_block_address`. -/
def set_previous_block_address (s : State) (address : Nat) : State :=
  { s with prev_block_addr := address }

/-- The callback `hook_block`. It is not a member of `State`, and in it the statement
`stop(STOP_SYMBOLIC_CONDITION);` names the enumeration type `stop`: it converts the
enumerator and discards the value, no function is called, and the callback returns. -/
def hook_block (vex : VexLift) (uninit : Nat) (s : State) (address size : Nat) :
    Option State :=
  if s.ignore_next_block then
    some { s with ignore_next_block := false, ignore_next_selfmod := true }
  else
    match commit s with
    | none => none
    | some s1 =>
      match is_symbolic_exit_guard_previous_block s1 with
      | none => none
      | some true => some s1
      | some false =>
        match step s1 address size true with
        | none => none
        | some s2 =>
          match (if !s2.stopped then propagate_taints vex uninit s2 address size else some s2) with
          | none => none
          | some s3 => some (set_previous_block_address s3 address)

/-! ## Memory hooks -/

/-- The loop of `propagate_mem_read_taints` over the entities that depend on the read. The
result is `none` when `mem_writes_taint_map.at` throws `std::out_of_range`. -/
def mark_pending_sinks : State → List taint_entity_t → Option State
  | s, [] => some s
  | s, .TAINT_ENTITY_REG reg_offset _ :: rest =>
    mark_pending_sinks (mark_register_symbolic s reg_offset false) rest
  | s, .TAINT_ENTITY_TMP tmp_id _ :: rest =>
    mark_pending_sinks (mark_temp_symbolic s tmp_id false) rest
  | s, .TAINT_ENTITY_MEM _ instr_addr :: rest =>
    if (s.mem_writes_taint_map.lookup instr_addr).isSome then
      mark_pending_sinks
        { s with mem_writes_taint_map := map_assign s.mem_writes_taint_map instr_addr true } rest
    else none
  | s, .TAINT_ENTITY_NONE _ :: rest => mark_pending_sinks s rest

/-- The method `propagate_mem_read_taints`. The result is `none` when
`mem_reads_taint_dst_map.at(pc_addr)` throws `std::out_of_range`. -/
def propagate_mem_read_taints (s : State) : Option State :=
  let pc_addr := get_instruction_pointer s
  match s.mem_reads_taint_dst_map.lookup pc_addr with
  | none => none
  | some entry =>
    if entry.2 then some s
    else
      match mark_pending_sinks s entry.1 with
      | none => none
      | some s1 =>
        some { s1 with mem_reads_taint_dst_map :=
          (map_assign s1.mem_reads_taint_dst_map pc_addr (entry.1, true)) }

/-- The callback `hook_mem_read`; `size` is the C `int`. -/
def hook_mem_read (s : State) (address : Nat) (size : Int) : Option State :=
  if find_tainted s address size ≠ 2 ^ 64 - 1 then propagate_mem_read_taints s else some s

/-- The callback `hook_mem_write`; `size` is the non-negative C `int`. -/
def hook_mem_write (s : State) (address size : Nat) : Option State :=
  let s1 :=
    if s.ignore_next_selfmod then { s with ignore_next_selfmod := false }
    else if (address ≥ s.cur_address ∧ address < (s.cur_address + s.cur_size) % 2 ^ 64) ∨
        (s.cur_address ≥ address ∧ s.cur_address < (address + size) % 2 ^ 64) then
      { s with ignore_next_block := true }
    else s
  handle_write s1 address size

/-! ## Session start -/

/-- The result codes of `uc_emu_start` that `start` tells apart; `UC_ERR_OTHER` stands for
every other error code. -/
inductive uc_err where
  | UC_ERR_OK
  | UC_ERR_MAP
  | UC_ERR_INSN_INVALID
  | UC_ERR_OTHER
  deriving DecidableEq, Repr

/-- The call `uc_emu_start(uc, pc, 0, 0, 0)` as `start` sees it: from the state and the
start address to the state in which the hooks of the run leave it and the returned code,
or `none` when a hook does not return. -/
abbrev EmuRun := State → Nat → Option (State × uc_err)

/-- The first statements of `start`: the run is marked as not stopped and not started,
the step budget is set, `cur_steps` is `-1` and `executed_pages` is cleared. -/
def start_begin (s : State) (step : Nat) : State :=
  { s with
    stopped := false
    stop_reason := .STOP_NOSTART
    max_steps := step
    cur_steps := 2 ^ 64 - 1
    executed_pages := [] }

/-- The method `start`: the state afterwards and the returned code. -/
def start (emu : EmuRun) (s : State) (pc step : Nat) : Option (State × uc_err) :=
  let s1 := start_begin s step
  if pc = 0 then some ({ s1 with stop_reason := .STOP_ZEROPAGE, cur_steps := 0 }, .UC_ERR_MAP)
  else
    match emu s1 pc with
    | none => none
    | some (s2, out) =>
      let committed :=
        if out = .UC_ERR_OK ∧ s2.stop_reason = .STOP_NOSTART ∧ get_instruction_pointer s2 = 0
        then (commit s2).map (fun c => { c with stop_reason := .STOP_ZEROPAGE })
        else some s2
      match committed with
      | none => none
      | some s3 =>
        match rollback s3 with
        | none => none
        | some s4 =>
          let s5 :=
            if out = .UC_ERR_INSN_INVALID then { s4 with stop_reason := .STOP_NODECODE } else s4
          some (if s5.cur_steps = 2 ^ 64 - 1 then { s5 with cur_steps := 0 } else s5, out)

/-- The block hooks of a run, delivered in order for the blocks `(address, size)`. -/
def run_block_hooks (vex : VexLift) (uninit : Nat) : State → List (Nat × Nat) → Option State
  | s, [] => some s
  | s, b :: rest =>
    match hook_block vex uninit s b.1 b.2 with
    | none => none
    | some s1 => run_block_hooks vex uninit s1 rest

/-- An emulator run that delivers the block hooks of `blocks`, performs no memory access
and returns `UC_ERR_OK`. -/
def emu_blocks (vex : VexLift) (uninit : Nat) (blocks : List (Nat × Nat)) : EmuRun :=
  fun s _ => (run_block_hooks vex uninit s blocks).map (fun s1 => (s1, .UC_ERR_OK))

/-! ## Dirty ranges -/

/-- One element of the list that `sync` returns (`mem_update_t`, without the link). -/
structure mem_update_t where
  address : Nat
  length : Nat
  deriving DecidableEq, Repr

/-- The loop `while (j < end && (*j) == TAINT_DIRTY) j++` of `sync`, on offsets: the
offset at which it ends when started at `j`. The first argument bounds the number of
iterations. -/
def dirty_run_end (bitmap : PageBitmap) : Nat → Nat → Nat
  | 0, j => j
  | fuel + 1, j =>
    if j < 0x1000 ∧ bitmap j = .TAINT_DIRTY then dirty_run_end bitmap fuel (j + 1) else j

/-- The loop `for (taint_t *i = start; i < end; i++)` of `sync` over the bitmap of the page
at `first`, on offsets, from offset `i` on: every range found is put in front of `head`.
The first argument bounds the number of iterations. -/
def sync_page (first : Nat) (bitmap : PageBitmap) : Nat → Nat → List mem_update_t →
    List mem_update_t
  | 0, _, head => head
  | fuel + 1, i, head =>
    if i < 0x1000 then
      if bitmap i = .TAINT_DIRTY then
        let j := dirty_run_end bitmap 0x1000 i
        sync_page first bitmap fuel (j + 1)
          ({ address := (first + i) % 2 ^ 64, length := j - i } :: head)
      else sync_page first bitmap fuel (i + 1) head
    else head

/-- The method `sync`: the linked list of dirty ranges, head first. The bytes that the
method reads from the emulator into a local buffer are not used. -/
def sync (s : State) : List mem_update_t :=
  s.active_pages.foldl (fun head page => sync_page page.1 page.2 0x1000 0 head) []

/-! ## Page cache -/

/-- A cached page (`CachedPage`): the size, the copy of the bytes and the permissions. -/
structure CachedPage where
  size : Nat
  bytes : List Nat
  perms : Nat
  deriving DecidableEq, Repr

/-- The table `page_cache`: page address to cached page. `State` holds it by pointer. -/
abbrev PageCache := List (Nat × CachedPage)

/-- The 4096 bytes of the buffer `bytes` from `offset` on, as `memcpy` and `memcmp` see
them. -/
def page_bytes (bytes : Nat → Nat) (offset : Nat) : List Nat :=
  (List.range 0x1000).map (fun i => bytes (offset + i))

/-- The offsets `0, 0x1000, ...` below `size` that the page loops run through. -/
def page_offsets (size : Nat) : List Nat :=
  (List.range ((size + 0xFFF) / 0x1000)).map (fun k => k * 0x1000)

/-- The body of the loop of `cache_page`; `none` when an assertion fails. -/
def cache_one_page (address : Nat) (bytes : Nat → Nat) (permissions : Nat)
    (page_cache : Option PageCache) (offset : Nat) : Option PageCache :=
  match page_cache with
  | none => none
  | some cache =>
    match cache.lookup ((address + offset) % 2 ^ 64) with
    | some page =>
      if page.size = 0x1000 ∧ page.bytes = page_bytes bytes offset then some cache else none
    | none =>
      some (cache ++ [((address + offset) % 2 ^ 64,
        { size := 0x1000, bytes := page_bytes bytes offset, perms := permissions })])

/-- The method `cache_page`: the page cache afterwards; `none` when an assertion fails. -/
def cache_page (page_cache : PageCache) (address size : Nat) (bytes : Nat → Nat)
    (permissions : Nat) : Option PageCache :=
  if address % 0x1000 = 0 ∧ size % 0x1000 = 0 then
    (page_offsets size).foldl (cache_one_page address bytes permissions) (some page_cache)
  else none

/-- The call `uc_mem_unmap(uc, address, size)`: a range that is mapped as a whole is
unmapped, otherwise the call fails and changes nothing; the caller drops the result. -/
def uc_mem_unmap (uc : uc_engine) (address size : Nat) : uc_engine :=
  if range_mapped uc address size then
    { uc with mapped := fun a => if address ≤ a ∧ a < address + size then false else uc.mapped a }
  else uc

/-- The method `wipe_page_from_cache`: the page cache and the emulator afterwards. -/
def wipe_page_from_cache (page_cache : PageCache) (uc : uc_engine) (address : Nat) :
    PageCache × uc_engine :=
  match page_cache.lookup address with
  | some page =>
    (page_cache.filter (fun e => e.1 ≠ address), uc_mem_unmap uc address page.size)
  | none => (page_cache, uc)

/-- The method `uncache_pages_touching_region`. -/
def uncache_pages_touching_region (page_cache : PageCache) (uc : uc_engine)
    (address length : Nat) : PageCache × uc_engine :=
  (page_offsets length).foldl
    (fun acc offset => wipe_page_from_cache acc.1 acc.2 ((page_base address + offset) % 2 ^ 64))
    (page_cache, uc)

/-! ## Stores executed by the emulator -/

/-- One store executed by the emulator: the address of the storing instruction, and the
address, size and bytes of the store. -/
structure mem_write_event where
  ip : Nat
  address : Nat
  size : Nat
  data : List Nat

/-- The emulator executes one store: with the program counter at the storing instruction
it delivers the write hook (`handle_write`) and then performs the store; a store to a
range that is not mapped faults and leaves memory as it is. -/
def emu_store (s : State) (w : mem_write_event) : Option State :=
  match handle_write { s with uc := { s.uc with pc := w.ip } } w.address w.size with
  | none => none
  | some s1 =>
    match uc_mem_write s1.uc w.address w.data w.size with
    | some uc1 => some { s1 with uc := uc1 }
    | none => some s1

/-- The emulator executes a sequence of stores, in order. -/
def emu_stores (s : State) : List mem_write_event → Option State
  | [] => some s
  | w :: ws => (emu_store s w).bind (fun s1 => emu_stores s1 ws)

/-- Tag of the byte at offset `i` of the bitmap stored under the key `page`. -/
def bitmap_tag (active_pages : ActivePages) (page i : Nat) : Option taint_t :=
  (active_pages.lookup page).map (fun bitmap => bitmap i)

/-- A store that the write hook can log: size 1..8, the storing instruction has an entry
in `mem_writes_taint_map`, the emulator can read and write the range, and the pages of
its first and last byte are active. -/
def write_ok (s : State) (w : mem_write_event) : Prop :=
  1 ≤ w.size ∧ w.size ≤ 8 ∧
  (s.mem_writes_taint_map.lookup w.ip).isSome = true ∧
  range_mapped s.uc w.address w.size = true ∧
  (page_lookup s.active_pages w.address).isSome = true ∧
  (page_lookup s.active_pages (w.address + w.size - 1)).isSome = true

/-- Two states with the same `mem_writes_taint_map`, the same mapped addresses and the
same set of active pages. -/
def same_env (s s1 : State) : Prop :=
  s1.mem_writes_taint_map = s.mem_writes_taint_map ∧
  s1.uc.mapped = s.uc.mapped ∧
  ∀ k, (s1.active_pages.lookup k).isSome = (s.active_pages.lookup k).isSome

/-- A concrete store at a page-aligned address that the write hook can log. -/
def aligned_concrete_write (s : State) (w : mem_write_event) : Prop :=
  write_ok s w ∧ w.address % 0x1000 = 0 ∧ s.mem_writes_taint_map.lookup w.ip = some false

/-! ## Register accesses of a block, in the words of the specification -/

/-- A register access: `get(offset, size)` or `put(offset, size)`. -/
inductive reg_access where
  | get (offset size : Nat)
  | put (offset size : Nat)
  deriving DecidableEq, Repr

/-- The register byte `b` lies in `[offset, offset + size)`. -/
def covers (offset size b : Nat) : Prop := offset ≤ b ∧ b < offset + size

/-- Some put of the trace covers the register byte `b`. -/
def put_covers (trace : List reg_access) (b : Nat) : Prop :=
  ∃ o n, reg_access.put o n ∈ trace ∧ covers o n b

/-- Some get of the trace covers the register byte `b`. -/
def get_covers (trace : List reg_access) (b : Nat) : Prop :=
  ∃ o n, reg_access.get o n ∈ trace ∧ covers o n b

/-- Some get of the trace covers the register byte `b` at a point where no earlier put
of the trace covers it. -/
def get_before_put (trace : List reg_access) (b : Nat) : Prop :=
  ∃ pre o n post, trace = pre ++ reg_access.get o n :: post ∧ covers o n b ∧
    ¬ put_covers pre b

/-- The register gets of an expression, in evaluation order. The index expression of a
`GetI` is left out. -/
def expr_gets : IRExpr → List reg_access
  | .Iex_Get offset ty => [.get offset (sizeofIRType ty)]
  | .Iex_Qop _ arg1 arg2 arg3 arg4 =>
    expr_gets arg1 ++ (expr_gets arg2 ++ (expr_gets arg3 ++ expr_gets arg4))
  | .Iex_Triop _ arg1 arg2 arg3 => expr_gets arg1 ++ (expr_gets arg2 ++ expr_gets arg3)
  | .Iex_Binop _ arg1 arg2 => expr_gets arg1 ++ expr_gets arg2
  | .Iex_Unop _ arg => expr_gets arg
  | .Iex_Load _ addr => expr_gets addr
  | .Iex_ITE cond iftrue iffalse => expr_gets cond ++ (expr_gets iffalse ++ expr_gets iftrue)
  | .Iex_CCall _ args => args_gets args
  | .Iex_Binder _ => []
  | .Iex_GetI _ _ => []
  | .Iex_RdTmp _ => []
  | .Iex_Const _ _ => []
  | .Iex_VECRET => []
  | .Iex_GSPTR => []
where
  /-- The register gets of an argument vector. -/
  args_gets : List IRExpr → List reg_access
    | [] => []
    | e :: es => expr_gets e ++ args_gets es

/-- The register gets of an expression field that may be absent. -/
def expr_gets_opt : Option IRExpr → List reg_access
  | none => []
  | some e => expr_gets e

/-- The register accesses of a statement: the gets of its operands, then its put. The
expressions of an ABI hint are left out. -/
def stmt_accesses (tyenv : List IRType) : IRStmt → List reg_access
  | .Ist_Put offset data =>
    expr_gets data ++ [.put offset (sizeofIRType (typeOfIRExpr tyenv data))]
  | .Ist_WrTmp _ data => expr_gets data
  | .Ist_Store addr data => expr_gets addr ++ expr_gets data
  | .Ist_CAS addr expdHi expdLo dataHi dataLo =>
    expr_gets addr ++ (expr_gets dataLo ++ (expr_gets_opt dataHi ++
      (expr_gets expdLo ++ expr_gets_opt expdHi)))
  | .Ist_LLSC addr storedata => expr_gets addr ++ expr_gets_opt storedata
  | .Ist_Dirty guard mAddr args =>
    expr_gets guard ++ (expr_gets_opt mAddr ++ expr_gets.args_gets args)
  | .Ist_Exit guard _ => expr_gets guard
  | .Ist_LoadG addr alt guard => expr_gets addr ++ (expr_gets alt ++ expr_gets guard)
  | .Ist_StoreG addr data guard => expr_gets addr ++ (expr_gets data ++ expr_gets guard)
  | .Ist_PutI _ _ => []
  | .Ist_NoOp => []
  | .Ist_IMark _ _ => []
  | .Ist_AbiHint _ _ _ => []
  | .Ist_MBE => []

/-- The register accesses of a statement sequence, statements in order. -/
def stmts_accesses (tyenv : List IRType) : List IRStmt → List reg_access
  | [] => []
  | st :: rest => stmt_accesses tyenv st ++ stmts_accesses tyenv rest

/-- The check result `r`, when it is an acceptance, holds the set `d` extended by the
bytes outside `cl` that some get of `trace` covers. -/
def adds_gets (cl d : List Nat) (trace : List reg_access) (r : Bool × List Nat) : Prop :=
  r.1 = true → ∀ b, b ∈ r.2 ↔ b ∈ d ∨ (b ∉ cl ∧ get_covers trace b)

/-! ## Constructs the feasibility analysis rejects -/

/-- The expression is, or has an operand that is, a `GetI` or a `Get` of type `Ity_I1`. -/
def rejected_expr : IRExpr → Bool
  | .Iex_GetI _ _ => true
  | .Iex_Get _ ty => decide (ty = .Ity_I1)
  | .Iex_Qop _ arg1 arg2 arg3 arg4 =>
    rejected_expr arg1 || (rejected_expr arg2 || (rejected_expr arg3 || rejected_expr arg4))
  | .Iex_Triop _ arg1 arg2 arg3 =>
    rejected_expr arg1 || (rejected_expr arg2 || rejected_expr arg3)
  | .Iex_Binop _ arg1 arg2 => rejected_expr arg1 || rejected_expr arg2
  | .Iex_Unop _ arg => rejected_expr arg
  | .Iex_Load _ addr => rejected_expr addr
  | .Iex_ITE cond iftrue iffalse =>
    rejected_expr cond || (rejected_expr iffalse || rejected_expr iftrue)
  | .Iex_CCall _ args => rejected_args args
  | .Iex_Binder _ => false
  | .Iex_RdTmp _ => false
  | .Iex_Const _ _ => false
  | .Iex_VECRET => false
  | .Iex_GSPTR => false
where
  /-- Some expression of the argument vector is rejected. -/
  rejected_args : List IRExpr → Bool
    | [] => false
    | e :: es => rejected_expr e || rejected_args es

/-- An expression field that may be absent is rejected. -/
def rejected_expr_opt : Option IRExpr → Bool
  | none => false
  | some e => rejected_expr e

/-- The statement is a `PutI`, a `Put` of 1-bit data, or has an operand that is rejected. -/
def rejected_stmt (tyenv : List IRType) : IRStmt → Bool
  | .Ist_PutI _ _ => true
  | .Ist_Put _ data => rejected_expr data || decide (typeOfIRExpr tyenv data = .Ity_I1)
  | .Ist_WrTmp _ data => rejected_expr data
  | .Ist_Store addr data => rejected_expr addr || rejected_expr data
  | .Ist_CAS addr expdHi expdLo dataHi dataLo =>
    rejected_expr addr || (rejected_expr dataLo || (rejected_expr_opt dataHi ||
      (rejected_expr expdLo || rejected_expr_opt expdHi)))
  | .Ist_LLSC addr storedata => rejected_expr addr || rejected_expr_opt storedata
  | .Ist_Dirty guard mAddr args =>
    rejected_expr guard || (rejected_expr_opt mAddr || rejected_expr.rejected_args args)
  | .Ist_Exit guard _ => rejected_expr guard
  | .Ist_LoadG addr alt guard => rejected_expr addr || (rejected_expr alt || rejected_expr guard)
  | .Ist_StoreG addr data guard =>
    rejected_expr addr || (rejected_expr data || rejected_expr guard)
  | .Ist_NoOp => false
  | .Ist_IMark _ _ => false
  | .Ist_AbiHint _ _ _ => false
  | .Ist_MBE => false

/-- Some statement of the block, or its `next` expression, is rejected. -/
def rejected_block (the_block : IRSB) : Bool :=
  the_block.stmts.any (rejected_stmt the_block.tyenv) || rejected_expr the_block.next

/-- The summary that `check_block` works with for the block at `address`: the cached
entry, or on a cache miss the result of analysing the lifted block. -/
def block_summary (vex : VexLift) (s : State) (address size : Nat) : Option block_entry_t :=
  match s.block_cache.lookup address with
  | some entry => some entry
  | none =>
    match vex false s.uc address size with
    | none => none
    | some the_block =>
      let r := analyse_block the_block
      some ⟨r.1, r.2.2, r.2.1⟩

/-- The write-log record `r` has mask `-1`, targets the page `page` and covers the byte
`i` of that page's bitmap. -/
def realized_at (page : Nat) (r : mem_access_t) (i : Nat) : Prop :=
  r.clean = int_minus_one ∧ page_base r.address = page ∧
    (r.address &&& 0xFFF) ≤ i ∧ i < (r.address &&& 0xFFF) + r.size

/-- The part of the state that neither `step` nor `propagate_taints` changes, and the
temporaries marked in the block, which they only add to. -/
def taint_frame (s s1 : State) : Prop :=
  s1.stopping_register = s.stopping_register ∧ s1.block_cache = s.block_cache ∧
  s1.symbolic_temps = s.symbolic_temps ∧ s1.symbolic_registers = s.symbolic_registers ∧
  s1.cur_steps = s.cur_steps ∧
  ∀ t, t ∈ s.block_symbolic_temps → t ∈ s1.block_symbolic_temps

/-- The fields that tell the hooks which block is running and whether the next block hook
is skipped: `ignore_next_block`, `ignore_next_selfmod`, `cur_address` and `cur_size`. -/
def block_flags (s : State) : Bool × Bool × Nat × Nat :=
  (s.ignore_next_block, s.ignore_next_selfmod, s.cur_address, s.cur_size)

/-! ## Taint sources and summaries, in the words of the specification -/

/-- The expression is, or has an operand that is, a `GetI`. -/
def has_geti : IRExpr → Bool
  | .Iex_GetI _ _ => true
  | .Iex_Qop _ arg1 arg2 arg3 arg4 =>
    has_geti arg1 || (has_geti arg2 || (has_geti arg3 || has_geti arg4))
  | .Iex_Triop _ arg1 arg2 arg3 => has_geti arg1 || (has_geti arg2 || has_geti arg3)
  | .Iex_Binop _ arg1 arg2 => has_geti arg1 || has_geti arg2
  | .Iex_Unop _ arg => has_geti arg
  | .Iex_Load _ addr => has_geti addr
  | .Iex_ITE cond iftrue iffalse => has_geti cond || (has_geti iffalse || has_geti iftrue)
  | .Iex_CCall _ args => args_have_geti args
  | .Iex_Get _ _ => false
  | .Iex_Binder _ => false
  | .Iex_RdTmp _ => false
  | .Iex_Const _ _ => false
  | .Iex_VECRET => false
  | .Iex_GSPTR => false
where
  /-- Some expression of the argument vector has a `GetI`. -/
  args_have_geti : List IRExpr → Bool
    | [] => false
    | e :: es => has_geti e || args_have_geti es

/-- The structural flatten of an expression: a constant gives the empty set, a register
or temporary read that single entity, an operator, helper call or `ITE` the union of the
sets of its operands (for an `ITE`: condition, false arm, true arm), a load one memory
entity whose address list is the flatten of the address expression. The union is taken
with `entity_insert_all`; the field `instr_addr` of the entities is `uninit`. -/
def flatten_sources (uninit : Nat) : IRExpr → TaintEntitySet
  | .Iex_Const _ _ => []
  | .Iex_Get offset _ => [.TAINT_ENTITY_REG offset uninit]
  | .Iex_RdTmp tmp => [.TAINT_ENTITY_TMP tmp uninit]
  | .Iex_Unop _ arg => flatten_sources uninit arg
  | .Iex_Binop _ arg1 arg2 =>
    entity_insert_all (flatten_sources uninit arg1) (flatten_sources uninit arg2)
  | .Iex_Triop _ arg1 arg2 arg3 =>
    entity_insert_all
      (entity_insert_all (flatten_sources uninit arg1) (flatten_sources uninit arg2))
      (flatten_sources uninit arg3)
  | .Iex_Qop _ arg1 arg2 arg3 arg4 =>
    entity_insert_all
      (entity_insert_all
        (entity_insert_all (flatten_sources uninit arg1) (flatten_sources uninit arg2))
        (flatten_sources uninit arg3))
      (flatten_sources uninit arg4)
  | .Iex_ITE cond iftrue iffalse =>
    entity_insert_all
      (entity_insert_all (flatten_sources uninit cond) (flatten_sources uninit iffalse))
      (flatten_sources uninit iftrue)
  | .Iex_CCall _ args => flatten_args [] args
  | .Iex_Load _ addr => [.TAINT_ENTITY_MEM (flatten_sources uninit addr) uninit]
  | .Iex_GetI _ _ => []
  | .Iex_Binder _ => []
  | .Iex_VECRET => []
  | .Iex_GSPTR => []
where
  /-- The union of `acc` and the flattens of the arguments, in argument order. -/
  flatten_args : TaintEntitySet → List IRExpr → TaintEntitySet
    | acc, [] => acc
    | acc, e :: es => flatten_args (entity_insert_all acc (flatten_sources uninit e)) es

/-- No two elements of the set are equal under `operator==`. -/
def entity_nodup (set : TaintEntitySet) : Prop :=
  set.Pairwise (fun x y => taint_entity_t.beq x y = false)

/-- The entity has `entity_type == TAINT_ENTITY_NONE`. -/
def is_none_entity : taint_entity_t → Bool
  | .TAINT_ENTITY_NONE _ => true
  | _ => false

/-- The entity is a register or a temporary. -/
def is_reg_or_tmp : taint_entity_t → Bool
  | .TAINT_ENTITY_REG _ _ => true
  | .TAINT_ENTITY_TMP _ _ => true
  | _ => false

/-- The entity is a memory reference. -/
def is_mem_entity : taint_entity_t → Bool
  | .TAINT_ENTITY_MEM _ _ => true
  | _ => false

/-- The register or temporary is symbolic in the state (`is_symbolic_register_or_temp`);
false for the other entity types. -/
def entity_symbolic (s : State) : taint_entity_t → Bool
  | .TAINT_ENTITY_REG reg_offset _ => is_symbolic_register s reg_offset
  | .TAINT_ENTITY_TMP tmp_id _ => is_symbolic_temp s tmp_id
  | _ => false

/-- A statement that the taint flow analysis handles: not a `PutI`, `StoreG`, `LoadG`,
`CAS`, `LLSC` or `Dirty`, and no `GetI` in the expressions it walks. -/
def taint_supported_stmt : IRStmt → Bool
  | .Ist_Put _ data => !has_geti data
  | .Ist_WrTmp _ data => !has_geti data
  | .Ist_Store addr data => !has_geti addr && !has_geti data
  | .Ist_Exit guard _ => !has_geti guard
  | .Ist_IMark _ _ => true
  | .Ist_MBE => true
  | .Ist_NoOp => true
  | .Ist_AbiHint _ _ _ => true
  | .Ist_PutI _ _ => false
  | .Ist_StoreG _ _ _ => false
  | .Ist_LoadG _ _ _ => false
  | .Ist_CAS _ _ _ _ _ => false
  | .Ist_LLSC _ _ => false
  | .Ist_Dirty _ _ _ => false

/-- The pairs of the taint summary, statement by statement: one pair for a put, a write
of a temporary or a store whose source set is not empty, with the sink register(offset),
temporary(id) or memory(flatten of the address expression), none for another statement.
`addr` is the address of the latest `IMark`. -/
def summary_pairs (uninit : Nat) : Nat → List IRStmt → List (taint_entity_t × TaintEntitySet)
  | _, [] => []
  | addr, .Ist_Put offset data :: rest =>
    (if (flatten_sources uninit data).length > 0 then
      [(.TAINT_ENTITY_REG offset addr, flatten_sources uninit data)] else []) ++
      summary_pairs uninit addr rest
  | addr, .Ist_WrTmp tmp data :: rest =>
    (if (flatten_sources uninit data).length > 0 then
      [(.TAINT_ENTITY_TMP tmp addr, flatten_sources uninit data)] else []) ++
      summary_pairs uninit addr rest
  | addr, .Ist_Store a data :: rest =>
    (if (flatten_sources uninit data).length > 0 then
      [(.TAINT_ENTITY_MEM (flatten_sources uninit a) addr, flatten_sources uninit data)]
      else []) ++
      summary_pairs uninit addr rest
  | _, .Ist_IMark a _ :: rest => summary_pairs uninit a rest
  | addr, .Ist_Exit _ _ :: rest => summary_pairs uninit addr rest
  | addr, .Ist_MBE :: rest => summary_pairs uninit addr rest
  | addr, .Ist_NoOp :: rest => summary_pairs uninit addr rest
  | addr, .Ist_AbiHint _ _ _ :: rest => summary_pairs uninit addr rest
  | addr, .Ist_PutI _ _ :: rest => summary_pairs uninit addr rest
  | addr, .Ist_StoreG _ _ _ :: rest => summary_pairs uninit addr rest
  | addr, .Ist_LoadG _ _ _ :: rest => summary_pairs uninit addr rest
  | addr, .Ist_CAS _ _ _ _ _ :: rest => summary_pairs uninit addr rest
  | addr, .Ist_LLSC _ _ :: rest => summary_pairs uninit addr rest
  | addr, .Ist_Dirty _ _ _ :: rest => summary_pairs uninit addr rest

/-- The test of `propagate_taints` on the `ITE` conditions recorded for the instruction
at `instr_addr`: true when it stops the block. -/
def ite_cond_stops (ite_cond_map : List (Nat × TaintEntitySet)) (s : State)
    (instr_addr : Nat) : Bool :=
  match ite_cond_map.lookup instr_addr with
  | some conds =>
    (get_final_taint_status s conds).depends_on_read_from_concrete_addr ||
      (get_final_taint_status s conds).depends_on_read_from_symbolic_addr ||
      (get_final_taint_status s conds).is_symbolic
  | none => false

/-- The result of `get_final_taint_status` says concrete: not symbolic and no dependence
on a memory read. -/
def status_concrete (r : taint_status_result_t) : Bool :=
  !r.is_symbolic && !r.depends_on_read_from_symbolic_addr &&
    !r.depends_on_read_from_concrete_addr

/-- The summary that `propagate_taints` works with for the block at `address`: the cached
one, or on a cache miss the one computed from the lifted block. -/
def taint_summary (vex : VexLift) (uninit : Nat) (s : State) (address size : Nat) :
    Option block_taint_entry_t :=
  match s.block_taint_cache.lookup address with
  | some entry => some entry
  | none =>
    match vex true s.uc address size with
    | none => none
    | some irsb => compute_taint_sink_source_relation_of_block uninit s.temp_ite_cond_map irsb

/-- The state in which `propagate_taints` starts its loop over the pairs of the summary
`entry`: `mem_reads_taint_dst_map` is cleared, and on a cache miss the summary has been
cached and `temp_ite_cond_map` cleared. -/
def sink_loop_start (s : State) (address : Nat) (entry : block_taint_entry_t) : State :=
  match s.block_taint_cache.lookup address with
  | some _ => { s with mem_reads_taint_dst_map := [] }
  | none =>
    { s with
      temp_ite_cond_map := []
      block_taint_cache := map_emplace s.block_taint_cache address entry
      mem_reads_taint_dst_map := [] }

/-- The call `propagate_taints(address, size)` on the running state `st` works with the
summary `entry`, whose pairs are `pre`, then `p`, then `rest`, and its loop reaches the
pair `p` in the state `s` without having stopped. -/
def reaches_pair (vex : VexLift) (uninit : Nat) (st : State) (address size : Nat)
    (entry : block_taint_entry_t) (pre : List (taint_entity_t × TaintEntitySet))
    (p : taint_entity_t × TaintEntitySet) (rest : List (taint_entity_t × TaintEntitySet))
    (s : State) : Prop :=
  st.stopped = false ∧
  taint_summary vex uninit st address size = some entry ∧
  entry.taint_sink_src_data = pre ++ p :: rest ∧
  propagate_pairs entry.ite_cond_map (sink_loop_start st address entry) pre = some s ∧
  s.stopped = false

/-! ## Dependence on memory reads and overlapping ranges, in the words of the specification -/

/-- The entity waits for the value of a memory read of the block: it is equal to a sink
listed under some read in `mem_reads_taint_dst_map`. -/
def pending_on_read (s : State) (e : taint_entity_t) : Bool :=
  s.mem_reads_taint_dst_map.any (fun entry => entry.2.1.any (fun d => taint_entity_t.beq e d))

/-- The entity is symbolic or depends on a memory read: a memory reference (a load), or a
register or temporary that is symbolic in the state or waits for a memory read. -/
def symbolic_or_read_dependent (s : State) (e : taint_entity_t) : Bool :=
  is_mem_entity e || (is_reg_or_tmp e && (entity_symbolic s e || pending_on_read s e))

/-- No `ITE` condition recorded for the instruction at `instr_addr` is symbolic or depends
on a memory read. -/
def ite_conds_concrete (ite_cond_map : List (Nat × TaintEntitySet)) (s : State)
    (instr_addr : Nat) : Prop :=
  ∀ conds, ite_cond_map.lookup instr_addr = some conds →
    ∀ e ∈ conds, symbolic_or_read_dependent s e = false

/-- The intervals `[a, a + n)` and `[b, b + m)` have an address in common. -/
def ranges_overlap (a n b m : Nat) : Prop :=
  a < b + m ∧ b < a + n

/-! ## Dirty ranges, exit guards and register writes, in the words of the specification -/

/-- The runs of dirty bytes that the scan of `sync` finds in a page bitmap from offset `i`
on, as pairs of the offset and the length of a run, in ascending order. The first
argument bounds the number of iterations. -/
def page_runs (bitmap : PageBitmap) : Nat → Nat → List (Nat × Nat)
  | 0, _ => []
  | fuel + 1, i =>
    if i < 0x1000 then
      if bitmap i = .TAINT_DIRTY then
        (i, dirty_run_end bitmap 0x1000 i - i) ::
          page_runs bitmap fuel (dirty_run_end bitmap 0x1000 i + 1)
      else page_runs bitmap fuel (i + 1)
    else []

/-- The range of the page at `first` for a run of its bitmap. -/
def run_update (first : Nat) (run : Nat × Nat) : mem_update_t :=
  { address := (first + run.1) % 2 ^ 64, length := run.2 }

/-- The range lies in the page and is a maximal run of dirty bytes of its bitmap: every
byte of it is dirty, and on each side the page ends or the next byte is not dirty. -/
def dirty_run_of (page : Nat × PageBitmap) (r : mem_update_t) : Prop :=
  ∃ i, r.address = page.1 + i ∧ 0 < r.length ∧ i + r.length ≤ 0x1000 ∧
    (∀ k, k < r.length → page.2 (i + k) = .TAINT_DIRTY) ∧
    (i = 0 ∨ page.2 (i - 1) ≠ .TAINT_DIRTY) ∧
    (i + r.length = 0x1000 ∨ page.2 (i + r.length) ≠ .TAINT_DIRTY)

/-- The two ranges have no address in common. -/
def ranges_disjoint (r1 r2 : mem_update_t) : Prop :=
  r1.address + r1.length ≤ r2.address ∨ r2.address + r2.length ≤ r1.address

/-- The guard of an exit statement; `none` for another statement. -/
def exit_guard : IRStmt → Option IRExpr
  | .Ist_Exit guard _ => some guard
  | _ => none

/-- The guard of the last exit statement of the sequence; `none` when it has no exit
statement. -/
def last_exit_guard (stmts : List IRStmt) : Option IRExpr :=
  (stmts.filterMap exit_guard).getLast?

/-- An emulator with zeroed, fully mapped memory, stopped at instruction `0x400000`. -/
def uc_mapped : uc_engine :=
  { mem := fun _ => 0, mapped := fun _ => true, pc := 0x400000, sp := 0 }

/-- An emulator with no mapped memory, stopped at instruction `0x400000`. -/
def uc_unmapped : uc_engine :=
  { mem := fun _ => 0, mapped := fun _ => false, pc := 0x400000, sp := 0 }

/-- A bitmap with every byte `TAINT_NONE`. -/
def bitmap_none : PageBitmap := fun _ => .TAINT_NONE

/-- A bitmap whose byte at offset `k` is `TAINT_SYMBOLIC`, all others `TAINT_NONE`. -/
def bitmap_symbolic_at (k : Nat) : PageBitmap :=
  fun i => if i = k then .TAINT_SYMBOLIC else .TAINT_NONE

/-- A state whose block-level sets both hold register offset 16. -/
def overlap_state : State :=
  { simunicorn_alloc uc_mapped true false with
    block_symbolic_registers := [16]
    block_concrete_registers := [16] }

/-- A state with the pages `0x1000` and `0x2000` active and untainted, and the
instruction at `0x400000` recorded as a write of the given taint status. -/
def two_page_state (uc : uc_engine) (is_symbolic : Bool) : State :=
  { simunicorn_alloc uc true false with
    active_pages := [(0x1000, bitmap_none), (0x2000, bitmap_none)]
    mem_writes_taint_map := [(0x400000, is_symbolic)] }

/-- A state with page `0x1000` active, its byte at offset `k` symbolic, and the
instruction at `0x400000` recorded as a concrete write. -/
def symbolic_byte_state (k : Nat) : State :=
  { simunicorn_alloc uc_mapped true false with
    active_pages := [(0x1000, bitmap_symbolic_at k)]
    mem_writes_taint_map := [(0x400000, false)] }

/-- A state with page `0x1000` active and untainted and an empty
`mem_writes_taint_map`. -/
def no_entry_state : State :=
  { simunicorn_alloc uc_mapped true false with
    active_pages := [(0x1000, bitmap_none)] }

/-- A deferred record (mask `-1`) for four bytes at `0x1010`. -/
def deferred_record : mem_access_t :=
  { address := 0x1010, value := List.replicate 8 0, size := 4, clean := int_minus_one }

/-- A state with page `0x1000` active, one deferred record for it in the write log,
register 8 symbolic, and block-level marks: 16 and 24 symbolic, 8 concrete, temporary 3
symbolic. -/
def deferred_state : State :=
  { simunicorn_alloc uc_mapped true false with
    active_pages := [(0x1000, bitmap_none)]
    mem_writes := [deferred_record]
    symbolic_registers := [8]
    symbolic_temps := [1]
    block_symbolic_registers := [16, 24]
    block_concrete_registers := [8]
    block_symbolic_temps := [3] }

/-- Three overlapping stores of the instruction at `0x400000`; the first two cross the
boundary between the pages `0x1000` and `0x2000`. -/
def overlapping_stores : List mem_write_event :=
  [ { ip := 0x400000, address := 0x1FFE, size := 4, data := [1, 2, 3, 4] },
    { ip := 0x400000, address := 0x1FFF, size := 2, data := [9, 9] },
    { ip := 0x400000, address := 0x1FF8, size := 8, data := [5, 5, 5, 5, 5, 5, 5, 5] } ]

/-- A bitmap with a dirty byte at offset 2 and a symbolic byte at offset 100. -/
def bitmap_mixed : PageBitmap :=
  fun i => if i = 2 then .TAINT_DIRTY else if i = 100 then .TAINT_SYMBOLIC else .TAINT_NONE

/-- A state with the pages `0x1000` (tags of `bitmap_mixed`) and `0x2000` (untainted)
active and the instruction at `0x400000` recorded as a concrete write. -/
def mixed_state : State :=
  { simunicorn_alloc uc_mapped true false with
    active_pages := [(0x1000, bitmap_mixed), (0x2000, bitmap_none)]
    mem_writes_taint_map := [(0x400000, false)] }

/-- Three concrete stores at page-aligned addresses, two of them overlapping. -/
def aligned_stores : List mem_write_event :=
  [ { ip := 0x400000, address := 0x1000, size := 8, data := [1, 2, 3, 4, 5, 6, 7, 8] },
    { ip := 0x400000, address := 0x2000, size := 1, data := [9] },
    { ip := 0x400000, address := 0x1000, size := 4, data := [0, 0, 0, 0] } ]

/-- A state in the middle of a run (not stopped, a budget of ten blocks) with a deferred
record for the page `0x1000`, which is not active. -/
def inactive_deferred_state : State :=
  { simunicorn_alloc uc_mapped true false with
    stopped := false
    max_steps := 10
    mem_writes := [deferred_record] }

/-- A state that does not track block addresses, with the address of one committed block
in `bbl_addrs`. -/
def untracked_state : State :=
  { simunicorn_alloc uc_mapped false false with
    stopped := false
    max_steps := 10
    bbl_addrs := [0x1000] }

/-- A lifter that knows the block at address `a` only. -/
def lift_at (a : Nat) (the_block : IRSB) : VexLift :=
  fun _ _ address _ => if address = a then some the_block else none

/-- A lifter that fails on every address. -/
def lift_none : VexLift := fun _ _ _ _ => none

/-- A block summary whose exit guard depends on temporary 5. -/
def guard_entry : block_taint_entry_t :=
  { taint_sink_src_data := []
    exit_stmt_guard_expr_deps := [.TAINT_ENTITY_TMP 5 0x1000]
    ite_cond_map := [] }

/-- A state in the middle of a run: the previous block `0x1000` has the summary
`guard_entry` in the cache and temporary 5 is symbolic. -/
def symbolic_guard_state : State :=
  { simunicorn_alloc uc_mapped true false with
    stopped := false
    max_steps := 10
    prev_block_addr := 0x1000
    block_taint_cache := [(0x1000, guard_entry)]
    symbolic_temps := [5] }

/-- A block summary with no pairs and no exit guard. -/
def empty_taint_entry : block_taint_entry_t :=
  { taint_sink_src_data := [], exit_stmt_guard_expr_deps := [], ite_cond_map := [] }

/-- A state in the middle of a run with register tracking enabled and the eight-byte
register at offset 16 symbolic in its first byte; the previous block `0x1000` has an
empty summary in the cache. -/
def symbolic_register_state : State :=
  { simunicorn_alloc uc_mapped true false with
    stopped := false
    max_steps := 10
    prev_block_addr := 0x1000
    block_taint_cache := [(0x1000, empty_taint_entry)]
    symbolic_registers := [16]
    vex_guest := 0x403 }

/-- The block `t0 = GET:I64(16); PUT(16) = Add64(t0, 1)` at `0x2000`. -/
def increment_block : IRSB :=
  { tyenv := [.Ity_I64]
    stmts := [.Ist_IMark 0x2000 4, .Ist_WrTmp 0 (.Iex_Get 16 .Ity_I64),
      .Ist_Put 16 (.Iex_Binop .Ity_I64 (.Iex_RdTmp 0) (.Iex_Const .Ity_I64 1))]
    next := .Iex_Const .Ity_I64 0x2004 }

/-- The block `PUT(16) = 0` at `0x2000`. -/
def clobber_block : IRSB :=
  { tyenv := []
    stmts := [.Ist_IMark 0x2000 4, .Ist_Put 16 (.Iex_Const .Ity_I64 0)]
    next := .Iex_Const .Ity_I64 0x2004 }

/-- A block at `0x2000` with a dirty call, a compare-and-swap, a load-linked, a guarded
load and a guarded store, and none of `PutI`, `GetI` or 1-bit register access. -/
def helper_block : IRSB :=
  { tyenv := [.Ity_I64]
    stmts := [.Ist_IMark 0x2000 4,
      .Ist_Dirty (.Iex_Const .Ity_I1 1) none [.Iex_Get 24 .Ity_I64],
      .Ist_CAS (.Iex_RdTmp 0) none (.Iex_Const .Ity_I64 0) none (.Iex_Const .Ity_I64 1),
      .Ist_LLSC (.Iex_RdTmp 0) none,
      .Ist_LoadG (.Iex_RdTmp 0) (.Iex_Const .Ity_I64 0) (.Iex_Const .Ity_I1 1),
      .Ist_StoreG (.Iex_RdTmp 0) (.Iex_Const .Ity_I64 0) (.Iex_Const .Ity_I1 1)]
    next := .Iex_Const .Ity_I64 0x2004 }

/-- A block at `0x2000` with an indexed register write. -/
def puti_block : IRSB :=
  { tyenv := []
    stmts := [.Ist_IMark 0x2000 4, .Ist_PutI (.Iex_Const .Ity_I64 0) (.Iex_Const .Ity_I64 0)]
    next := .Iex_Const .Ity_I64 0x2004 }

/-- The statement `PUT(16) = Add64(GET:I64(16), 1)`. -/
def put_get_stmt : IRStmt :=
  .Ist_Put 16 (.Iex_Binop .Ity_I64 (.Iex_Get 16 .Ity_I64) (.Iex_Const .Ity_I64 1))

/-- The block `t0 = 5; PUT(24) = t0` at `0x3000`. -/
def constant_block : IRSB :=
  { tyenv := [.Ity_I64]
    stmts := [.Ist_IMark 0x3000 4, .Ist_WrTmp 0 (.Iex_Const .Ity_I64 5),
      .Ist_Put 24 (.Iex_RdTmp 0)]
    next := .Iex_Const .Ity_I64 0x3004 }

/-- A lifter that knows `increment_block` at `0x2000` and `constant_block` at `0x3000`. -/
def lift_two : VexLift :=
  fun _ _ address _ =>
    if address = 0x2000 then some increment_block
    else if address = 0x3000 then some constant_block
    else none

/-- The block `t0 = GET:I64(24); t1 = GET:I64(16); STle(t0) = t1` at `0x2000`: a store of
the register at offset 16 to the address held in the register at offset 24. -/
def store_block : IRSB :=
  { tyenv := [.Ity_I64, .Ity_I64]
    stmts := [.Ist_IMark 0x2000 4, .Ist_WrTmp 0 (.Iex_Get 24 .Ity_I64),
      .Ist_WrTmp 1 (.Iex_Get 16 .Ity_I64), .Ist_Store (.Iex_RdTmp 0) (.Iex_RdTmp 1)]
    next := .Iex_Const .Ity_I64 0x2004 }

/-- The taint summary of `store_block`, with `0` in the unset `instr_addr` fields. -/
def store_summary : block_taint_entry_t :=
  { taint_sink_src_data :=
      [(.TAINT_ENTITY_TMP 0 0x2000, [.TAINT_ENTITY_REG 24 0]),
       (.TAINT_ENTITY_TMP 1 0x2000, [.TAINT_ENTITY_REG 16 0]),
       (.TAINT_ENTITY_MEM [.TAINT_ENTITY_TMP 0 0] 0x2000, [.TAINT_ENTITY_TMP 1 0])]
    exit_stmt_guard_expr_deps := []
    ite_cond_map := [] }

/-- The block `t0 = LDle:I64(GET:I64(24)); PUT(16) = t0` at `0x400000`: a load into the
register at offset 16 from the address held in the register at offset 24. -/
def load_block : IRSB :=
  { tyenv := [.Ity_I64]
    stmts := [.Ist_IMark 0x400000 4,
      .Ist_WrTmp 0 (.Iex_Load .Ity_I64 (.Iex_Get 24 .Ity_I64)), .Ist_Put 16 (.Iex_RdTmp 0)]
    next := .Iex_Const .Ity_I64 0x400004 }

/-- The block `t1 = GET:I64(16); t2 = CmpNE64(t1, 0); STle(t1) = ITE(t2, 1, 2)` at
`0x2000`: a store whose address and whose `ITE` condition come from the register at offset
16. -/
def cond_store_block : IRSB :=
  { tyenv := [.Ity_I64, .Ity_I64, .Ity_I1]
    stmts := [.Ist_IMark 0x2000 4, .Ist_WrTmp 1 (.Iex_Get 16 .Ity_I64),
      .Ist_WrTmp 2 (.Iex_Binop .Ity_I1 (.Iex_RdTmp 1) (.Iex_Const .Ity_I64 0)),
      .Ist_Store (.Iex_RdTmp 1)
        (.Iex_ITE (.Iex_RdTmp 2) (.Iex_Const .Ity_I64 1) (.Iex_Const .Ity_I64 2))]
    next := .Iex_Const .Ity_I64 0x2004 }

/-- The block `t1 = GET:I64(16); t2 = GET:I64(24); STle(t1) = t2` at `0x2000`: a store of
the register at offset 24 to the address held in the register at offset 16. -/
def symbolic_addr_store_block : IRSB :=
  { tyenv := [.Ity_I64, .Ity_I64, .Ity_I64]
    stmts := [.Ist_IMark 0x2000 4, .Ist_WrTmp 1 (.Iex_Get 16 .Ity_I64),
      .Ist_WrTmp 2 (.Iex_Get 24 .Ity_I64), .Ist_Store (.Iex_RdTmp 1) (.Iex_RdTmp 2)]
    next := .Iex_Const .Ity_I64 0x2004 }

/-- A state in the middle of a run with no symbolic register, the emulator at instruction
`0x400000`, and page `0x1000` active with a symbolic byte at offset `0x10`. -/
def concrete_run_state : State :=
  { simunicorn_alloc uc_mapped true false with
    stopped := false
    max_steps := 10
    active_pages := [(0x1000, bitmap_symbolic_at 0x10)] }

/-- A state in the middle of a run with one stop point, at `0x2064`. -/
def stop_point_state : State :=
  { simunicorn_alloc uc_mapped true false with
    stopped := false
    max_steps := 10
    stop_points := [0x2064] }

/-- A state in the middle of the block at `0x2000` in which a write into the block has set
`ignore_next_block`. -/
def ignoring_state : State :=
  { simunicorn_alloc uc_mapped true false with
    stopped := false
    max_steps := 10
    cur_steps := 1
    cur_address := 0x2000
    cur_size := 4
    bbl_addrs := [0x2000]
    executed_pages := [0x2000]
    ignore_next_block := true }

/-- A state before the block at `0x2000` is entered, like `symbolic_register_state`, with
the emulator at instruction `0x2000` and page `0x1000` active and untainted. -/
def store_entry_state : State :=
  { symbolic_register_state with
    uc := { uc_mapped with pc := 0x2000 }
    active_pages := [(0x1000, bitmap_none)] }

/-- The taint summary of `symbolic_addr_store_block`, with `0` in the unset `instr_addr`
fields. -/
def symbolic_addr_summary : block_taint_entry_t :=
  { taint_sink_src_data :=
      [(.TAINT_ENTITY_TMP 1 0x2000, [.TAINT_ENTITY_REG 16 0]),
       (.TAINT_ENTITY_TMP 2 0x2000, [.TAINT_ENTITY_REG 24 0]),
       (.TAINT_ENTITY_MEM [.TAINT_ENTITY_TMP 1 0] 0x2000, [.TAINT_ENTITY_TMP 2 0])]
    exit_stmt_guard_expr_deps := []
    ite_cond_map := [] }

/-- The taint summary of `cond_store_block`, with `0` in the unset `instr_addr` fields. -/
def cond_store_summary : block_taint_entry_t :=
  { taint_sink_src_data :=
      [(.TAINT_ENTITY_TMP 1 0x2000, [.TAINT_ENTITY_REG 16 0]),
       (.TAINT_ENTITY_TMP 2 0x2000, [.TAINT_ENTITY_TMP 1 0]),
       (.TAINT_ENTITY_MEM [.TAINT_ENTITY_TMP 1 0] 0x2000, [.TAINT_ENTITY_TMP 2 0])]
    exit_stmt_guard_expr_deps := []
    ite_cond_map := [(0x2000, [.TAINT_ENTITY_TMP 2 0])] }

/-- The taint summary of `constant_block`, with `0` in the unset `instr_addr` field. -/
def constant_summary : block_taint_entry_t :=
  { taint_sink_src_data := [(.TAINT_ENTITY_REG 24 0x3000, [.TAINT_ENTITY_TMP 0 0])]
    exit_stmt_guard_expr_deps := []
    ite_cond_map := [] }

/-- The expression `ITE(t2, LDle:I64(Add64(GET:I64(24), GET:I64(24))), Not64(t2))`: the
temporary 2 and the register at offset 24 each occur twice. -/
def load_sum_expr : IRExpr :=
  .Iex_ITE (.Iex_RdTmp 2)
    (.Iex_Load .Ity_I64 (.Iex_Binop .Ity_I64 (.Iex_Get 24 .Ity_I64) (.Iex_Get 24 .Ity_I64)))
    (.Iex_Unop .Ity_I64 (.Iex_RdTmp 2))

/-- A state at the end of a block that performed a store at `0x1004`: one record in the
write log, one entry in each taint map and one block-level symbolic temporary. -/
def stored_state : State :=
  { symbolic_register_state with
    mem_writes := [{ address := 0x1010, value := List.replicate 8 0, size := 4, clean := 0 }]
    mem_writes_taint_map := [(0x1004, true)]
    block_symbolic_temps := [1]
    mem_reads_taint_dst_map := [(0x1004, ([], true))] }

/-- The state `commit` gives from `stored_state`. -/
def committed_state : State :=
  { stored_state with
    saved_regs := (0x400000, 0)
    mem_writes := []
    cur_steps := 1
    symbolic_temps := [1]
    block_symbolic_temps := [] }

/-- The state `step` gives from `committed_state` on entering the block at `0x3000`. -/
def entered_state : State :=
  { committed_state with
    bbl_addrs := [0x3000]
    executed_pages := [0x3000]
    cur_address := 0x3000
    cur_size := 4 }

/-- A freshly allocated state in which the summary of a block at `0x1000`, with no exit
guard, is cached as that of the previous block. -/
def primed_state : State :=
  { simunicorn_alloc uc_mapped true false with
    prev_block_addr := 0x1000
    block_taint_cache := [(0x1000, empty_taint_entry)] }

/-- A cached page of 4096 zero bytes with permissions 5. -/
def zero_page : CachedPage :=
  { size := 0x1000, bytes := List.replicate 0x1000 0, perms := 5 }

/-- A page cache that holds `zero_page` at `0x1000` and at `0x2000`. -/
def two_page_cache : PageCache := [(0x1000, zero_page), (0x2000, zero_page)]

/-- The block at `0x2000` with two exits, the first guarded by the register at offset 16
and the second by the register at offset 32: `t0 = CmpNE64(GET:I64(16), 0);
if (t0) goto 0x3000; t1 = CmpNE64(GET:I64(32), 0); if (t1) goto 0x4000`. -/
def two_exit_block : IRSB :=
  { tyenv := [.Ity_I1, .Ity_I1]
    stmts := [.Ist_IMark 0x2000 4,
      .Ist_WrTmp 0 (.Iex_Binop .Ity_I1 (.Iex_Get 16 .Ity_I64) (.Iex_Const .Ity_I64 0)),
      .Ist_Exit (.Iex_RdTmp 0) 0x3000,
      .Ist_WrTmp 1 (.Iex_Binop .Ity_I1 (.Iex_Get 32 .Ity_I64) (.Iex_Const .Ity_I64 0)),
      .Ist_Exit (.Iex_RdTmp 1) 0x4000]
    next := .Iex_Const .Ity_I64 0x2004 }

/-- The block `t0 = GET:I64(16); PUT(24) = t0` at `0x2000`: a copy of the register at
offset 16 to the register at offset 24. -/
def copy_block : IRSB :=
  { tyenv := [.Ity_I64]
    stmts := [.Ist_IMark 0x2000 4, .Ist_WrTmp 0 (.Iex_Get 16 .Ity_I64),
      .Ist_Put 24 (.Iex_RdTmp 0)]
    next := .Iex_Const .Ity_I64 0x2004 }

/-- The block `t0 = LDle:I64(GET:I64(24)); t1 = GET:I64(16); STle(t0) = t1` at `0x2000`: a
store of the register at offset 16 to an address loaded from memory. -/
def loaded_addr_store_block : IRSB :=
  { tyenv := [.Ity_I64, .Ity_I64]
    stmts := [.Ist_IMark 0x2000 4, .Ist_WrTmp 0 (.Iex_Load .Ity_I64 (.Iex_Get 24 .Ity_I64)),
      .Ist_WrTmp 1 (.Iex_Get 16 .Ity_I64), .Ist_Store (.Iex_RdTmp 0) (.Iex_RdTmp 1)]
    next := .Iex_Const .Ity_I64 0x2004 }

/-- The taint summary of `loaded_addr_store_block`, with `0` in the unset `instr_addr`
fields. -/
def loaded_addr_summary : block_taint_entry_t :=
  { taint_sink_src_data :=
      [(.TAINT_ENTITY_TMP 0 0x2000, [.TAINT_ENTITY_MEM [.TAINT_ENTITY_REG 24 0] 0]),
       (.TAINT_ENTITY_TMP 1 0x2000, [.TAINT_ENTITY_REG 16 0]),
       (.TAINT_ENTITY_MEM [.TAINT_ENTITY_TMP 0 0] 0x2000, [.TAINT_ENTITY_TMP 1 0])]
    exit_stmt_guard_expr_deps := []
    ite_cond_map := [] }

/-- The state in which the loop of `propagate_taints` reaches the store of
`loaded_addr_store_block` from `concrete_run_state`: the temporary 0 waits for the load. -/
def loaded_addr_state : State :=
  { sink_loop_start concrete_run_state 0x2000 loaded_addr_summary with
    mem_reads_taint_dst_map := [(0, ([.TAINT_ENTITY_TMP 0 0x2000], false))] }

/-- The block `t0 = LDle:I64(GET:I64(24)); t2 = CmpNE64(t0, 0); PUT(16) = ITE(t2, 1, 2)` at
`0x2000`: a register write whose `ITE` condition comes from a value loaded from memory. -/
def loaded_cond_block : IRSB :=
  { tyenv := [.Ity_I64, .Ity_I64, .Ity_I1]
    stmts := [.Ist_IMark 0x2000 4, .Ist_WrTmp 0 (.Iex_Load .Ity_I64 (.Iex_Get 24 .Ity_I64)),
      .Ist_WrTmp 2 (.Iex_Binop .Ity_I1 (.Iex_RdTmp 0) (.Iex_Const .Ity_I64 0)),
      .Ist_Put 16 (.Iex_ITE (.Iex_RdTmp 2) (.Iex_Const .Ity_I64 1) (.Iex_Const .Ity_I64 2))]
    next := .Iex_Const .Ity_I64 0x2004 }

/-- The taint summary of `loaded_cond_block`, with `0` in the unset `instr_addr` fields. -/
def loaded_cond_summary : block_taint_entry_t :=
  { taint_sink_src_data :=
      [(.TAINT_ENTITY_TMP 0 0x2000, [.TAINT_ENTITY_MEM [.TAINT_ENTITY_REG 24 0] 0]),
       (.TAINT_ENTITY_TMP 2 0x2000, [.TAINT_ENTITY_TMP 0 0]),
       (.TAINT_ENTITY_REG 16 0x2000, [.TAINT_ENTITY_TMP 2 0])]
    exit_stmt_guard_expr_deps := []
    ite_cond_map := [(0x2000, [.TAINT_ENTITY_TMP 2 0])] }

/-- The state in which the loop of `propagate_taints` reaches the register write of
`loaded_cond_block` from `concrete_run_state`: the temporaries 0 and 2 wait for the load. -/
def loaded_cond_state : State :=
  { sink_loop_start concrete_run_state 0x2000 loaded_cond_summary with
    mem_reads_taint_dst_map :=
      [(0, ([.TAINT_ENTITY_TMP 0 0x2000, .TAINT_ENTITY_TMP 2 0x2000], false))] }

/-! ## Masks and table lookups -/

theorem and_fff (a : Nat) : a &&& 0xFFF = a % 4096 := by
  have := Nat.and_pow_two_sub_one_eq_mod a 12
  simpa using this

theorem page_base_eq (a : Nat) (h : a < 2 ^ 64) : page_base a = a - a % 4096 := by
  unfold page_base
  apply Nat.eq_of_testBit_eq
  intro i
  have hM : (0xFFFFFFFFFFFFF000 : Nat) = 2 ^ 12 * (2 ^ 52 - 1) := by norm_num
  have hA : a - a % 4096 = 2 ^ 12 * (a >>> 12) := by
    rw [Nat.shiftRight_eq_div_pow]
    have := Nat.div_add_mod a 4096
    norm_num at this ⊢
    omega
  rw [Nat.testBit_and, hM, hA, Nat.testBit_mul_pow_two, Nat.testBit_mul_pow_two,
    Nat.testBit_two_pow_sub_one, Nat.testBit_shiftRight]
  by_cases h12 : 12 ≤ i
  · have e : 12 + (i - 12) = i := by omega
    simp only [ge_iff_le, h12, decide_True, Bool.true_and, e]
    by_cases h64 : i < 64
    · have : i - 12 < 52 := by omega
      simp [this]
    · have : a.testBit i = false := by
        apply Nat.testBit_lt_two_pow
        calc a < 2 ^ 64 := h
          _ ≤ 2 ^ i := Nat.pow_le_pow_right (by norm_num) (by omega)
      simp [this]
  · simp [h12]

theorem lookup_bitmap_store (pages : ActivePages) (a : Nat) (bm : PageBitmap) (k : Nat) :
    List.lookup k (bitmap_store pages a bm) =
      if k = page_base a then (List.lookup k pages).map (fun _ => bm) else List.lookup k pages := by
  induction pages with
  | nil => simp [bitmap_store]
  | cons e rest ih =>
    obtain ⟨key, b⟩ := e
    unfold bitmap_store at ih ⊢
    simp only [List.map_cons]
    by_cases hk : key = page_base a
    · subst hk
      simp only [if_true, List.lookup_cons]
      cases hkey : (k == page_base a)
      · have hne : k ≠ page_base a := by simpa using hkey
        simpa [hne] using ih
      · have heq : k = page_base a := by simpa using hkey
        simp [heq]
    · simp only [hk, if_false, List.lookup_cons]
      cases hkey : (k == key)
      · exact ih
      · have heq : k = key := by simpa using hkey
        have hne : k ≠ page_base a := heq ▸ hk
        simp [hne]

theorem page_lookup_bitmap_store (pages : ActivePages) (a : Nat) (bm : PageBitmap) (b : Nat) :
    page_lookup (bitmap_store pages a bm) b =
      if page_base b = page_base a then (page_lookup pages b).map (fun _ => bm)
      else page_lookup pages b := by
  unfold page_lookup
  exact lookup_bitmap_store pages a bm (page_base b)

theorem page_lookup_bitmap_store_isSome (pages : ActivePages) (a : Nat) (bm : PageBitmap)
    (b : Nat) :
    (page_lookup (bitmap_store pages a bm) b).isSome = (page_lookup pages b).isSome := by
  rw [page_lookup_bitmap_store]
  split <;> simp

/-! ## Commit of the block-level sets -/

theorem foldl_insert_mem (l : List Nat) (acc : List Nat) (x : Nat) :
    x ∈ l.foldl (fun a r => a.insert r) acc ↔ x ∈ acc ∨ x ∈ l := by
  induction l generalizing acc with
  | nil => simp
  | cons h t ih =>
    simp only [List.foldl_cons, ih, List.mem_insert_iff, List.mem_cons]
    tauto

theorem foldl_filter_mem (l : List Nat) (acc : List Nat) (x : Nat) :
    x ∈ l.foldl (fun a r => a.filter (fun y => y ≠ r)) acc ↔ x ∈ acc ∧ x ∉ l := by
  induction l generalizing acc with
  | nil => simp
  | cons h t ih =>
    simp only [List.foldl_cons, ih, List.mem_filter, List.mem_cons, decide_eq_true_eq]
    tauto

theorem foldl_mark_register_symbolic (l : List Nat) (s : State) :
    l.foldl (fun st r => mark_register_symbolic st r false) s =
      { s with symbolic_registers := l.foldl (fun a r => a.insert r) s.symbolic_registers } := by
  induction l generalizing s with
  | nil => rfl
  | cons h t ih =>
    rw [List.foldl_cons, ih]
    rfl

theorem foldl_mark_register_concrete (l : List Nat) (s : State) :
    l.foldl (fun st r => mark_register_concrete st r false) s =
      { s with symbolic_registers :=
          l.foldl (fun a r => a.filter (fun y => y ≠ r)) s.symbolic_registers } := by
  induction l generalizing s with
  | nil => rfl
  | cons h t ih =>
    rw [List.foldl_cons, ih]
    rfl

theorem foldl_mark_temp_symbolic (l : List Nat) (s : State) :
    l.foldl (fun st t => mark_temp_symbolic st t false) s =
      { s with symbolic_temps := l.foldl (fun a r => a.insert r) s.symbolic_temps } := by
  induction l generalizing s with
  | nil => rfl
  | cons h t ih =>
    rw [List.foldl_cons, ih]
    rfl

theorem commit_lazy_isSome (log : List mem_access_t) (pages : ActivePages)
    (h : ∀ r ∈ log, r.clean = int_minus_one → (page_lookup pages r.address).isSome) :
    ∃ pages1, commit_lazy pages log = some pages1 := by
  induction log generalizing pages with
  | nil => exact ⟨pages, rfl⟩
  | cons r rest ih =>
    unfold commit_lazy
    by_cases hc : r.clean = int_minus_one
    · have hr := h r (List.mem_cons_self _ _) hc
      obtain ⟨bm, hbm⟩ := Option.isSome_iff_exists.mp hr
      simp only [hc, if_true, hbm]
      apply ih
      intro r1 hr1 hc1
      rw [page_lookup_bitmap_store_isSome]
      exact h r1 (List.mem_cons_of_mem _ hr1) hc1
    · simp only [hc, if_false]
      exact ih pages (fun r1 hr1 hc1 => h r1 (List.mem_cons_of_mem _ hr1) hc1)

/-- The block-level part of `commit`, once its first loop has completed. -/
theorem commit_sets (s : State)
    (h : ∀ r ∈ s.mem_writes, r.clean = int_minus_one →
      (page_lookup s.active_pages r.address).isSome) :
    ∃ s1, commit s = some s1 ∧
      (∀ r, r ∈ s1.symbolic_registers ↔
        (r ∈ s.symbolic_registers ∨ r ∈ s.block_symbolic_registers) ∧
          r ∉ s.block_concrete_registers) ∧
      (∀ t, t ∈ s1.symbolic_temps ↔ t ∈ s.symbolic_temps ∨ t ∈ s.block_symbolic_temps) ∧
      s1.block_symbolic_registers = [] ∧ s1.block_concrete_registers = [] ∧
      s1.block_symbolic_temps = [] := by
  obtain ⟨pages1, hp⟩ := commit_lazy_isSome s.mem_writes s.active_pages h
  unfold commit
  simp only [hp, foldl_mark_register_symbolic, foldl_mark_register_concrete,
    foldl_mark_temp_symbolic]
  refine ⟨_, rfl, ?_, ?_, rfl, rfl, rfl⟩
  · intro r
    simp only [foldl_filter_mem, foldl_insert_mem]
  · intro t
    simp only [foldl_insert_mem]

/-! ## The write hook and the rollback of one record -/

theorem range_mapped_iff (uc : uc_engine) (a n : Nat) :
    range_mapped uc a n = true ↔ a + n ≤ 2 ^ 64 ∧ ∀ k, k < n → uc.mapped (a + k) = true := by
  simp [range_mapped, List.all_eq_true]

theorem range_mapped_congr (uc uc1 : uc_engine) (h : uc1.mapped = uc.mapped) (a n : Nat) :
    range_mapped uc1 a n = range_mapped uc a n := by
  simp [range_mapped, h]

theorem range_mapped_sub (uc : uc_engine) (a n b m : Nat) (h : range_mapped uc a n = true)
    (h1 : a ≤ b) (h2 : b + m ≤ a + n) : range_mapped uc b m = true := by
  rw [range_mapped_iff] at h ⊢
  refine ⟨by omega, ?_⟩
  intro k hk
  have := h.2 (b - a + k) (by omega)
  have e : a + (b - a + k) = b + k := by omega
  rwa [e] at this

theorem store_bytes_read (m1 m0 : Nat → Nat) (a n x : Nat) :
    store_bytes m1 a (read_bytes m0 a n) n x = if a ≤ x ∧ x < a + n then m0 x else m1 x := by
  unfold store_bytes read_bytes
  by_cases h : a ≤ x ∧ x < a + n
  · have hlt : x - a < n := by omega
    have e : a + (x - a) = x := by omega
    simp [h, List.getD_eq_getElem?_getD, List.getElem?_map, List.getElem?_range, hlt, e]
  · simp [h]

theorem testBit_int_minus_one (p : Nat) (hp : p < 32) : int_minus_one.testBit p = true := by
  have : int_minus_one = 2 ^ 32 - 1 := by norm_num [int_minus_one]
  rw [this, Nat.testBit_two_pow_sub_one]
  simpa using hp

theorem foldl_mask_testBit (f : PageBitmap × Nat → Nat → PageBitmap × Nat)
    (hf : ∀ acc i, (f acc i).2 = acc.2 ∨ (f acc i).2 = acc.2 ||| shl_one i)
    (L : List Nat) (p : Nat) (hp : ∀ i ∈ L, i % 32 ≠ p) (acc : PageBitmap × Nat) :
    ((L.foldl f acc).2).testBit p = acc.2.testBit p := by
  induction L generalizing acc with
  | nil => rfl
  | cons i rest ih =>
    rw [List.foldl_cons, ih (fun j hj => hp j (List.mem_cons_of_mem _ hj))]
    rcases hf acc i with h | h
    · rw [h]
    · have hi := hp i (List.mem_cons_self _ _)
      rw [h, Nat.testBit_or, shl_one, Nat.testBit_two_pow]
      simp [hi]

theorem mem_loop_range (lo hi i : Nat) : i ∈ loop_range lo hi ↔ lo ≤ i ∧ i ≤ hi := by
  unfold loop_range
  rw [List.mem_range'_1]
  omega

theorem foldl_mask_ne_minus_one (f : PageBitmap × Nat → Nat → PageBitmap × Nat)
    (hf : ∀ acc i, (f acc i).2 = acc.2 ∨ (f acc i).2 = acc.2 ||| shl_one i)
    (lo hi : Nat) (h : hi < lo + 8) (bm : PageBitmap) :
    ((loop_range lo hi).foldl f (bm, 0)).2 ≠ int_minus_one := by
  intro hc
  have h1 := foldl_mask_testBit f hf (loop_range lo hi) ((lo + 31) % 32) (by
    intro i hi1
    rw [mem_loop_range] at hi1
    omega) (bm, 0)
  rw [hc, testBit_int_minus_one _ (Nat.mod_lt _ (by norm_num))] at h1
  simp at h1

theorem mark_byte_mask (b : Bool) (acc : PageBitmap × Nat) (i : Nat) :
    (mark_byte b acc i).2 = acc.2 ∨ (mark_byte b acc i).2 = acc.2 ||| shl_one i := by
  unfold mark_byte
  split
  · exact Or.inl rfl
  · split
    · exact Or.inr rfl
    · exact Or.inl rfl

theorem mark_byte_cross_mask (b : Bool) (acc : PageBitmap × Nat) (i : Nat) :
    (mark_byte_cross b acc i).2 = acc.2 ∨ (mark_byte_cross b acc i).2 = acc.2 ||| shl_one i := by
  unfold mark_byte_cross
  split
  · exact Or.inl rfl
  · split
    · exact Or.inr rfl
    · exact Or.inl rfl

theorem bitmap_tag_bitmap_store (pages : ActivePages) (a : Nat) (bm : PageBitmap) (P j : Nat) :
    bitmap_tag (bitmap_store pages a bm) P j =
      if P = page_base a then (bitmap_tag pages P j).map (fun _ => bm j)
      else bitmap_tag pages P j := by
  unfold bitmap_tag
  rw [lookup_bitmap_store]
  split
  · cases List.lookup P pages <;> rfl
  · rfl

theorem lookup_isSome_bitmap_store (pages : ActivePages) (a : Nat) (bm : PageBitmap) (k : Nat) :
    (List.lookup k (bitmap_store pages a bm)).isSome = (List.lookup k pages).isSome := by
  rw [lookup_bitmap_store]
  split <;> simp

theorem shift_and_one_iff (c i : Nat) : ((c >>> i) &&& 1 = 1) ↔ c.testBit i = true := by
  rw [Nat.and_one_is_mod, Nat.shiftRight_eq_div_pow, Nat.testBit_to_div_mod]
  simp

theorem untaint_bits_apply (bm : PageBitmap) (start size clean j : Nat) :
    untaint_bits bm start size clean j =
      if start ≤ j ∧ j < start + size ∧ clean.testBit (j - start) = true then .TAINT_NONE
      else bm j := by
  unfold untaint_bits
  induction size with
  | zero =>
    simp only [List.range_zero, List.foldl_nil]
    rw [if_neg]
    omega
  | succ n ih =>
    rw [List.range_succ, List.foldl_append, List.foldl_cons, List.foldl_nil]
    by_cases hb : (clean >>> n) &&& 1 = 1
    · have hb1 := (shift_and_one_iff clean n).mp hb
      simp only [hb, if_true, set_taint]
      by_cases hj : j = start + n
      · subst hj
        simp [hb1]
      · rw [if_neg hj, ih]
        by_cases h1 : start ≤ j ∧ j < start + n ∧ clean.testBit (j - start) = true
        · rw [if_pos h1, if_pos ⟨h1.1, by omega, h1.2.2⟩]
        · rw [if_neg h1, if_neg]
          rintro ⟨h2, h3, h4⟩
          exact h1 ⟨h2, by omega, h4⟩
    · have hb1 : ¬ clean.testBit n = true := fun h => hb ((shift_and_one_iff clean n).mpr h)
      simp only [hb, if_false]
      rw [ih]
      by_cases h1 : start ≤ j ∧ j < start + n ∧ clean.testBit (j - start) = true
      · rw [if_pos h1, if_pos ⟨h1.1, by omega, h1.2.2⟩]
      · rw [if_neg h1, if_neg]
        rintro ⟨h2, h3, h4⟩
        by_cases hj : j = start + n
        · subst hj
          have e : start + n - start = n := by omega
          rw [e] at h4
          exact hb1 h4
        · exact h1 ⟨h2, by omega, h4⟩

/-- Rollback of one record whose mask is not `-1`. -/
theorem rollback_loop_cons (uc : uc_engine) (pages : ActivePages) (r : mem_access_t)
    (rest : List mem_access_t) (hc : r.clean ≠ int_minus_one)
    (hm : range_mapped uc r.address r.size = true)
    (hp : (page_lookup pages r.address).isSome = true) :
    ∃ pages1, rollback_loop uc pages (r :: rest) =
        rollback_loop { uc with mem := store_bytes uc.mem r.address r.value r.size } pages1 rest ∧
      (∀ P j, bitmap_tag pages1 P j =
        if P = page_base r.address ∧ (r.address &&& 0xFFF) ≤ j ∧
            j < (r.address &&& 0xFFF) + r.size ∧
            r.clean.testBit (j - (r.address &&& 0xFFF)) = true
        then (bitmap_tag pages P j).map (fun _ => taint_t.TAINT_NONE)
        else bitmap_tag pages P j) ∧
      ∀ k, (List.lookup k pages1).isSome = (List.lookup k pages).isSome := by
  obtain ⟨bm, hbm⟩ := Option.isSome_iff_exists.mp hp
  rw [rollback_loop]
  simp only [hc, if_false, uc_mem_write, hm, if_true]
  by_cases h0 : r.clean = 0
  · refine ⟨pages, ?_, ?_, fun _ => rfl⟩
    · simp [h0]
    · intro P j
      simp [h0]
  · refine ⟨bitmap_store pages r.address
        (untaint_bits bm (r.address &&& 0xFFF) r.size r.clean), ?_, ?_,
        fun k => lookup_isSome_bitmap_store _ _ _ k⟩
    · simp only [ne_eq, h0, not_false_eq_true, if_true, hbm]
    · intro P j
      rw [bitmap_tag_bitmap_store, untaint_bits_apply]
      by_cases hP : P = page_base r.address
      · subst hP
        have hl : List.lookup (page_base r.address) pages = some bm := hbm
        simp only [bitmap_tag, hl, Option.map_some', true_and, if_true]
        by_cases hcond : (r.address &&& 0xFFF) ≤ j ∧ j < (r.address &&& 0xFFF) + r.size ∧
            r.clean.testBit (j - (r.address &&& 0xFFF)) = true
        · rw [if_pos hcond, if_pos hcond]
        · rw [if_neg hcond, if_neg hcond]
      · simp [hP]

theorem log_write_ok (s : State) (a n c : Nat)
    (h : c ≠ int_minus_one → range_mapped s.uc a n = true) :
    log_write s a n c = some ({ s with mem_writes := s.mem_writes ++
      [{ address := a
         value := if c = int_minus_one then List.replicate 8 0 else read_bytes s.uc.mem a n
         size := n
         clean := c }] }, true) := by
  unfold log_write
  by_cases hc : c = int_minus_one
  · simp [hc]
  · simp [hc, uc_mem_read, h hc]

/-- A write inside one page, on an active page: the state that `handle_write` returns. -/
theorem handle_write_single (s : State) (a n : Nat) (b : Bool) (bm : PageBitmap)
    (hn1 : 1 ≤ n) (hn8 : n ≤ 8)
    (hentry : s.mem_writes_taint_map.lookup s.uc.pc = some b)
    (hmap : range_mapped s.uc a n = true)
    (hsingle : a % 4096 + n ≤ 4096)
    (hbm : page_lookup s.active_pages a = some bm) :
    handle_write s a n = some { s with
      active_pages := bitmap_store s.active_pages a
        ((loop_range (a % 4096) ((a + n - 1) % 4096)).foldl (mark_byte b) (bm, 0)).1
      mem_writes := s.mem_writes ++
        [{ address := a
           value := read_bytes s.uc.mem a n
           size := n
           clean := ((loop_range (a % 4096) ((a + n - 1) % 4096)).foldl (mark_byte b) (bm, 0)).2 }] } := by
  have hle := ((range_mapped_iff _ _ _).mp hmap).1
  have hlast : (a + n + (2 ^ 64 - 1)) % 2 ^ 64 = a + n - 1 := by omega
  have hend : (a + n - 1) % 4096 ≥ a % 4096 := by omega
  have hc := foldl_mask_ne_minus_one (mark_byte b) (mark_byte_mask b) (a % 4096)
    ((a + n - 1) % 4096) (by omega) bm
  unfold handle_write
  simp only [get_instruction_pointer, hentry, and_fff, hlast, hend, if_true, hbm]
  rw [log_write_ok]
  · simp [hc]
  · exact fun _ => hmap

theorem page_lookup_isSome_of_keys (p q : ActivePages)
    (h : ∀ k, (List.lookup k p).isSome = (List.lookup k q).isSome) (a : Nat) :
    (page_lookup p a).isSome = (page_lookup q a).isSome := h (page_base a)

/-- The records that `handle_write` appends for a write of size 1..8 whose instruction has
an entry and whose range the emulator can read. -/
theorem handle_write_log (s : State) (a n : Nat) (b : Bool)
    (hn1 : 1 ≤ n) (hn8 : n ≤ 8)
    (hentry : s.mem_writes_taint_map.lookup s.uc.pc = some b)
    (hmap : range_mapped s.uc a n = true) :
    ∃ s1 L, handle_write s a n = some s1 ∧ s1.uc = s.uc ∧
      s1.mem_writes_taint_map = s.mem_writes_taint_map ∧
      (∀ k, (s1.active_pages.lookup k).isSome = (s.active_pages.lookup k).isSome) ∧
      s1.mem_writes = s.mem_writes ++ L ∧
      ((a % 4096 + n ≤ 4096 ∧ ∃ v c, L = [⟨a, v, n, c⟩] ∧
          ((page_lookup s.active_pages a).isSome = true →
            c ≠ int_minus_one ∧ v = read_bytes s.uc.mem a n)) ∨
       (4096 < a % 4096 + n ∧ ∃ v1 c1 v2 c2,
          L = [⟨a, v1, 4096 - a % 4096, c1⟩,
               ⟨a - a % 4096 + 4096, v2, (a + n - 1) % 4096 + 1, c2⟩] ∧
          ((page_lookup s.active_pages a).isSome = true →
            c1 ≠ int_minus_one ∧ v1 = read_bytes s.uc.mem a (4096 - a % 4096)) ∧
          ((page_lookup s.active_pages (a + n - 1)).isSome = true →
            c2 ≠ int_minus_one ∧
              v2 = read_bytes s.uc.mem (a - a % 4096 + 4096) ((a + n - 1) % 4096 + 1)))) := by
  have hle := ((range_mapped_iff _ _ _).mp hmap).1
  have hlast : (a + n + (2 ^ 64 - 1)) % 2 ^ 64 = a + n - 1 := by omega
  by_cases hsingle : a % 4096 + n ≤ 4096
  · -- the write lies inside one page
    have hend : (a + n - 1) % 4096 ≥ a % 4096 := by omega
    cases hbm : page_lookup s.active_pages a with
    | some bm =>
      refine ⟨_, _, handle_write_single s a n b bm hn1 hn8 hentry hmap hsingle hbm, rfl, rfl,
        ?_, rfl, Or.inl ⟨hsingle, _, _, rfl, ?_⟩⟩
      · intro k
        exact lookup_isSome_bitmap_store _ _ _ _
      · intro _
        exact ⟨foldl_mask_ne_minus_one (mark_byte b) (mark_byte_mask b) _ _ (by omega) bm, rfl⟩
    | none =>
      refine ⟨{ s with mem_writes := s.mem_writes ++
          [⟨a, List.replicate 8 0, n, int_minus_one⟩] }, _, ?_, rfl, rfl, fun _ => rfl, rfl,
        Or.inl ⟨hsingle, _, _, rfl, ?_⟩⟩
      · unfold handle_write
        simp only [get_instruction_pointer, hentry, and_fff, hlast, hend, if_true, hbm]
        rw [log_write_ok]
        · simp
        · intro h; exact absurd rfl h
      · intro h; simp at h
  · -- the write crosses a page boundary
    have hend : ¬ ((a + n - 1) % 4096 ≥ a % 4096) := by omega
    have hsecond : (a - a % 4096 + 4096) % 2 ^ 64 = a - a % 4096 + 4096 := by omega
    have hm1 : range_mapped s.uc a (4096 - a % 4096) = true :=
      range_mapped_sub _ _ _ _ _ hmap (le_refl _) (by omega)
    have hm2 : range_mapped s.uc (a - a % 4096 + 4096) ((a + n - 1) % 4096 + 1) = true :=
      range_mapped_sub _ _ _ _ _ hmap (by omega) (by omega)
    unfold handle_write
    simp only [get_instruction_pointer, hentry, and_fff, hlast, hend, if_false, hsecond]
    have hmask1 : ∀ bm : PageBitmap,
        ((loop_range (a % 4096) 4095).foldl (mark_byte_cross b) (bm, 0)).2 ≠ int_minus_one :=
      fun bm => foldl_mask_ne_minus_one (mark_byte_cross b) (mark_byte_cross_mask b) _ _
        (by omega) bm
    have hmask2 : ∀ bm : PageBitmap,
        ((loop_range 0 ((a + n - 1) % 4096)).foldl (mark_byte_cross b) (bm, 0)).2 ≠
          int_minus_one :=
      fun bm => foldl_mask_ne_minus_one (mark_byte_cross b) (mark_byte_cross_mask b) _ _
        (by omega) bm
    cases hbm : page_lookup s.active_pages a with
    | some bm =>
      simp only []
      rw [log_write_ok]
      · simp only [hmask1 bm, if_false]
        cases hbm2 : page_lookup (bitmap_store s.active_pages a
            ((loop_range (a % 4096) 4095).foldl (mark_byte_cross b) (bm, 0)).1) (a + n - 1) with
        | some bm2 =>
          simp only []
          rw [log_write_ok]
          · simp only [hmask2 bm2, if_false, Option.map_some']
            refine ⟨_, _, rfl, rfl, rfl, ?_, ?_, Or.inr ⟨by omega, _, _, _, _, rfl,
              fun _ => ⟨hmask1 bm, rfl⟩, fun _ => ⟨hmask2 bm2, rfl⟩⟩⟩
            · intro k
              simp only [lookup_isSome_bitmap_store]
            · simp only [List.append_assoc, List.singleton_append]
          · exact fun _ => hm2
        | none =>
          simp only []
          rw [log_write_ok]
          · simp only [if_true, Option.map_some']
            refine ⟨_, _, rfl, rfl, rfl, ?_, ?_, Or.inr ⟨by omega, _, _, List.replicate 8 0,
              int_minus_one, rfl, fun _ => ⟨hmask1 bm, rfl⟩, ?_⟩⟩
            · intro k
              simp only [lookup_isSome_bitmap_store]
            · simp only [List.append_assoc, List.singleton_append]
            · intro h
              rw [← page_lookup_isSome_of_keys _ _
                (fun k => lookup_isSome_bitmap_store s.active_pages a _ k), hbm2] at h
              simp at h
          · intro h; exact absurd rfl h
      · exact fun _ => hm1
    | none =>
      simp only []
      rw [log_write_ok]
      · simp only [if_true]
        cases hbm2 : page_lookup s.active_pages (a + n - 1) with
        | some bm2 =>
          simp only []
          rw [log_write_ok]
          · simp only [hmask2 bm2, if_false, Option.map_some']
            refine ⟨_, _, rfl, rfl, rfl, ?_, ?_, Or.inr ⟨by omega, List.replicate 8 0,
              int_minus_one, _, _, rfl, ?_, fun _ => ⟨hmask2 bm2, rfl⟩⟩⟩
            · intro k
              simp only [lookup_isSome_bitmap_store]
            · simp only [List.append_assoc, List.singleton_append]
            · intro h; simp at h
          · exact fun _ => hm2
        | none =>
          simp only []
          rw [log_write_ok]
          · simp only [if_true, Option.map_some']
            refine ⟨_, _, rfl, rfl, rfl, fun _ => rfl, ?_, Or.inr ⟨by omega, List.replicate 8 0,
              int_minus_one, List.replicate 8 0, int_minus_one, rfl, ?_, ?_⟩⟩
            · simp only [List.append_assoc, List.singleton_append]
            · intro h; simp at h
            · intro h; simp at h
          · intro h; exact absurd rfl h
      · intro h; exact absurd rfl h

/-! ## Rolling back the records of a sequence of stores -/

theorem page_base_cross (a n : Nat) (hn1 : 1 ≤ n) (hn8 : n ≤ 8) (hle : a + n ≤ 2 ^ 64)
    (hcross : 4096 < a % 4096 + n) :
    page_base (a - a % 4096 + 4096) = page_base (a + n - 1) := by
  rw [page_base_eq _ (by omega), page_base_eq _ (by omega)]
  omega

/-- One store: the write hook logs it, and rolling its records back restores memory. -/
theorem emu_store_undo (s : State) (w : mem_write_event) (hw : write_ok s w) :
    ∃ sa La, emu_store s w = some sa ∧ sa.mem_writes = s.mem_writes ++ La ∧ same_env s sa ∧
      ∀ (uc : uc_engine) (pages : ActivePages) (rest : List mem_access_t),
        uc.mem = sa.uc.mem → uc.mapped = s.uc.mapped →
        (∀ k, (pages.lookup k).isSome = (s.active_pages.lookup k).isSome) →
        ∃ uc1 pages1,
          rollback_loop uc pages (La.reverse ++ rest) = rollback_loop uc1 pages1 rest ∧
          uc1.mem = s.uc.mem ∧ uc1.mapped = s.uc.mapped ∧
          (∀ k, (pages1.lookup k).isSome = (s.active_pages.lookup k).isSome) := by
  obtain ⟨hn1, hn8, hentry, hmap, hp1, hp2⟩ := hw
  obtain ⟨b, hb⟩ := Option.isSome_iff_exists.mp hentry
  have hle := ((range_mapped_iff _ _ _).mp hmap).1
  obtain ⟨s1, L, hhw, huc, htm, hkeys, hlog, hL⟩ :=
    handle_write_log { s with uc := { s.uc with pc := w.ip } } w.address w.size b hn1 hn8 hb hmap
  have hmem1 : s1.uc.mem = s.uc.mem := by rw [huc]
  have hmapped1 : s1.uc.mapped = s.uc.mapped := by rw [huc]
  have htm1 : s1.mem_writes_taint_map = s.mem_writes_taint_map := htm
  have hkeys1 : ∀ k, (s1.active_pages.lookup k).isSome = (s.active_pages.lookup k).isSome :=
    hkeys
  have hlog1 : s1.mem_writes = s.mem_writes ++ L := hlog
  have hmap1 : range_mapped s1.uc w.address w.size = true := by
    rw [range_mapped_congr s.uc s1.uc hmapped1]; exact hmap
  refine ⟨{ s1 with uc := { s1.uc with mem := store_bytes s1.uc.mem w.address w.data w.size } },
    L, ?_, hlog1, ⟨htm1, hmapped1, hkeys1⟩, ?_⟩
  · unfold emu_store
    simp only [hhw, uc_mem_write, hmap1, if_true]
  · intro uc pages rest hmem hmapped hpk
    simp only [hmem1] at hmem
    have hrm : ∀ a n, range_mapped uc a n = range_mapped s.uc a n :=
      fun a n => range_mapped_congr s.uc uc hmapped a n
    have hpl : ∀ a, (page_lookup pages a).isSome = (page_lookup s.active_pages a).isSome :=
      fun a => page_lookup_isSome_of_keys _ _ hpk a
    rcases hL with ⟨hsingle, v, c, hLeq, hfacts⟩ | ⟨hcross, v1, c1, v2, c2, hLeq, hf1, hf2⟩
    · obtain ⟨hc, hv⟩ := hfacts hp1
      subst hLeq
      obtain ⟨pages1, hroll, _, hk1⟩ := rollback_loop_cons uc pages
        ⟨w.address, v, w.size, c⟩ rest hc (by rw [hrm]; exact hmap) (by rw [hpl]; exact hp1)
      refine ⟨_, pages1, hroll, ?_, hmapped, fun k => (hk1 k).trans (hpk k)⟩
      funext x
      have hv1 : v = read_bytes s.uc.mem w.address w.size := hv
      show store_bytes uc.mem w.address v w.size x = _
      rw [hv1, store_bytes_read, hmem]
      unfold store_bytes
      by_cases hx : w.address ≤ x ∧ x < w.address + w.size
      · simp [hx]
      · simp [hx]
    · have hcross1 : 4096 < w.address % 4096 + w.size := hcross
      obtain ⟨hc1, hv1⟩ := hf1 hp1
      obtain ⟨hc2, hv2⟩ := hf2 hp2
      have hv1a : v1 = read_bytes s.uc.mem w.address (4096 - w.address % 4096) := hv1
      have hv2a : v2 = read_bytes s.uc.mem (w.address - w.address % 4096 + 4096)
          ((w.address + w.size - 1) % 4096 + 1) := hv2
      subst hLeq
      have hm1 : range_mapped s.uc w.address (4096 - w.address % 4096) = true :=
        range_mapped_sub _ _ _ _ _ hmap (le_refl _) (by omega)
      have hm2 : range_mapped s.uc (w.address - w.address % 4096 + 4096)
          ((w.address + w.size - 1) % 4096 + 1) = true :=
        range_mapped_sub _ _ _ _ _ hmap (by omega) (by omega)
      have hp2a : (page_lookup s.active_pages (w.address - w.address % 4096 + 4096)).isSome
          = true := by
        unfold page_lookup at hp2 ⊢
        rw [page_base_cross _ _ hn1 hn8 hle hcross1]
        exact hp2
      obtain ⟨pagesA, hrollA, _, hkA⟩ := rollback_loop_cons uc pages
        ⟨w.address - w.address % 4096 + 4096, v2, (w.address + w.size - 1) % 4096 + 1, c2⟩
        (⟨w.address, v1, 4096 - w.address % 4096, c1⟩ :: rest) hc2
        (by rw [hrm]; exact hm2) (by rw [hpl]; exact hp2a)
      obtain ⟨pagesB, hrollB, _, hkB⟩ := rollback_loop_cons
        { uc with mem := (store_bytes uc.mem (w.address - w.address % 4096 + 4096) v2
            ((w.address + w.size - 1) % 4096 + 1)) } pagesA
        ⟨w.address, v1, 4096 - w.address % 4096, c1⟩ rest hc1
        (by
          have h := hm1
          rw [range_mapped_iff] at h ⊢
          refine ⟨h.1, fun k hk => ?_⟩
          show uc.mapped _ = true
          rw [hmapped]
          exact h.2 k hk)
        (by rw [page_lookup_isSome_of_keys _ _ (fun k => (hkA k).trans (hpk k))]; exact hp1)
      refine ⟨_, pagesB, hrollA.trans hrollB, ?_, hmapped,
        fun k => ((hkB k).trans (hkA k)).trans (hpk k)⟩
      · funext x
        show store_bytes (store_bytes uc.mem (w.address - w.address % 4096 + 4096) v2
          ((w.address + w.size - 1) % 4096 + 1)) w.address v1 (4096 - w.address % 4096) x = _
        rw [hv1a, store_bytes_read, hv2a, store_bytes_read, hmem]
        unfold store_bytes
        by_cases hx : w.address ≤ x ∧ x < w.address + w.size
        · by_cases hx1 : w.address ≤ x ∧ x < w.address + (4096 - w.address % 4096)
          · simp [hx1]
          · have hx2 : w.address - w.address % 4096 + 4096 ≤ x ∧
                x < w.address - w.address % 4096 + 4096 + ((w.address + w.size - 1) % 4096 + 1) := by
              omega
            simp [hx1, hx2]
        · have hx1 : ¬ (w.address ≤ x ∧ x < w.address + (4096 - w.address % 4096)) := by omega
          have hx2 : ¬ (w.address - w.address % 4096 + 4096 ≤ x ∧
                x < w.address - w.address % 4096 + 4096 + ((w.address + w.size - 1) % 4096 + 1)) := by
              omega
          simp [hx, hx1, hx2]

theorem write_ok_of_same_env (s s1 : State) (h : same_env s s1) (w : mem_write_event)
    (hw : write_ok s w) : write_ok s1 w := by
  obtain ⟨htm, hmapped, hkeys⟩ := h
  obtain ⟨h1, h2, h3, h4, h5, h6⟩ := hw
  refine ⟨h1, h2, ?_, ?_, ?_, ?_⟩
  · rw [htm]; exact h3
  · rw [range_mapped_congr s.uc s1.uc hmapped]; exact h4
  · rw [page_lookup_isSome_of_keys _ _ hkeys]; exact h5
  · rw [page_lookup_isSome_of_keys _ _ hkeys]; exact h6

theorem same_env_trans (s s1 s2 : State) (h1 : same_env s s1) (h2 : same_env s1 s2) :
    same_env s s2 :=
  ⟨h2.1.trans h1.1, h2.2.1.trans h1.2.1, fun k => (h2.2.2 k).trans (h1.2.2 k)⟩

/-- A sequence of stores: the write hook logs them, and rolling the new records back
restores memory. -/
theorem emu_stores_undo (ws : List mem_write_event) :
    ∀ s : State, (∀ w ∈ ws, write_ok s w) →
    ∃ s1 L, emu_stores s ws = some s1 ∧ s1.mem_writes = s.mem_writes ++ L ∧ same_env s s1 ∧
      ∀ (uc : uc_engine) (pages : ActivePages) (rest : List mem_access_t),
        uc.mem = s1.uc.mem → uc.mapped = s.uc.mapped →
        (∀ k, (pages.lookup k).isSome = (s.active_pages.lookup k).isSome) →
        ∃ uc1 pages1,
          rollback_loop uc pages (L.reverse ++ rest) = rollback_loop uc1 pages1 rest ∧
          uc1.mem = s.uc.mem ∧ uc1.mapped = s.uc.mapped ∧
          (∀ k, (pages1.lookup k).isSome = (s.active_pages.lookup k).isSome) := by
  induction ws with
  | nil =>
    intro s _
    refine ⟨s, [], rfl, by simp, ⟨rfl, rfl, fun _ => rfl⟩, ?_⟩
    intro uc pages rest hmem hmapped hk
    exact ⟨uc, pages, rfl, hmem, hmapped, hk⟩
  | cons w ws ih =>
    intro s hws
    obtain ⟨sa, La, hstore, hlogA, henvA, hundoA⟩ :=
      emu_store_undo s w (hws w (List.mem_cons_self _ _))
    obtain ⟨s1, L, hstores, hlogB, henvB, hundoB⟩ := ih sa (fun w1 hw1 =>
      write_ok_of_same_env s sa henvA w1 (hws w1 (List.mem_cons_of_mem _ hw1)))
    refine ⟨s1, La ++ L, ?_, ?_, same_env_trans s sa s1 henvA henvB, ?_⟩
    · simp only [emu_stores, hstore, Option.some_bind, hstores]
    · rw [hlogB, hlogA, List.append_assoc]
    · intro uc pages rest hmem hmapped hk
      obtain ⟨ucB, pagesB, hrollB, hmemB, hmappedB, hkB⟩ :=
        hundoB uc pages (La.reverse ++ rest) hmem (hmapped.trans henvA.2.1.symm)
          (fun k => (hk k).trans (henvA.2.2 k).symm)
      obtain ⟨ucA, pagesA, hrollA, hmemA, hmappedA, hkA⟩ :=
        hundoA ucB pagesB rest hmemB (hmappedB.trans henvA.2.1)
          (fun k => (hkB k).trans (henvA.2.2 k))
      refine ⟨ucA, pagesA, ?_, hmemA, hmappedA, hkA⟩
      rw [List.reverse_append, List.append_assoc, hrollB, hrollA]

/-! ## Concrete stores at page-aligned addresses -/

theorem loop_range_zero (n : Nat) (hn : 1 ≤ n) : loop_range 0 (n - 1) = List.range n := by
  unfold loop_range
  rw [List.range_eq_range']
  congr 1
  omega

/-- The byte loop of a concrete write over the offsets `0 .. n - 1`. -/
theorem mark_byte_concrete_fold (bm : PageBitmap) (n : Nat) (hn : n ≤ 32) :
    (∀ j, ((List.range n).foldl (mark_byte false) (bm, 0)).1 j =
        if j < n then taint_t.TAINT_DIRTY else bm j) ∧
    (∀ p, ((List.range n).foldl (mark_byte false) (bm, 0)).2.testBit p =
        (decide (p < n) && decide (bm p ≠ taint_t.TAINT_DIRTY))) := by
  induction n with
  | zero =>
    refine ⟨fun j => by simp, fun p => by simp⟩
  | succ n ih =>
    obtain ⟨ih1, ih2⟩ := ih (by omega)
    rw [List.range_succ, List.foldl_append, List.foldl_cons, List.foldl_nil]
    have hbn : ((List.range n).foldl (mark_byte false) (bm, 0)).1 n = bm n := by
      rw [ih1]; simp
    generalize (List.range n).foldl (mark_byte false) (bm, 0) = r at ih1 ih2 hbn ⊢
    unfold mark_byte
    simp only [Bool.false_eq_true, if_false, hbn]
    by_cases hd : bm n = taint_t.TAINT_DIRTY
    · simp only [hd, ne_eq, not_true_eq_false, if_false]
      constructor
      · intro j
        rw [ih1]
        by_cases hj : j < n
        · simp [hj, Nat.lt_succ_of_lt hj]
        · by_cases hjn : j = n
          · subst hjn; simp [hd]
          · have : ¬ j < n + 1 := by omega
            simp [hj, this]
      · intro p
        rw [ih2]
        by_cases hp : p < n
        · simp [hp, Nat.lt_succ_of_lt hp]
        · by_cases hpn : p = n
          · subst hpn; simp [hd]
          · have : ¬ p < n + 1 := by omega
            simp [hp, this]
    · simp only [ne_eq, hd, not_false_eq_true, if_true]
      constructor
      · intro j
        simp only [set_taint]
        by_cases hjn : j = n
        · subst hjn; simp
        · rw [if_neg hjn, ih1]
          by_cases hj : j < n
          · simp [hj, Nat.lt_succ_of_lt hj]
          · have : ¬ j < n + 1 := by omega
            simp [hj, this]
      · intro p
        have hmod : n % 32 = n := Nat.mod_eq_of_lt (by omega)
        rw [Nat.testBit_or, ih2, shl_one, hmod, Nat.testBit_two_pow]
        by_cases hpn : p = n
        · subst hpn; simp [hd]
        · have hne : ¬ n = p := fun h => hpn h.symm
          by_cases hp : p < n
          · simp [hp, Nat.lt_succ_of_lt hp, hne]
          · have : ¬ p < n + 1 := by omega
            simp [hp, this, hne]

theorem bitmap_tag_isSome (pages : ActivePages) (P j : Nat) :
    (bitmap_tag pages P j).isSome = (List.lookup P pages).isSome := by
  unfold bitmap_tag
  cases List.lookup P pages <;> rfl

/-- One concrete store at a page-aligned address: its effect on the bitmaps, and the
rollback of its record. -/
theorem emu_store_undo_taint (s : State) (w : mem_write_event) (hw : write_ok s w)
    (halign : w.address % 4096 = 0)
    (hconc : s.mem_writes_taint_map.lookup w.ip = some false)
    (hns : ∀ j, j < w.size →
      bitmap_tag s.active_pages (page_base w.address) j ≠ some taint_t.TAINT_SYMBOLIC) :
    ∃ sa La, emu_store s w = some sa ∧ sa.mem_writes = s.mem_writes ++ La ∧ same_env s sa ∧
      (∀ P j, bitmap_tag sa.active_pages P j =
        if P = page_base w.address ∧ j < w.size
        then (bitmap_tag s.active_pages P j).map (fun _ => taint_t.TAINT_DIRTY)
        else bitmap_tag s.active_pages P j) ∧
      ∀ (uc : uc_engine) (pages : ActivePages) (rest : List mem_access_t),
        uc.mapped = s.uc.mapped →
        (∀ P j, bitmap_tag pages P j = bitmap_tag sa.active_pages P j) →
        ∃ uc1 pages1,
          rollback_loop uc pages (La.reverse ++ rest) = rollback_loop uc1 pages1 rest ∧
          uc1.mapped = s.uc.mapped ∧
          ∀ P j, bitmap_tag pages1 P j = bitmap_tag s.active_pages P j := by
  obtain ⟨hn1, hn8, _, hmap, hp1, _⟩ := hw
  have hle := ((range_mapped_iff _ _ _).mp hmap).1
  obtain ⟨bm, hbm⟩ := Option.isSome_iff_exists.mp hp1
  have hlast : (w.address + w.size - 1) % 4096 = w.size - 1 := by omega
  have hhw := handle_write_single { s with uc := { s.uc with pc := w.ip } } w.address w.size
    false bm hn1 hn8 hconc hmap (by omega) hbm
  rw [halign, hlast, loop_range_zero _ hn1] at hhw
  obtain ⟨hf1, hf2⟩ := mark_byte_concrete_fold bm w.size (by omega)
  generalize (List.range w.size).foldl (mark_byte false) (bm, 0) = r at hhw hf1 hf2
  have htag : ∀ P j, bitmap_tag (bitmap_store s.active_pages w.address r.1) P j =
      if P = page_base w.address ∧ j < w.size
      then (bitmap_tag s.active_pages P j).map (fun _ => taint_t.TAINT_DIRTY)
      else bitmap_tag s.active_pages P j := by
    intro P j
    rw [bitmap_tag_bitmap_store]
    by_cases hP : P = page_base w.address
    · subst hP
      have hl : List.lookup (page_base w.address) s.active_pages = some bm := hbm
      simp only [bitmap_tag, hl, Option.map_some', true_and, if_true, hf1]
      by_cases hj : j < w.size
      · simp [hj]
      · simp [hj]
    · simp [hP]
  have hc : r.2 ≠ int_minus_one := by
    intro h
    have h1 := hf2 31
    rw [h, testBit_int_minus_one 31 (by norm_num)] at h1
    have : ¬ 31 < w.size := by omega
    simp [this] at h1
  have hex : ∃ sa, emu_store s w = some sa ∧
      sa.mem_writes = s.mem_writes ++
        [⟨w.address, read_bytes s.uc.mem w.address w.size, w.size, r.2⟩] ∧
      sa.active_pages = bitmap_store s.active_pages w.address r.1 ∧
      sa.mem_writes_taint_map = s.mem_writes_taint_map ∧ sa.uc.mapped = s.uc.mapped := by
    unfold emu_store
    rw [hhw]
    simp only [uc_mem_write]
    rw [if_pos (by exact hmap)]
    exact ⟨_, rfl, rfl, rfl, rfl, rfl⟩
  obtain ⟨sa, hstore, hsalog, hsapages, hsatm, hsamapped⟩ := hex
  refine ⟨sa, [⟨w.address, read_bytes s.uc.mem w.address w.size, w.size, r.2⟩], hstore, hsalog,
    ⟨hsatm, hsamapped, fun k => by rw [hsapages]; exact lookup_isSome_bitmap_store _ _ _ k⟩,
    by rw [hsapages]; exact htag, ?_⟩
  · intro uc pages rest hmapped hpages
    have hpages1 : ∀ P j, bitmap_tag pages P j =
        bitmap_tag (bitmap_store s.active_pages w.address r.1) P j := by
      rw [← hsapages]; exact hpages
    have hpl : (page_lookup pages w.address).isSome = true := by
      unfold page_lookup
      rw [← bitmap_tag_isSome pages _ 0, hpages1, bitmap_tag_isSome,
        lookup_isSome_bitmap_store]
      exact hp1
    obtain ⟨pages1, hroll, htag1, _⟩ := rollback_loop_cons uc pages
      ⟨w.address, read_bytes s.uc.mem w.address w.size, w.size, r.2⟩ rest hc
      (by rw [range_mapped_congr s.uc uc hmapped]; exact hmap) hpl
    refine ⟨_, pages1, hroll, hmapped, ?_⟩
    intro P j
    rw [htag1, hpages1, htag]
    simp only [and_fff, halign, Nat.zero_le, true_and, Nat.zero_add, Nat.sub_zero, hf2]
    by_cases hP : P = page_base w.address
    · by_cases hj : j < w.size
      · subst hP
        have hl : List.lookup (page_base w.address) s.active_pages = some bm := hbm
        have hsym := hns j hj
        simp only [bitmap_tag, hl, Option.map_some', ne_eq, Option.some.injEq] at hsym ⊢
        simp only [hj, true_and, and_self, if_true, decide_True, Bool.true_and, decide_eq_true_eq,
          Option.map_some']
        cases hb : bm j
        · simp
        · simp
        · exact absurd hb hsym
      · simp [hP, hj]
    · simp [hP]

theorem aligned_concrete_write_of_same_env (s s1 : State) (h : same_env s s1)
    (w : mem_write_event) (hw : aligned_concrete_write s w) : aligned_concrete_write s1 w :=
  ⟨write_ok_of_same_env s s1 h w hw.1, hw.2.1, by rw [h.1]; exact hw.2.2⟩

/-- A sequence of concrete stores at page-aligned addresses onto bytes that are not
symbolic: rolling the new records back restores every tag. -/
theorem emu_stores_undo_taint (ws : List mem_write_event) :
    ∀ s : State, (∀ w ∈ ws, aligned_concrete_write s w) →
    (∀ w ∈ ws, ∀ j, j < w.size →
      bitmap_tag s.active_pages (page_base w.address) j ≠ some taint_t.TAINT_SYMBOLIC) →
    ∃ s1 L, emu_stores s ws = some s1 ∧ s1.mem_writes = s.mem_writes ++ L ∧ same_env s s1 ∧
      ∀ (uc : uc_engine) (pages : ActivePages) (rest : List mem_access_t),
        uc.mapped = s.uc.mapped →
        (∀ P j, bitmap_tag pages P j = bitmap_tag s1.active_pages P j) →
        ∃ uc1 pages1,
          rollback_loop uc pages (L.reverse ++ rest) = rollback_loop uc1 pages1 rest ∧
          uc1.mapped = s.uc.mapped ∧
          ∀ P j, bitmap_tag pages1 P j = bitmap_tag s.active_pages P j := by
  induction ws with
  | nil =>
    intro s _ _
    refine ⟨s, [], rfl, by simp, ⟨rfl, rfl, fun _ => rfl⟩, ?_⟩
    intro uc pages rest hmapped hp
    exact ⟨uc, pages, rfl, hmapped, hp⟩
  | cons w ws ih =>
    intro s hws hns
    have hw := hws w (List.mem_cons_self _ _)
    obtain ⟨sa, La, hstore, hlogA, henvA, htagA, hundoA⟩ :=
      emu_store_undo_taint s w hw.1 hw.2.1 hw.2.2 (hns w (List.mem_cons_self _ _))
    obtain ⟨s1, L, hstores, hlogB, henvB, hundoB⟩ := ih sa
      (fun w1 hw1 => aligned_concrete_write_of_same_env s sa henvA w1
        (hws w1 (List.mem_cons_of_mem _ hw1)))
      (by
        intro w1 hw1 j hj
        rw [htagA]
        have h0 := hns w1 (List.mem_cons_of_mem _ hw1) j hj
        split
        · cases bitmap_tag s.active_pages (page_base w1.address) j <;> simp
        · exact h0)
    refine ⟨s1, La ++ L, ?_, ?_, same_env_trans s sa s1 henvA henvB, ?_⟩
    · simp only [emu_stores, hstore, Option.some_bind, hstores]
    · rw [hlogB, hlogA, List.append_assoc]
    · intro uc pages rest hmapped hp
      obtain ⟨ucB, pagesB, hrollB, hmappedB, hpB⟩ :=
        hundoB uc pages (La.reverse ++ rest) (hmapped.trans henvA.2.1.symm) hp
      obtain ⟨ucA, pagesA, hrollA, hmappedA, hpA⟩ :=
        hundoA ucB pagesB rest (hmappedB.trans henvA.2.1) hpB
      refine ⟨ucA, pagesA, ?_, hmappedA, hpA⟩
      rw [List.reverse_append, List.append_assoc, hrollB, hrollA]

/-! ## Claims about the write log and rollback -/

/-- C1 (counterexample): page `0x1000` is active and its byte at offset 0 is symbolic; one
concrete store of size 1 at `0x1000` followed by `rollback` leaves that byte tagged
`TAINT_NONE`, not `TAINT_SYMBOLIC`: the pre-taint mask only records that the byte was not
dirty. -/
theorem rollback_resets_symbolic_byte :
    (symbolic_byte_state 0).mem_writes = [] ∧
    (symbolic_byte_state 0).mem_writes_taint_map.lookup 0x400000 = some false ∧
    bitmap_tag (symbolic_byte_state 0).active_pages 0x1000 0 = some taint_t.TAINT_SYMBOLIC ∧
    ((emu_stores (symbolic_byte_state 0)
        [{ ip := 0x400000, address := 0x1000, size := 1, data := [0x41] }]).bind rollback).map
      (fun s => bitmap_tag s.active_pages 0x1000 0) = some (some taint_t.TAINT_NONE) := by
  decide

/-- C1 (amended): from a state with an empty write log, let the emulator execute any
sequence of concrete stores of size 1..8 at page-aligned addresses of active pages, each
delivered to `handle_write`, where the bytes written are tagged none or dirty before the
first store (all other bytes may hold any tag) and the emulator can read and write the
stored ranges. Then the hook logs every store, `rollback` completes, and afterwards every
byte of every taint bitmap has the tag it had before the first store. -/
theorem rollback_restores_taint_aligned (s : State) (ws : List mem_write_event)
    (hlog : s.mem_writes = [])
    (hws : ∀ w ∈ ws, aligned_concrete_write s w)
    (hns : ∀ w ∈ ws, ∀ j, j < w.size →
      bitmap_tag s.active_pages (page_base w.address) j ≠ some taint_t.TAINT_SYMBOLIC) :
    ∃ s1 s2, emu_stores s ws = some s1 ∧ rollback s1 = some s2 ∧
      ∀ page i, bitmap_tag s2.active_pages page i = bitmap_tag s.active_pages page i := by
  obtain ⟨s1, L, hstores, hlogs, henv, hundo⟩ := emu_stores_undo_taint ws s hws hns
  obtain ⟨uc1, pages1, hroll, _, htag⟩ :=
    hundo s1.uc s1.active_pages [] henv.2.1 (fun _ _ => rfl)
  rw [hlog, List.nil_append] at hlogs
  rw [List.append_nil] at hroll
  have hrb : rollback s1 = some { s1 with
      uc := { uc1 with pc := s1.saved_regs.1, sp := s1.saved_regs.2 }
      active_pages := pages1
      mem_writes := []
      bbl_addrs := s1.bbl_addrs.dropLast } := by
    unfold rollback
    rw [hlogs, hroll]
    rfl
  exact ⟨s1, _, hstores, hrb, htag⟩

/-- C1 (amended), at three page-aligned concrete stores onto a page that also holds a
dirty and a symbolic byte. -/
theorem rollback_restores_taint_aligned_witness :
    ∃ s1 s2, emu_stores mixed_state aligned_stores = some s1 ∧ rollback s1 = some s2 ∧
      ∀ page i, bitmap_tag s2.active_pages page i = bitmap_tag mixed_state.active_pages page i :=
  rollback_restores_taint_aligned mixed_state aligned_stores rfl
    (by
      intro w hw
      simp only [aligned_stores, List.mem_cons, List.mem_singleton, List.not_mem_nil,
        or_false] at hw
      rcases hw with rfl | rfl | rfl <;> (unfold aligned_concrete_write write_ok; decide))
    (by
      intro w hw j hj
      simp only [aligned_stores, List.mem_cons, List.mem_singleton, List.not_mem_nil,
        or_false] at hw
      rcases hw with rfl | rfl | rfl <;> (simp only [] at hj; interval_cases j <;> decide))



/-- C2: from a state with an empty write log, let the emulator execute any sequence of
stores of size 1..8 to active pages, each delivered to the write hook (`handle_write`,
which logs it through `log_write`) before the emulator applies it; the stores may overlap,
cross page boundaries and be symbolic or concrete. When the emulator can read and write
the stored ranges, the hook logs every store, `rollback` completes, and afterwards every
byte of emulator memory has the value it had before the first store. -/
theorem rollback_restores_memory (s : State) (ws : List mem_write_event)
    (hlog : s.mem_writes = []) (hws : ∀ w ∈ ws, write_ok s w) :
    ∃ s1 s2, emu_stores s ws = some s1 ∧ rollback s1 = some s2 ∧
      ∀ x, s2.uc.mem x = s.uc.mem x := by
  obtain ⟨s1, L, hstores, hlogs, henv, hundo⟩ := emu_stores_undo ws s hws
  obtain ⟨uc1, pages1, hroll, hmem, _, _⟩ :=
    hundo s1.uc s1.active_pages [] rfl henv.2.1 henv.2.2
  rw [hlog, List.nil_append] at hlogs
  rw [List.append_nil] at hroll
  have hrb : rollback s1 = some { s1 with
      uc := { uc1 with pc := s1.saved_regs.1, sp := s1.saved_regs.2 }
      active_pages := pages1
      mem_writes := []
      bbl_addrs := s1.bbl_addrs.dropLast } := by
    unfold rollback
    rw [hlogs, hroll]
    rfl
  refine ⟨s1, _, hstores, hrb, ?_⟩
  intro x
  show uc1.mem x = s.uc.mem x
  rw [hmem]

/-- C2, at three overlapping stores around the boundary of the pages `0x1000` and
`0x2000`. -/
theorem rollback_restores_memory_witness :
    ∃ s1 s2, emu_stores (two_page_state uc_mapped false) overlapping_stores = some s1 ∧
      rollback s1 = some s2 ∧
      ∀ x, s2.uc.mem x = (two_page_state uc_mapped false).uc.mem x :=
  rollback_restores_memory (two_page_state uc_mapped false) overlapping_stores rfl (by
    intro w hw
    simp only [overlapping_stores, List.mem_cons, List.mem_singleton, List.not_mem_nil,
      or_false] at hw
    rcases hw with rfl | rfl | rfl <;> (unfold write_ok; decide))

/-- C3 (code at the failing input): page `0x1000` is active and untainted and the
instruction at `0x400000` is recorded as a symbolic write. `handle_write(0x1000, 1)` stamps
the byte symbolic and logs the record with pre-taint mask 0; `rollback` then skips the
bitmap for that record, so the byte is still `TAINT_SYMBOLIC` after rollback. -/
theorem symbolic_stamp_survives_rollback :
    bitmap_tag (two_page_state uc_mapped true).active_pages 0x1000 0 =
      some taint_t.TAINT_NONE ∧
    (handle_write (two_page_state uc_mapped true) 0x1000 1).map
      (fun s => (bitmap_tag s.active_pages 0x1000 0, s.mem_writes.map (fun r => r.clean))) =
      some (some taint_t.TAINT_SYMBOLIC, [0]) ∧
    ((handle_write (two_page_state uc_mapped true) 0x1000 1).bind rollback).map
      (fun s => bitmap_tag s.active_pages 0x1000 0) = some (some taint_t.TAINT_SYMBOLIC) := by
  decide

/-- C4 (code at the failing inputs): page `0x1000` is active and only its byte at offset 1
(address `0x1001`) is symbolic. `find_tainted(0x1000, 0x1001)` returns `-1` although
`0x1001` lies in the range, and `find_tainted(0x1000, 0)` returns `0x1001` although the
range is empty. -/
theorem find_tainted_misses_and_overreports :
    bitmap_tag (symbolic_byte_state 1).active_pages 0x1000 1 = some taint_t.TAINT_SYMBOLIC ∧
    find_tainted (symbolic_byte_state 1) 0x1000 0x1001 = 2 ^ 64 - 1 ∧
    find_tainted (symbolic_byte_state 1) 0x1000 0 = 0x1001 := by
  decide

/-- C5 (code at the failing input): with no entry for the current instruction in
`mem_writes_taint_map`, `handle_write(0x1000, 4)` does not complete:
`mem_writes_taint_map.at` throws. -/
theorem handle_write_throws_without_entry :
    no_entry_state.mem_writes_taint_map.lookup (get_instruction_pointer no_entry_state) = none ∧
    (page_lookup no_entry_state.active_pages 0x1000).isSome = true ∧
    (handle_write no_entry_state 0x1000 4).isNone = true := by
  decide

/-- C6 (code at the failing input): the pages `0x1000` and `0x2000` are active and
untainted and the instruction is recorded as a concrete write. After
`handle_write(0x1FFF, 2)`, which crosses the page boundary, both written bytes are still
`TAINT_NONE`. -/
theorem concrete_cross_page_write_leaves_bytes_untagged :
    (handle_write (two_page_state uc_mapped false) 0x1FFF 2).map
      (fun s => (bitmap_tag s.active_pages 0x1000 0xFFF, bitmap_tag s.active_pages 0x2000 0)) =
      some (some taint_t.TAINT_NONE, some taint_t.TAINT_NONE) := by
  decide

/-- C7 (code at the failing input): page `0x1000` is active and untainted and the
instruction is recorded as a concrete write. `handle_write(0x1001, 1)` logs one record of
size 1 with pre-taint mask `2` (bit 1, the page offset, instead of bit 0), which is not
below `2 ^ 1`; `rollback` reads bit 0 for that byte, finds it clear and leaves the byte
`TAINT_DIRTY`. -/
theorem mask_bit_is_indexed_by_page_offset :
    bitmap_tag (two_page_state uc_mapped false).active_pages 0x1000 1 =
      some taint_t.TAINT_NONE ∧
    (handle_write (two_page_state uc_mapped false) 0x1001 1).map
      (fun s => s.mem_writes.map (fun r => (r.address, r.size, r.clean))) =
      some [(0x1001, 1, 2)] ∧
    ((handle_write (two_page_state uc_mapped false) 0x1001 1).bind rollback).map
      (fun s => bitmap_tag s.active_pages 0x1000 1) = some (some taint_t.TAINT_DIRTY) := by
  decide

/-- C8 (counterexample): the pages `0x1000` and `0x2000` are active but the emulator has
no memory mapped. `handle_write(0x1FFF, 2)` crosses the page boundary, the pre-image read
of `log_write` fails, the state is stopped with `STOP_ERROR` and no record is appended. -/
theorem cross_page_write_logs_nothing_when_read_fails :
    0x1000 < (0x1FFF &&& 0xFFF) + 2 ∧
    (handle_write (two_page_state uc_unmapped false) 0x1FFF 2).map
      (fun s => (s.mem_writes.length, s.stopped, s.stop_reason)) =
      some (0, true, stop_t.STOP_ERROR) := by
  decide

/-- C8 (amended): for a write of size 1..8 whose instruction has an entry in
`mem_writes_taint_map` and whose range the emulator can read, `handle_write` completes;
when the write crosses a page boundary (`(address & 0xFFF) + size > 0x1000`) it appends
exactly two records, `(address, 0x1000 - (address & 0xFFF))` followed by
`(start of the next page, ((address + size - 1) & 0xFFF) + 1)`, whose sizes sum to `size`;
when it lies within one page it appends exactly one record `(address, size)`. -/
theorem handle_write_records (s : State) (address size : Nat)
    (hsize : 1 ≤ size ∧ size ≤ 8)
    (hentry : (s.mem_writes_taint_map.lookup (get_instruction_pointer s)).isSome = true)
    (hread : range_mapped s.uc address size = true) :
    ∃ s1, handle_write s address size = some s1 ∧
      (0x1000 < (address &&& 0xFFF) + size →
        ∃ v1 c1 v2 c2, s1.mem_writes = s.mem_writes ++
          [⟨address, v1, 0x1000 - (address &&& 0xFFF), c1⟩,
           ⟨address - (address &&& 0xFFF) + 0x1000, v2,
            ((address + size - 1) &&& 0xFFF) + 1, c2⟩] ∧
          (0x1000 - (address &&& 0xFFF)) + (((address + size - 1) &&& 0xFFF) + 1) = size) ∧
      ((address &&& 0xFFF) + size ≤ 0x1000 →
        ∃ v c, s1.mem_writes = s.mem_writes ++ [⟨address, v, size, c⟩]) := by
  obtain ⟨b, hb⟩ := Option.isSome_iff_exists.mp hentry
  have hle := ((range_mapped_iff _ _ _).mp hread).1
  obtain ⟨s1, L, hhw, _, _, _, hlog, hL⟩ :=
    handle_write_log s address size b hsize.1 hsize.2 hb hread
  refine ⟨s1, hhw, ?_, ?_⟩
  · intro hcross
    rw [and_fff] at hcross
    rcases hL with ⟨hsingle, _⟩ | ⟨_, v1, c1, v2, c2, hLeq, _, _⟩
    · omega
    · refine ⟨v1, c1, v2, c2, ?_, ?_⟩
      · rw [hlog, hLeq, and_fff, and_fff]
      · rw [and_fff, and_fff]
        omega
  · intro hsingle
    rw [and_fff] at hsingle
    rcases hL with ⟨_, v, c, hLeq, _⟩ | ⟨hcross, _⟩
    · exact ⟨v, c, by rw [hlog, hLeq]⟩
    · omega

/-- C8 (amended), at a concrete write of two bytes across the boundary of the pages
`0x1000` and `0x2000`. -/
theorem handle_write_records_witness :
    ∃ s1, handle_write (two_page_state uc_mapped false) 0x1FFF 2 = some s1 ∧
      (0x1000 < (0x1FFF &&& 0xFFF) + 2 →
        ∃ v1 c1 v2 c2, s1.mem_writes = (two_page_state uc_mapped false).mem_writes ++
          [⟨0x1FFF, v1, 0x1000 - (0x1FFF &&& 0xFFF), c1⟩,
           ⟨0x1FFF - (0x1FFF &&& 0xFFF) + 0x1000, v2,
            ((0x1FFF + 2 - 1) &&& 0xFFF) + 1, c2⟩] ∧
          (0x1000 - (0x1FFF &&& 0xFFF)) + (((0x1FFF + 2 - 1) &&& 0xFFF) + 1) = 2) ∧
      ((0x1FFF &&& 0xFFF) + 2 ≤ 0x1000 →
        ∃ v c, s1.mem_writes = (two_page_state uc_mapped false).mem_writes ++
          [⟨0x1FFF, v, 2, c⟩]) :=
  handle_write_records (two_page_state uc_mapped false) 0x1FFF 2 (by decide) (by decide)
    (by decide)

/-! ## Claims about `commit` -/

/-- C9 (counterexample): with register offset 16 in both block-level sets, `commit`
leaves 16 out of `symbolic_registers`, so `symbolic_registers` is not
(pre-commit `symbolic_registers` minus `block_concrete_registers`) union
`block_symbolic_registers`. -/
theorem commit_union_form_fails_on_overlap :
    ∃ s1, commit overlap_state = some s1 ∧
      ¬ (∀ r, r ∈ s1.symbolic_registers ↔
          (r ∈ overlap_state.symbolic_registers ∧ r ∉ overlap_state.block_concrete_registers) ∨
            r ∈ overlap_state.block_symbolic_registers) := by
  refine ⟨_, rfl, ?_⟩
  intro h
  have h16 := (h 16).mpr (Or.inr (by decide))
  revert h16
  decide

/-- C9 (amended): when no register offset is in both block-level sets and every deferred
record of the write log targets an active page, `commit` completes and afterwards
`symbolic_registers` is (pre-commit `symbolic_registers` minus
`block_concrete_registers`) union `block_symbolic_registers`. -/
theorem commit_union_form_of_disjoint (s : State)
    (hlog : ∀ r ∈ s.mem_writes, r.clean = int_minus_one →
      (page_lookup s.active_pages r.address).isSome)
    (hdisj : ∀ r, r ∈ s.block_symbolic_registers → r ∉ s.block_concrete_registers) :
    ∃ s1, commit s = some s1 ∧
      ∀ r, r ∈ s1.symbolic_registers ↔
        (r ∈ s.symbolic_registers ∧ r ∉ s.block_concrete_registers) ∨
          r ∈ s.block_symbolic_registers := by
  obtain ⟨s1, hs1, hreg, _⟩ := commit_sets s hlog
  refine ⟨s1, hs1, ?_⟩
  intro r
  rw [hreg r]
  constructor
  · rintro ⟨h1 | h1, h2⟩
    · exact Or.inl ⟨h1, h2⟩
    · exact Or.inr h1
  · rintro (⟨h1, h2⟩ | h1)
    · exact ⟨Or.inl h1, h2⟩
    · exact ⟨Or.inr h1, hdisj r h1⟩

/-- C9 (amended), at `deferred_state`. -/
theorem commit_union_form_of_disjoint_witness :
    ∃ s1, commit deferred_state = some s1 ∧
      ∀ r, r ∈ s1.symbolic_registers ↔
        (r ∈ deferred_state.symbolic_registers ∧ r ∉ deferred_state.block_concrete_registers) ∨
          r ∈ deferred_state.block_symbolic_registers :=
  commit_union_form_of_disjoint deferred_state
    (by
      intro r hr _
      have hr1 : r = deferred_record := by
        simpa [deferred_state, simunicorn_alloc] using hr
      subst hr1
      decide)
    (by decide)

/-- C10: when every deferred record of the write log targets an active page (so that the
first loop of `commit` completes), `commit` returns a state in which
`symbolic_registers` is (pre-commit `symbolic_registers` union
`block_symbolic_registers`) minus `block_concrete_registers`, `symbolic_temps` is
pre-commit `symbolic_temps` union `block_symbolic_temps`, and the three block-level sets
are empty. -/
theorem commit_promote_then_demote (s : State)
    (hlog : ∀ r ∈ s.mem_writes, r.clean = int_minus_one →
      (page_lookup s.active_pages r.address).isSome) :
    ∃ s1, commit s = some s1 ∧
      (∀ r, r ∈ s1.symbolic_registers ↔
        (r ∈ s.symbolic_registers ∨ r ∈ s.block_symbolic_registers) ∧
          r ∉ s.block_concrete_registers) ∧
      (∀ t, t ∈ s1.symbolic_temps ↔ t ∈ s.symbolic_temps ∨ t ∈ s.block_symbolic_temps) ∧
      s1.block_symbolic_registers = [] ∧ s1.block_concrete_registers = [] ∧
      s1.block_symbolic_temps = [] :=
  commit_sets s hlog

/-- C10, at `overlap_state` (register 16 promoted, then demoted). -/
theorem commit_promote_then_demote_witness :
    ∃ s1, commit overlap_state = some s1 ∧
      (∀ r, r ∈ s1.symbolic_registers ↔
        (r ∈ overlap_state.symbolic_registers ∨ r ∈ overlap_state.block_symbolic_registers) ∧
          r ∉ overlap_state.block_concrete_registers) ∧
      (∀ t, t ∈ s1.symbolic_temps ↔
        t ∈ overlap_state.symbolic_temps ∨ t ∈ overlap_state.block_symbolic_temps) ∧
      s1.block_symbolic_registers = [] ∧ s1.block_concrete_registers = [] ∧
      s1.block_symbolic_temps = [] :=
  commit_promote_then_demote overlap_state (by
    intro r hr
    simp [overlap_state, simunicorn_alloc] at hr)

/-! ## Page activation -/

theorem lazy_mask_eq (size : Nat) (h : size < 32) : lazy_mask size = 2 ^ size - 1 := by
  unfold lazy_mask
  have h1 : size % 64 = size := Nat.mod_eq_of_lt (by omega)
  have h2 : 2 ^ size ≤ 2 ^ 31 := Nat.pow_le_pow_right (by norm_num) (by omega)
  have h3 : 0 < 2 ^ size := Nat.pow_pos (by norm_num)
  rw [h1]
  generalize 2 ^ size = x at h2 h3
  norm_num at h2 ⊢
  omega

theorem foldl_realize_record (page : Nat) (log : List mem_access_t) (bm : PageBitmap)
    (acc : List mem_access_t) (h : ∀ r ∈ log, r.size < 32) :
    (∀ i, (∃ r ∈ log, realized_at page r i) →
        (log.foldl (realize_record page) (bm, acc)).1 i = .TAINT_DIRTY) ∧
      (∀ i, (¬ ∃ r ∈ log, realized_at page r i) →
        (log.foldl (realize_record page) (bm, acc)).1 i = bm i) ∧
      (log.foldl (realize_record page) (bm, acc)).2 =
        acc ++ log.map (fun r =>
          if r.clean = int_minus_one ∧ page_base r.address = page then
            { r with clean := 2 ^ r.size - 1 }
          else r) := by
  induction log generalizing bm acc with
  | nil => simp
  | cons a rest ih =>
    have hrest : ∀ r ∈ rest, r.size < 32 := fun r hr => h r (List.mem_cons_of_mem _ hr)
    have ha : a.size < 32 := h a (List.mem_cons_self _ _)
    rw [List.foldl_cons]
    by_cases hc : a.clean = int_minus_one ∧ page_base a.address = page
    · have e : realize_record page (bm, acc) a =
          (memset_taint bm (a.address &&& 0xFFF) .TAINT_DIRTY a.size,
            acc ++ [{ a with clean := lazy_mask a.size }]) := by
        unfold realize_record
        rw [if_pos hc]
      rw [e]
      obtain ⟨ih1, ih2, ih3⟩ := ih (memset_taint bm (a.address &&& 0xFFF) .TAINT_DIRTY a.size)
        (acc ++ [{ a with clean := lazy_mask a.size }]) hrest
      refine ⟨?_, ?_, ?_⟩
      · rintro i ⟨r, hr1, hr2⟩
        by_cases hr : ∃ r ∈ rest, realized_at page r i
        · exact ih1 i hr
        · rw [ih2 i hr]
          rcases List.mem_cons.mp hr1 with rfl | hr1
          · unfold memset_taint
            rw [if_pos ⟨hr2.2.2.1, hr2.2.2.2⟩]
          · exact absurd ⟨r, hr1, hr2⟩ hr
      · intro i hi
        have hr : ¬ ∃ r ∈ rest, realized_at page r i := by
          rintro ⟨r, hr1, hr2⟩
          exact hi ⟨r, List.mem_cons_of_mem _ hr1, hr2⟩
        rw [ih2 i hr]
        unfold memset_taint
        have hn : ¬ ((a.address &&& 0xFFF) ≤ i ∧ i < (a.address &&& 0xFFF) + a.size) := by
          intro hh
          exact hi ⟨a, List.mem_cons_self _ _, hc.1, hc.2, hh.1, hh.2⟩
        rw [if_neg hn]
      · rw [ih3, List.map_cons, if_pos hc, lazy_mask_eq a.size ha]
        simp
    · have e : realize_record page (bm, acc) a = (bm, acc ++ [a]) := by
        unfold realize_record
        rw [if_neg hc]
      rw [e]
      obtain ⟨ih1, ih2, ih3⟩ := ih bm (acc ++ [a]) hrest
      have hiff : ∀ i, (∃ r ∈ a :: rest, realized_at page r i) ↔
          ∃ r ∈ rest, realized_at page r i := by
        intro i
        constructor
        · rintro ⟨r, hr1, hr2⟩
          rcases List.mem_cons.mp hr1 with rfl | hr1
          · exact absurd ⟨hr2.1, hr2.2.1⟩ hc
          · exact ⟨r, hr1, hr2⟩
        · rintro ⟨r, hr1, hr2⟩
          exact ⟨r, List.mem_cons_of_mem _ hr1, hr2⟩
      refine ⟨?_, ?_, ?_⟩
      · intro i hi
        exact ih1 i ((hiff i).mp hi)
      · intro i hi
        exact ih2 i (fun hh => hi ((hiff i).mpr hh))
      · rw [ih3, List.map_cons, if_neg hc]
        simp

/-! ## Constructs rejected by the feasibility analysis -/

theorem and_check_fst (r : Bool × List Nat) (f : List Nat → Bool × List Nat) :
    (and_check r f).1 = (r.1 && (f r.2).1) := by
  unfold and_check
  cases h : r.1 <;> simp

theorem and_check_snd (r : Bool × List Nat) (f : List Nat → Bool × List Nat) (h : r.1 = true) :
    (and_check r f).2 = (f r.2).2 := by
  unfold and_check
  simp [h]

mutual
theorem check_expr_fst : ∀ (e : IRExpr) (cl d : List Nat),
    (check_expr cl d e).1 = !rejected_expr e
  | .Iex_Binder _, cl, d => by simp [check_expr, rejected_expr]
  | .Iex_VECRET, cl, d => by simp [check_expr, rejected_expr]
  | .Iex_GSPTR, cl, d => by simp [check_expr, rejected_expr]
  | .Iex_GetI _ _, cl, d => by simp [check_expr, rejected_expr]
  | .Iex_RdTmp _, cl, d => by simp [check_expr, rejected_expr]
  | .Iex_Const _ _, cl, d => by simp [check_expr, rejected_expr]
  | .Iex_Get _ ty, cl, d => by
    by_cases h : ty = .Ity_I1 <;> simp [check_expr, rejected_expr, h]
  | .Iex_Qop _ a1 a2 a3 a4, cl, d => by
    simp only [check_expr, rejected_expr, and_check_fst, check_expr_fst a1, check_expr_fst a2,
      check_expr_fst a3, check_expr_fst a4, Bool.not_or]
  | .Iex_Triop _ a1 a2 a3, cl, d => by
    simp only [check_expr, rejected_expr, and_check_fst, check_expr_fst a1, check_expr_fst a2,
      check_expr_fst a3, Bool.not_or]
  | .Iex_Binop _ a1 a2, cl, d => by
    simp only [check_expr, rejected_expr, and_check_fst, check_expr_fst a1, check_expr_fst a2,
      Bool.not_or]
  | .Iex_Unop _ a, cl, d => by
    simp only [check_expr, rejected_expr, check_expr_fst a]
  | .Iex_Load _ a, cl, d => by
    simp only [check_expr, rejected_expr, check_expr_fst a]
  | .Iex_ITE c t f, cl, d => by
    simp only [check_expr, rejected_expr, and_check_fst, check_expr_fst c, check_expr_fst t,
      check_expr_fst f, Bool.not_or]
  | .Iex_CCall _ args, cl, d => by
    simp only [check_expr, rejected_expr, check_args_fst args]
theorem check_args_fst : ∀ (es : List IRExpr) (cl d : List Nat),
    (check_expr.check_args cl d es).1 = !rejected_expr.rejected_args es
  | [], cl, d => by simp [check_expr.check_args, rejected_expr.rejected_args]
  | e :: es, cl, d => by
    simp only [check_expr.check_args, rejected_expr.rejected_args, and_check_fst,
      check_expr_fst e, check_args_fst es, Bool.not_or]
end


theorem check_expr_opt_fst (e : Option IRExpr) (cl d : List Nat) :
    (check_expr_opt cl d e).1 = !rejected_expr_opt e := by
  cases e with
  | none => rfl
  | some e => exact check_expr_fst e cl d

theorem check_stmt_fst (tyenv : List IRType) (st : IRStmt) (cl d : List Nat) :
    (check_stmt tyenv cl d st).1 = !rejected_stmt tyenv st := by
  cases st with
  | Ist_Put offset data =>
    simp only [check_stmt, rejected_stmt]
    by_cases h1 : rejected_expr data = true
    · simp [check_expr_fst, h1]
    · by_cases h2 : typeOfIRExpr tyenv data = .Ity_I1
      · simp [check_expr_fst, h1, h2]
      · simp [check_expr_fst, h1, h2]
  | _ =>
    simp [check_stmt, rejected_stmt, and_check_fst, check_expr_fst, check_expr_opt_fst,
      check_args_fst, Bool.not_or]

theorem check_stmts_fst (tyenv : List IRType) (stmts : List IRStmt) (cl d : List Nat) :
    (check_stmts tyenv cl d stmts).1 = !stmts.any (rejected_stmt tyenv) := by
  induction stmts generalizing cl d with
  | nil => rfl
  | cons st rest ih =>
    simp only [check_stmts, List.any_cons, Bool.not_or]
    have h := check_stmt_fst tyenv st cl d
    by_cases hr : rejected_stmt tyenv st = true
    · rw [hr] at h
      simp only [Bool.not_true] at h
      simp [h, hr]
    · have hr1 : rejected_stmt tyenv st = false := by simpa using hr
      rw [hr1] at h
      simp only [Bool.not_false] at h
      simp [h, hr1, ih]

theorem analyse_block_fst (the_block : IRSB) :
    (analyse_block the_block).1 = !rejected_block the_block := by
  unfold analyse_block rejected_block
  have h := check_stmts_fst the_block.tyenv the_block.stmts [] []
  by_cases hr : the_block.stmts.any (rejected_stmt the_block.tyenv) = true
  · rw [hr] at h
    simp only [Bool.not_true] at h
    simp [h, hr]
  · have hr1 : the_block.stmts.any (rejected_stmt the_block.tyenv) = false := by simpa using hr
    rw [hr1] at h
    simp only [Bool.not_false] at h
    simp [h, hr1, check_expr_fst]

/-! ## The sets computed by the feasibility analysis -/

theorem mem_mark_register_clobbered (cl : List Nat) (offset size b : Nat) :
    b ∈ mark_register_clobbered cl offset size ↔ b ∈ cl ∨ covers offset size b := by
  unfold mark_register_clobbered covers
  have key : ∀ (l : List Nat) (c : List Nat),
      b ∈ l.foldl (fun c i => c.insert (offset + i)) c ↔ b ∈ c ∨ ∃ i ∈ l, b = offset + i := by
    intro l
    induction l with
    | nil => simp
    | cons h t ih =>
      intro c
      simp only [List.foldl_cons, ih, List.mem_insert_iff, List.mem_cons, exists_eq_or_imp]
      tauto
  rw [key]
  constructor
  · rintro (h | ⟨i, hi, rfl⟩)
    · exact Or.inl h
    · have := List.mem_range.mp hi
      exact Or.inr ⟨by omega, by omega⟩
  · rintro (h | ⟨h1, h2⟩)
    · exact Or.inl h
    · exact Or.inr ⟨b - offset, List.mem_range.mpr (by omega), by omega⟩

theorem mem_check_register_read (cl d : List Nat) (offset size b : Nat) :
    b ∈ check_register_read cl d offset size ↔ b ∈ d ∨ (b ∉ cl ∧ covers offset size b) := by
  unfold check_register_read covers
  have key : ∀ (l : List Nat) (c : List Nat),
      b ∈ l.foldl (fun d i => if cl.contains (offset + i) then d else d.insert (offset + i)) c ↔
        b ∈ c ∨ (b ∉ cl ∧ ∃ i ∈ l, b = offset + i) := by
    intro l
    induction l with
    | nil => simp
    | cons h t ih =>
      intro c
      simp only [List.foldl_cons, ih, List.mem_cons, exists_eq_or_imp]
      by_cases hc : offset + h ∈ cl
      · have hc1 : cl.contains (offset + h) = true := by simpa using hc
        simp only [hc1, if_true]
        constructor
        · rintro (h1 | ⟨h1, h2⟩)
          · exact Or.inl h1
          · exact Or.inr ⟨h1, Or.inr h2⟩
        · rintro (h1 | ⟨h1, h2 | h2⟩)
          · exact Or.inl h1
          · subst h2
            exact absurd hc h1
          · exact Or.inr ⟨h1, h2⟩
      · have hc1 : cl.contains (offset + h) = false := by simpa using hc
        simp only [hc1, Bool.false_eq_true, if_false, List.mem_insert_iff]
        constructor
        · rintro ((h1 | h1) | ⟨h1, h2⟩)
          · subst h1
            exact Or.inr ⟨hc, Or.inl rfl⟩
          · exact Or.inl h1
          · exact Or.inr ⟨h1, Or.inr h2⟩
        · rintro (h1 | ⟨h1, h2 | h2⟩)
          · exact Or.inl (Or.inr h1)
          · exact Or.inl (Or.inl h2)
          · exact Or.inr ⟨h1, h2⟩
  rw [key]
  constructor
  · rintro (h | ⟨hn, i, hi, rfl⟩)
    · exact Or.inl h
    · have := List.mem_range.mp hi
      exact Or.inr ⟨hn, by omega, by omega⟩
  · rintro (h | ⟨hn, h1, h2⟩)
    · exact Or.inl h
    · exact Or.inr ⟨hn, b - offset, List.mem_range.mpr (by omega), by omega⟩

theorem get_covers_nil (b : Nat) : ¬ get_covers [] b := by
  rintro ⟨o, n, h, _⟩
  cases h

theorem get_covers_append (l1 l2 : List reg_access) (b : Nat) :
    get_covers (l1 ++ l2) b ↔ get_covers l1 b ∨ get_covers l2 b := by
  unfold get_covers
  constructor
  · rintro ⟨o, n, h, hc⟩
    rcases List.mem_append.mp h with h | h
    · exact Or.inl ⟨o, n, h, hc⟩
    · exact Or.inr ⟨o, n, h, hc⟩
  · rintro (⟨o, n, h, hc⟩ | ⟨o, n, h, hc⟩)
    · exact ⟨o, n, List.mem_append_left _ h, hc⟩
    · exact ⟨o, n, List.mem_append_right _ h, hc⟩

theorem put_covers_append (l1 l2 : List reg_access) (b : Nat) :
    put_covers (l1 ++ l2) b ↔ put_covers l1 b ∨ put_covers l2 b := by
  unfold put_covers
  constructor
  · rintro ⟨o, n, h, hc⟩
    rcases List.mem_append.mp h with h | h
    · exact Or.inl ⟨o, n, h, hc⟩
    · exact Or.inr ⟨o, n, h, hc⟩
  · rintro (⟨o, n, h, hc⟩ | ⟨o, n, h, hc⟩)
    · exact ⟨o, n, List.mem_append_left _ h, hc⟩
    · exact ⟨o, n, List.mem_append_right _ h, hc⟩

theorem adds_gets_nil (cl d : List Nat) (flag : Bool) : adds_gets cl d [] (flag, d) := by
  intro _ b
  constructor
  · exact Or.inl
  · rintro (h | ⟨_, h⟩)
    · exact h
    · exact absurd h (get_covers_nil b)

theorem adds_gets_and_check (cl d : List Nat) (l1 l2 : List reg_access) (r : Bool × List Nat)
    (f : List Nat → Bool × List Nat)
    (h1 : adds_gets cl d l1 r) (h2 : ∀ d1, adds_gets cl d1 l2 (f d1)) :
    adds_gets cl d (l1 ++ l2) (and_check r f) := by
  intro h b
  rw [and_check_fst, Bool.and_eq_true] at h
  rw [and_check_snd r f h.1, h2 r.2 h.2 b, h1 h.1 b, get_covers_append]
  tauto

mutual
theorem check_expr_gets : ∀ (e : IRExpr) (cl d : List Nat),
    adds_gets cl d (expr_gets e) (check_expr cl d e)
  | .Iex_Binder _, cl, d => by
    simp only [check_expr, expr_gets]
    exact adds_gets_nil cl d true
  | .Iex_VECRET, cl, d => by
    simp only [check_expr, expr_gets]
    exact adds_gets_nil cl d true
  | .Iex_GSPTR, cl, d => by
    simp only [check_expr, expr_gets]
    exact adds_gets_nil cl d true
  | .Iex_GetI _ _, cl, d => by
    simp only [check_expr, expr_gets]
    exact adds_gets_nil cl d false
  | .Iex_RdTmp _, cl, d => by
    simp only [check_expr, expr_gets]
    exact adds_gets_nil cl d true
  | .Iex_Const _ _, cl, d => by
    simp only [check_expr, expr_gets]
    exact adds_gets_nil cl d true
  | .Iex_Get offset ty, cl, d => by
    simp only [check_expr, expr_gets]
    by_cases h : ty = .Ity_I1
    · rw [if_pos h]
      intro hf
      cases hf
    · rw [if_neg h]
      intro _ b
      rw [mem_check_register_read]
      unfold get_covers
      simp only [List.mem_singleton, reg_access.get.injEq]
      constructor
      · rintro (h1 | ⟨h1, h2⟩)
        · exact Or.inl h1
        · exact Or.inr ⟨h1, _, _, ⟨rfl, rfl⟩, h2⟩
      · rintro (h1 | ⟨h1, o, n, ⟨rfl, rfl⟩, h2⟩)
        · exact Or.inl h1
        · exact Or.inr ⟨h1, h2⟩
  | .Iex_Qop _ a1 a2 a3 a4, cl, d => by
    simp only [check_expr, expr_gets]
    exact adds_gets_and_check cl d _ _ _ _ (check_expr_gets a1 cl d) fun d1 =>
      adds_gets_and_check cl d1 _ _ _ _ (check_expr_gets a2 cl d1) fun d2 =>
      adds_gets_and_check cl d2 _ _ _ _ (check_expr_gets a3 cl d2) fun d3 =>
      check_expr_gets a4 cl d3
  | .Iex_Triop _ a1 a2 a3, cl, d => by
    simp only [check_expr, expr_gets]
    exact adds_gets_and_check cl d _ _ _ _ (check_expr_gets a1 cl d) fun d1 =>
      adds_gets_and_check cl d1 _ _ _ _ (check_expr_gets a2 cl d1) fun d2 =>
      check_expr_gets a3 cl d2
  | .Iex_Binop _ a1 a2, cl, d => by
    simp only [check_expr, expr_gets]
    exact adds_gets_and_check cl d _ _ _ _ (check_expr_gets a1 cl d) fun d1 =>
      check_expr_gets a2 cl d1
  | .Iex_Unop _ a, cl, d => by
    simp only [check_expr, expr_gets]
    exact check_expr_gets a cl d
  | .Iex_Load _ a, cl, d => by
    simp only [check_expr, expr_gets]
    exact check_expr_gets a cl d
  | .Iex_ITE c t f, cl, d => by
    simp only [check_expr, expr_gets]
    exact adds_gets_and_check cl d _ _ _ _ (check_expr_gets c cl d) fun d1 =>
      adds_gets_and_check cl d1 _ _ _ _ (check_expr_gets f cl d1) fun d2 =>
      check_expr_gets t cl d2
  | .Iex_CCall _ args, cl, d => by
    simp only [check_expr, expr_gets]
    exact check_args_gets args cl d
theorem check_args_gets : ∀ (es : List IRExpr) (cl d : List Nat),
    adds_gets cl d (expr_gets.args_gets es) (check_expr.check_args cl d es)
  | [], cl, d => by
    simp only [check_expr.check_args, expr_gets.args_gets]
    exact adds_gets_nil cl d true
  | e :: es, cl, d => by
    simp only [check_expr.check_args, expr_gets.args_gets]
    exact adds_gets_and_check cl d _ _ _ _ (check_expr_gets e cl d) fun d1 =>
      check_args_gets es cl d1
end

mutual
theorem expr_gets_no_put : ∀ (e : IRExpr) (o n : Nat), reg_access.put o n ∉ expr_gets e
  | .Iex_Binder _, o, n => by simp [expr_gets]
  | .Iex_VECRET, o, n => by simp [expr_gets]
  | .Iex_GSPTR, o, n => by simp [expr_gets]
  | .Iex_GetI _ _, o, n => by simp [expr_gets]
  | .Iex_RdTmp _, o, n => by simp [expr_gets]
  | .Iex_Const _ _, o, n => by simp [expr_gets]
  | .Iex_Get _ _, o, n => by simp [expr_gets]
  | .Iex_Qop _ a1 a2 a3 a4, o, n => by
    simp [expr_gets, expr_gets_no_put a1, expr_gets_no_put a2, expr_gets_no_put a3,
      expr_gets_no_put a4]
  | .Iex_Triop _ a1 a2 a3, o, n => by
    simp [expr_gets, expr_gets_no_put a1, expr_gets_no_put a2, expr_gets_no_put a3]
  | .Iex_Binop _ a1 a2, o, n => by
    simp [expr_gets, expr_gets_no_put a1, expr_gets_no_put a2]
  | .Iex_Unop _ a, o, n => by simp [expr_gets, expr_gets_no_put a]
  | .Iex_Load _ a, o, n => by simp [expr_gets, expr_gets_no_put a]
  | .Iex_ITE c t f, o, n => by
    simp [expr_gets, expr_gets_no_put c, expr_gets_no_put t, expr_gets_no_put f]
  | .Iex_CCall _ args, o, n => by simp [expr_gets, args_gets_no_put args]
theorem args_gets_no_put : ∀ (es : List IRExpr) (o n : Nat),
    reg_access.put o n ∉ expr_gets.args_gets es
  | [], o, n => by simp [expr_gets.args_gets]
  | e :: es, o, n => by simp [expr_gets.args_gets, expr_gets_no_put e, args_gets_no_put es]
end

theorem get_before_put_covers (trace : List reg_access) (b : Nat)
    (h : get_before_put trace b) : get_covers trace b := by
  obtain ⟨pre, o, n, post, rfl, hc, _⟩ := h
  exact ⟨o, n, by simp, hc⟩

theorem get_before_put_of_no_put (trace : List reg_access) (b : Nat)
    (hno : ∀ o n, reg_access.put o n ∉ trace) :
    get_before_put trace b ↔ get_covers trace b := by
  constructor
  · exact get_before_put_covers trace b
  · rintro ⟨o, n, hmem, hc⟩
    obtain ⟨pre, post, rfl⟩ := List.append_of_mem hmem
    refine ⟨pre, o, n, post, rfl, hc, ?_⟩
    rintro ⟨o1, n1, h1, _⟩
    exact hno o1 n1 (List.mem_append_left _ h1)

theorem put_covers_of_no_put (trace : List reg_access) (b : Nat)
    (hno : ∀ o n, reg_access.put o n ∉ trace) : ¬ put_covers trace b := by
  rintro ⟨o, n, h, _⟩
  exact hno o n h

theorem get_before_put_append (l1 l2 : List reg_access) (b : Nat) :
    get_before_put (l1 ++ l2) b ↔
      get_before_put l1 b ∨ (¬ put_covers l1 b ∧ get_before_put l2 b) := by
  constructor
  · rintro ⟨pre, o, n, post, heq, hc, hpre⟩
    rcases List.append_eq_append_iff.mp heq with ⟨a, h1, h2⟩ | ⟨c, h1, h2⟩
    · subst h1
      rw [put_covers_append] at hpre
      exact Or.inr ⟨fun h => hpre (Or.inl h), a, o, n, post, h2, hc, fun h => hpre (Or.inr h)⟩
    · cases c with
      | nil =>
        simp only [List.append_nil, List.nil_append] at h1 h2
        subst h1
        exact Or.inr ⟨hpre, [], o, n, post, by simpa using h2.symm, hc,
          put_covers_of_no_put [] b (by simp)⟩
      | cons x c =>
        simp only [List.cons_append, List.cons.injEq] at h2
        obtain ⟨hx, _⟩ := h2
        subst hx
        exact Or.inl ⟨pre, o, n, c, h1, hc, hpre⟩
  · rintro (⟨pre, o, n, post, rfl, hc, hpre⟩ | ⟨hno, pre, o, n, post, rfl, hc, hpre⟩)
    · exact ⟨pre, o, n, post ++ l2, by simp, hc, hpre⟩
    · refine ⟨l1 ++ pre, o, n, post, by simp, hc, ?_⟩
      rw [put_covers_append]
      rintro (h | h)
      · exact hno h
      · exact hpre h

theorem expr_gets_opt_no_put (e : Option IRExpr) (o n : Nat) :
    reg_access.put o n ∉ expr_gets_opt e := by
  cases e with
  | none => simp [expr_gets_opt]
  | some e => exact expr_gets_no_put e o n

theorem check_expr_opt_gets (e : Option IRExpr) (cl d : List Nat) :
    adds_gets cl d (expr_gets_opt e) (check_expr_opt cl d e) := by
  cases e with
  | none => exact adds_gets_nil cl d true
  | some e => exact check_expr_gets e cl d

theorem adds_gets_put (cl d : List Nat) (l : List reg_access) (o n : Nat) (r : Bool × List Nat)
    (h : adds_gets cl d l r) : adds_gets cl d (l ++ [reg_access.put o n]) r := by
  intro hr b
  rw [h hr b, get_covers_append]
  have : ¬ get_covers [reg_access.put o n] b := by
    rintro ⟨o1, n1, hm, _⟩
    simp at hm
  tauto

/-- The `used` set after an accepted statement. -/
theorem check_stmt_used (tyenv : List IRType) (st : IRStmt) (cl d : List Nat) :
    adds_gets cl d (stmt_accesses tyenv st)
      ((check_stmt tyenv cl d st).1, (check_stmt tyenv cl d st).2.2) := by
  cases st with
  | Ist_Put offset data =>
    have h := adds_gets_put cl d _ offset (sizeofIRType (typeOfIRExpr tyenv data)) _
      (check_expr_gets data cl d)
    intro hr b
    simp only [check_stmt, stmt_accesses] at hr ⊢
    have h1 : (check_expr cl d data).1 = true := by
      by_contra hne
      simp [hne] at hr
    rw [← h h1 b]
    simp only [h1]
    by_cases h2 : typeOfIRExpr tyenv data = .Ity_I1 <;> simp [h2]
  | Ist_PutI _ _ =>
    simp only [check_stmt, stmt_accesses]
    exact adds_gets_nil cl d false
  | Ist_WrTmp _ data =>
    simp only [check_stmt, stmt_accesses]
    exact check_expr_gets data cl d
  | Ist_Store addr data =>
    simp only [check_stmt, stmt_accesses]
    exact adds_gets_and_check cl d _ _ _ _ (check_expr_gets addr cl d) fun d1 =>
      check_expr_gets data cl d1
  | Ist_CAS addr expdHi expdLo dataHi dataLo =>
    simp only [check_stmt, stmt_accesses]
    exact adds_gets_and_check cl d _ _ _ _ (check_expr_gets addr cl d) fun d1 =>
      adds_gets_and_check cl d1 _ _ _ _ (check_expr_gets dataLo cl d1) fun d2 =>
      adds_gets_and_check cl d2 _ _ _ _ (check_expr_opt_gets dataHi cl d2) fun d3 =>
      adds_gets_and_check cl d3 _ _ _ _ (check_expr_gets expdLo cl d3) fun d4 =>
      check_expr_opt_gets expdHi cl d4
  | Ist_LLSC addr storedata =>
    simp only [check_stmt, stmt_accesses]
    exact adds_gets_and_check cl d _ _ _ _ (check_expr_gets addr cl d) fun d1 =>
      check_expr_opt_gets storedata cl d1
  | Ist_Dirty guard mAddr args =>
    simp only [check_stmt, stmt_accesses]
    exact adds_gets_and_check cl d _ _ _ _ (check_expr_gets guard cl d) fun d1 =>
      adds_gets_and_check cl d1 _ _ _ _ (check_expr_opt_gets mAddr cl d1) fun d2 =>
      check_args_gets args cl d2
  | Ist_Exit guard _ =>
    simp only [check_stmt, stmt_accesses]
    exact check_expr_gets guard cl d
  | Ist_LoadG addr alt guard =>
    simp only [check_stmt, stmt_accesses]
    exact adds_gets_and_check cl d _ _ _ _ (check_expr_gets addr cl d) fun d1 =>
      adds_gets_and_check cl d1 _ _ _ _ (check_expr_gets alt cl d1) fun d2 =>
      check_expr_gets guard cl d2
  | Ist_StoreG addr data guard =>
    simp only [check_stmt, stmt_accesses]
    exact adds_gets_and_check cl d _ _ _ _ (check_expr_gets addr cl d) fun d1 =>
      adds_gets_and_check cl d1 _ _ _ _ (check_expr_gets data cl d1) fun d2 =>
      check_expr_gets guard cl d2
  | Ist_NoOp =>
    simp only [check_stmt, stmt_accesses]
    exact adds_gets_nil cl d true
  | Ist_IMark _ _ =>
    simp only [check_stmt, stmt_accesses]
    exact adds_gets_nil cl d true
  | Ist_AbiHint _ _ _ =>
    simp only [check_stmt, stmt_accesses]
    exact adds_gets_nil cl d true
  | Ist_MBE =>
    simp only [check_stmt, stmt_accesses]
    exact adds_gets_nil cl d true

/-- A statement other than an accepted `Put` has no put among its accesses and leaves
`clobbered` as it was; an accepted `Put` adds its bytes. -/
theorem check_stmt_clobbered (tyenv : List IRType) (st : IRStmt) (cl d : List Nat)
    (h : (check_stmt tyenv cl d st).1 = true) (b : Nat) :
    (b ∈ (check_stmt tyenv cl d st).2.1 ↔ b ∈ cl ∨ put_covers (stmt_accesses tyenv st) b) ∧
    (get_before_put (stmt_accesses tyenv st) b ↔ get_covers (stmt_accesses tyenv st) b) := by
  have hnp : (∀ o n, reg_access.put o n ∉ stmt_accesses tyenv st) →
      (check_stmt tyenv cl d st).2.1 = cl →
      (b ∈ (check_stmt tyenv cl d st).2.1 ↔ b ∈ cl ∨ put_covers (stmt_accesses tyenv st) b) ∧
      (get_before_put (stmt_accesses tyenv st) b ↔ get_covers (stmt_accesses tyenv st) b) := by
    intro hno hcl
    refine ⟨?_, get_before_put_of_no_put _ b hno⟩
    rw [hcl]
    have := put_covers_of_no_put _ b hno
    tauto
  cases st with
  | Ist_Put offset data =>
    simp only [check_stmt, stmt_accesses] at h ⊢
    have h1 : (check_expr cl d data).1 = true := by
      by_contra hne
      simp [hne] at h
    have h2 : ¬ typeOfIRExpr tyenv data = .Ity_I1 := by
      intro h2
      simp [h1, h2] at h
    simp only [h1, h2, Bool.not_true, Bool.false_eq_true, if_false]
    have hput : ∀ o n, put_covers [reg_access.put o n] b ↔ covers o n b := by
      intro o n
      unfold put_covers
      simp only [List.mem_singleton, reg_access.put.injEq]
      constructor
      · rintro ⟨o1, n1, ⟨rfl, rfl⟩, hc⟩
        exact hc
      · intro hc
        exact ⟨o, n, ⟨rfl, rfl⟩, hc⟩
    have hg : ¬ put_covers (expr_gets data) b :=
      put_covers_of_no_put _ b (expr_gets_no_put data)
    have hgb : ¬ get_before_put [reg_access.put offset
        (sizeofIRType (typeOfIRExpr tyenv data))] b := by
      intro hh
      obtain ⟨o1, n1, hm, _⟩ := get_before_put_covers _ b hh
      simp at hm
    have hgc : ¬ get_covers [reg_access.put offset
        (sizeofIRType (typeOfIRExpr tyenv data))] b := by
      rintro ⟨o1, n1, hm, _⟩
      simp at hm
    refine ⟨?_, ?_⟩
    · rw [mem_mark_register_clobbered, put_covers_append, hput]
      tauto
    · rw [get_before_put_append, get_covers_append,
        get_before_put_of_no_put _ b (expr_gets_no_put data)]
      tauto
  | _ =>
    apply hnp
    · intro o n
      simp [stmt_accesses, expr_gets_no_put, expr_gets_opt_no_put, args_gets_no_put]
    · simp [check_stmt]

theorem check_stmts_sets (tyenv : List IRType) (stmts : List IRStmt) (cl d : List Nat)
    (h : (check_stmts tyenv cl d stmts).1 = true) (b : Nat) :
    (b ∈ (check_stmts tyenv cl d stmts).2.1 ↔
      b ∈ cl ∨ put_covers (stmts_accesses tyenv stmts) b) ∧
    (b ∈ (check_stmts tyenv cl d stmts).2.2 ↔
      b ∈ d ∨ (b ∉ cl ∧ get_before_put (stmts_accesses tyenv stmts) b)) := by
  induction stmts generalizing cl d with
  | nil =>
    simp only [check_stmts, stmts_accesses]
    have h1 : ¬ put_covers [] b := put_covers_of_no_put [] b (by simp)
    have h2 : ¬ get_before_put [] b := fun hh => get_covers_nil b (get_before_put_covers _ b hh)
    tauto
  | cons st rest ih =>
    simp only [check_stmts, stmts_accesses] at h ⊢
    have h1 : (check_stmt tyenv cl d st).1 = true := by
      by_contra hne
      simp [hne] at h
    simp only [h1, if_true] at h ⊢
    obtain ⟨ih1, ih2⟩ := ih _ _ h
    obtain ⟨hc1, hc2⟩ := check_stmt_clobbered tyenv st cl d h1 b
    have hu := check_stmt_used tyenv st cl d h1 b
    simp only at hu
    rw [ih1, ih2, hc1, hu, put_covers_append, get_before_put_append, hc2]
    generalize (b ∈ cl) = p1
    generalize (b ∈ d) = p2
    generalize put_covers (stmt_accesses tyenv st) b = p3
    generalize put_covers (stmts_accesses tyenv rest) b = p4
    generalize get_covers (stmt_accesses tyenv st) b = p5
    generalize get_before_put (stmts_accesses tyenv rest) b = p6
    clear ih ih1 ih2 hc1 hc2 hu h h1
    constructor
    · constructor
      · rintro ((h | h) | h)
        · exact Or.inl h
        · exact Or.inr (Or.inl h)
        · exact Or.inr (Or.inr h)
      · rintro (h | h | h)
        · exact Or.inl (Or.inl h)
        · exact Or.inl (Or.inr h)
        · exact Or.inr h
    · constructor
      · rintro ((h | ⟨h1, h2⟩) | ⟨h1, h2⟩)
        · exact Or.inl h
        · exact Or.inr ⟨h1, Or.inl h2⟩
        · exact Or.inr ⟨fun h => h1 (Or.inl h), Or.inr ⟨fun h => h1 (Or.inr h), h2⟩⟩
      · rintro (h | ⟨h1, h2 | ⟨h2, h3⟩⟩)
        · exact Or.inl (Or.inl h)
        · exact Or.inl (Or.inr ⟨h1, h2⟩)
        · refine Or.inr ⟨?_, h3⟩
          rintro (h | h)
          · exact h1 h
          · exact h2 h

/-! ## The feasibility check of a block -/

theorem lookup_append_new {β : Type} (m : List (Nat × β)) (k : Nat) (v : β)
    (h : m.lookup k = none) : (m ++ [(k, v)]).lookup k = some v := by
  induction m with
  | nil => simp [List.lookup]
  | cons e rest ih =>
    obtain ⟨key, b⟩ := e
    simp only [List.lookup_cons, List.cons_append] at h ⊢
    cases hk : (k == key)
    · rw [hk] at h
      exact ih h
    · rw [hk] at h
      cases h

theorem check_block_sets_spec (s : State) (cl used : List Nat) :
    ((check_block_sets s cl used).1 = true ↔ ∀ off ∈ s.symbolic_registers, off ∉ used) ∧
    ((check_block_sets s cl used).1 = false →
      (check_block_sets s cl used).2.stopping_register ∈ s.symbolic_registers ∧
      (check_block_sets s cl used).2.stopping_register ∈ used ∧
      (check_block_sets s cl used).2.symbolic_registers = s.symbolic_registers) ∧
    ((check_block_sets s cl used).1 = true →
      ∀ off, off ∈ (check_block_sets s cl used).2.symbolic_registers ↔
        off ∈ s.symbolic_registers ∧ off ∉ cl) ∧
    (check_block_sets s cl used).2.block_cache = s.block_cache := by
  unfold check_block_sets
  cases hf : s.symbolic_registers.find? (fun off => used.contains off) with
  | some off =>
    have hmem := List.mem_of_find?_eq_some hf
    have hp := List.find?_some hf
    have hu : off ∈ used := by simpa using hp
    refine ⟨?_, ?_, ?_, rfl⟩
    · simp only [Bool.false_eq_true, false_iff]
      intro hall
      exact hall off hmem hu
    · intro _
      exact ⟨hmem, hu, rfl⟩
    · intro h
      cases h
  | none =>
    have hn := List.find?_eq_none.mp hf
    refine ⟨?_, ?_, ?_, rfl⟩
    · simp only [true_iff]
      intro off hoff hu
      exact hn off hoff (by simpa using hu)
    · intro h
      cases h
    · intro _ off
      simp only [foldl_filter_mem]

theorem check_block_eq (vex : VexLift) (s : State) (address size : Nat) (entry : block_entry_t)
    (htrack : s.vex_guest ≠ VexArch_INVALID) (hsym : s.symbolic_registers ≠ [])
    (hsummary : block_summary vex s address size = some entry) :
    ∃ s1, s1.symbolic_registers = s.symbolic_registers ∧
      s1.block_cache.lookup address = some entry ∧
      check_block vex s address size =
        if entry.try_unicorn then
          check_block_sets s1 entry.clobbered_registers entry.used_registers
        else (false, s1) := by
  have hlen : ¬ s.symbolic_registers.length = 0 := by
    intro h
    exact hsym (List.length_eq_zero.mp h)
  unfold block_summary at hsummary
  unfold check_block
  rw [if_neg htrack, if_neg hlen]
  cases hc : s.block_cache.lookup address with
  | some e =>
    rw [hc] at hsummary
    simp only [Option.some.injEq] at hsummary
    subst hsummary
    refine ⟨s, rfl, hc, ?_⟩
    cases h : e.try_unicorn <;> simp [h]
  | none =>
    rw [hc] at hsummary
    cases hv : vex false s.uc address size with
    | none =>
      rw [hv] at hsummary
      cases hsummary
    | some the_block =>
      rw [hv] at hsummary
      simp only [Option.some.injEq] at hsummary
      subst hsummary
      refine ⟨{ s with block_cache := s.block_cache ++
          [(address, (⟨(analyse_block the_block).1, (analyse_block the_block).2.2,
            (analyse_block the_block).2.1⟩ : block_entry_t))] }, rfl,
        lookup_append_new _ _ _ hc, ?_⟩
      cases h : (analyse_block the_block).1 <;> simp [h]

/-! ## What block entry and taint propagation leave unchanged -/

theorem taint_frame_refl (s : State) : taint_frame s s :=
  ⟨rfl, rfl, rfl, rfl, rfl, fun _ h => h⟩

theorem taint_frame_trans (s s1 s2 : State) (h1 : taint_frame s s1) (h2 : taint_frame s1 s2) :
    taint_frame s s2 := by
  unfold taint_frame at h1 h2 ⊢
  refine ⟨?_, ?_, ?_, ?_, ?_, ?_⟩
  · rw [h2.1, h1.1]
  · rw [h2.2.1, h1.2.1]
  · rw [h2.2.2.1, h1.2.2.1]
  · rw [h2.2.2.2.1, h1.2.2.2.1]
  · rw [h2.2.2.2.2.1, h1.2.2.2.2.1]
  · intro t ht
    exact h2.2.2.2.2.2 t (h1.2.2.2.2.2 t ht)

theorem taint_frame_step (s s2 s1 : State) (h2 : taint_frame s2 s1) (h1 : taint_frame s s2) :
    taint_frame s s1 :=
  taint_frame_trans s s2 s1 h1 h2

theorem stop_frame (s s1 : State) (reason : stop_t) (hr : reason ≠ .STOP_SYSCALL)
    (h : stop s reason = some s1) : taint_frame s s1 := by
  cases reason <;> first
    | exact absurd rfl hr
    | (simp only [stop, Option.some.injEq] at h
       subst h
       exact taint_frame_refl s)

theorem step_frame (s s1 : State) (current_address size : Nat) (check_stop_points : Bool)
    (h : step s current_address size check_stop_points = some s1) : taint_frame s s1 := by
  unfold step at h
  cases hb : s.track_bbls <;> cases hk : s.track_stack <;>
    simp only [hb, hk, Bool.false_eq_true, if_false, if_true] at h <;>
    (repeat' split at h) <;>
    first
      | (have h3 := stop_frame _ s1 _ (by decide) h
         exact taint_frame_trans s _ s1 ⟨rfl, rfl, rfl, rfl, rfl, fun _ ht => ht⟩ h3)
      | (simp only [Option.some.injEq] at h
         subst h
         exact ⟨rfl, rfl, rfl, rfl, rfl, fun _ ht => ht⟩)

theorem propagate_pairs_frame (ite_cond_map : List (Nat × TaintEntitySet))
    (pairs : List (taint_entity_t × TaintEntitySet)) (s s1 : State)
    (h : propagate_pairs ite_cond_map s pairs = some s1) : taint_frame s s1 := by
  induction pairs generalizing s with
  | nil =>
    simp only [propagate_pairs, Option.some.injEq] at h
    subst h
    exact taint_frame_refl s
  | cons p rest ih =>
    obtain ⟨taint_sink, taint_srcs⟩ := p
    simp only [propagate_pairs] at h
    (repeat' split at h) <;>
    first
      | (cases h; done)
      | (have h3 := stop_frame _ s1 _ (by decide) h
         exact h3)
      | exact taint_frame_step s _ s1 (ih _ h)
          ⟨rfl, rfl, rfl, rfl, rfl, fun _ ht => List.mem_insert_of_mem ht⟩
      | exact taint_frame_step s _ s1 (ih _ h) ⟨rfl, rfl, rfl, rfl, rfl, fun _ ht => ht⟩

theorem propagate_taints_frame (vex : VexLift) (uninit : Nat) (s s1 : State)
    (address size : Nat) (h : propagate_taints vex uninit s address size = some s1) :
    taint_frame s s1 := by
  unfold propagate_taints at h
  (repeat' split at h) <;>
  first
    | (cases h; done)
    | exact stop_frame _ s1 _ (by decide) h
    | exact taint_frame_step s _ s1 (propagate_pairs_frame _ _ _ s1 h)
        ⟨rfl, rfl, rfl, rfl, rfl, fun _ ht => ht⟩

theorem commit_frame (s s1 : State) (h : commit s = some s1) :
    s1.stopping_register = s.stopping_register ∧ s1.block_cache = s.block_cache ∧
      ∀ t, is_symbolic_temp s t = true → t ∈ s1.symbolic_temps := by
  unfold commit at h
  cases hp : commit_lazy s.active_pages s.mem_writes with
  | none =>
    rw [hp] at h
    cases h
  | some pages =>
    rw [hp] at h
    simp only [foldl_mark_register_symbolic, foldl_mark_register_concrete,
      foldl_mark_temp_symbolic, Option.some.injEq] at h
    subst h
    refine ⟨rfl, rfl, ?_⟩
    intro t ht
    unfold is_symbolic_temp at ht
    simp only [foldl_insert_mem]
    simpa using ht

theorem is_symbolic_temp_of_frame (s s1 : State) (t : Nat) (hf : taint_frame s s1)
    (h : is_symbolic_temp s t = true) : is_symbolic_temp s1 t = true := by
  obtain ⟨_, _, h3, _, _, h6⟩ := hf
  unfold is_symbolic_temp at h ⊢
  rw [h3]
  simp only [Bool.or_eq_true, List.contains_eq_any_beq, List.any_eq_true, beq_iff_eq,
    exists_eq_right'] at h ⊢
  rcases h with h | h
  · exact Or.inl h
  · exact Or.inr (h6 t h)

theorem hook_block_frame (vex : VexLift) (uninit : Nat) (s s1 : State) (address size : Nat)
    (h : hook_block vex uninit s address size = some s1) :
    s1.stopping_register = s.stopping_register ∧ s1.block_cache = s.block_cache := by
  unfold hook_block at h
  by_cases hi : s.ignore_next_block = true
  · rw [if_pos hi] at h
    simp only [Option.some.injEq] at h
    subst h
    exact ⟨rfl, rfl⟩
  · rw [if_neg hi] at h
    cases hc : commit s with
    | none =>
      simp only [hc] at h
      cases h
    | some c1 =>
      simp only [hc] at h
      obtain ⟨hc1, hc2, _⟩ := commit_frame s c1 hc
      cases hg : is_symbolic_exit_guard_previous_block c1 with
      | none =>
        simp only [hg] at h
        cases h
      | some g =>
        simp only [hg] at h
        cases g with
        | true =>
          simp only [Option.some.injEq] at h
          subst h
          exact ⟨hc1, hc2⟩
        | false =>
          simp only at h
          cases hs : step c1 address size true with
          | none =>
            simp only [hs] at h
            cases h
          | some c2 =>
            simp only [hs] at h
            have hf2 := step_frame c1 c2 address size true hs
            cases hp : (if (!c2.stopped) = true then propagate_taints vex uninit c2 address size
                else some c2) with
            | none =>
              simp only [hp] at h
              cases h
            | some c3 =>
              simp only [hp] at h
              simp only [Option.some.injEq] at h
              subst h
              have hf3 : taint_frame c2 c3 := by
                split at hp
                · exact propagate_taints_frame vex uninit c2 c3 address size hp
                · simp only [Option.some.injEq] at hp
                  subst hp
                  exact taint_frame_refl c2
              obtain ⟨a1, a2, _⟩ := taint_frame_trans c1 c2 c3 hf2 hf3
              exact ⟨a1.trans hc1, a2.trans hc2⟩

/-! ## Claims about `commit` and the symbolic temporaries -/

/-- C11 (counterexample): from `symbolic_register_state` the block hook runs for
`increment_block` at `0x2000`, whose temporary 0 reads the symbolic register 16 and is
marked symbolic. The `commit` of the next block hook keeps temporary 0 in
`symbolic_temps`, and while propagating `constant_block` at `0x3000`, whose temporary 0 is
the constant 5, `is_symbolic_temp` still reports 0: register 24, written from it, is marked
symbolic. -/
theorem symbolic_temp_reported_in_next_block :
    (hook_block lift_two 0 symbolic_register_state 0x2000 4).map
        (fun s => (s.block_symbolic_temps, s.symbolic_temps)) = some ([0], []) ∧
    ((hook_block lift_two 0 symbolic_register_state 0x2000 4).bind commit).map
        (fun s => (is_symbolic_temp s 0, s.symbolic_temps)) = some (true, [0]) ∧
    ((hook_block lift_two 0 symbolic_register_state 0x2000 4).bind
        (fun s => hook_block lift_two 0 s 0x3000 4)).map
        (fun s => (is_symbolic_temp s 0, s.block_symbolic_registers, s.stopped)) =
      some (true, [24], false) := by
  decide

/-- C11 (amended): when every deferred record of the write log targets an active page,
`commit` completes and a temporary id that was marked symbolic in the committed block is
reported symbolic by `is_symbolic_temp` afterwards, and still is after `step` and
`propagate_taints` have run for the next block. -/
theorem symbolic_temps_survive_commit (s : State) (t : Nat)
    (hlog : ∀ r ∈ s.mem_writes, r.clean = int_minus_one →
      (page_lookup s.active_pages r.address).isSome)
    (ht : t ∈ s.block_symbolic_temps) :
    ∃ s1, commit s = some s1 ∧ is_symbolic_temp s1 t = true ∧
      ∀ (vex : VexLift) (uninit address size : Nat) (s2 s3 : State),
        step s1 address size true = some s2 →
        propagate_taints vex uninit s2 address size = some s3 →
        is_symbolic_temp s3 t = true := by
  obtain ⟨s1, hs1, _, htemps, _⟩ := commit_sets s hlog
  have h1 : is_symbolic_temp s1 t = true := by
    unfold is_symbolic_temp
    have hmem : t ∈ s1.symbolic_temps := (htemps t).mpr (Or.inr ht)
    simp [hmem]
  refine ⟨s1, hs1, h1, ?_⟩
  intro vex uninit address size s2 s3 h2 h3
  exact is_symbolic_temp_of_frame s1 s3 t
    (taint_frame_trans s1 s2 s3 (step_frame s1 s2 address size true h2)
      (propagate_taints_frame vex uninit s2 s3 address size h3)) h1

/-- C11 (amended), at `deferred_state` and its temporary 3. -/
theorem symbolic_temps_survive_commit_witness :
    ∃ s1, commit deferred_state = some s1 ∧ is_symbolic_temp s1 3 = true ∧
      ∀ (vex : VexLift) (uninit address size : Nat) (s2 s3 : State),
        step s1 address size true = some s2 →
        propagate_taints vex uninit s2 address size = some s3 →
        is_symbolic_temp s3 3 = true :=
  symbolic_temps_survive_commit deferred_state 3
    (by
      intro r hr _
      have hr1 : r = deferred_record := by
        simpa [deferred_state, simunicorn_alloc] using hr
      subst hr1
      decide)
    (by decide)

/-- C12 (failing input): the write log of `inactive_deferred_state` holds one deferred
record, for the page `0x1000`, which is not active. `page_lookup` returns `NULL` for it,
`commit` writes through that pointer and does not complete; `rollback`, which tests the
pointer, completes on the same state and empties the log. -/
theorem commit_fails_on_inactive_deferred_page :
    inactive_deferred_state.mem_writes = [deferred_record] ∧
      (page_lookup inactive_deferred_state.active_pages deferred_record.address).isNone = true ∧
      (commit inactive_deferred_state).isNone = true ∧
      (rollback inactive_deferred_state).map (fun s => s.mem_writes) = some [] := by
  decide

/-! ## Claims about page activation -/

/-- C13: `page_activate` on a page that is already active, with every write-log record
shorter than the 32 bits of its mask (the record type holds at most 8 bytes). In that
page's bitmap the bytes `[address & 0xFFF, (address & 0xFFF) + size)` of every record with
mask `-1` that targets the page are `TAINT_DIRTY` and every other byte keeps the tag of
the existing bitmap; the bitmaps of other pages are unchanged; the records with mask `-1`
that target the page get the mask `2^size - 1` and the other records are unchanged; and the
result is the same as without a taint image. -/
theorem page_activate_on_active_page (s : State) (address : Nat) (taint : Option (Nat → taint_t))
    (taint_offset : Nat) (bm : PageBitmap)
    (hactive : s.active_pages.lookup (page_base address) = some bm)
    (hsize : ∀ r ∈ s.mem_writes, r.size < 32) :
    (∀ i, (∃ r ∈ s.mem_writes, realized_at (page_base address) r i) →
      bitmap_tag (page_activate s address taint taint_offset).active_pages (page_base address) i
        = some .TAINT_DIRTY) ∧
    (∀ i, (¬ ∃ r ∈ s.mem_writes, realized_at (page_base address) r i) →
      bitmap_tag (page_activate s address taint taint_offset).active_pages (page_base address) i
        = some (bm i)) ∧
    (∀ k, k ≠ page_base address →
      (page_activate s address taint taint_offset).active_pages.lookup k =
        s.active_pages.lookup k) ∧
    (page_activate s address taint taint_offset).mem_writes =
      s.mem_writes.map (fun r =>
        if r.clean = int_minus_one ∧ page_base r.address = page_base address then
          { r with clean := 2 ^ r.size - 1 }
        else r) ∧
    page_activate s address taint taint_offset = page_activate s address none 0 := by
  obtain ⟨h1, h2, h3⟩ := foldl_realize_record (page_base address) s.mem_writes bm [] hsize
  have hpages : (page_activate s address taint taint_offset).active_pages =
      bitmap_store s.active_pages address
        (s.mem_writes.foldl (realize_record (page_base address)) (bm, [])).1 := by
    unfold page_activate bitmap_store
    simp only [hactive]
  have hlog : (page_activate s address taint taint_offset).mem_writes =
      (s.mem_writes.foldl (realize_record (page_base address)) (bm, [])).2 := by
    unfold page_activate
    simp only [hactive]
  refine ⟨?_, ?_, ?_, ?_, ?_⟩
  · intro i hi
    unfold bitmap_tag
    rw [hpages, lookup_bitmap_store, if_pos rfl, hactive]
    simp only [Option.map_some', h1 i hi]
  · intro i hi
    unfold bitmap_tag
    rw [hpages, lookup_bitmap_store, if_pos rfl, hactive]
    simp only [Option.map_some', h2 i hi]
  · intro k hk
    rw [hpages, lookup_bitmap_store, if_neg hk]
  · rw [hlog, h3]
    simp
  · unfold page_activate
    simp only [hactive]

/-- C13, at `deferred_state` with a taint image that is symbolic everywhere. -/
theorem page_activate_on_active_page_witness :
    (∀ i, (∃ r ∈ deferred_state.mem_writes, realized_at (page_base 0x1234) r i) →
      bitmap_tag (page_activate deferred_state 0x1234 (some (fun _ => .TAINT_SYMBOLIC)) 0).active_pages (page_base 0x1234) i
        = some .TAINT_DIRTY) ∧
    (∀ i, (¬ ∃ r ∈ deferred_state.mem_writes, realized_at (page_base 0x1234) r i) →
      bitmap_tag (page_activate deferred_state 0x1234 (some (fun _ => .TAINT_SYMBOLIC)) 0).active_pages (page_base 0x1234) i
        = some (bitmap_none i)) ∧
    (∀ k, k ≠ page_base 0x1234 →
      (page_activate deferred_state 0x1234 (some (fun _ => .TAINT_SYMBOLIC)) 0).active_pages.lookup k =
        deferred_state.active_pages.lookup k) ∧
    (page_activate deferred_state 0x1234 (some (fun _ => .TAINT_SYMBOLIC)) 0).mem_writes =
      deferred_state.mem_writes.map (fun r =>
        if r.clean = int_minus_one ∧ page_base r.address = page_base 0x1234 then
          { r with clean := 2 ^ r.size - 1 }
        else r) ∧
    page_activate deferred_state 0x1234 (some (fun _ => .TAINT_SYMBOLIC)) 0 = page_activate deferred_state 0x1234 none 0 :=
  page_activate_on_active_page deferred_state 0x1234 (some (fun _ => .TAINT_SYMBOLIC)) 0 bitmap_none
    rfl
    (by
      intro r hr
      have hr1 : r = deferred_record := by
        simpa [deferred_state, simunicorn_alloc] using hr
      subst hr1
      decide)

/-! ## Claims about block entry -/

/-- C14 (failing input): `untracked_state` does not track block addresses and holds the
address `0x1000` of a committed block in `bbl_addrs`. `step` adds nothing to `bbl_addrs`,
and `rollback` after it removes `0x1000`. -/
theorem rollback_pops_untracked_block :
    untracked_state.track_bbls = false ∧ untracked_state.bbl_addrs = [0x1000] ∧
      (step untracked_state 0x2000 16 true).map (fun s => s.bbl_addrs) = some [0x1000] ∧
      ((step untracked_state 0x2000 16 true).bind rollback).map (fun s => s.bbl_addrs) =
        some [] := by
  decide

/-- C15 (failing input): in `symbolic_guard_state` the exit guard of the previous block
depends on temporary 5, which is symbolic, and `is_symbolic_exit_guard_previous_block`
returns true after the commit. The hook returns without running `step` (`bbl_addrs` stays
empty), with `stopped` false and `stop_reason` still `STOP_NOSTART`. -/
theorem hook_block_symbolic_guard_does_not_stop :
    is_symbolic_temp symbolic_guard_state 5 = true ∧
      (commit symbolic_guard_state).bind is_symbolic_exit_guard_previous_block = some true ∧
      (hook_block lift_none 0 symbolic_guard_state 0x2000 16).map
          (fun s => (s.stopped, s.stop_reason, s.cur_steps, s.bbl_addrs)) =
        some (false, .STOP_NOSTART, 1, []) := by
  decide

/-- C16 (counterexample): in `symbolic_register_state` register tracking is enabled and
register 16 is symbolic; `increment_block` reads it before writing it, and `check_block`
would return false. The block hook completes without stopping: `stopped` is false,
`stopping_register` keeps its value 0, `cur_steps` has advanced to 1, no summary is
cached in `block_cache`, and taint propagation has run (temporary 0 and register 16 are
marked symbolic in the block). -/
theorem hook_block_enters_block_reading_symbolic_register :
    (check_block (lift_at 0x2000 increment_block) symbolic_register_state 0x2000 4).1 = false ∧
      (hook_block (lift_at 0x2000 increment_block) 0 symbolic_register_state 0x2000 4).map
          (fun s => (s.stopped, s.stop_reason, s.stopping_register, s.cur_steps)) =
        some (false, .STOP_NOSTART, 0, 1) ∧
      (hook_block (lift_at 0x2000 increment_block) 0 symbolic_register_state 0x2000 4).map
          (fun s => (s.block_symbolic_temps, s.block_symbolic_registers, s.block_cache)) =
        some ([0], [16], []) := by
  decide

/-- C16 (amended): the block hook does not run the feasibility check. Whenever it
completes, `stopping_register` and `block_cache` are what they were before the hook. -/
theorem hook_block_skips_feasibility_check (vex : VexLift) (uninit : Nat) (s : State)
    (address size : Nat) (h : (hook_block vex uninit s address size).isSome = true) :
    ∃ s1, hook_block vex uninit s address size = some s1 ∧
      s1.stopping_register = s.stopping_register ∧ s1.block_cache = s.block_cache := by
  obtain ⟨s1, h1⟩ := Option.isSome_iff_exists.mp h
  exact ⟨s1, h1, hook_block_frame vex uninit s s1 address size h1⟩

/-- C16 (amended), at `symbolic_register_state` and `increment_block`, where the hook
completes. -/
theorem hook_block_skips_feasibility_check_witness :
    ∃ s1, hook_block (lift_at 0x2000 increment_block) 0 symbolic_register_state 0x2000 4 =
        some s1 ∧
      s1.stopping_register = symbolic_register_state.stopping_register ∧
      s1.block_cache = symbolic_register_state.block_cache :=
  hook_block_skips_feasibility_check (lift_at 0x2000 increment_block) 0
    symbolic_register_state 0x2000 4 (by decide)

/-! ## Claims about the feasibility check -/

/-- C17: with register tracking enabled, `symbolic_registers` not empty and a summary
of the block (cached, or computed from a successful lift) whose `try_unicorn` is true,
`check_block` returns true if and only if no offset of `symbolic_registers` is in the
summary's used set; when it returns false, `stopping_register` afterwards is an offset
that is in both `symbolic_registers` and the used set. -/
theorem check_block_accepts_iff (vex : VexLift) (s : State) (address size : Nat)
    (entry : block_entry_t)
    (htrack : s.vex_guest ≠ VexArch_INVALID) (hsym : s.symbolic_registers ≠ [])
    (hsummary : block_summary vex s address size = some entry)
    (hok : entry.try_unicorn = true) :
    ((check_block vex s address size).1 = true ↔
      ∀ off ∈ s.symbolic_registers, off ∉ entry.used_registers) ∧
    ((check_block vex s address size).1 = false →
      (check_block vex s address size).2.stopping_register ∈ s.symbolic_registers ∧
      (check_block vex s address size).2.stopping_register ∈ entry.used_registers) := by
  obtain ⟨s1, hs1, _, heq⟩ := check_block_eq vex s address size entry htrack hsym hsummary
  rw [if_pos hok] at heq
  obtain ⟨h1, h2, _, _⟩ := check_block_sets_spec s1 entry.clobbered_registers entry.used_registers
  rw [heq]
  rw [hs1] at h1 h2
  exact ⟨h1, fun h => ⟨(h2 h).1, (h2 h).2.1⟩⟩

/-- C17, at `symbolic_register_state` and `increment_block`, which reads the symbolic
register 16. -/
theorem check_block_accepts_iff_witness :
    ((check_block (lift_at 0x2000 increment_block) symbolic_register_state 0x2000 4).1 = true ↔
      ∀ off ∈ symbolic_register_state.symbolic_registers,
        off ∉ [23, 22, 21, 20, 19, 18, 17, 16]) ∧
    ((check_block (lift_at 0x2000 increment_block) symbolic_register_state 0x2000 4).1 = false →
      (check_block (lift_at 0x2000 increment_block) symbolic_register_state 0x2000 4).2.stopping_register
        ∈ symbolic_register_state.symbolic_registers ∧
      (check_block (lift_at 0x2000 increment_block) symbolic_register_state 0x2000 4).2.stopping_register
        ∈ [23, 22, 21, 20, 19, 18, 17, 16]) :=
  check_block_accepts_iff (lift_at 0x2000 increment_block) symbolic_register_state 0x2000 4
    ⟨true, [23, 22, 21, 20, 19, 18, 17, 16], [23, 22, 21, 20, 19, 18, 17, 16]⟩
    (by decide) (by decide) (by decide) rfl

/-- C18: with register tracking enabled and `symbolic_registers` not empty, when
`check_block` returns true the block has a summary and `symbolic_registers` afterwards
holds the offsets it held before that are not in the summary's clobbered set; when
`check_block` returns false, `symbolic_registers` is unchanged. -/
theorem check_block_symbolic_registers (vex : VexLift) (s : State) (address size : Nat)
    (htrack : s.vex_guest ≠ VexArch_INVALID) (hsym : s.symbolic_registers ≠ []) :
    ((check_block vex s address size).1 = true →
      ∃ entry, block_summary vex s address size = some entry ∧
        ∀ off, off ∈ (check_block vex s address size).2.symbolic_registers ↔
          off ∈ s.symbolic_registers ∧ off ∉ entry.clobbered_registers) ∧
    ((check_block vex s address size).1 = false →
      (check_block vex s address size).2.symbolic_registers = s.symbolic_registers) := by
  cases hsum : block_summary vex s address size with
  | some entry =>
    obtain ⟨s1, hs1, _, heq⟩ := check_block_eq vex s address size entry htrack hsym hsum
    obtain ⟨_, h2, h3, _⟩ :=
      check_block_sets_spec s1 entry.clobbered_registers entry.used_registers
    rw [heq]
    cases ht : entry.try_unicorn with
    | true =>
      simp only [if_true]
      rw [hs1] at h2 h3
      exact ⟨fun h => ⟨entry, rfl, h3 h⟩, fun h => (h2 h).2.2⟩
    | false =>
      simp only [Bool.false_eq_true, if_false]
      exact ⟨fun h => (by cases h), fun _ => hs1⟩
  | none =>
    have hlen : ¬ s.symbolic_registers.length = 0 := by
      intro h
      exact hsym (List.length_eq_zero.mp h)
    unfold block_summary at hsum
    have hc : s.block_cache.lookup address = none := by
      cases hc : s.block_cache.lookup address with
      | none => rfl
      | some e =>
        rw [hc] at hsum
        cases hsum
    rw [hc] at hsum
    have hv : vex false s.uc address size = none := by
      cases hv : vex false s.uc address size with
      | none => rfl
      | some b =>
        rw [hv] at hsum
        cases hsum
    have heq : check_block vex s address size =
        (false, { s with block_cache := s.block_cache ++
          [(address, (⟨true, [], []⟩ : block_entry_t))] }) := by
      unfold check_block
      rw [if_neg htrack, if_neg hlen, hc]
      simp only [hv]
    rw [heq]
    exact ⟨fun h => (by cases h), fun _ => rfl⟩

/-- C18, at `symbolic_register_state` and `clobber_block`, which overwrites the symbolic
register 16. -/
theorem check_block_symbolic_registers_witness :
    ((check_block (lift_at 0x2000 clobber_block) symbolic_register_state 0x2000 4).1 = true →
      ∃ entry, block_summary (lift_at 0x2000 clobber_block) symbolic_register_state 0x2000 4 =
          some entry ∧
        ∀ off,
          off ∈ (check_block (lift_at 0x2000 clobber_block) symbolic_register_state
            0x2000 4).2.symbolic_registers ↔
          off ∈ symbolic_register_state.symbolic_registers ∧
            off ∉ entry.clobbered_registers) ∧
    ((check_block (lift_at 0x2000 clobber_block) symbolic_register_state 0x2000 4).1 = false →
      (check_block (lift_at 0x2000 clobber_block) symbolic_register_state
        0x2000 4).2.symbolic_registers = symbolic_register_state.symbolic_registers) :=
  check_block_symbolic_registers (lift_at 0x2000 clobber_block) symbolic_register_state 0x2000 4
    (by decide) (by decide)

/-- C19: for a statement sequence that `check_stmt` and `check_expr` analyse, from empty
sets, without rejection, a register byte is in `clobbered` if and only if some put of the
sequence covers it, and it is in `used` if and only if some get of the sequence covers it
at a point where no earlier put covers it. -/
theorem check_stmts_clobbered_used (tyenv : List IRType) (stmts : List IRStmt)
    (clobbered used : List Nat)
    (h : check_stmts tyenv [] [] stmts = (true, clobbered, used)) :
    (∀ b, b ∈ clobbered ↔ put_covers (stmts_accesses tyenv stmts) b) ∧
    (∀ b, b ∈ used ↔ get_before_put (stmts_accesses tyenv stmts) b) := by
  have h1 : (check_stmts tyenv [] [] stmts).1 = true := by rw [h]
  have h2 : (check_stmts tyenv [] [] stmts).2.1 = clobbered := by rw [h]
  have h3 : (check_stmts tyenv [] [] stmts).2.2 = used := by rw [h]
  refine ⟨?_, ?_⟩
  · intro b
    have hb := (check_stmts_sets tyenv stmts [] [] h1 b).1
    rw [h2] at hb
    simpa using hb
  · intro b
    have hb := (check_stmts_sets tyenv stmts [] [] h1 b).2
    rw [h3] at hb
    simpa using hb

/-- C19, at the statement `PUT(16) = Add64(GET:I64(16), 1)`: the eight bytes of the
register are clobbered and used. -/
theorem check_stmts_clobbered_used_witness :
    (∀ b, b ∈ [23, 22, 21, 20, 19, 18, 17, 16] ↔
      put_covers (stmts_accesses [] [put_get_stmt]) b) ∧
    (∀ b, b ∈ [23, 22, 21, 20, 19, 18, 17, 16] ↔
      get_before_put (stmts_accesses [] [put_get_stmt]) b) :=
  check_stmts_clobbered_used [] [put_get_stmt] [23, 22, 21, 20, 19, 18, 17, 16]
    [23, 22, 21, 20, 19, 18, 17, 16] (by decide)

/-- C20 (counterexample): `helper_block` has a dirty call, a compare-and-swap, a
load-linked, a guarded load and a guarded store. With register tracking enabled and
register 16 symbolic, `check_block` returns true for it and caches `try_unicorn = true`. -/
theorem check_block_accepts_helper_statements :
    (check_block (lift_at 0x2000 helper_block) symbolic_register_state 0x2000 4).1 = true ∧
      (check_block (lift_at 0x2000 helper_block) symbolic_register_state 0x2000 4).2.block_cache
        = [(0x2000, ⟨true, [31, 30, 29, 28, 27, 26, 25, 24], []⟩)] := by
  decide

/-- C20 (amended): with register tracking enabled, `symbolic_registers` not empty, no
cache entry for the block and a successful lift, `check_block` caches for the block a
summary whose `try_unicorn` is false exactly when the block has a `PutI` statement, a
`GetI` expression or a `Get` of type `Ity_I1` among the operands it examines, or a `Put`
of 1-bit data; for such a block it returns false. -/
theorem check_block_rejected_constructs (vex : VexLift) (s : State) (address size : Nat)
    (the_block : IRSB)
    (htrack : s.vex_guest ≠ VexArch_INVALID) (hsym : s.symbolic_registers ≠ [])
    (hmiss : s.block_cache.lookup address = none)
    (hlift : vex false s.uc address size = some the_block) :
    (∃ entry, (check_block vex s address size).2.block_cache.lookup address = some entry ∧
      entry.try_unicorn = !rejected_block the_block) ∧
    (rejected_block the_block = true → (check_block vex s address size).1 = false) := by
  have hsum : block_summary vex s address size =
      some ⟨(analyse_block the_block).1, (analyse_block the_block).2.2,
        (analyse_block the_block).2.1⟩ := by
    unfold block_summary
    rw [hmiss]
    simp only [hlift]
  obtain ⟨s1, _, hs1, heq⟩ := check_block_eq vex s address size _ htrack hsym hsum
  obtain ⟨_, _, _, h4⟩ := check_block_sets_spec s1 (analyse_block the_block).2.1
    (analyse_block the_block).2.2
  have ha := analyse_block_fst the_block
  cases hr : rejected_block the_block with
  | true =>
    rw [hr] at ha
    have ha1 : (analyse_block the_block).1 = false := by simpa using ha
    have heq1 : check_block vex s address size = (false, s1) := by
      rw [heq]
      simp [ha1]
    rw [heq1]
    exact ⟨⟨_, hs1, ha⟩, fun _ => rfl⟩
  | false =>
    rw [hr] at ha
    have ha1 : (analyse_block the_block).1 = true := by simpa using ha
    have heq1 : check_block vex s address size =
        check_block_sets s1 (analyse_block the_block).2.1 (analyse_block the_block).2.2 := by
      rw [heq]
      simp [ha1]
    rw [heq1, h4]
    exact ⟨⟨_, hs1, ha⟩, fun h => (by cases h)⟩

/-- C20 (amended), at `symbolic_register_state` and `puti_block`. -/
theorem check_block_rejected_constructs_witness :
    (∃ entry,
      (check_block (lift_at 0x2000 puti_block) symbolic_register_state 0x2000 4).2.block_cache.lookup
        0x2000 = some entry ∧
      entry.try_unicorn = !rejected_block puti_block) ∧
    (rejected_block puti_block = true →
      (check_block (lift_at 0x2000 puti_block) symbolic_register_state 0x2000 4).1 = false) :=
  check_block_rejected_constructs (lift_at 0x2000 puti_block) symbolic_register_state 0x2000 4
    puti_block (by decide) (by decide) (by decide) rfl

/-! ## The loop of taint propagation -/

theorem propagate_pairs_ite_stop (m : List (Nat × TaintEntitySet)) (s : State)
    (sink : taint_entity_t) (srcs : TaintEntitySet)
    (rest : List (taint_entity_t × TaintEntitySet))
    (h : ite_cond_stops m s sink.instr_addr = true) :
    propagate_pairs m s ((sink, srcs) :: rest) =
      some { s with stopped := true, stop_reason := .STOP_SYMBOLIC_CONDITION } := by
  unfold ite_cond_stops at h
  cases sink <;> rw [propagate_pairs] <;> simp only [taint_entity_t.instr_addr] at h ⊢ <;>
    simp only [h, if_true] <;> rfl

theorem propagate_pairs_mem (m : List (Nat × TaintEntitySet)) (s : State)
    (l : List taint_entity_t) (ia : Nat) (srcs : TaintEntitySet)
    (rest : List (taint_entity_t × TaintEntitySet))
    (h : ite_cond_stops m s ia = false) :
    propagate_pairs m s ((.TAINT_ENTITY_MEM l ia, srcs) :: rest) =
      if status_concrete (get_final_taint_status s l) = false then
        some { s with stopped := true, stop_reason := .STOP_SYMBOLIC_WRITE_ADDR }
      else if (get_final_taint_status s srcs).depends_on_read_from_symbolic_addr then
        some { s with stopped := true, stop_reason := .STOP_SYMBOLIC_READ_ADDR }
      else if (get_final_taint_status s srcs).is_symbolic then
        if (s.mem_writes_taint_map.lookup ia).isSome then none
        else
          propagate_pairs m
            { s with mem_writes_taint_map := map_emplace s.mem_writes_taint_map ia true } rest
      else if (get_final_taint_status s srcs).depends_on_read_from_concrete_addr then
        if (s.mem_writes_taint_map.lookup ia).isSome then none
        else
          propagate_pairs m
            { s with
              mem_reads_taint_dst_map :=
                (append_mem_read_dst s.mem_reads_taint_dst_map
                  (get_final_taint_status s srcs).concrete_mem_read_instr_addr
                  (.TAINT_ENTITY_MEM l ia))
              mem_writes_taint_map := map_emplace s.mem_writes_taint_map ia false } rest
      else
        propagate_pairs m
          { s with mem_writes_taint_map := map_emplace s.mem_writes_taint_map ia false } rest := by
  unfold ite_cond_stops at h
  rw [propagate_pairs]
  simp only [taint_entity_t.instr_addr] at h ⊢
  simp only [h, Bool.false_eq_true, if_false]
  unfold status_concrete
  cases h1 : (get_final_taint_status s l).is_symbolic <;>
    cases h2 : (get_final_taint_status s l).depends_on_read_from_symbolic_addr <;>
    cases h3 : (get_final_taint_status s l).depends_on_read_from_concrete_addr <;>
    simp [stop]


theorem propagate_pairs_none (m : List (Nat × TaintEntitySet)) (s : State)
    (ia : Nat) (srcs : TaintEntitySet) (rest : List (taint_entity_t × TaintEntitySet))
    (h : ite_cond_stops m s ia = false) :
    propagate_pairs m s ((.TAINT_ENTITY_NONE ia, srcs) :: rest) = propagate_pairs m s rest := by
  unfold ite_cond_stops at h
  rw [propagate_pairs]
  simp only [taint_entity_t.instr_addr] at h ⊢
  simp only [h, Bool.false_eq_true, if_false]

theorem propagate_pairs_reg (m : List (Nat × TaintEntitySet)) (s : State)
    (reg_offset ia : Nat) (srcs : TaintEntitySet)
    (rest : List (taint_entity_t × TaintEntitySet))
    (h : ite_cond_stops m s ia = false) :
    propagate_pairs m s ((.TAINT_ENTITY_REG reg_offset ia, srcs) :: rest) =
      if (get_final_taint_status s srcs).depends_on_read_from_symbolic_addr then
        some { s with stopped := true, stop_reason := .STOP_SYMBOLIC_READ_ADDR }
      else if (get_final_taint_status s srcs).is_symbolic then
        propagate_pairs m (mark_register_symbolic s reg_offset true) rest
      else if (get_final_taint_status s srcs).depends_on_read_from_concrete_addr then
        propagate_pairs m
          (mark_register_concrete
            { s with mem_reads_taint_dst_map :=
                (append_mem_read_dst s.mem_reads_taint_dst_map
                  (get_final_taint_status s srcs).concrete_mem_read_instr_addr
                  (.TAINT_ENTITY_REG reg_offset ia)) }
            reg_offset true) rest
      else propagate_pairs m (mark_register_concrete s reg_offset true) rest := by
  unfold ite_cond_stops at h
  rw [propagate_pairs]
  simp only [taint_entity_t.instr_addr] at h ⊢
  simp only [h, Bool.false_eq_true, if_false]
  rfl

theorem propagate_pairs_tmp (m : List (Nat × TaintEntitySet)) (s : State)
    (tmp_id ia : Nat) (srcs : TaintEntitySet)
    (rest : List (taint_entity_t × TaintEntitySet))
    (h : ite_cond_stops m s ia = false) :
    propagate_pairs m s ((.TAINT_ENTITY_TMP tmp_id ia, srcs) :: rest) =
      if (get_final_taint_status s srcs).depends_on_read_from_symbolic_addr then
        some { s with stopped := true, stop_reason := .STOP_SYMBOLIC_READ_ADDR }
      else if (get_final_taint_status s srcs).is_symbolic then
        propagate_pairs m (mark_temp_symbolic s tmp_id true) rest
      else if (get_final_taint_status s srcs).depends_on_read_from_concrete_addr then
        propagate_pairs m
          { s with mem_reads_taint_dst_map :=
              (append_mem_read_dst s.mem_reads_taint_dst_map
                (get_final_taint_status s srcs).concrete_mem_read_instr_addr
                (.TAINT_ENTITY_TMP tmp_id ia)) } rest
      else propagate_pairs m s rest := by
  unfold ite_cond_stops at h
  rw [propagate_pairs]
  simp only [taint_entity_t.instr_addr] at h ⊢
  simp only [h, Bool.false_eq_true, if_false]
  rfl

/-- The loop of `propagate_taints` over a list of pairs in two parts: the second part is
run when the first has neither aborted nor stopped. -/
theorem propagate_pairs_append (m : List (Nat × TaintEntitySet))
    (pre rest : List (taint_entity_t × TaintEntitySet)) (s : State)
    (hs : s.stopped = false) :
    propagate_pairs m s (pre ++ rest) =
      match propagate_pairs m s pre with
      | none => none
      | some s1 => if s1.stopped then some s1 else propagate_pairs m s1 rest := by
  induction pre generalizing s with
  | nil =>
    simp only [List.nil_append, propagate_pairs, hs, Bool.false_eq_true, if_false]
  | cons p pre ih =>
    obtain ⟨sink, srcs⟩ := p
    rw [List.cons_append]
    cases hi : ite_cond_stops m s sink.instr_addr with
    | true =>
      rw [propagate_pairs_ite_stop m s sink srcs _ hi, propagate_pairs_ite_stop m s sink srcs _ hi]
      simp
    | false =>
      cases sink with
      | TAINT_ENTITY_NONE ia =>
        rw [propagate_pairs_none m s ia srcs _ hi, propagate_pairs_none m s ia srcs _ hi]
        exact ih s hs
      | TAINT_ENTITY_REG reg_offset ia =>
        rw [propagate_pairs_reg m s reg_offset ia srcs _ hi,
          propagate_pairs_reg m s reg_offset ia srcs _ hi]
        split_ifs
        · simp
        · exact ih _ hs
        · exact ih _ hs
        · exact ih _ hs
      | TAINT_ENTITY_TMP tmp_id ia =>
        rw [propagate_pairs_tmp m s tmp_id ia srcs _ hi,
          propagate_pairs_tmp m s tmp_id ia srcs _ hi]
        split_ifs
        · simp
        · exact ih _ hs
        · exact ih _ hs
        · exact ih _ hs
      | TAINT_ENTITY_MEM l ia =>
        rw [propagate_pairs_mem m s l ia srcs _ hi, propagate_pairs_mem m s l ia srcs _ hi]
        split_ifs
        · simp
        · simp
        · rfl
        · exact ih _ hs
        · rfl
        · exact ih _ hs
        · exact ih _ hs


theorem propagate_taints_eq (vex : VexLift) (uninit : Nat) (st : State) (address size : Nat)
    (entry : block_taint_entry_t)
    (h : taint_summary vex uninit st address size = some entry) :
    propagate_taints vex uninit st address size =
      propagate_pairs entry.ite_cond_map (sink_loop_start st address entry)
        entry.taint_sink_src_data := by
  unfold taint_summary at h
  unfold propagate_taints sink_loop_start
  cases hc : st.block_taint_cache.lookup address with
  | some e =>
    rw [hc] at h
    simp only [Option.some.injEq] at h
    subst h
    rfl
  | none =>
    rw [hc] at h
    cases hv : vex true st.uc address size with
    | none =>
      rw [hv] at h
      cases h
    | some irsb =>
      rw [hv] at h
      simp only at h
      simp only [h]

/-- When the loop of `propagate_taints` reaches a pair, the call returns what the loop
returns from that pair on. -/
theorem propagate_taints_of_reaches (vex : VexLift) (uninit : Nat) (st : State)
    (address size : Nat) (entry : block_taint_entry_t)
    (pre : List (taint_entity_t × TaintEntitySet)) (p : taint_entity_t × TaintEntitySet)
    (rest : List (taint_entity_t × TaintEntitySet)) (s : State)
    (h : reaches_pair vex uninit st address size entry pre p rest s) :
    propagate_taints vex uninit st address size =
      propagate_pairs entry.ite_cond_map s (p :: rest) := by
  obtain ⟨hst, hsum, hpairs, hpre, hrun⟩ := h
  rw [propagate_taints_eq vex uninit st address size entry hsum, hpairs,
    propagate_pairs_append, hpre]
  · simp only [hrun, Bool.false_eq_true, if_false]
  · unfold sink_loop_start
    split <;> exact hst


theorem lookup_append_other {β : Type} (m : List (Nat × β)) (k k1 : Nat) (v : β)
    (h : k1 ≠ k) : (m ++ [(k1, v)]).lookup k = m.lookup k := by
  induction m with
  | nil =>
    have hk : (k == k1) = false := by
      rw [beq_eq_false_iff_ne]
      exact fun e => h e.symm
    simp [List.lookup, hk]
  | cons e rest ih =>
    obtain ⟨key, b⟩ := e
    simp only [List.lookup_cons, List.cons_append]
    cases hk : (k == key)
    · exact ih
    · rfl

theorem lookup_map_emplace_other {β : Type} (m : List (Nat × β)) (k k1 : Nat) (v : β)
    (h : k1 ≠ k) : (map_emplace m k1 v).lookup k = m.lookup k := by
  unfold map_emplace
  split
  · rfl
  · exact lookup_append_other m k k1 v h

/-- The loop of `propagate_taints` leaves the `mem_writes_taint_map` entry of an
instruction as it was while it meets no memory sink of that instruction. -/
theorem propagate_pairs_writes_other (m : List (Nat × TaintEntitySet)) (k : Nat)
    (pre : List (taint_entity_t × TaintEntitySet)) :
    ∀ (s s1 : State), propagate_pairs m s pre = some s1 →
      (∀ p ∈ pre, is_mem_entity p.1 = true → p.1.instr_addr ≠ k) →
      s1.mem_writes_taint_map.lookup k = s.mem_writes_taint_map.lookup k := by
  induction pre with
  | nil =>
    intro s s1 h _
    simp only [propagate_pairs, Option.some.injEq] at h
    rw [← h]
  | cons p pre ih =>
    intro s s1 h hno
    obtain ⟨sink, srcs⟩ := p
    have hrest : ∀ p ∈ pre, is_mem_entity p.1 = true → p.1.instr_addr ≠ k :=
      fun p hp => hno p (List.mem_cons_of_mem _ hp)
    have hsink : is_mem_entity sink = true → sink.instr_addr ≠ k :=
      hno (sink, srcs) (List.mem_cons_self _ _)
    cases hi : ite_cond_stops m s sink.instr_addr with
    | true =>
      rw [propagate_pairs_ite_stop m s sink srcs _ hi, Option.some.injEq] at h
      rw [← h]
    | false =>
      cases sink with
      | TAINT_ENTITY_NONE ia =>
        rw [propagate_pairs_none m s ia srcs _ hi] at h
        exact ih s s1 h hrest
      | TAINT_ENTITY_REG reg_offset ia =>
        rw [propagate_pairs_reg m s reg_offset ia srcs _ hi] at h
        split_ifs at h
        · rw [Option.some.injEq] at h
          rw [← h]
        · have h3 := ih _ s1 h hrest
          exact h3
        · have h3 := ih _ s1 h hrest
          exact h3
        · have h3 := ih _ s1 h hrest
          exact h3
      | TAINT_ENTITY_TMP tmp_id ia =>
        rw [propagate_pairs_tmp m s tmp_id ia srcs _ hi] at h
        split_ifs at h
        · rw [Option.some.injEq] at h
          rw [← h]
        · have h3 := ih _ s1 h hrest
          exact h3
        · have h3 := ih _ s1 h hrest
          exact h3
        · have h3 := ih _ s1 h hrest
          exact h3
      | TAINT_ENTITY_MEM l ia =>
        have hne : ia ≠ k := hsink rfl
        rw [propagate_pairs_mem m s l ia srcs _ hi] at h
        split_ifs at h
        · rw [Option.some.injEq] at h
          rw [← h]
        · rw [Option.some.injEq] at h
          rw [← h]
        · have h3 := ih _ s1 h hrest
          exact h3.trans (lookup_map_emplace_other _ k ia _ hne)
        · have h3 := ih _ s1 h hrest
          exact h3.trans (lookup_map_emplace_other _ k ia _ hne)
        · have h3 := ih _ s1 h hrest
          exact h3.trans (lookup_map_emplace_other _ k ia _ hne)

theorem sink_loop_start_writes (s : State) (address : Nat) (entry : block_taint_entry_t) :
    (sink_loop_start s address entry).mem_writes_taint_map = s.mem_writes_taint_map := by
  unfold sink_loop_start
  split <;> rfl


theorem scan_mem_reads_flags (s : State) (e : taint_entity_t) (r : taint_status_result_t) :
    (scan_mem_reads s e r).is_symbolic = r.is_symbolic ∧
    (scan_mem_reads s e r).depends_on_read_from_symbolic_addr =
      r.depends_on_read_from_symbolic_addr := by
  unfold scan_mem_reads
  generalize s.mem_reads_taint_dst_map = l
  induction l generalizing r with
  | nil => exact ⟨rfl, rfl⟩
  | cons a l ih =>
    rw [List.foldl_cons]
    split
    · obtain ⟨h1, h2⟩ := ih { r with
        depends_on_read_from_concrete_addr := true
        concrete_mem_read_instr_addr := e.instr_addr }
      exact ⟨h1, h2⟩
    · exact ih r

theorem entity_symbolic_of_beq (s : State) (x e : taint_entity_t)
    (he : is_reg_or_tmp e = true) (h : taint_entity_t.beq x e = true) :
    entity_symbolic s x = entity_symbolic s e := by
  cases e <;> cases x <;> simp_all [taint_entity_t.beq, entity_symbolic, is_reg_or_tmp]

theorem taint_status_loop_no_load (s : State) (list : List taint_entity_t) :
    ∀ (seen : List taint_entity_t) (r : taint_status_result_t),
    (∀ e ∈ list, is_reg_or_tmp e = true) →
    (taint_status_loop s seen list r).depends_on_read_from_symbolic_addr =
        r.depends_on_read_from_symbolic_addr ∧
    (r.is_symbolic = true → (taint_status_loop s seen list r).is_symbolic = true) ∧
    ((∀ e ∈ list, entity_symbolic s e = false) →
      (taint_status_loop s seen list r).is_symbolic = r.is_symbolic) ∧
    ((∃ e ∈ list, entity_symbolic s e = true) →
      (∀ x ∈ seen, entity_symbolic s x = true → r.is_symbolic = true) →
      (taint_status_loop s seen list r).is_symbolic = true) := by
  induction list with
  | nil =>
    intro seen r _
    simp [taint_status_loop]
  | cons e rest ih =>
    intro seen r hall
    have hrest : ∀ x ∈ rest, is_reg_or_tmp x = true :=
      fun x hx => hall x (List.mem_cons_of_mem _ hx)
    have he : is_reg_or_tmp e = true := hall e (List.mem_cons_self _ _)
    have key : ∀ (sym : Bool), entity_symbolic s e = sym →
        taint_status_loop s seen (e :: rest) r =
          if entity_count seen e then taint_status_loop s seen rest r
          else if sym then taint_status_loop s (seen ++ [e]) rest { r with is_symbolic := true }
          else taint_status_loop s (seen ++ [e]) rest (scan_mem_reads s e r) := by
      intro sym hsym
      cases e with
      | TAINT_ENTITY_REG o a =>
        rw [taint_status_loop]
        simp only [entity_symbolic] at hsym
        simp only [hsym]
      | TAINT_ENTITY_TMP t a =>
        rw [taint_status_loop]
        simp only [entity_symbolic] at hsym
        simp only [hsym]
      | TAINT_ENTITY_MEM l a => simp [is_reg_or_tmp] at he
      | TAINT_ENTITY_NONE a => simp [is_reg_or_tmp] at he
    rw [key _ rfl]
    by_cases hcount : entity_count seen e = true
    · rw [if_pos hcount]
      obtain ⟨i1, i2, i3, i4⟩ := ih seen r hrest
      refine ⟨i1, i2, ?_, ?_⟩
      · intro hno
        exact i3 (fun x hx => hno x (List.mem_cons_of_mem _ hx))
      · rintro ⟨x, hx, hsym⟩ hinv
        rcases List.mem_cons.mp hx with rfl | hx
        · unfold entity_count at hcount
          obtain ⟨y, hy, hbeq⟩ := List.any_eq_true.mp hcount
          have hy2 := entity_symbolic_of_beq s y x he hbeq
          exact i2 (hinv y hy (hy2.trans hsym))
        · exact i4 ⟨x, hx, hsym⟩ hinv
    · rw [if_neg hcount]
      cases hsym : entity_symbolic s e with
      | true =>
        simp only [if_true]
        obtain ⟨i1, i2, i3, i4⟩ := ih (seen ++ [e]) { r with is_symbolic := true } hrest
        refine ⟨i1, fun _ => i2 rfl, ?_, fun _ _ => i2 rfl⟩
        intro hno
        have := hno e (List.mem_cons_self _ _)
        rw [hsym] at this
        cases this
      | false =>
        simp only [Bool.false_eq_true, if_false]
        obtain ⟨f1, f2⟩ := scan_mem_reads_flags s e r
        obtain ⟨i1, i2, i3, i4⟩ := ih (seen ++ [e]) (scan_mem_reads s e r) hrest
        refine ⟨i1.trans f2, fun h => i2 (f1.trans h), ?_, ?_⟩
        · intro hno
          exact (i3 (fun x hx => hno x (List.mem_cons_of_mem _ hx))).trans f1
        · rintro ⟨x, hx, hxs⟩ hinv
          rcases List.mem_cons.mp hx with rfl | hx
          · rw [hsym] at hxs
            cases hxs
          · apply i4 ⟨x, hx, hxs⟩
            intro y hy hys
            rw [f1]
            rcases List.mem_append.mp hy with hy | hy
            · exact hinv y hy hys
            · rw [List.mem_singleton] at hy
              subst hy
              rw [hsym] at hys
              cases hys

/-- The status of a set of register and temporary sources: never a read from a symbolic
address, and symbolic exactly when some source is symbolic. -/
theorem status_no_load (s : State) (srcs : TaintEntitySet)
    (h : ∀ e ∈ srcs, is_reg_or_tmp e = true) :
    (get_final_taint_status s srcs).depends_on_read_from_symbolic_addr = false ∧
    ((∃ e ∈ srcs, entity_symbolic s e = true) →
      (get_final_taint_status s srcs).is_symbolic = true) ∧
    ((∀ e ∈ srcs, entity_symbolic s e = false) →
      (get_final_taint_status s srcs).is_symbolic = false) := by
  unfold get_final_taint_status
  obtain ⟨i1, _, i3, i4⟩ := taint_status_loop_no_load s srcs [] taint_status_start h
  refine ⟨i1, ?_, i3⟩
  intro hex
  exact i4 hex (fun x hx => by cases hx)


theorem propagate_pairs_single_no_ite (m : List (Nat × TaintEntitySet)) (s : State)
    (p : taint_entity_t × TaintEntitySet)
    (h : ite_cond_stops m s p.1.instr_addr = false) :
    propagate_pairs m s [p] = propagate_pairs [] s [p] := by
  obtain ⟨sink, srcs⟩ := p
  have h0 : ∀ ia, ite_cond_stops [] s ia = false := fun ia => rfl
  cases sink with
  | TAINT_ENTITY_NONE ia =>
    rw [propagate_pairs_none m s ia srcs _ h, propagate_pairs_none [] s ia srcs _ (h0 ia)]
    simp only [propagate_pairs]
  | TAINT_ENTITY_REG reg_offset ia =>
    rw [propagate_pairs_reg m s reg_offset ia srcs _ h,
      propagate_pairs_reg [] s reg_offset ia srcs _ (h0 ia)]
    simp only [propagate_pairs]
  | TAINT_ENTITY_TMP tmp_id ia =>
    rw [propagate_pairs_tmp m s tmp_id ia srcs _ h,
      propagate_pairs_tmp [] s tmp_id ia srcs _ (h0 ia)]
    simp only [propagate_pairs]
  | TAINT_ENTITY_MEM l ia =>
    rw [propagate_pairs_mem m s l ia srcs _ h, propagate_pairs_mem [] s l ia srcs _ (h0 ia)]
    simp only [propagate_pairs]

theorem map_emplace_new {β : Type} (m : List (Nat × β)) (k : Nat) (v : β)
    (h : m.lookup k = none) : map_emplace m k v = m ++ [(k, v)] := by
  unfold map_emplace
  simp [h]

/-! ## The status of a set of entities -/

theorem scan_mem_reads_concrete_addr (s : State) (e : taint_entity_t)
    (r : taint_status_result_t) :
    (scan_mem_reads s e r).depends_on_read_from_concrete_addr =
      (r.depends_on_read_from_concrete_addr || pending_on_read s e) := by
  unfold scan_mem_reads pending_on_read
  generalize s.mem_reads_taint_dst_map = l
  induction l generalizing r with
  | nil => simp
  | cons a l ih =>
    rw [List.foldl_cons, List.any_cons]
    split
    · rename_i h
      rw [ih, h]
      simp
    · rename_i h
      rw [ih]
      simp only [Bool.not_eq_true] at h
      rw [h]
      simp

theorem pending_on_read_of_beq (s : State) (x e : taint_entity_t)
    (h : taint_entity_t.beq x e = true) (he : is_reg_or_tmp e = true) :
    pending_on_read s x = pending_on_read s e := by
  have hd : (fun d => taint_entity_t.beq x d) = (fun d => taint_entity_t.beq e d) := by
    funext d
    cases e <;> cases x <;> cases d <;> simp_all [taint_entity_t.beq, is_reg_or_tmp]
  unfold pending_on_read
  rw [hd]

theorem symbolic_or_read_dependent_of_beq (s : State) (x e : taint_entity_t)
    (h : taint_entity_t.beq x e = true) :
    symbolic_or_read_dependent s x = symbolic_or_read_dependent s e := by
  cases e with
  | TAINT_ENTITY_REG o a =>
    have hx : is_reg_or_tmp x = true ∧ is_mem_entity x = false := by
      cases x <;> simp_all [taint_entity_t.beq, is_reg_or_tmp, is_mem_entity]
    unfold symbolic_or_read_dependent
    rw [pending_on_read_of_beq s x (.TAINT_ENTITY_REG o a) h rfl,
      entity_symbolic_of_beq s x (.TAINT_ENTITY_REG o a) rfl h, hx.1, hx.2]
    rfl
  | TAINT_ENTITY_TMP t a =>
    have hx : is_reg_or_tmp x = true ∧ is_mem_entity x = false := by
      cases x <;> simp_all [taint_entity_t.beq, is_reg_or_tmp, is_mem_entity]
    unfold symbolic_or_read_dependent
    rw [pending_on_read_of_beq s x (.TAINT_ENTITY_TMP t a) h rfl,
      entity_symbolic_of_beq s x (.TAINT_ENTITY_TMP t a) rfl h, hx.1, hx.2]
    rfl
  | TAINT_ENTITY_MEM l a =>
    cases x <;> simp_all [taint_entity_t.beq, symbolic_or_read_dependent, is_mem_entity]
  | TAINT_ENTITY_NONE a =>
    cases x <;>
      simp_all [taint_entity_t.beq, symbolic_or_read_dependent, is_mem_entity, is_reg_or_tmp]

theorem status_concrete_scan (s : State) (e : taint_entity_t) (r : taint_status_result_t) :
    status_concrete (scan_mem_reads s e r) = (status_concrete r && !pending_on_read s e) := by
  obtain ⟨f1, f2⟩ := scan_mem_reads_flags s e r
  unfold status_concrete
  rw [f1, f2, scan_mem_reads_concrete_addr]
  cases r.is_symbolic <;> cases r.depends_on_read_from_symbolic_addr <;>
    cases r.depends_on_read_from_concrete_addr <;> cases pending_on_read s e <;> rfl

theorem seen_dependent (s : State) (seen : List taint_entity_t) (e : taint_entity_t)
    (r : taint_status_result_t)
    (hinv : ∀ x ∈ seen, symbolic_or_read_dependent s x = true → status_concrete r = false)
    (hcount : entity_count seen e = true) :
    status_concrete r = (status_concrete r && !symbolic_or_read_dependent s e) := by
  unfold entity_count at hcount
  obtain ⟨y, hy, hbeq⟩ := List.any_eq_true.mp hcount
  have hdep := symbolic_or_read_dependent_of_beq s y e hbeq
  cases hd : symbolic_or_read_dependent s e with
  | false => simp
  | true =>
    rw [hd] at hdep
    rw [hinv y hy hdep]
    rfl

theorem taint_status_loop_concrete (s : State) (list : List taint_entity_t) :
    ∀ (seen : List taint_entity_t) (r : taint_status_result_t),
    (∀ x ∈ seen, symbolic_or_read_dependent s x = true → status_concrete r = false) →
    status_concrete (taint_status_loop s seen list r) =
      (status_concrete r && list.all (fun e => !symbolic_or_read_dependent s e)) := by
  induction list with
  | nil =>
    intro seen r _
    simp [taint_status_loop]
  | cons e rest ih =>
    intro seen r hinv
    rw [List.all_cons, ← Bool.and_assoc]
    cases e with
    | TAINT_ENTITY_NONE ia =>
      rw [taint_status_loop, ih]
      · simp [symbolic_or_read_dependent, is_mem_entity, is_reg_or_tmp]
      · intro x hx hdep
        unfold entity_emplace at hx
        split at hx
        · exact hinv x hx hdep
        · rcases List.mem_append.mp hx with hx | hx
          · exact hinv x hx hdep
          · rw [List.mem_singleton] at hx
            subst hx
            simp [symbolic_or_read_dependent, is_mem_entity, is_reg_or_tmp] at hdep
    | TAINT_ENTITY_REG o ia =>
      rw [taint_status_loop]
      by_cases hcount : entity_count seen (.TAINT_ENTITY_REG o ia) = true
      · rw [if_pos hcount, ih seen r hinv, ← seen_dependent s seen _ r hinv hcount]
      · rw [if_neg hcount]
        cases hsym : is_symbolic_register s o with
        | true =>
          simp only [if_true]
          have h3 := ih (seen ++ [taint_entity_t.TAINT_ENTITY_REG o ia])
            { r with is_symbolic := true } (fun _ _ _ => rfl)
          rw [h3]
          simp [symbolic_or_read_dependent, is_mem_entity, is_reg_or_tmp, entity_symbolic,
            hsym, status_concrete]
        | false =>
          simp only [Bool.false_eq_true, if_false]
          have hd : symbolic_or_read_dependent s (.TAINT_ENTITY_REG o ia) =
              pending_on_read s (.TAINT_ENTITY_REG o ia) := by
            simp [symbolic_or_read_dependent, is_mem_entity, is_reg_or_tmp, entity_symbolic,
              hsym]
          rw [ih, status_concrete_scan, hd]
          intro x hx hdep
          rw [status_concrete_scan]
          rcases List.mem_append.mp hx with hx | hx
          · rw [hinv x hx hdep]
            rfl
          · rw [List.mem_singleton] at hx
            subst hx
            rw [hd] at hdep
            rw [hdep]
            simp
    | TAINT_ENTITY_TMP t ia =>
      rw [taint_status_loop]
      by_cases hcount : entity_count seen (.TAINT_ENTITY_TMP t ia) = true
      · rw [if_pos hcount, ih seen r hinv, ← seen_dependent s seen _ r hinv hcount]
      · rw [if_neg hcount]
        cases hsym : is_symbolic_temp s t with
        | true =>
          simp only [if_true]
          have h3 := ih (seen ++ [taint_entity_t.TAINT_ENTITY_TMP t ia])
            { r with is_symbolic := true } (fun _ _ _ => rfl)
          rw [h3]
          simp [symbolic_or_read_dependent, is_mem_entity, is_reg_or_tmp, entity_symbolic,
            hsym, status_concrete]
        | false =>
          simp only [Bool.false_eq_true, if_false]
          have hd : symbolic_or_read_dependent s (.TAINT_ENTITY_TMP t ia) =
              pending_on_read s (.TAINT_ENTITY_TMP t ia) := by
            simp [symbolic_or_read_dependent, is_mem_entity, is_reg_or_tmp, entity_symbolic,
              hsym]
          rw [ih, status_concrete_scan, hd]
          intro x hx hdep
          rw [status_concrete_scan]
          rcases List.mem_append.mp hx with hx | hx
          · rw [hinv x hx hdep]
            rfl
          · rw [List.mem_singleton] at hx
            subst hx
            rw [hd] at hdep
            rw [hdep]
            simp
    | TAINT_ENTITY_MEM l ia =>
      have hd : symbolic_or_read_dependent s (.TAINT_ENTITY_MEM l ia) = true := rfl
      rw [taint_status_loop]
      by_cases hcount : entity_count seen (.TAINT_ENTITY_MEM l ia) = true
      · rw [if_pos hcount, ih seen r hinv, ← seen_dependent s seen _ r hinv hcount]
      · rw [if_neg hcount, hd]
        simp only [Bool.not_true, Bool.and_false, Bool.false_and]
        split
        · simp [status_concrete]
        · split
          · simp [status_concrete]
          · rw [ih _ _ (fun _ _ _ => by simp [status_concrete])]
            simp [status_concrete]

/-- The status that `get_final_taint_status` gives for a list of entities is concrete
exactly when no entity of the list is symbolic or depends on a memory read. -/
theorem status_concrete_eq (s : State) (l : List taint_entity_t) :
    status_concrete (get_final_taint_status s l) =
      l.all (fun e => !symbolic_or_read_dependent s e) := by
  unfold get_final_taint_status
  rw [taint_status_loop_concrete s l [] taint_status_start (fun x hx => by cases hx)]
  rfl

theorem status_concrete_false (s : State) (l : List taint_entity_t)
    (h : ∃ e ∈ l, symbolic_or_read_dependent s e = true) :
    status_concrete (get_final_taint_status s l) = false := by
  obtain ⟨e, he, hd⟩ := h
  rw [status_concrete_eq]
  cases hall : l.all (fun e => !symbolic_or_read_dependent s e) with
  | false => rfl
  | true =>
    have := List.all_eq_true.mp hall e he
    rw [hd] at this
    cases this

theorem status_concrete_true (s : State) (l : List taint_entity_t)
    (h : ∀ e ∈ l, symbolic_or_read_dependent s e = false) :
    status_concrete (get_final_taint_status s l) = true := by
  rw [status_concrete_eq, List.all_eq_true]
  intro e he
  rw [h e he]
  rfl

theorem ite_cond_stops_eq (m : List (Nat × TaintEntitySet)) (s : State) (ia : Nat)
    (conds : TaintEntitySet) (hconds : m.lookup ia = some conds) :
    ite_cond_stops m s ia = !status_concrete (get_final_taint_status s conds) := by
  unfold ite_cond_stops status_concrete
  rw [hconds]
  cases h1 : (get_final_taint_status s conds).is_symbolic <;>
    cases h2 : (get_final_taint_status s conds).depends_on_read_from_symbolic_addr <;>
    cases h3 : (get_final_taint_status s conds).depends_on_read_from_concrete_addr <;>
    simp [h1, h2, h3]

theorem ite_cond_stops_false (m : List (Nat × TaintEntitySet)) (s : State) (ia : Nat)
    (h : ite_conds_concrete m s ia) : ite_cond_stops m s ia = false := by
  cases hl : m.lookup ia with
  | none =>
    unfold ite_cond_stops
    rw [hl]
  | some conds =>
    rw [ite_cond_stops_eq m s ia conds hl, status_concrete_true s conds (h conds hl)]
    rfl

theorem beq_self_reg_or_tmp (e : taint_entity_t) (h : is_reg_or_tmp e = true) :
    taint_entity_t.beq e e = true := by
  cases e <;> simp_all [taint_entity_t.beq, is_reg_or_tmp]

theorem exists_key_of_lookup {β : Type} (m : List (Nat × β)) (k : Nat) (v : β)
    (h : m.lookup k = some v) : ∃ e ∈ m, e.1 = k := by
  induction m with
  | nil => cases h
  | cons a rest ih =>
    obtain ⟨a1, a2⟩ := a
    by_cases hk : k = a1
    · exact ⟨(a1, a2), List.mem_cons_self _ _, hk.symm⟩
    · rw [List.lookup_cons] at h
      have hb : (k == a1) = false := by simpa using hk
      rw [hb] at h
      obtain ⟨e, he, hek⟩ := ih h
      exact ⟨e, List.mem_cons_of_mem _ he, hek⟩

/-- A register or temporary appended to the sinks that wait for a memory read is one of
them. -/
theorem pending_on_read_append (s : State) (addr : Nat) (sink : taint_entity_t)
    (h : is_reg_or_tmp sink = true) :
    pending_on_read
      { s with mem_reads_taint_dst_map :=
          append_mem_read_dst s.mem_reads_taint_dst_map addr sink } sink = true := by
  have hb := beq_self_reg_or_tmp sink h
  unfold pending_on_read append_mem_read_dst
  simp only
  cases hl : s.mem_reads_taint_dst_map.lookup addr with
  | none =>
    simp only [List.any_append, List.any_cons, List.any_nil, hb, Bool.or_false, Bool.or_true]
  | some dsts =>
    simp only
    obtain ⟨e, he, hek⟩ := exists_key_of_lookup _ _ _ hl
    rw [List.any_eq_true]
    unfold map_assign
    refine ⟨(e.1, (dsts.1 ++ [sink], dsts.2)), ?_, ?_⟩
    · rw [List.mem_map]
      exact ⟨e, he, by rw [if_pos hek]⟩
    · simp only [List.any_append, List.any_cons, List.any_nil, hb, Bool.or_false,
        Bool.or_true]

/-- The status of one load whose address entities are neither symbolic nor dependent on a
memory read: a read from a concrete address. -/
theorem status_of_load (s : State) (l : List taint_entity_t) (a : Nat)
    (h : ∀ e ∈ l, symbolic_or_read_dependent s e = false) :
    get_final_taint_status s [.TAINT_ENTITY_MEM l a] =
      { is_symbolic := false, depends_on_read_from_symbolic_addr := false,
        depends_on_read_from_concrete_addr := true, concrete_mem_read_instr_addr := a } := by
  have hc := status_concrete_true s l h
  unfold status_concrete get_final_taint_status at hc
  simp only [Bool.and_eq_true, Bool.not_eq_true'] at hc
  obtain ⟨⟨h1, h2⟩, h3⟩ := hc
  unfold get_final_taint_status
  rw [taint_status_loop]
  simp only [entity_count, List.any_nil, Bool.false_eq_true, if_false, mem_ref_status, h1, h2,
    h3, Bool.or_self, List.nil_append]
  rw [taint_status_loop]
  rfl

/-- A temporary written from one load at an address that is neither symbolic nor dependent
on a memory read waits for that read afterwards: the loop goes on with the temporary among
the sinks of `mem_reads_taint_dst_map`. -/
theorem loaded_temp_waits (m : List (Nat × TaintEntitySet)) (s : State)
    (tmp_id ia : Nat) (l : List taint_entity_t) (a : Nat)
    (hite : ite_conds_concrete m s ia)
    (h : ∀ e ∈ l, symbolic_or_read_dependent s e = false) :
    ∃ s1, propagate_pairs m s [(.TAINT_ENTITY_TMP tmp_id ia, [.TAINT_ENTITY_MEM l a])] =
        some s1 ∧
      s1.stopped = s.stopped ∧
      pending_on_read s1 (.TAINT_ENTITY_TMP tmp_id ia) = true ∧
      symbolic_or_read_dependent s1 (.TAINT_ENTITY_TMP tmp_id ia) = true := by
  rw [propagate_pairs_tmp m s tmp_id ia _ [] (ite_cond_stops_false m s ia hite),
    status_of_load s l a h]
  simp only [Bool.false_eq_true, if_false, if_true, propagate_pairs]
  have hp := pending_on_read_append s a (.TAINT_ENTITY_TMP tmp_id ia) rfl
  refine ⟨_, rfl, rfl, hp, ?_⟩
  unfold symbolic_or_read_dependent
  rw [hp]
  simp [is_reg_or_tmp]

/-- A temporary written from registers and temporaries of which none is symbolic and one
waits for a memory read waits for a memory read itself afterwards. -/
theorem derived_temp_waits (m : List (Nat × TaintEntitySet)) (s : State)
    (tmp_id ia : Nat) (srcs : TaintEntitySet)
    (hite : ite_conds_concrete m s ia)
    (hsrcs : ∀ e ∈ srcs, is_reg_or_tmp e = true ∧ entity_symbolic s e = false)
    (hwait : ∃ e ∈ srcs, pending_on_read s e = true) :
    ∃ s1, propagate_pairs m s [(.TAINT_ENTITY_TMP tmp_id ia, srcs)] = some s1 ∧
      s1.stopped = s.stopped ∧
      pending_on_read s1 (.TAINT_ENTITY_TMP tmp_id ia) = true ∧
      symbolic_or_read_dependent s1 (.TAINT_ENTITY_TMP tmp_id ia) = true := by
  obtain ⟨h1, _, h3⟩ := status_no_load s srcs (fun e he => (hsrcs e he).1)
  have h4 := h3 (fun e he => (hsrcs e he).2)
  have h5 : status_concrete (get_final_taint_status s srcs) = false := by
    apply status_concrete_false
    obtain ⟨e, he, hp⟩ := hwait
    refine ⟨e, he, ?_⟩
    unfold symbolic_or_read_dependent
    rw [hp, (hsrcs e he).1]
    simp
  unfold status_concrete at h5
  rw [h1, h4] at h5
  simp only [Bool.not_false, Bool.true_and, Bool.not_eq_false'] at h5
  rw [propagate_pairs_tmp m s tmp_id ia _ [] (ite_cond_stops_false m s ia hite), h1, h4, h5]
  simp only [Bool.false_eq_true, if_false, if_true, propagate_pairs]
  have hp := pending_on_read_append s
    (get_final_taint_status s srcs).concrete_mem_read_instr_addr
    (.TAINT_ENTITY_TMP tmp_id ia) rfl
  refine ⟨_, rfl, rfl, hp, ?_⟩
  unfold symbolic_or_read_dependent
  rw [hp]
  simp [is_reg_or_tmp]

/-! ## Claims about taint propagation -/

/-- C21: the loop of `propagate_taints` reaches a memory sink in the state `s`, no `ITE`
condition of the sink's instruction is symbolic or depends on a memory read, and some
address entity of the sink is symbolic or depends on a memory read: it is a symbolic
register or temporary, a register or temporary that waits for a memory read of the block,
or a load. Then the call returns `s` stopped with `STOP_SYMBOLIC_WRITE_ADDR`:
`mem_writes_taint_map` has no entry it did not have on reaching the sink and
`mem_reads_taint_dst_map` is as it was. -/
theorem propagate_taints_symbolic_write_addr (vex : VexLift) (uninit : Nat) (st : State)
    (address size : Nat) (entry : block_taint_entry_t)
    (pre rest : List (taint_entity_t × TaintEntitySet))
    (l : List taint_entity_t) (ia : Nat) (srcs : TaintEntitySet) (s : State)
    (hreach : reaches_pair vex uninit st address size entry pre
      (.TAINT_ENTITY_MEM l ia, srcs) rest s)
    (hite : ite_conds_concrete entry.ite_cond_map s ia)
    (haddr : ∃ e ∈ l, symbolic_or_read_dependent s e = true) :
    ∃ s1, propagate_taints vex uninit st address size = some s1 ∧
      s1 = { s with stopped := true, stop_reason := .STOP_SYMBOLIC_WRITE_ADDR } ∧
      s1.stopped = true ∧
      s1.stop_reason = .STOP_SYMBOLIC_WRITE_ADDR ∧
      s1.mem_writes_taint_map = s.mem_writes_taint_map ∧
      s1.mem_reads_taint_dst_map = s.mem_reads_taint_dst_map := by
  rw [propagate_taints_of_reaches vex uninit st address size entry pre _ rest s hreach,
    propagate_pairs_mem entry.ite_cond_map s l ia srcs rest
      (ite_cond_stops_false entry.ite_cond_map s ia hite),
    if_pos (status_concrete_false s l haddr)]
  exact ⟨_, rfl, rfl, rfl, rfl, rfl, rfl⟩

/-- C21 at two inputs. From `concrete_run_state`, `loaded_addr_store_block` reaches its
store with the address temporary 0 waiting for the load of the block; from
`symbolic_register_state`, `symbolic_addr_store_block` reaches its store with the address
temporary 1 symbolic. -/
theorem propagate_taints_symbolic_write_addr_witness :
    (∃ s1, propagate_taints (lift_at 0x2000 loaded_addr_store_block) 0 concrete_run_state
        0x2000 4 = some s1 ∧
      s1 = { loaded_addr_state with
        stopped := true, stop_reason := .STOP_SYMBOLIC_WRITE_ADDR } ∧
      s1.stopped = true ∧
      s1.stop_reason = .STOP_SYMBOLIC_WRITE_ADDR ∧
      s1.mem_writes_taint_map = loaded_addr_state.mem_writes_taint_map ∧
      s1.mem_reads_taint_dst_map = loaded_addr_state.mem_reads_taint_dst_map) ∧
    ∃ s1, propagate_taints (lift_at 0x2000 symbolic_addr_store_block) 0
        symbolic_register_state 0x2000 4 = some s1 ∧
      s1 = { mark_temp_symbolic
          (sink_loop_start symbolic_register_state 0x2000 symbolic_addr_summary) 1 true with
        stopped := true, stop_reason := .STOP_SYMBOLIC_WRITE_ADDR } ∧
      s1.stopped = true ∧
      s1.stop_reason = .STOP_SYMBOLIC_WRITE_ADDR ∧
      s1.mem_writes_taint_map =
        (mark_temp_symbolic
          (sink_loop_start symbolic_register_state 0x2000 symbolic_addr_summary) 1
          true).mem_writes_taint_map ∧
      s1.mem_reads_taint_dst_map =
        (mark_temp_symbolic
          (sink_loop_start symbolic_register_state 0x2000 symbolic_addr_summary) 1
          true).mem_reads_taint_dst_map :=
  ⟨propagate_taints_symbolic_write_addr (lift_at 0x2000 loaded_addr_store_block) 0
      concrete_run_state 0x2000 4 loaded_addr_summary
      [(.TAINT_ENTITY_TMP 0 0x2000, [.TAINT_ENTITY_MEM [.TAINT_ENTITY_REG 24 0] 0]),
       (.TAINT_ENTITY_TMP 1 0x2000, [.TAINT_ENTITY_REG 16 0])] []
      [.TAINT_ENTITY_TMP 0 0] 0x2000 [.TAINT_ENTITY_TMP 1 0] loaded_addr_state
      ⟨rfl, rfl, rfl, rfl, rfl⟩ (fun _ h => by cases h)
      ⟨.TAINT_ENTITY_TMP 0 0, List.mem_singleton.mpr rfl, rfl⟩,
    propagate_taints_symbolic_write_addr (lift_at 0x2000 symbolic_addr_store_block) 0
      symbolic_register_state 0x2000 4 symbolic_addr_summary
      [(.TAINT_ENTITY_TMP 1 0x2000, [.TAINT_ENTITY_REG 16 0]),
       (.TAINT_ENTITY_TMP 2 0x2000, [.TAINT_ENTITY_REG 24 0])] []
      [.TAINT_ENTITY_TMP 1 0] 0x2000 [.TAINT_ENTITY_TMP 2 0]
      (mark_temp_symbolic
        (sink_loop_start symbolic_register_state 0x2000 symbolic_addr_summary) 1 true)
      ⟨rfl, rfl, rfl, rfl, rfl⟩ (fun _ h => by cases h)
      ⟨.TAINT_ENTITY_TMP 1 0, List.mem_singleton.mpr rfl, rfl⟩⟩

/-- The calls of C21's explicit inputs evaluated. `symbolic_addr_store_block` with the
register at offset 16 symbolic stops with `STOP_SYMBOLIC_WRITE_ADDR` and both maps are
empty. `loaded_addr_store_block` stops with it from a state with nothing symbolic:
`mem_writes_taint_map` is empty and `mem_reads_taint_dst_map` has the one sink of before
the store, the temporary 0. A store whose address list holds the load itself,
`STle(LDle(GET(24))) = t1`, stops in the same way. -/
theorem symbolic_addr_store_block_stops :
    (propagate_taints (lift_at 0x2000 symbolic_addr_store_block) 0 symbolic_register_state
        0x2000 4).map
      (fun s => (s.stopped, s.stop_reason, s.mem_writes_taint_map,
        s.mem_reads_taint_dst_map.length)) =
      some (true, .STOP_SYMBOLIC_WRITE_ADDR, [], 0) ∧
    (propagate_taints (lift_at 0x2000 loaded_addr_store_block) 0 concrete_run_state
        0x2000 4).map
      (fun s => (s.stopped, s.stop_reason, s.mem_writes_taint_map,
        s.mem_reads_taint_dst_map.map (fun e => (e.1, e.2.1.length)))) =
      some (true, .STOP_SYMBOLIC_WRITE_ADDR, [], [(0, 1)]) ∧
    (propagate_pairs [] concrete_run_state
        [(.TAINT_ENTITY_MEM [.TAINT_ENTITY_MEM [.TAINT_ENTITY_REG 24 0] 0] 0x2000,
          [.TAINT_ENTITY_TMP 1 0])]).map
      (fun s => (s.stopped, s.stop_reason, s.mem_writes_taint_map,
        s.mem_reads_taint_dst_map.length)) =
      some (true, .STOP_SYMBOLIC_WRITE_ADDR, [], 0) :=
  ⟨by decide, rfl, by decide⟩

/-- C22: the call `propagate_taints` starts with `mem_writes_taint_map` empty and its loop
reaches, past the ITE check, the first store of the instruction at `ia`, whose address
entities have a concrete status and whose sources are registers and temporaries (no
load). When some source is symbolic, the loop goes on to the rest of the block, not
stopped, with `mem_writes_taint_map[ia] = true` recorded; when every source is concrete
it goes on with `mem_writes_taint_map[ia] = false` recorded. -/
theorem propagate_taints_store (vex : VexLift) (uninit : Nat) (st : State)
    (address size : Nat) (entry : block_taint_entry_t)
    (pre rest : List (taint_entity_t × TaintEntitySet))
    (l : List taint_entity_t) (ia : Nat) (srcs : TaintEntitySet) (s : State)
    (hreach : reaches_pair vex uninit st address size entry pre
      (.TAINT_ENTITY_MEM l ia, srcs) rest s)
    (hstart : st.mem_writes_taint_map = [])
    (hfirst : ∀ p ∈ pre, is_mem_entity p.1 = true → p.1.instr_addr ≠ ia)
    (hite : ite_cond_stops entry.ite_cond_map s ia = false)
    (haddr : status_concrete (get_final_taint_status s l) = true)
    (hnoload : ∀ e ∈ srcs, is_reg_or_tmp e = true) :
    ((∃ e ∈ srcs, entity_symbolic s e = true) →
      ∃ s1, propagate_taints vex uninit st address size =
          propagate_pairs entry.ite_cond_map s1 rest ∧
        s1.stopped = false ∧
        s1.mem_writes_taint_map = s.mem_writes_taint_map ++ [(ia, true)] ∧
        s1.mem_writes_taint_map.lookup ia = some true) ∧
    ((∀ e ∈ srcs, entity_symbolic s e = false) →
      ∃ s1, propagate_taints vex uninit st address size =
          propagate_pairs entry.ite_cond_map s1 rest ∧
        s1.stopped = false ∧
        s1.mem_writes_taint_map = s.mem_writes_taint_map ++ [(ia, false)] ∧
        s1.mem_writes_taint_map.lookup ia = some false) := by
  have hmap : s.mem_writes_taint_map.lookup ia = none := by
    rw [propagate_pairs_writes_other entry.ite_cond_map ia pre _ s hreach.2.2.2.1 hfirst,
      sink_loop_start_writes, hstart]
    rfl
  rw [propagate_taints_of_reaches vex uninit st address size entry pre _ rest s hreach,
    propagate_pairs_mem entry.ite_cond_map s l ia srcs rest hite]
  have haddr1 : ¬ status_concrete (get_final_taint_status s l) = false := by
    rw [haddr]
    simp
  rw [if_neg haddr1]
  obtain ⟨h1, h2, h3⟩ := status_no_load s srcs hnoload
  have hrun : s.stopped = false := hreach.2.2.2.2
  simp only [h1, Bool.false_eq_true, if_false, hmap, Option.isSome_none,
    map_emplace_new _ _ _ hmap]
  refine ⟨?_, ?_⟩
  · intro hex
    simp only [h2 hex, if_true]
    exact ⟨_, rfl, hrun, rfl, lookup_append_new _ _ _ hmap⟩
  · intro hall
    simp only [h3 hall, Bool.false_eq_true, if_false]
    split
    · exact ⟨_, rfl, hrun, rfl, lookup_append_new _ _ _ hmap⟩
    · exact ⟨_, rfl, hrun, rfl, lookup_append_new _ _ _ hmap⟩

/-- C22 at `store_block` with the register at offset 16 symbolic: the store is reached
with its data temporary 1 symbolic and its address temporary 0 concrete. -/
theorem propagate_taints_store_witness :
    ((∃ e ∈ [taint_entity_t.TAINT_ENTITY_TMP 1 0],
        entity_symbolic
          (mark_temp_symbolic (sink_loop_start symbolic_register_state 0x2000 store_summary)
            1 true) e = true) →
      ∃ s1, propagate_taints (lift_at 0x2000 store_block) 0 symbolic_register_state 0x2000 4 =
          propagate_pairs store_summary.ite_cond_map s1 [] ∧
        s1.stopped = false ∧
        s1.mem_writes_taint_map =
          (mark_temp_symbolic (sink_loop_start symbolic_register_state 0x2000 store_summary)
            1 true).mem_writes_taint_map ++ [(0x2000, true)] ∧
        s1.mem_writes_taint_map.lookup 0x2000 = some true) ∧
    ((∀ e ∈ [taint_entity_t.TAINT_ENTITY_TMP 1 0],
        entity_symbolic
          (mark_temp_symbolic (sink_loop_start symbolic_register_state 0x2000 store_summary)
            1 true) e = false) →
      ∃ s1, propagate_taints (lift_at 0x2000 store_block) 0 symbolic_register_state 0x2000 4 =
          propagate_pairs store_summary.ite_cond_map s1 [] ∧
        s1.stopped = false ∧
        s1.mem_writes_taint_map =
          (mark_temp_symbolic (sink_loop_start symbolic_register_state 0x2000 store_summary)
            1 true).mem_writes_taint_map ++ [(0x2000, false)] ∧
        s1.mem_writes_taint_map.lookup 0x2000 = some false) :=
  propagate_taints_store (lift_at 0x2000 store_block) 0 symbolic_register_state 0x2000 4
    store_summary
    [(.TAINT_ENTITY_TMP 0 0x2000, [.TAINT_ENTITY_REG 24 0]),
     (.TAINT_ENTITY_TMP 1 0x2000, [.TAINT_ENTITY_REG 16 0])] []
    [.TAINT_ENTITY_TMP 0 0] 0x2000 [.TAINT_ENTITY_TMP 1 0]
    (mark_temp_symbolic (sink_loop_start symbolic_register_state 0x2000 store_summary) 1 true)
    ⟨rfl, rfl, rfl, rfl, rfl⟩ rfl (by decide) (by decide) (by decide) (by decide)

/-- The calls of C22's explicit inputs evaluated: with the register at offset 16 symbolic
the store of `store_block` is recorded as `true`, from the allocated state, where the
register is concrete, as `false`; neither call stops. -/
theorem store_block_records :
    (propagate_taints (lift_at 0x2000 store_block) 0 symbolic_register_state 0x2000 4).map
        (fun s => (s.stopped, s.mem_writes_taint_map)) = some (false, [(0x2000, true)]) ∧
    (propagate_taints (lift_at 0x2000 store_block) 0 concrete_run_state 0x2000 4).map
        (fun s => (s.stopped, s.mem_writes_taint_map)) = some (false, [(0x2000, false)]) := by
  decide

/-- C25: the loop of `propagate_taints` reaches, in the state `s`, a pair whose sink is at
an instruction with the `ite_cond_map` entry `conds`. If some entity of `conds` is
symbolic or depends on a memory read (a symbolic register or temporary, a register or
temporary that waits for a memory read of the block, or a load), the call returns `s`
stopped with `STOP_SYMBOLIC_CONDITION`, the sink not applied. If no entity of `conds` is,
the pair is applied as it is with an empty `ite_cond_map`, and the loop goes on to the rest
of the block unless applying the sink stopped. -/
theorem propagate_taints_ite_check (vex : VexLift) (uninit : Nat) (st : State)
    (address size : Nat) (entry : block_taint_entry_t)
    (pre rest : List (taint_entity_t × TaintEntitySet))
    (sink : taint_entity_t) (srcs : TaintEntitySet) (s : State)
    (conds : TaintEntitySet)
    (hreach : reaches_pair vex uninit st address size entry pre (sink, srcs) rest s)
    (hconds : entry.ite_cond_map.lookup sink.instr_addr = some conds) :
    ((∃ e ∈ conds, symbolic_or_read_dependent s e = true) →
      propagate_taints vex uninit st address size =
        some { s with stopped := true, stop_reason := .STOP_SYMBOLIC_CONDITION }) ∧
    ((∀ e ∈ conds, symbolic_or_read_dependent s e = false) →
      propagate_taints vex uninit st address size =
        match propagate_pairs [] s [(sink, srcs)] with
        | none => none
        | some s1 =>
          if s1.stopped then some s1 else propagate_pairs entry.ite_cond_map s1 rest) := by
  rw [propagate_taints_of_reaches vex uninit st address size entry pre _ rest s hreach]
  have hrun : s.stopped = false := hreach.2.2.2.2
  have hstop := ite_cond_stops_eq entry.ite_cond_map s sink.instr_addr conds hconds
  refine ⟨?_, ?_⟩
  · intro h
    rw [status_concrete_false s conds h] at hstop
    exact propagate_pairs_ite_stop entry.ite_cond_map s sink srcs rest hstop
  · intro h
    have hstop : ite_cond_stops entry.ite_cond_map s sink.instr_addr = false := by
      rw [hstop, status_concrete_true s conds h]
      rfl
    have happ := propagate_pairs_append entry.ite_cond_map [(sink, srcs)] rest s hrun
    rw [List.singleton_append] at happ
    rw [happ, propagate_pairs_single_no_ite entry.ite_cond_map s (sink, srcs) hstop]

/-- C25 at two inputs, both from `concrete_run_state`. `loaded_cond_block` reaches its
register write with the `ITE` condition temporary 2 waiting for the load of the block, and
stops; `cond_store_block` reaches its store with the `ITE` condition temporary 2 neither
symbolic nor waiting for a read, and the store is applied. -/
theorem propagate_taints_ite_check_witness :
    propagate_taints (lift_at 0x2000 loaded_cond_block) 0 concrete_run_state 0x2000 4 =
      some { loaded_cond_state with
        stopped := true, stop_reason := .STOP_SYMBOLIC_CONDITION } ∧
    propagate_taints (lift_at 0x2000 cond_store_block) 0 concrete_run_state 0x2000 4 =
      match propagate_pairs [] (sink_loop_start concrete_run_state 0x2000 cond_store_summary)
          [(.TAINT_ENTITY_MEM [.TAINT_ENTITY_TMP 1 0] 0x2000, [.TAINT_ENTITY_TMP 2 0])] with
      | none => none
      | some s1 =>
        if s1.stopped then some s1
        else propagate_pairs cond_store_summary.ite_cond_map s1 [] :=
  ⟨(propagate_taints_ite_check (lift_at 0x2000 loaded_cond_block) 0 concrete_run_state
      0x2000 4 loaded_cond_summary
      [(.TAINT_ENTITY_TMP 0 0x2000, [.TAINT_ENTITY_MEM [.TAINT_ENTITY_REG 24 0] 0]),
       (.TAINT_ENTITY_TMP 2 0x2000, [.TAINT_ENTITY_TMP 0 0])] []
      (.TAINT_ENTITY_REG 16 0x2000) [.TAINT_ENTITY_TMP 2 0] loaded_cond_state
      [.TAINT_ENTITY_TMP 2 0] ⟨rfl, rfl, rfl, rfl, rfl⟩ rfl).1
      ⟨.TAINT_ENTITY_TMP 2 0, List.mem_singleton.mpr rfl, rfl⟩,
    (propagate_taints_ite_check (lift_at 0x2000 cond_store_block) 0 concrete_run_state
      0x2000 4 cond_store_summary
      [(.TAINT_ENTITY_TMP 1 0x2000, [.TAINT_ENTITY_REG 16 0]),
       (.TAINT_ENTITY_TMP 2 0x2000, [.TAINT_ENTITY_TMP 1 0])] []
      (.TAINT_ENTITY_MEM [.TAINT_ENTITY_TMP 1 0] 0x2000) [.TAINT_ENTITY_TMP 2 0]
      (sink_loop_start concrete_run_state 0x2000 cond_store_summary)
      [.TAINT_ENTITY_TMP 2 0] ⟨rfl, rfl, rfl, rfl, rfl⟩ rfl).2 (by decide)⟩

/-- The calls of C25's explicit inputs evaluated. With the register at offset 16 symbolic
`cond_store_block` stops with `STOP_SYMBOLIC_CONDITION` and records no store, though the
address of its store is symbolic too; from a state with no symbolic register it does not
stop and the store is recorded. `loaded_cond_block` stops with `STOP_SYMBOLIC_CONDITION`
from a state with nothing symbolic, its register write not applied: the register at offset
16 is neither block-marked concrete nor appended to the sinks that wait for the load. -/
theorem cond_store_block_stops :
    (propagate_taints (lift_at 0x2000 cond_store_block) 0 symbolic_register_state 0x2000
        4).map (fun s => (s.stopped, s.stop_reason, s.mem_writes_taint_map)) =
      some (true, .STOP_SYMBOLIC_CONDITION, []) ∧
    (propagate_taints (lift_at 0x2000 cond_store_block) 0 concrete_run_state 0x2000 4).map
        (fun s => (s.stopped, s.mem_writes_taint_map)) = some (false, [(0x2000, false)]) ∧
    (propagate_taints (lift_at 0x2000 loaded_cond_block) 0 concrete_run_state 0x2000 4).map
      (fun s => (s.stopped, s.stop_reason, s.block_concrete_registers,
        s.mem_reads_taint_dst_map.map (fun e => (e.1, e.2.1.length)))) =
      some (true, .STOP_SYMBOLIC_CONDITION, [], [(0, 2)]) :=
  ⟨by decide, by decide, by decide⟩

/-! ## The taint flow analysis and the structural flatten -/

theorem entity_emplace_nodup (set : TaintEntitySet) (e : taint_entity_t)
    (h : entity_nodup set) : entity_nodup (entity_emplace set e) := by
  unfold entity_emplace
  by_cases hc : entity_count set e = true
  · rw [if_pos hc]
    exact h
  · rw [if_neg hc]
    unfold entity_nodup at h ⊢
    rw [List.pairwise_append]
    refine ⟨h, List.pairwise_singleton _ _, ?_⟩
    intro x hx y hy
    rw [List.mem_singleton] at hy
    subst hy
    unfold entity_count at hc
    cases hb : taint_entity_t.beq x y with
    | false => rfl
    | true => exact absurd (List.any_eq_true.mpr ⟨x, hx, hb⟩) hc

theorem entity_insert_all_nodup (set other : TaintEntitySet) (h : entity_nodup set) :
    entity_nodup (entity_insert_all set other) := by
  unfold entity_insert_all
  induction other generalizing set with
  | nil => exact h
  | cons e rest ih =>
    rw [List.foldl_cons]
    exact ih _ (entity_emplace_nodup set e h)

theorem entity_insert_all_append (set other : TaintEntitySet)
    (h : entity_nodup (set ++ other)) : entity_insert_all set other = set ++ other := by
  unfold entity_insert_all
  induction other generalizing set with
  | nil => simp
  | cons e rest ih =>
    rw [List.foldl_cons]
    have hc : entity_count set e = false := by
      unfold entity_count
      rw [List.any_eq_false]
      intro x hx
      unfold entity_nodup at h
      rw [List.pairwise_append] at h
      have := h.2.2 x hx e (List.mem_cons_self _ _)
      simp [this]
    have he : entity_emplace set e = set ++ [e] := by
      unfold entity_emplace
      simp [hc]
    rw [he, ih]
    · simp
    · simpa using h

theorem entity_insert_all_nil (other : TaintEntitySet) (h : entity_nodup other) :
    entity_insert_all [] other = other := by
  have := entity_insert_all_append [] other (by simpa using h)
  simpa using this

theorem mem_entity_insert_all (set other : TaintEntitySet) (x : taint_entity_t)
    (h : x ∈ entity_insert_all set other) : x ∈ set ∨ x ∈ other := by
  unfold entity_insert_all at h
  induction other generalizing set with
  | nil => exact Or.inl h
  | cons e rest ih =>
    rw [List.foldl_cons] at h
    rcases ih _ h with h1 | h1
    · unfold entity_emplace at h1
      split at h1
      · exact Or.inl h1
      · rcases List.mem_append.mp h1 with h2 | h2
        · exact Or.inl h2
        · rw [List.mem_singleton] at h2
          subst h2
          exact Or.inr (List.mem_cons_self _ _)
    · exact Or.inr (List.mem_cons_of_mem _ h1)

theorem entity_nodup_nil : entity_nodup [] := List.Pairwise.nil

theorem entity_nodup_singleton (e : taint_entity_t) : entity_nodup [e] :=
  List.pairwise_singleton _ _

mutual
theorem flatten_sources_nodup (uninit : Nat) : ∀ (e : IRExpr),
    entity_nodup (flatten_sources uninit e)
  | .Iex_Const _ _ => by simp only [flatten_sources]; exact entity_nodup_nil
  | .Iex_Get _ _ => by simp only [flatten_sources]; exact entity_nodup_singleton _
  | .Iex_RdTmp _ => by simp only [flatten_sources]; exact entity_nodup_singleton _
  | .Iex_Unop _ a => by
    simp only [flatten_sources]
    exact flatten_sources_nodup uninit a
  | .Iex_Binop _ a1 a2 => by
    simp only [flatten_sources]
    exact entity_insert_all_nodup _ _ (flatten_sources_nodup uninit a1)
  | .Iex_Triop _ a1 a2 a3 => by
    simp only [flatten_sources]
    exact entity_insert_all_nodup _ _
      (entity_insert_all_nodup _ _ (flatten_sources_nodup uninit a1))
  | .Iex_Qop _ a1 a2 a3 a4 => by
    simp only [flatten_sources]
    exact entity_insert_all_nodup _ _ (entity_insert_all_nodup _ _
      (entity_insert_all_nodup _ _ (flatten_sources_nodup uninit a1)))
  | .Iex_ITE c t f => by
    simp only [flatten_sources]
    exact entity_insert_all_nodup _ _
      (entity_insert_all_nodup _ _ (flatten_sources_nodup uninit c))
  | .Iex_CCall _ args => by
    simp only [flatten_sources]
    exact flatten_args_nodup uninit args [] entity_nodup_nil
  | .Iex_Load _ a => by simp only [flatten_sources]; exact entity_nodup_singleton _
  | .Iex_GetI _ _ => by simp only [flatten_sources]; exact entity_nodup_nil
  | .Iex_Binder _ => by simp only [flatten_sources]; exact entity_nodup_nil
  | .Iex_VECRET => by simp only [flatten_sources]; exact entity_nodup_nil
  | .Iex_GSPTR => by simp only [flatten_sources]; exact entity_nodup_nil
theorem flatten_args_nodup (uninit : Nat) : ∀ (es : List IRExpr) (acc : TaintEntitySet),
    entity_nodup acc → entity_nodup (flatten_sources.flatten_args uninit acc es)
  | [], acc, h => by simp only [flatten_sources.flatten_args]; exact h
  | e :: es, acc, h => by
    simp only [flatten_sources.flatten_args]
    exact flatten_args_nodup uninit es _ (entity_insert_all_nodup _ _ h)
end

mutual
theorem flatten_sources_no_none (uninit : Nat) : ∀ (e : IRExpr) (x : taint_entity_t),
    x ∈ flatten_sources uninit e → is_none_entity x = false
  | .Iex_Const _ _, x, h => by simp [flatten_sources] at h
  | .Iex_Get _ _, x, h => by
    simp only [flatten_sources, List.mem_singleton] at h
    subst h
    rfl
  | .Iex_RdTmp _, x, h => by
    simp only [flatten_sources, List.mem_singleton] at h
    subst h
    rfl
  | .Iex_Unop _ a, x, h => by
    simp only [flatten_sources] at h
    exact flatten_sources_no_none uninit a x h
  | .Iex_Binop _ a1 a2, x, h => by
    simp only [flatten_sources] at h
    rcases mem_entity_insert_all _ _ x h with h | h
    · exact flatten_sources_no_none uninit a1 x h
    · exact flatten_sources_no_none uninit a2 x h
  | .Iex_Triop _ a1 a2 a3, x, h => by
    simp only [flatten_sources] at h
    rcases mem_entity_insert_all _ _ x h with h | h
    · rcases mem_entity_insert_all _ _ x h with h | h
      · exact flatten_sources_no_none uninit a1 x h
      · exact flatten_sources_no_none uninit a2 x h
    · exact flatten_sources_no_none uninit a3 x h
  | .Iex_Qop _ a1 a2 a3 a4, x, h => by
    simp only [flatten_sources] at h
    rcases mem_entity_insert_all _ _ x h with h | h
    · rcases mem_entity_insert_all _ _ x h with h | h
      · rcases mem_entity_insert_all _ _ x h with h | h
        · exact flatten_sources_no_none uninit a1 x h
        · exact flatten_sources_no_none uninit a2 x h
      · exact flatten_sources_no_none uninit a3 x h
    · exact flatten_sources_no_none uninit a4 x h
  | .Iex_ITE c t f, x, h => by
    simp only [flatten_sources] at h
    rcases mem_entity_insert_all _ _ x h with h | h
    · rcases mem_entity_insert_all _ _ x h with h | h
      · exact flatten_sources_no_none uninit c x h
      · exact flatten_sources_no_none uninit f x h
    · exact flatten_sources_no_none uninit t x h
  | .Iex_CCall _ args, x, h => by
    simp only [flatten_sources] at h
    exact flatten_args_no_none uninit args [] x (fun y hy => by cases hy) h
  | .Iex_Load _ a, x, h => by
    simp only [flatten_sources, List.mem_singleton] at h
    subst h
    rfl
  | .Iex_GetI _ _, x, h => by simp [flatten_sources] at h
  | .Iex_Binder _, x, h => by simp [flatten_sources] at h
  | .Iex_VECRET, x, h => by simp [flatten_sources] at h
  | .Iex_GSPTR, x, h => by simp [flatten_sources] at h
theorem flatten_args_no_none (uninit : Nat) : ∀ (es : List IRExpr) (acc : TaintEntitySet)
    (x : taint_entity_t), (∀ y ∈ acc, is_none_entity y = false) →
    x ∈ flatten_sources.flatten_args uninit acc es → is_none_entity x = false
  | [], acc, x, hacc, h => by
    simp only [flatten_sources.flatten_args] at h
    exact hacc x h
  | e :: es, acc, x, hacc, h => by
    simp only [flatten_sources.flatten_args] at h
    apply flatten_args_no_none uninit es _ x _ h
    intro y hy
    rcases mem_entity_insert_all _ _ y hy with hy | hy
    · exact hacc y hy
    · exact flatten_sources_no_none uninit e y hy
end

mutual
theorem get_taint_sources_flatten (uninit ia : Nat) : ∀ (e : IRExpr)
    (ite : List (Nat × TaintEntitySet)), has_geti e = false →
    ∃ ite1, get_taint_sources uninit ia ite e = some (flatten_sources uninit e, ite1)
  | .Iex_Const _ _, ite, _ => ⟨ite, by simp only [get_taint_sources, flatten_sources]⟩
  | .Iex_Binder _, ite, _ => ⟨ite, by simp only [get_taint_sources, flatten_sources]⟩
  | .Iex_VECRET, ite, _ => ⟨ite, by simp only [get_taint_sources, flatten_sources]⟩
  | .Iex_GSPTR, ite, _ => ⟨ite, by simp only [get_taint_sources, flatten_sources]⟩
  | .Iex_Get _ _, ite, _ => ⟨ite, by simp only [get_taint_sources, flatten_sources]⟩
  | .Iex_RdTmp _, ite, _ => ⟨ite, by simp only [get_taint_sources, flatten_sources]⟩
  | .Iex_GetI _ _, ite, h => by simp [has_geti] at h
  | .Iex_Unop _ a, ite, h => by
    simp only [has_geti] at h
    obtain ⟨i1, h1⟩ := get_taint_sources_flatten uninit ia a ite h
    refine ⟨i1, ?_⟩
    simp only [get_taint_sources, flatten_sources, h1,
      entity_insert_all_nil _ (flatten_sources_nodup uninit a)]
  | .Iex_Load _ a, ite, h => by
    simp only [has_geti] at h
    obtain ⟨i1, h1⟩ := get_taint_sources_flatten uninit ia a ite h
    refine ⟨i1, ?_⟩
    simp only [get_taint_sources, flatten_sources, h1]
  | .Iex_Binop _ a1 a2, ite, h => by
    simp only [has_geti, Bool.or_eq_false_iff] at h
    obtain ⟨i1, h1⟩ := get_taint_sources_flatten uninit ia a1 ite h.1
    obtain ⟨i2, h2⟩ := get_taint_sources_flatten uninit ia a2 i1 h.2
    refine ⟨i2, ?_⟩
    simp only [get_taint_sources, flatten_sources, h1, h2,
      entity_insert_all_nil _ (flatten_sources_nodup uninit a1)]
  | .Iex_Triop _ a1 a2 a3, ite, h => by
    simp only [has_geti, Bool.or_eq_false_iff] at h
    obtain ⟨i1, h1⟩ := get_taint_sources_flatten uninit ia a1 ite h.1
    obtain ⟨i2, h2⟩ := get_taint_sources_flatten uninit ia a2 i1 h.2.1
    obtain ⟨i3, h3⟩ := get_taint_sources_flatten uninit ia a3 i2 h.2.2
    refine ⟨i3, ?_⟩
    simp only [get_taint_sources, flatten_sources, h1, h2, h3,
      entity_insert_all_nil _ (flatten_sources_nodup uninit a1)]
  | .Iex_Qop _ a1 a2 a3 a4, ite, h => by
    simp only [has_geti, Bool.or_eq_false_iff] at h
    obtain ⟨i1, h1⟩ := get_taint_sources_flatten uninit ia a1 ite h.1
    obtain ⟨i2, h2⟩ := get_taint_sources_flatten uninit ia a2 i1 h.2.1
    obtain ⟨i3, h3⟩ := get_taint_sources_flatten uninit ia a3 i2 h.2.2.1
    obtain ⟨i4, h4⟩ := get_taint_sources_flatten uninit ia a4 i3 h.2.2.2
    refine ⟨i4, ?_⟩
    simp only [get_taint_sources, flatten_sources, h1, h2, h3, h4,
      entity_insert_all_nil _ (flatten_sources_nodup uninit a1)]
  | .Iex_ITE c t f, ite, h => by
    simp only [has_geti, Bool.or_eq_false_iff] at h
    obtain ⟨i1, h1⟩ := get_taint_sources_flatten uninit ia c ite h.1
    cases hl : i1.lookup ia with
    | none =>
      obtain ⟨i2, h2⟩ := get_taint_sources_flatten uninit ia f
        (i1 ++ [(ia, flatten_sources uninit c)]) h.2.1
      obtain ⟨i3, h3⟩ := get_taint_sources_flatten uninit ia t i2 h.2.2
      refine ⟨i3, ?_⟩
      simp only [get_taint_sources, flatten_sources, h1, hl, h2, h3,
        entity_insert_all_nil _ (flatten_sources_nodup uninit c)]
    | some old =>
      obtain ⟨i2, h2⟩ := get_taint_sources_flatten uninit ia f
        (map_assign i1 ia (entity_insert_all old (flatten_sources uninit c))) h.2.1
      obtain ⟨i3, h3⟩ := get_taint_sources_flatten uninit ia t i2 h.2.2
      refine ⟨i3, ?_⟩
      simp only [get_taint_sources, flatten_sources, h1, hl, h2, h3,
        entity_insert_all_nil _ (flatten_sources_nodup uninit c)]
  | .Iex_CCall _ args, ite, h => by
    simp only [has_geti] at h
    obtain ⟨i1, h1⟩ := sources_of_args_flatten uninit ia args ite [] h
    refine ⟨i1, ?_⟩
    simp only [get_taint_sources, flatten_sources, h1]
theorem sources_of_args_flatten (uninit ia : Nat) : ∀ (es : List IRExpr)
    (ite : List (Nat × TaintEntitySet)) (acc : TaintEntitySet),
    has_geti.args_have_geti es = false →
    ∃ ite1, get_taint_sources.sources_of_args uninit ia ite acc es =
      some (flatten_sources.flatten_args uninit acc es, ite1)
  | [], ite, acc, _ =>
    ⟨ite, by simp only [get_taint_sources.sources_of_args, flatten_sources.flatten_args]⟩
  | e :: es, ite, acc, h => by
    simp only [has_geti.args_have_geti, Bool.or_eq_false_iff] at h
    obtain ⟨i1, h1⟩ := get_taint_sources_flatten uninit ia e ite h.1
    obtain ⟨i2, h2⟩ := sources_of_args_flatten uninit ia es i1
      (entity_insert_all acc (flatten_sources uninit e)) h.2
    refine ⟨i2, ?_⟩
    simp only [get_taint_sources.sources_of_args, flatten_sources.flatten_args, h1, h2]
end

theorem taint_stmts_pairs (uninit : Nat) (stmts : List IRStmt) :
    ∀ (st : taint_loop_t), (∀ x ∈ stmts, taint_supported_stmt x = true) →
    ∃ st1, taint_stmts uninit st stmts = some st1 ∧
      st1.entry.taint_sink_src_data =
        st.entry.taint_sink_src_data ++ summary_pairs uninit st.curr_instr_addr stmts := by
  induction stmts with
  | nil =>
    intro st _
    exact ⟨st, rfl, by simp [summary_pairs]⟩
  | cons x rest ih =>
    intro st hall
    have hx := hall x (List.mem_cons_self _ _)
    have hrest : ∀ y ∈ rest, taint_supported_stmt y = true :=
      fun y hy => hall y (List.mem_cons_of_mem _ hy)
    cases x with
    | Ist_Put offset data =>
      simp only [taint_supported_stmt, Bool.not_eq_true'] at hx
      obtain ⟨i1, h1⟩ := get_taint_sources_flatten uninit st.curr_instr_addr data
        st.temp_ite_cond_map hx
      simp only [taint_stmts, taint_stmt, h1, summary_pairs]
      obtain ⟨st1, e1, e2⟩ := ih _ hrest
      refine ⟨st1, e1, ?_⟩
      rw [e2]
      split <;> simp
    | Ist_WrTmp tmp data =>
      simp only [taint_supported_stmt, Bool.not_eq_true'] at hx
      obtain ⟨i1, h1⟩ := get_taint_sources_flatten uninit st.curr_instr_addr data
        st.temp_ite_cond_map hx
      simp only [taint_stmts, taint_stmt, h1, summary_pairs]
      obtain ⟨st1, e1, e2⟩ := ih _ hrest
      refine ⟨st1, e1, ?_⟩
      rw [e2]
      split <;> simp
    | Ist_Store addr data =>
      simp only [taint_supported_stmt, Bool.and_eq_true, Bool.not_eq_true'] at hx
      obtain ⟨i1, h1⟩ := get_taint_sources_flatten uninit st.curr_instr_addr addr
        st.temp_ite_cond_map hx.1
      obtain ⟨i2, h2⟩ := get_taint_sources_flatten uninit st.curr_instr_addr data i1 hx.2
      simp only [taint_stmts, taint_stmt, h1, h2, summary_pairs]
      obtain ⟨st1, e1, e2⟩ := ih _ hrest
      refine ⟨st1, e1, ?_⟩
      rw [e2]
      split <;> simp
    | Ist_Exit guard dst =>
      simp only [taint_supported_stmt, Bool.not_eq_true'] at hx
      obtain ⟨i1, h1⟩ := get_taint_sources_flatten uninit st.curr_instr_addr guard
        st.temp_ite_cond_map hx
      simp only [taint_stmts, taint_stmt, h1, summary_pairs]
      obtain ⟨st1, e1, e2⟩ := ih _ hrest
      exact ⟨st1, e1, e2⟩
    | Ist_IMark a len =>
      simp only [taint_stmts, taint_stmt, summary_pairs]
      obtain ⟨st1, e1, e2⟩ := ih _ hrest
      exact ⟨st1, e1, e2⟩
    | Ist_MBE =>
      simp only [taint_stmts, taint_stmt, summary_pairs]
      exact ih _ hrest
    | Ist_NoOp =>
      simp only [taint_stmts, taint_stmt, summary_pairs]
      exact ih _ hrest
    | Ist_AbiHint _ _ _ =>
      simp only [taint_stmts, taint_stmt, summary_pairs]
      exact ih _ hrest
    | Ist_PutI _ _ => simp [taint_supported_stmt] at hx
    | Ist_StoreG _ _ _ => simp [taint_supported_stmt] at hx
    | Ist_LoadG _ _ _ => simp [taint_supported_stmt] at hx
    | Ist_CAS _ _ _ _ _ => simp [taint_supported_stmt] at hx
    | Ist_LLSC _ _ => simp [taint_supported_stmt] at hx
    | Ist_Dirty _ _ _ => simp [taint_supported_stmt] at hx

/-! ## Claims about the taint flow analysis -/

/-- C26: for a block whose statements the taint flow analysis handles,
`compute_taint_sink_source_relation_of_block` returns a summary whose pairs are those of
`summary_pairs`: in statement order, exactly one pair for each put, write of a temporary
and store whose source set is not empty, with the sink register(offset), temporary(id) or
memory(entities of the address expression), no pair for any other statement, and in each
sink the address of the latest `IMark` before its statement. -/
theorem taint_summary_pairs (uninit : Nat) (temp_ite_cond_map : List (Nat × TaintEntitySet))
    (vex_block : IRSB)
    (h : ∀ x ∈ vex_block.stmts, taint_supported_stmt x = true) :
    ∃ entry, compute_taint_sink_source_relation_of_block uninit temp_ite_cond_map vex_block =
        some entry ∧
      entry.taint_sink_src_data = summary_pairs uninit uninit vex_block.stmts := by
  obtain ⟨st1, e1, e2⟩ := taint_stmts_pairs uninit vex_block.stmts
    { entry := { taint_sink_src_data := [], exit_stmt_guard_expr_deps := [],
                 ite_cond_map := [] }
      temp_ite_cond_map := temp_ite_cond_map
      curr_instr_addr := uninit } h
  unfold compute_taint_sink_source_relation_of_block
  rw [e1]
  exact ⟨_, rfl, by simpa using e2⟩

/-- C26 at `store_block`. -/
theorem taint_summary_pairs_witness :
    ∃ entry, compute_taint_sink_source_relation_of_block 0 [] store_block = some entry ∧
      entry.taint_sink_src_data = summary_pairs 0 0 store_block.stmts :=
  taint_summary_pairs 0 [] store_block (by decide)

/-- The pairs of `store_block` and of `constant_block` written out: three pairs for the
two writes of a temporary and the store of the first, one pair for the second, whose write
of a temporary from a constant has an empty source set. -/
theorem summary_pairs_store_block :
    summary_pairs 0 0 store_block.stmts = store_summary.taint_sink_src_data ∧
    summary_pairs 0 0 constant_block.stmts = constant_summary.taint_sink_src_data := by
  exact ⟨rfl, rfl⟩

/-- C27: on an expression without `GetI`, `get_taint_sources` returns the structural
flatten `flatten_sources` of the expression: the empty set for a constant, the single
entity for a register or temporary read, the union of the sets of the operands for a unop,
binop, triop, quadop, helper call or `ITE` (condition, false arm, true arm), and for a
load one memory entity whose address list is the flatten of the address expression. That
set, and so every address list in it, holds no entity twice, and none of kind
`TAINT_ENTITY_NONE`. -/
theorem get_taint_sources_is_flatten (uninit instr_addr : Nat)
    (ite : List (Nat × TaintEntitySet)) (e : IRExpr) (h : has_geti e = false) :
    (∃ ite1, get_taint_sources uninit instr_addr ite e =
      some (flatten_sources uninit e, ite1)) ∧
    entity_nodup (flatten_sources uninit e) ∧
    (∀ x ∈ flatten_sources uninit e, is_none_entity x = false) :=
  ⟨get_taint_sources_flatten uninit instr_addr e ite h, flatten_sources_nodup uninit e,
    flatten_sources_no_none uninit e⟩

/-- C27 at `load_sum_expr`. -/
theorem get_taint_sources_is_flatten_witness :
    (∃ ite1, get_taint_sources 0 0x2000 [] load_sum_expr =
      some (flatten_sources 0 load_sum_expr, ite1)) ∧
    entity_nodup (flatten_sources 0 load_sum_expr) ∧
    (∀ x ∈ flatten_sources 0 load_sum_expr, is_none_entity x = false) :=
  get_taint_sources_is_flatten 0 0x2000 [] load_sum_expr (by decide)

/-- The flatten of `load_sum_expr` written out: the temporary 2 once, and one memory
entity whose address list holds the register at offset 24 once. -/
theorem flatten_load_sum_expr :
    flatten_sources 0 load_sum_expr =
      [.TAINT_ENTITY_TMP 2 0, .TAINT_ENTITY_MEM [.TAINT_ENTITY_REG 24 0] 0] := by
  rfl

/-! ## What the hooks keep and clear -/

theorem commit_clears (s s1 : State) (h : commit s = some s1) :
    s1.mem_writes = [] ∧ s1.block_symbolic_registers = [] ∧
      s1.block_concrete_registers = [] ∧ s1.block_symbolic_temps = [] ∧
      s1.mem_writes_taint_map = s.mem_writes_taint_map ∧
      s1.cur_steps = (s.cur_steps + 1) % 2 ^ 64 := by
  unfold commit at h
  cases hp : commit_lazy s.active_pages s.mem_writes with
  | none =>
    rw [hp] at h
    cases h
  | some pages =>
    rw [hp] at h
    simp only [foldl_mark_register_symbolic, foldl_mark_register_concrete,
      foldl_mark_temp_symbolic, Option.some.injEq] at h
    subst h
    exact ⟨rfl, rfl, rfl, rfl, rfl, rfl⟩

theorem stop_keeps (s s1 : State) (reason : stop_t) (hr : reason ≠ .STOP_SYSCALL)
    (h : stop s reason = some s1) :
    s1.mem_writes = s.mem_writes ∧
      s1.block_symbolic_registers = s.block_symbolic_registers ∧
      s1.block_concrete_registers = s.block_concrete_registers ∧
      s1.block_symbolic_temps = s.block_symbolic_temps ∧
      s1.mem_writes_taint_map = s.mem_writes_taint_map := by
  cases reason <;> first
    | exact absurd rfl hr
    | (simp only [stop, Option.some.injEq] at h
       subst h
       exact ⟨rfl, rfl, rfl, rfl, rfl⟩)

theorem step_keeps (s s1 : State) (current_address size : Nat) (check_stop_points : Bool)
    (h : step s current_address size check_stop_points = some s1) :
    s1.mem_writes = s.mem_writes ∧
      s1.block_symbolic_registers = s.block_symbolic_registers ∧
      s1.block_concrete_registers = s.block_concrete_registers ∧
      s1.block_symbolic_temps = s.block_symbolic_temps ∧
      s1.mem_writes_taint_map = s.mem_writes_taint_map := by
  unfold step at h
  cases hb : s.track_bbls <;> cases hk : s.track_stack <;>
    simp only [hb, hk, Bool.false_eq_true, if_false, if_true] at h <;>
    (repeat' split at h) <;>
    first
      | (have h3 := stop_keeps _ s1 _ (by decide) h
         exact h3)
      | (simp only [Option.some.injEq] at h
         subst h
         exact ⟨rfl, rfl, rfl, rfl, rfl⟩)

theorem lower_bound_fold (f : Option Nat → Nat → Option Nat) (l : List Nat) (a b : Nat)
    (hnone : ∀ x, a ≤ x → f none x = some x)
    (hsome : ∀ m x, a ≤ x → f (some m) x = some (min m x))
    (helse : ∀ acc x, ¬ a ≤ x → f acc x = acc) :
    ∀ acc : Option Nat,
    (∃ m, l.foldl f acc = some m ∧ m < b) ↔
      (∃ m, acc = some m ∧ m < b) ∨ ∃ p ∈ l, a ≤ p ∧ p < b := by
  induction l with
  | nil =>
    intro acc
    simp
  | cons x rest ih =>
    intro acc
    rw [List.foldl_cons, ih]
    by_cases hx : a ≤ x
    · simp only [List.mem_cons, exists_eq_or_imp, hx, true_and]
      cases acc with
      | none =>
        rw [hnone x hx]
        simp
      | some m0 =>
        rw [hsome m0 x hx]
        simp only [Option.some.injEq, exists_eq_left']
        rw [min_lt_iff]
        tauto
    · rw [helse acc x hx]
      simp only [List.mem_cons, exists_eq_or_imp, hx, false_and, false_or]

theorem lower_bound_lt (l : List Nat) (a b : Nat) :
    (∃ m, lower_bound l a = some m ∧ m < b) ↔ ∃ p ∈ l, a ≤ p ∧ p < b := by
  unfold lower_bound
  rw [lower_bound_fold _ l a b (fun x hx => by simp [hx]) (fun m x hx => by simp [hx])
    (fun acc x hx => by simp [hx])]
  simp

theorem log_write_cur_steps (s s1 : State) (a n c : Nat) (b : Bool)
    (h : log_write s a n c = some (s1, b)) : s1.cur_steps = s.cur_steps := by
  unfold log_write at h
  split at h
  · simp only [Option.some.injEq, Prod.mk.injEq] at h
    rw [← h.1]
  · split at h
    · simp only [stop, Option.map_some', Option.some.injEq, Prod.mk.injEq] at h
      rw [← h.1]
    · simp only [Option.some.injEq, Prod.mk.injEq] at h
      rw [← h.1]

theorem log_write_fst_cur_steps (s s1 : State) (a n c : Nat)
    (h : (log_write s a n c).map Prod.fst = some s1) : s1.cur_steps = s.cur_steps := by
  cases hl : log_write s a n c with
  | none =>
    rw [hl] at h
    cases h
  | some r =>
    obtain ⟨s2, b⟩ := r
    rw [hl] at h
    simp only [Option.map_some', Option.some.injEq] at h
    subst h
    exact log_write_cur_steps s s2 a n c b hl

theorem log_write_pair_cur_steps (s : State) (a n c : Nat) (r : State × Bool)
    (h : log_write s a n c = some r) : r.1.cur_steps = s.cur_steps :=
  log_write_cur_steps s r.1 a n c r.2 h

theorem handle_write_cur_steps (s s1 : State) (address size : Nat)
    (h : handle_write s address size = some s1) : s1.cur_steps = s.cur_steps := by
  unfold handle_write at h
  simp only at h
  split at h
  · cases h
  · split at h
    · split at h
      · have h3 := log_write_fst_cur_steps _ s1 _ _ _ h
        exact h3
      · have h3 := log_write_fst_cur_steps _ s1 _ _ _ h
        exact h3
    · split at h
      · cases h
      · rename_i s2 heq
        simp only [Option.some.injEq] at h
        subst h
        split at heq
        · have h3 := log_write_pair_cur_steps _ _ _ _ _ heq
          exact h3
        · have h3 := log_write_pair_cur_steps _ _ _ _ _ heq
          exact h3
      · rename_i s2 heq
        have h2 : s2.cur_steps = s.cur_steps := by
          split at heq
          · have h3 := log_write_pair_cur_steps _ _ _ _ _ heq
            exact h3
          · have h3 := log_write_pair_cur_steps _ _ _ _ _ heq
            exact h3
        split at h
        · have h3 := log_write_fst_cur_steps _ s1 _ _ _ h
          exact h3.trans h2
        · have h3 := log_write_fst_cur_steps _ s1 _ _ _ h
          exact h3.trans h2

theorem hook_mem_write_cur_steps (s s1 : State) (address size : Nat)
    (h : hook_mem_write s address size = some s1) : s1.cur_steps = s.cur_steps := by
  unfold hook_mem_write at h
  simp only at h
  have h1 := handle_write_cur_steps _ s1 address size h
  rw [h1]
  split
  · rfl
  · split <;> rfl

/-- A block hook that is not skipped commits, and then either returns or goes through
`step` and `propagate_taints`. -/
theorem hook_block_run (vex : VexLift) (uninit : Nat) (s s1 : State) (address size : Nat)
    (hi : s.ignore_next_block = false)
    (h : hook_block vex uninit s address size = some s1) :
    ∃ c1, commit s = some c1 ∧
      (s1 = c1 ∨ ∃ c3, taint_frame c1 c3 ∧ s1 = set_previous_block_address c3 address) := by
  unfold hook_block at h
  simp only [hi, Bool.false_eq_true, if_false] at h
  cases hc : commit s with
  | none =>
    simp only [hc] at h
    cases h
  | some c1 =>
    simp only [hc] at h
    refine ⟨c1, rfl, ?_⟩
    cases hg : is_symbolic_exit_guard_previous_block c1 with
    | none =>
      simp only [hg] at h
      cases h
    | some g =>
      simp only [hg] at h
      cases g with
      | true =>
        simp only [Option.some.injEq] at h
        exact Or.inl h.symm
      | false =>
        simp only at h
        cases hs : step c1 address size true with
        | none =>
          simp only [hs] at h
          cases h
        | some c2 =>
          simp only [hs] at h
          have hf2 := step_frame c1 c2 address size true hs
          cases hp : (if (!c2.stopped) = true then propagate_taints vex uninit c2 address size
              else some c2) with
          | none =>
            simp only [hp] at h
            cases h
          | some c3 =>
            simp only [hp, Option.some.injEq] at h
            have hf3 : taint_frame c2 c3 := by
              split at hp
              · exact propagate_taints_frame vex uninit c2 c3 address size hp
              · simp only [Option.some.injEq] at hp
                subst hp
                exact taint_frame_refl c2
            exact Or.inr ⟨c3, taint_frame_trans c1 c2 c3 hf2 hf3, h.symm⟩

theorem hook_block_cur_steps (vex : VexLift) (uninit : Nat) (s s1 : State)
    (address size : Nat) (hi : s.ignore_next_block = false)
    (h : hook_block vex uninit s address size = some s1) :
    s1.cur_steps = (s.cur_steps + 1) % 2 ^ 64 := by
  obtain ⟨c1, hc, hs1⟩ := hook_block_run vex uninit s s1 address size hi h
  have hsteps := (commit_clears s c1 hc).2.2.2.2.2
  rcases hs1 with rfl | ⟨c3, hf, rfl⟩
  · exact hsteps
  · exact hf.2.2.2.2.1.trans hsteps

/-! ## The self-modification flags -/

theorem stop_block_flags (s s1 : State) (reason : stop_t) (hr : reason ≠ .STOP_SYSCALL)
    (h : stop s reason = some s1) : block_flags s1 = block_flags s := by
  cases reason <;> first
    | exact absurd rfl hr
    | (simp only [stop, Option.some.injEq] at h
       subst h
       rfl)

theorem commit_block_flags (s s1 : State) (h : commit s = some s1) :
    block_flags s1 = block_flags s := by
  unfold commit at h
  cases hp : commit_lazy s.active_pages s.mem_writes with
  | none =>
    rw [hp] at h
    cases h
  | some pages =>
    rw [hp] at h
    simp only [foldl_mark_register_symbolic, foldl_mark_register_concrete,
      foldl_mark_temp_symbolic, Option.some.injEq] at h
    subst h
    rfl

theorem step_block_flags (s s1 : State) (current_address size : Nat)
    (check_stop_points : Bool)
    (h : step s current_address size check_stop_points = some s1) :
    block_flags s1 = (s.ignore_next_block, s.ignore_next_selfmod, current_address, size) := by
  unfold step at h
  cases hb : s.track_bbls <;> cases hk : s.track_stack <;>
    simp only [hb, hk, Bool.false_eq_true, if_false, if_true] at h <;>
    (repeat' split at h) <;>
    first
      | (have h3 := stop_block_flags _ s1 _ (by decide) h
         exact h3)
      | (simp only [Option.some.injEq] at h
         subst h
         rfl)

theorem propagate_pairs_block_flags (ite_cond_map : List (Nat × TaintEntitySet))
    (pairs : List (taint_entity_t × TaintEntitySet)) (s s1 : State)
    (h : propagate_pairs ite_cond_map s pairs = some s1) :
    block_flags s1 = block_flags s := by
  induction pairs generalizing s with
  | nil =>
    simp only [propagate_pairs, Option.some.injEq] at h
    subst h
    rfl
  | cons p rest ih =>
    obtain ⟨taint_sink, taint_srcs⟩ := p
    simp only [propagate_pairs] at h
    (repeat' split at h) <;>
    first
      | (cases h; done)
      | (have h3 := stop_block_flags _ s1 _ (by decide) h
         exact h3)
      | (have h3 := ih _ h
         exact h3)

theorem propagate_taints_block_flags (vex : VexLift) (uninit : Nat) (s s1 : State)
    (address size : Nat) (h : propagate_taints vex uninit s address size = some s1) :
    block_flags s1 = block_flags s := by
  unfold propagate_taints at h
  (repeat' split at h) <;>
  first
    | (cases h; done)
    | exact stop_block_flags _ s1 _ (by decide) h
    | (have h3 := propagate_pairs_block_flags _ _ _ s1 h
       exact h3)

/-- A block hook that is not skipped and finds the exit guard of the previous block
concrete leaves the block it entered in `cur_address` and `cur_size`, and the two flags as
they were. -/
theorem hook_block_block_flags (vex : VexLift) (uninit : Nat) (s s1 : State)
    (address size : Nat) (hi : s.ignore_next_block = false)
    (hguard : (commit s).bind is_symbolic_exit_guard_previous_block = some false)
    (h : hook_block vex uninit s address size = some s1) :
    block_flags s1 = (false, s.ignore_next_selfmod, address, size) := by
  unfold hook_block at h
  simp only [hi, Bool.false_eq_true, if_false] at h
  cases hc : commit s with
  | none =>
    simp only [hc] at h
    cases h
  | some c1 =>
    simp only [hc] at h
    rw [hc, Option.some_bind] at hguard
    simp only [hguard] at h
    have hf1 := commit_block_flags s c1 hc
    cases hs : step c1 address size true with
    | none =>
      simp only [hs] at h
      cases h
    | some c2 =>
      simp only [hs] at h
      have hf2 := step_block_flags c1 c2 address size true hs
      cases hp : (if (!c2.stopped) = true then propagate_taints vex uninit c2 address size
          else some c2) with
      | none =>
        simp only [hp] at h
        cases h
      | some c3 =>
        simp only [hp, Option.some.injEq] at h
        have hf3 : block_flags c3 = block_flags c2 := by
          split at hp
          · exact propagate_taints_block_flags vex uninit c2 c3 address size hp
          · simp only [Option.some.injEq] at hp
            subst hp
            rfl
        subst h
        have hf4 : block_flags (set_previous_block_address c3 address) = block_flags c3 := rfl
        rw [hf4, hf3, hf2]
        unfold block_flags at hf1
        simp only [Prod.mk.injEq] at hf1
        rw [hf1.1, hf1.2.1, hi]

theorem log_write_block_flags (s s1 : State) (a n c : Nat) (b : Bool)
    (h : log_write s a n c = some (s1, b)) : block_flags s1 = block_flags s := by
  unfold log_write at h
  split at h
  · simp only [Option.some.injEq, Prod.mk.injEq] at h
    rw [← h.1]
    rfl
  · split at h
    · simp only [stop, Option.map_some', Option.some.injEq, Prod.mk.injEq] at h
      rw [← h.1]
      rfl
    · simp only [Option.some.injEq, Prod.mk.injEq] at h
      rw [← h.1]
      rfl

theorem log_write_fst_block_flags (s s1 : State) (a n c : Nat)
    (h : (log_write s a n c).map Prod.fst = some s1) : block_flags s1 = block_flags s := by
  cases hl : log_write s a n c with
  | none =>
    rw [hl] at h
    cases h
  | some r =>
    obtain ⟨s2, b⟩ := r
    rw [hl] at h
    simp only [Option.map_some', Option.some.injEq] at h
    subst h
    exact log_write_block_flags s s2 a n c b hl

theorem log_write_pair_block_flags (s : State) (a n c : Nat) (r : State × Bool)
    (h : log_write s a n c = some r) : block_flags r.1 = block_flags s :=
  log_write_block_flags s r.1 a n c r.2 h

theorem handle_write_block_flags (s s1 : State) (address size : Nat)
    (h : handle_write s address size = some s1) : block_flags s1 = block_flags s := by
  unfold handle_write at h
  simp only at h
  split at h
  · cases h
  · split at h
    · split at h
      · have h3 := log_write_fst_block_flags _ s1 _ _ _ h
        exact h3
      · have h3 := log_write_fst_block_flags _ s1 _ _ _ h
        exact h3
    · split at h
      · cases h
      · rename_i s2 heq
        simp only [Option.some.injEq] at h
        subst h
        split at heq
        · have h3 := log_write_pair_block_flags _ _ _ _ _ heq
          exact h3
        · have h3 := log_write_pair_block_flags _ _ _ _ _ heq
          exact h3
      · rename_i s2 heq
        have h2 : block_flags s2 = block_flags s := by
          split at heq
          · have h3 := log_write_pair_block_flags _ _ _ _ _ heq
            exact h3
          · have h3 := log_write_pair_block_flags _ _ _ _ _ heq
            exact h3
        split at h
        · have h3 := log_write_fst_block_flags _ s1 _ _ _ h
          exact h3.trans h2
        · have h3 := log_write_fst_block_flags _ s1 _ _ _ h
          exact h3.trans h2

/-- The write hook sets `ignore_next_block` when `ignore_next_selfmod` is clear and the
written range has an address in common with the running block. -/
theorem hook_mem_write_selfmod (s s1 : State) (address size : Nat)
    (hsel : s.ignore_next_selfmod = false)
    (hwrap : s.cur_address + s.cur_size < 2 ^ 64 ∧ address + size < 2 ^ 64)
    (hover : ranges_overlap address size s.cur_address s.cur_size)
    (h : hook_mem_write s address size = some s1) :
    s1.ignore_next_block = true := by
  unfold hook_mem_write at h
  simp only at h
  have h1 := handle_write_block_flags _ s1 address size h
  have hcond : (address ≥ s.cur_address ∧ address < (s.cur_address + s.cur_size) % 2 ^ 64) ∨
      (s.cur_address ≥ address ∧ s.cur_address < (address + size) % 2 ^ 64) := by
    rw [Nat.mod_eq_of_lt hwrap.1, Nat.mod_eq_of_lt hwrap.2]
    unfold ranges_overlap at hover
    omega
  rw [hsel] at h1
  simp only [Bool.false_eq_true, if_false, if_pos hcond] at h1
  unfold block_flags at h1
  simp only [Prod.mk.injEq] at h1
  exact h1.1

/-! ## Claims about the hooks -/

/-- C23 at an explicit input: `load_block` at `0x400000` on `concrete_run_state`, the unset
`instr_addr` of the load's source holding `0x400000`, so that `propagate_taints` leaves the
temporary 0 and the register at offset 16 pending under the address of the load, the
register block-marked concrete. The read hook at that instruction, for eight bytes of
which one is symbolic, marks the register in `symbolic_registers` and not in
`block_symbolic_registers`: `is_symbolic_register` still returns false for it, and the
commit of the block takes it out of `symbolic_registers` again. -/
theorem pending_register_not_symbolic :
    (propagate_taints (lift_at 0x400000 load_block) 0x400000 concrete_run_state 0x400000
        4).map
      (fun s => (s.stopped, s.block_concrete_registers,
        s.mem_reads_taint_dst_map.map (fun e => (e.1, e.2.1.length, e.2.2)))) =
      some (false, [16], [(0x400000, 2, false)]) ∧
    find_tainted concrete_run_state 0x1010 8 = 0x1010 ∧
    ((propagate_taints (lift_at 0x400000 load_block) 0x400000 concrete_run_state 0x400000
        4).bind (fun s => hook_mem_read s 0x1010 8)).map
      (fun s => (is_symbolic_register s 16, s.symbolic_registers, s.block_symbolic_registers,
        s.block_concrete_registers)) =
      some (false, [16], [], [16]) ∧
    (((propagate_taints (lift_at 0x400000 load_block) 0x400000 concrete_run_state 0x400000
        4).bind (fun s => hook_mem_read s 0x1010 8)).bind commit).map
      (fun s => (is_symbolic_register s 16, s.symbolic_registers)) = some (false, []) :=
  ⟨by decide, by decide, by decide, by decide⟩

/-- C24 at an explicit input: `load_block` at `0x400000` on `concrete_run_state`. The
temporary 0 and the register at offset 16 are appended to `mem_reads_taint_dst_map` under
the value found in the unset `instr_addr` of the load's source, `0` or `0xdead` here, and
not under `0x400000`, the address of the `IMark` before the load; the register is
block-marked concrete. The read hook at instruction `0x400000` then finds no entry and
`mem_reads_taint_dst_map.at` throws. -/
theorem load_sink_pending_key :
    (propagate_taints (lift_at 0x400000 load_block) 0 concrete_run_state 0x400000 4).map
        (fun s => (s.stopped, s.block_concrete_registers,
          s.mem_reads_taint_dst_map.map (fun e => (e.1, e.2.1.length)),
          (s.mem_reads_taint_dst_map.lookup 0x400000).isSome)) =
      some (false, [16], [(0, 2)], false) ∧
    (propagate_taints (lift_at 0x400000 load_block) 0xdead concrete_run_state 0x400000 4).map
        (fun s => s.mem_reads_taint_dst_map.map (fun e => (e.1, e.2.1.length))) =
      some [(0xdead, 2)] ∧
    get_instruction_pointer concrete_run_state = 0x400000 ∧
    find_tainted concrete_run_state 0x1010 8 = 0x1010 ∧
    ((propagate_taints (lift_at 0x400000 load_block) 0 concrete_run_state 0x400000 4).bind
        (fun s => hook_mem_read s 0x1010 8)).isNone = true := by
  decide

/-- A block hook that is not skipped commits the previous block, finds its exit guard
concrete, steps, stays running and works with the summary `entry`. It
returns what the loop of `propagate_taints` over the pairs of `entry` returns from the
state `sink_loop_start`, with the previous block address set; in that state `mem_writes`,
`mem_reads_taint_dst_map`, `block_symbolic_registers`, `block_concrete_registers` and
`block_symbolic_temps` are empty, and `mem_writes_taint_map` is what it was when the hook
was entered. -/
theorem hook_block_sink_loop_start (vex : VexLift) (uninit : Nat) (s s1 s2 : State)
    (address size : Nat) (entry : block_taint_entry_t)
    (hign : s.ignore_next_block = false)
    (hcommit : commit s = some s1)
    (hguard : is_symbolic_exit_guard_previous_block s1 = some false)
    (hstep : step s1 address size true = some s2)
    (hrun : s2.stopped = false)
    (hsum : taint_summary vex uninit s2 address size = some entry) :
    hook_block vex uninit s address size =
        (propagate_pairs entry.ite_cond_map (sink_loop_start s2 address entry)
          entry.taint_sink_src_data).map (fun s3 => set_previous_block_address s3 address) ∧
      (sink_loop_start s2 address entry).mem_writes = [] ∧
      (sink_loop_start s2 address entry).mem_reads_taint_dst_map = [] ∧
      (sink_loop_start s2 address entry).block_symbolic_registers = [] ∧
      (sink_loop_start s2 address entry).block_concrete_registers = [] ∧
      (sink_loop_start s2 address entry).block_symbolic_temps = [] ∧
      (sink_loop_start s2 address entry).mem_writes_taint_map = s.mem_writes_taint_map := by
  obtain ⟨c1, c2, c3, c4, c5, _⟩ := commit_clears s s1 hcommit
  obtain ⟨k1, k2, k3, k4, k5⟩ := step_keeps s1 s2 address size true hstep
  refine ⟨?_, ?_, ?_, ?_, ?_, ?_, ?_⟩
  · unfold hook_block
    simp only [hign, Bool.false_eq_true, if_false, hcommit, hguard, hstep, hrun,
      Bool.not_false, if_true,
      propagate_taints_eq vex uninit s2 address size entry hsum]
    cases propagate_pairs entry.ite_cond_map (sink_loop_start s2 address entry)
      entry.taint_sink_src_data <;> rfl
  · unfold sink_loop_start
    split <;> exact k1.trans c1
  · unfold sink_loop_start
    split <;> rfl
  · unfold sink_loop_start
    split <;> exact k2.trans c2
  · unfold sink_loop_start
    split <;> exact k3.trans c3
  · unfold sink_loop_start
    split <;> exact k4.trans c4
  · unfold sink_loop_start
    split <;> exact k5.trans c5

/-- The entry of `constant_block` at `0x3000` from `stored_state`: where the loop starts,
`mem_writes`, `mem_reads_taint_dst_map` and the three block-level sets are empty, and
`mem_writes_taint_map` is what it was on entry. -/
theorem hook_block_sink_loop_start_witness :
    hook_block lift_two 0 stored_state 0x3000 4 =
        (propagate_pairs constant_summary.ite_cond_map
          (sink_loop_start entered_state 0x3000 constant_summary)
          constant_summary.taint_sink_src_data).map
          (fun s3 => set_previous_block_address s3 0x3000) ∧
      (sink_loop_start entered_state 0x3000 constant_summary).mem_writes = [] ∧
      (sink_loop_start entered_state 0x3000 constant_summary).mem_reads_taint_dst_map = [] ∧
      (sink_loop_start entered_state 0x3000 constant_summary).block_symbolic_registers = [] ∧
      (sink_loop_start entered_state 0x3000 constant_summary).block_concrete_registers = [] ∧
      (sink_loop_start entered_state 0x3000 constant_summary).block_symbolic_temps = [] ∧
      (sink_loop_start entered_state 0x3000 constant_summary).mem_writes_taint_map =
        stored_state.mem_writes_taint_map :=
  hook_block_sink_loop_start lift_two 0 stored_state committed_state entered_state 0x3000 4
    constant_summary (by decide) rfl (by decide) rfl (by decide) rfl

/-- C28 at an explicit input: the block hook enters `store_block` at `0x2000` from
`store_entry_state` and records its store, the write hook runs for the store, and the
block hook enters the same block again. After that hook's `commit` and `step`, where
`propagate_taints` starts on the pairs of the block, `mem_writes` is empty and
`mem_writes_taint_map` is not: nothing has cleared it, and it still holds the entry of the
first pass. The store of the second pass finds that entry and reaches the failing
assertion on more than one memory write in an instruction. -/
theorem mem_writes_taint_map_kept :
    (hook_block (lift_at 0x2000 store_block) 0 store_entry_state 0x2000 4).map
        (fun s => (s.stopped, s.mem_writes_taint_map)) = some (false, [(0x2000, true)]) ∧
    ((hook_block (lift_at 0x2000 store_block) 0 store_entry_state 0x2000 4).bind
        (fun s => hook_mem_write s 0x1010 8)).map
        (fun s => (s.stopped, s.ignore_next_block, s.mem_writes.length,
          s.mem_writes_taint_map)) =
      some (false, false, 1, [(0x2000, true)]) ∧
    ((((hook_block (lift_at 0x2000 store_block) 0 store_entry_state 0x2000 4).bind
        (fun s => hook_mem_write s 0x1010 8)).bind commit).bind
        (fun s => step s 0x2000 4 true)).map
        (fun s => (s.stopped, (sink_loop_start s 0x2000 store_summary).mem_writes.length,
          (sink_loop_start s 0x2000 store_summary).mem_writes_taint_map)) =
      some (false, 0, [(0x2000, true)]) ∧
    ((((hook_block (lift_at 0x2000 store_block) 0 store_entry_state 0x2000 4).bind
        (fun s => hook_mem_write s 0x1010 8)).bind commit).bind
        (fun s => step s 0x2000 4 true)).bind
        (fun s => taint_summary (lift_at 0x2000 store_block) 0 s 0x2000 4) =
      some store_summary ∧
    (((hook_block (lift_at 0x2000 store_block) 0 store_entry_state 0x2000 4).bind
        (fun s => hook_mem_write s 0x1010 8)).bind
        (fun s => hook_block (lift_at 0x2000 store_block) 0 s 0x2000 4)).isNone = true :=
  ⟨by decide, by decide, by decide, rfl, by decide⟩

/-- C29 (amended): in `step` with `cur_steps < max_steps`, stop-point checking on, the
state running and no wrap of the window's end, the state stops with reason
`STOP_STOPPOINT` if and only if some stop point lies in `[addr, addr + size)`, the window
being 800 bytes when `size` is 0. -/
theorem step_stop_point (s : State) (current_address size : Nat)
    (hsteps : s.cur_steps < s.max_steps) (hrun : s.stopped = false)
    (hwrap : current_address + (if size = 0 then 800 else size) < 2 ^ 64) :
    ∃ s1, step s current_address size true = some s1 ∧
      ((s1.stopped = true ∧ s1.stop_reason = .STOP_STOPPOINT) ↔
        ∃ p ∈ s.stop_points, current_address ≤ p ∧
          p < current_address + (if size = 0 then 800 else size)) := by
  have hlb := lower_bound_lt s.stop_points current_address
    (current_address + (if size = 0 then 800 else size))
  have hmod : (current_address + (if size = 0 then MAX_BB_SIZE else size)) % 2 ^ 64 =
      current_address + (if size = 0 then 800 else size) := by
    unfold MAX_BB_SIZE
    exact Nat.mod_eq_of_lt hwrap
  have hns : ¬ s.cur_steps ≥ s.max_steps := by omega
  unfold step
  cases hb : s.track_bbls <;> cases hk : s.track_stack <;>
    simp only [hb, hk, Bool.false_eq_true, if_false, if_true, hns, hmod] <;>
    (cases hl : lower_bound s.stop_points current_address with
      | none =>
        refine ⟨_, rfl, ?_⟩
        rw [← hlb, hl]
        simp [hrun]
      | some m =>
        simp only []
        by_cases hm : m < current_address + (if size = 0 then 800 else size)
        · rw [if_pos hm]
          refine ⟨_, rfl, ?_⟩
          rw [← hlb, hl]
          simp [hm]
        · rw [if_neg hm]
          refine ⟨_, rfl, ?_⟩
          rw [← hlb, hl]
          simp [hm, hrun])

/-- C29 (amended) at `stop_point_state`, whose stop point `0x2064` lies in the window of a
block of `0x70` bytes at `0x2000`. -/
theorem step_stop_point_witness :
    ∃ s1, step stop_point_state 0x2000 0x70 true = some s1 ∧
      ((s1.stopped = true ∧ s1.stop_reason = .STOP_STOPPOINT) ↔
        ∃ p ∈ stop_point_state.stop_points, 0x2000 ≤ p ∧
          p < 0x2000 + (if 0x70 = 0 then 800 else 0x70)) :=
  step_stop_point stop_point_state 0x2000 0x70 (by decide) rfl (by decide)

/-- C29 fails for a block shorter than 800 bytes: from `stop_point_state`, whose stop
point `0x2064` lies in `[0x2000, 0x2000 + max(16, 800))`, `step` on the block of 16 bytes
at `0x2000` does not stop; on a block of size 0 at the same address it stops. -/
theorem step_window_is_size :
    stop_point_state.cur_steps < stop_point_state.max_steps ∧
    (∃ p ∈ stop_point_state.stop_points, 0x2000 ≤ p ∧ p < 0x2000 + max 16 800) ∧
    (step stop_point_state 0x2000 16 true).map (fun s => (s.stopped, s.stop_reason)) =
      some (false, .STOP_NOSTART) ∧
    (step stop_point_state 0x2000 0 true).map (fun s => (s.stopped, s.stop_reason)) =
      some (true, .STOP_STOPPOINT) := by
  decide

/-- C30: with `ignore_next_block` set, the block hook returns the state it was given with
`ignore_next_block` cleared and `ignore_next_selfmod` set, whatever the lifter: nothing is
committed, `step` and `propagate_taints` do not run, `cur_steps`, `bbl_addrs` and
`executed_pages` are as they were. The sequence: from a state `s0` with both flags clear
the block hook enters the block `[address, address + size)`, the exit guard of the previous
block being concrete; the write hook then runs for a range that has an address in common
with the block; the block hook runs again for the same block. The first hook advances
`cur_steps` by one, the write hook sets `ignore_next_block`, and the second hook only
clears it and sets `ignore_next_selfmod`: after the three calls `cur_steps` is that of `s0`
plus one. -/
theorem hook_block_ignored (vex : VexLift) (uninit : Nat) (s0 : State)
    (address size w_address w_size : Nat)
    (hign : s0.ignore_next_block = false) (hsel : s0.ignore_next_selfmod = false)
    (hguard : (commit s0).bind is_symbolic_exit_guard_previous_block = some false)
    (hwrap : address + size < 2 ^ 64 ∧ w_address + w_size < 2 ^ 64)
    (hover : ranges_overlap w_address w_size address size)
    (hruns : ((hook_block vex uninit s0 address size).bind
        (fun s1 => hook_mem_write s1 w_address w_size)).isSome = true) :
    (∀ s : State, s.ignore_next_block = true →
      hook_block vex uninit s address size =
        some { s with ignore_next_block := false, ignore_next_selfmod := true }) ∧
    ∃ s1 s2 s3, hook_block vex uninit s0 address size = some s1 ∧
      hook_mem_write s1 w_address w_size = some s2 ∧
      s2.ignore_next_block = true ∧
      hook_block vex uninit s2 address size = some s3 ∧
      s3 = { s2 with ignore_next_block := false, ignore_next_selfmod := true } ∧
      s1.cur_steps = (s0.cur_steps + 1) % 2 ^ 64 ∧
      s3.cur_steps = (s0.cur_steps + 1) % 2 ^ 64 ∧
      s3.bbl_addrs = s2.bbl_addrs ∧ s3.executed_pages = s2.executed_pages := by
  have hres : ∀ s : State, s.ignore_next_block = true →
      hook_block vex uninit s address size =
        some { s with ignore_next_block := false, ignore_next_selfmod := true } := by
    intro s h
    unfold hook_block
    rw [if_pos h]
  refine ⟨hres, ?_⟩
  cases h1 : hook_block vex uninit s0 address size with
  | none =>
    rw [h1] at hruns
    cases hruns
  | some s1 =>
    rw [h1, Option.some_bind] at hruns
    cases h2 : hook_mem_write s1 w_address w_size with
    | none =>
      rw [h2] at hruns
      cases hruns
    | some s2 =>
      have hf := hook_block_block_flags vex uninit s0 s1 address size hign hguard h1
      unfold block_flags at hf
      simp only [Prod.mk.injEq] at hf
      obtain ⟨_, f2, f3, f4⟩ := hf
      have hset : s2.ignore_next_block = true := by
        apply hook_mem_write_selfmod s1 s2 w_address w_size (f2.trans hsel) _ _ h2
        · rw [f3, f4]
          exact hwrap
        · rw [f3, f4]
          exact hover
      have e1 := hook_block_cur_steps vex uninit s0 s1 address size hign h1
      have e2 := hook_mem_write_cur_steps s1 s2 w_address w_size h2
      exact ⟨s1, s2, _, rfl, h2, hset, hres s2 hset, rfl, e1, e2.trans e1, rfl, rfl⟩

/-- C30 at `store_entry_state`: the block hook enters `store_block`, the four bytes at
`0x2000`, and the write hook runs for the byte at `0x2002`. -/
theorem hook_block_ignored_witness :
    (∀ s : State, s.ignore_next_block = true →
      hook_block (lift_at 0x2000 store_block) 0 s 0x2000 4 =
        some { s with ignore_next_block := false, ignore_next_selfmod := true }) ∧
    ∃ s1 s2 s3, hook_block (lift_at 0x2000 store_block) 0 store_entry_state 0x2000 4 =
        some s1 ∧
      hook_mem_write s1 0x2002 1 = some s2 ∧
      s2.ignore_next_block = true ∧
      hook_block (lift_at 0x2000 store_block) 0 s2 0x2000 4 = some s3 ∧
      s3 = { s2 with ignore_next_block := false, ignore_next_selfmod := true } ∧
      s1.cur_steps = (store_entry_state.cur_steps + 1) % 2 ^ 64 ∧
      s3.cur_steps = (store_entry_state.cur_steps + 1) % 2 ^ 64 ∧
      s3.bbl_addrs = s2.bbl_addrs ∧ s3.executed_pages = s2.executed_pages :=
  hook_block_ignored (lift_at 0x2000 store_block) 0 store_entry_state 0x2000 4 0x2002 1
    (by decide) (by decide) (by decide) ⟨by decide, by decide⟩ ⟨by decide, by decide⟩
    (by decide)

/-- The block hook at `ignoring_state`, in which `ignore_next_block` is set: the two flags
change and `cur_steps`, `bbl_addrs` and `executed_pages` do not. -/
theorem ignoring_state_skipped :
    (hook_block lift_none 0 ignoring_state 0x2000 4).map
        (fun s => (s.ignore_next_block, s.ignore_next_selfmod, s.cur_steps, s.bbl_addrs,
          s.executed_pages)) =
      some (false, true, 1, [0x2000], [0x2000]) := by
  decide

/-- The sequence block hook, write hook on a byte of the block, block hook again, from
`store_entry_state` with `store_block` at `0x2000`: `cur_steps` goes from 0 to 1 and stays
there, the write hook leaves `ignore_next_block` set, and the second block hook adds
nothing to `bbl_addrs` and `executed_pages`. -/
theorem selfmod_sequence_steps_once :
    store_entry_state.cur_steps = 0 ∧
    ((hook_block (lift_at 0x2000 store_block) 0 store_entry_state 0x2000 4).bind
        (fun s1 => hook_mem_write s1 0x2002 1)).map
        (fun s => (s.ignore_next_block, s.cur_steps, s.bbl_addrs, s.executed_pages)) =
      some (true, 1, [0x2000], [0x2000]) ∧
    (((hook_block (lift_at 0x2000 store_block) 0 store_entry_state 0x2000 4).bind
        (fun s1 => hook_mem_write s1 0x2002 1)).bind
        (fun s2 => hook_block (lift_at 0x2000 store_block) 0 s2 0x2000 4)).map
        (fun s => (s.ignore_next_block, s.ignore_next_selfmod, s.cur_steps, s.bbl_addrs,
          s.executed_pages)) =
      some (false, true, 1, [0x2000], [0x2000]) := by
  decide

/-! ## Session start -/

theorem commit_keeps (s s1 : State) (h : commit s = some s1) :
    s1.max_steps = s.max_steps ∧ s1.track_bbls = s.track_bbls ∧
      s1.bbl_addrs = s.bbl_addrs ∧ s1.block_taint_cache = s.block_taint_cache ∧
      s1.mem_reads_taint_dst_map = s.mem_reads_taint_dst_map ∧
      s1.stopped = s.stopped ∧ s1.stop_reason = s.stop_reason := by
  unfold commit at h
  cases hp : commit_lazy s.active_pages s.mem_writes with
  | none =>
    rw [hp] at h
    cases h
  | some pages =>
    rw [hp] at h
    simp only [foldl_mark_register_symbolic, foldl_mark_register_concrete,
      foldl_mark_temp_symbolic, Option.some.injEq] at h
    subst h
    exact ⟨rfl, rfl, rfl, rfl, rfl, rfl, rfl⟩

/-- With the step budget used up, `step` stops with `STOP_NORMAL` after tracking the
block. -/
theorem step_budget_spent (s : State) (current_address size : Nat) (check_stop_points : Bool)
    (h : s.cur_steps ≥ s.max_steps) :
    ∃ s1, step s current_address size check_stop_points = some s1 ∧
      s1.stopped = true ∧ s1.stop_reason = .STOP_NORMAL ∧
      s1.bbl_addrs = (if s.track_bbls then s.bbl_addrs ++ [current_address] else s.bbl_addrs) ∧
      s1.cur_steps = s.cur_steps ∧ s1.mem_writes = s.mem_writes ∧
      s1.block_taint_cache = s.block_taint_cache ∧
      s1.mem_reads_taint_dst_map = s.mem_reads_taint_dst_map ∧
      s1.mem_writes_taint_map = s.mem_writes_taint_map ∧
      s1.active_pages = s.active_pages := by
  unfold step
  cases hb : s.track_bbls <;> cases hk : s.track_stack <;>
    simp only [hb, hk, Bool.false_eq_true, if_false, if_true, h, stop] <;>
    exact ⟨_, rfl, rfl, rfl, rfl, rfl, rfl, rfl, rfl, rfl, rfl⟩

/-- With step budget 0, a start address other than 0, and the summary of the previous
block cached with a concrete exit guard, the first block hook of the run stops with
`STOP_NORMAL` whatever the lifter, the taint summary cache and the taint maps staying as
they were, and after the rollback of `start` `cur_steps` is 0 and `bbl_addrs` has no entry
for the run. -/
theorem start_budget_zero_of_cached_block (vex : VexLift) (uninit : Nat) (s c : State)
    (pc address size : Nat)
    (hpc : pc ≠ 0) (hign : s.ignore_next_block = false)
    (hcommit : commit (start_begin s 0) = some c)
    (hguard : is_symbolic_exit_guard_previous_block c = some false) :
    (∃ h1, hook_block vex uninit (start_begin s 0) address size = some h1 ∧
      h1.stopped = true ∧ h1.stop_reason = .STOP_NORMAL ∧
      h1.block_taint_cache = s.block_taint_cache ∧
      h1.mem_reads_taint_dst_map = s.mem_reads_taint_dst_map ∧
      h1.mem_writes_taint_map = s.mem_writes_taint_map) ∧
    ∃ s1, start (emu_blocks vex uninit [(address, size)]) s pc 0 = some (s1, .UC_ERR_OK) ∧
      s1.stopped = true ∧ s1.stop_reason = .STOP_NORMAL ∧ s1.cur_steps = 0 ∧
      s1.bbl_addrs = (if s.track_bbls then s.bbl_addrs else s.bbl_addrs.dropLast) ∧
      s1.block_taint_cache = s.block_taint_cache := by
  obtain ⟨c1, _, _, _, c5, c6⟩ := commit_clears _ c hcommit
  obtain ⟨k1, k2, k3, k4, k5, _, _⟩ := commit_keeps _ c hcommit
  have hsteps : c.cur_steps = 0 := by
    rw [c6]
    have h0 : (start_begin s 0).cur_steps = 2 ^ 64 - 1 := rfl
    rw [h0]
    norm_num
  have hspent : c.cur_steps ≥ c.max_steps := by
    rw [k1, hsteps]
    exact Nat.le_refl 0
  obtain ⟨s2, hstep, t1, t2, t3, t4, t5, t6, t7, t8, _⟩ :=
    step_budget_spent c address size true hspent
  have hhook : hook_block vex uninit (start_begin s 0) address size =
      some (set_previous_block_address s2 address) := by
    unfold hook_block
    have hi : (start_begin s 0).ignore_next_block = false := hign
    simp only [hi, Bool.false_eq_true, if_false, hcommit, hguard, hstep, t1, Bool.not_true]
  refine ⟨⟨_, hhook, t1, t2, t6.trans k4, t7.trans k5, t8.trans c5⟩, ?_⟩
  have hroll : rollback (set_previous_block_address s2 address) =
      some { set_previous_block_address s2 address with
        uc := { s2.uc with pc := s2.saved_regs.1, sp := s2.saved_regs.2 }
        mem_writes := []
        bbl_addrs := s2.bbl_addrs.dropLast } := by
    unfold rollback set_previous_block_address
    simp only [t5, c1, List.reverse_nil, rollback_loop]
  unfold start emu_blocks run_block_hooks
  simp only [hpc, if_false, hhook, run_block_hooks, Option.map_some']
  have hreason : (set_previous_block_address s2 address).stop_reason = .STOP_NORMAL := t2
  simp only [hreason, reduceCtorEq, false_and, and_false, if_false, hroll]
  refine ⟨_, rfl, ?_⟩
  have hcs : s2.cur_steps ≠ 2 ^ 64 - 1 := by
    rw [t4, hsteps]
    decide
  simp only [set_previous_block_address, hcs, if_false]
  refine ⟨t1, trivial, t4.trans hsteps, ?_, t6.trans k4⟩
  rw [t3, k2, k3]
  have hb : (start_begin s 0).track_bbls = s.track_bbls := rfl
  have ha : (start_begin s 0).bbl_addrs = s.bbl_addrs := rfl
  rw [hb, ha]
  cases s.track_bbls
  · simp
  · simp

/-- The run of `start_budget_zero_of_cached_block` on `primed_state`. -/
theorem start_budget_zero_on_primed_state :
    ∃ s1, start (emu_blocks lift_none 0 [(0x3000, 4)]) primed_state 0x3000 0 =
        some (s1, .UC_ERR_OK) ∧
      s1.stopped = true ∧ s1.stop_reason = .STOP_NORMAL ∧ s1.cur_steps = 0 ∧
      s1.bbl_addrs =
        (if primed_state.track_bbls then primed_state.bbl_addrs
         else primed_state.bbl_addrs.dropLast) ∧
      s1.block_taint_cache = primed_state.block_taint_cache :=
  (start_budget_zero_of_cached_block lift_none 0 primed_state
    { start_begin primed_state 0 with saved_regs := (0x400000, 0), cur_steps := 0 }
    0x3000 0x3000 4 (by decide) rfl rfl (by decide)).2

/-! ## Claims about the session start -/

/-- C31 at an explicit input: a freshly allocated state with block tracking on and no
symbolic register, `start` at `0x3000` with step budget 1, the emulator delivering the
block hooks of `0x3000` and `0x2000` and no memory access. The first block hook commits
and then looks up the summary of the previous block with `block_taint_cache.at`; the
cache is empty, so the lookup throws and the hook does not return. From `primed_state`,
which differs by a cached summary for the previous block, the same run ends with
`cur_steps = 1`, `bbl_addrs = [0x3000]`, `STOP_NORMAL` and no page activated. -/
theorem first_block_hook_throws :
    (start (emu_blocks lift_two 0 [(0x3000, 4), (0x2000, 4)])
      (simunicorn_alloc uc_mapped true false) 0x3000 1).isNone = true ∧
    (hook_block lift_two 0 (start_begin (simunicorn_alloc uc_mapped true false) 1) 0x3000
      4).isNone = true ∧
    ((commit (start_begin (simunicorn_alloc uc_mapped true false) 1)).map
      (fun s => (s.cur_steps, s.block_taint_cache.length,
        (is_symbolic_exit_guard_previous_block s).isNone))) = some (0, 0, true) ∧
    (start (emu_blocks lift_two 0 [(0x3000, 4), (0x2000, 4)]) primed_state 0x3000 1).map
      (fun r => (r.1.cur_steps, r.1.bbl_addrs, r.1.stop_reason, r.1.active_pages.length, r.2)) =
      some (1, [0x3000], .STOP_NORMAL, 0, .UC_ERR_OK) := by
  decide

/-- C32 at an explicit input: a freshly allocated state, `start` at `0x3000` with step
budget 0, the emulator delivering the block hook of `0x3000`. The hook does not reach
`step`: after its commit the lookup of the previous block's summary throws on the empty
`block_taint_cache`. From `primed_state` the same run stops with `STOP_NORMAL`,
`cur_steps = 0` and an empty `bbl_addrs`. -/
theorem budget_zero_first_hook_throws :
    (start (emu_blocks lift_none 0 [(0x3000, 4)]) (simunicorn_alloc uc_mapped true false)
      0x3000 0).isNone = true ∧
    (hook_block lift_none 0 (start_begin (simunicorn_alloc uc_mapped true false) 0) 0x3000
      4).isNone = true ∧
    (start (emu_blocks lift_none 0 [(0x3000, 4)]) primed_state 0x3000 0).map
      (fun r => (r.1.stopped, r.1.stop_reason, r.1.cur_steps, r.1.bbl_addrs, r.2)) =
      some (true, .STOP_NORMAL, 0, [], .UC_ERR_OK) := by
  decide

/-- C33: `start` with `pc = 0` returns `UC_ERR_MAP` with `stop_reason = STOP_ZEROPAGE` and
`cur_steps = 0`, whatever the step budget and whatever the emulator would do (it is not
run): the emulator, the write log, the taint bitmaps, `bbl_addrs`, and the state-level and
block-level symbolic sets are as they were. -/
theorem start_zero_pc (emu : EmuRun) (s : State) (step : Nat) :
    ∃ s1, start emu s 0 step = some (s1, .UC_ERR_MAP) ∧
      s1 = { start_begin s step with stop_reason := .STOP_ZEROPAGE, cur_steps := 0 } ∧
      s1.stop_reason = .STOP_ZEROPAGE ∧ s1.cur_steps = 0 ∧
      s1.uc = s.uc ∧ s1.mem_writes = s.mem_writes ∧ s1.active_pages = s.active_pages ∧
      s1.bbl_addrs = s.bbl_addrs ∧ s1.symbolic_registers = s.symbolic_registers ∧
      s1.symbolic_temps = s.symbolic_temps ∧
      s1.block_symbolic_registers = s.block_symbolic_registers ∧
      s1.block_concrete_registers = s.block_concrete_registers ∧
      s1.block_symbolic_temps = s.block_symbolic_temps := by
  have h : start emu s 0 step =
      some ({ start_begin s step with stop_reason := .STOP_ZEROPAGE, cur_steps := 0 },
        .UC_ERR_MAP) := by
    unfold start
    simp
  exact ⟨_, h, rfl, rfl, rfl, rfl, rfl, rfl, rfl, rfl, rfl, rfl, rfl, rfl⟩

/-! ## The page cache -/

theorem filter_key_cons_eq {β : Type} (rest : List (Nat × β)) (k : Nat) (b : β) :
    ((k, b) :: rest).filter (fun e => e.1 ≠ k) = rest.filter (fun e => e.1 ≠ k) := by
  apply List.filter_cons_of_neg
  simp

theorem filter_key_cons_ne {β : Type} (rest : List (Nat × β)) (k key : Nat) (b : β)
    (h : key ≠ k) :
    ((key, b) :: rest).filter (fun e => e.1 ≠ k) =
      (key, b) :: rest.filter (fun e => e.1 ≠ k) := by
  apply List.filter_cons_of_pos
  simpa using h

theorem lookup_filter_key {β : Type} (m : List (Nat × β)) (k : Nat) :
    (m.filter (fun e => e.1 ≠ k)).lookup k = none := by
  induction m with
  | nil => rfl
  | cons e rest ih =>
    obtain ⟨key, b⟩ := e
    by_cases h : key = k
    · subst h
      rw [filter_key_cons_eq]
      exact ih
    · have hk : (k == key) = false := by
        rw [beq_eq_false_iff_ne]
        exact fun e => h e.symm
      rw [filter_key_cons_ne rest k key b h, List.lookup_cons, hk]
      exact ih

theorem lookup_filter_other {β : Type} (m : List (Nat × β)) (k a : Nat) (h : a ≠ k) :
    (m.filter (fun e => e.1 ≠ k)).lookup a = m.lookup a := by
  induction m with
  | nil => rfl
  | cons e rest ih =>
    obtain ⟨key, b⟩ := e
    by_cases hkey : key = k
    · subst hkey
      have hk : (a == key) = false := by
        rw [beq_eq_false_iff_ne]
        exact h
      rw [filter_key_cons_eq, List.lookup_cons, hk]
      exact ih
    · rw [filter_key_cons_ne rest k key b hkey, List.lookup_cons, List.lookup_cons]
      cases (a == key)
      · exact ih
      · rfl

theorem filter_of_lookup_none {β : Type} (m : List (Nat × β)) (k : Nat)
    (h : m.lookup k = none) : m.filter (fun e => e.1 ≠ k) = m := by
  induction m with
  | nil => rfl
  | cons e rest ih =>
    obtain ⟨key, b⟩ := e
    rw [List.lookup_cons] at h
    cases hk : (k == key)
    · rw [hk] at h
      have hne : key ≠ k := by
        intro e
        rw [e] at hk
        simp at hk
      rw [filter_key_cons_ne rest k key b hne, ih h]
    · rw [hk] at h
      cases h

theorem map_const_range (n b : Nat) :
    (List.range n).map (fun _ => b) = List.replicate n b := by
  rw [List.map_const', List.length_range]

theorem page_bytes_zero (offset : Nat) :
    page_bytes (fun _ => 0) offset = List.replicate 0x1000 0 :=
  map_const_range 0x1000 0

/-! ## Claims about the page cache -/

/-- C34 at an explicit input: the page cache holds the pages `0x1000` and `0x2000`, and
`uncache_pages_touching_region(0x1FFF, 2)` is called. The range `[0x1FFF, 0x2001)` overlaps
both pages; the loop starts at the aligned address `0x1000` and runs while the offset is
below the length 2, so it wipes page `0x1000` only and page `0x2000` stays cached. With
the aligned address `0x1000` and length `0x1001` both pages are wiped. -/
theorem uncache_misses_last_page :
    ((uncache_pages_touching_region two_page_cache uc_mapped 0x1FFF 2).1.map Prod.fst) =
      [0x2000] ∧
    (0x2000 < 0x1FFF + 2 ∧ 0x1FFF < 0x2000 + 0x1000) ∧
    ((uncache_pages_touching_region two_page_cache uc_mapped 0x1000 0x1001).1.map Prod.fst) =
      [] := by
  refine ⟨?_, by decide, ?_⟩
  · rfl
  · rfl

/-- C35 (amended): for a page-aligned address, `cache_page` of one page, on a cache that
has no entry for the address or has one of size `0x1000` with the same bytes, followed by
`wipe_page_from_cache` of the address leaves no entry for that page and leaves the entries
of all other pages as they were; when the page was absent before, the cache is as it was
before the two calls. -/
theorem cache_then_wipe (page_cache : PageCache) (uc : uc_engine) (address : Nat)
    (bytes : Nat → Nat) (permissions : Nat)
    (halign : address % 0x1000 = 0) (hlt : address < 2 ^ 64)
    (hsame : ∀ page, page_cache.lookup address = some page →
      page.size = 0x1000 ∧ page.bytes = page_bytes bytes 0) :
    ∃ c1, cache_page page_cache address 0x1000 bytes permissions = some c1 ∧
      (wipe_page_from_cache c1 uc address).1.lookup address = none ∧
      (∀ a, a ≠ address →
        (wipe_page_from_cache c1 uc address).1.lookup a = page_cache.lookup a) ∧
      (page_cache.lookup address = none →
        (wipe_page_from_cache c1 uc address).1 = page_cache) := by
  have hoff : page_offsets 0x1000 = [0] := by decide
  have hmod : (address + 0) % 2 ^ 64 = address := Nat.mod_eq_of_lt hlt
  unfold cache_page
  rw [if_pos ⟨halign, by decide⟩, hoff, List.foldl_cons, List.foldl_nil]
  unfold cache_one_page
  simp only [hmod]
  cases hl : page_cache.lookup address with
  | some page =>
    simp only [if_pos (hsame page hl)]
    refine ⟨_, rfl, ?_, ?_, ?_⟩
    · unfold wipe_page_from_cache
      rw [hl]
      exact lookup_filter_key page_cache address
    · intro a ha
      unfold wipe_page_from_cache
      rw [hl]
      exact lookup_filter_other page_cache address a ha
    · intro h
      cases h
  | none =>
    simp only []
    have hnew := lookup_append_new page_cache address
      ({ size := 0x1000, bytes := page_bytes bytes 0, perms := permissions } : CachedPage) hl
    have hwipe : (wipe_page_from_cache
        (page_cache ++ [(address,
          ({ size := 0x1000, bytes := page_bytes bytes 0, perms := permissions } : CachedPage))])
        uc address).1 = page_cache := by
      unfold wipe_page_from_cache
      rw [hnew]
      simp only []
      rw [List.filter_append, filter_of_lookup_none page_cache address hl,
        filter_key_cons_eq, List.filter_nil, List.append_nil]
    refine ⟨_, rfl, ?_, ?_, ?_⟩
    · rw [hwipe]
      exact hl
    · intro a _
      rw [hwipe]
    · intro _
      exact hwipe

/-- C35 (amended) at `two_page_cache` and the page `0x3000`, which it does not hold. -/
theorem cache_then_wipe_witness :
    ∃ c1, cache_page two_page_cache 0x3000 0x1000 (fun _ => 0) 5 = some c1 ∧
      (wipe_page_from_cache c1 uc_mapped 0x3000).1.lookup 0x3000 = none ∧
      (∀ a, a ≠ 0x3000 →
        (wipe_page_from_cache c1 uc_mapped 0x3000).1.lookup a = two_page_cache.lookup a) ∧
      (two_page_cache.lookup 0x3000 = none →
        (wipe_page_from_cache c1 uc_mapped 0x3000).1 = two_page_cache) :=
  cache_then_wipe two_page_cache uc_mapped 0x3000 (fun _ => 0) 5 (by decide) (by decide)
    (fun page h => nomatch h)

/-- C35 fails for a page that was cached before: `two_page_cache` holds `zero_page` at
`0x1000`; `cache_page` of the same bytes at `0x1000` leaves the cache as it is, and
`wipe_page_from_cache(0x1000)` then removes the entry, which was present before the two
calls. -/
theorem wipe_forgets_cached_page :
    two_page_cache.lookup 0x1000 = some zero_page ∧
    cache_page two_page_cache 0x1000 0x1000 (fun _ => 0) 5 = some two_page_cache ∧
    (wipe_page_from_cache two_page_cache uc_mapped 0x1000).1 = [(0x2000, zero_page)] ∧
    (wipe_page_from_cache two_page_cache uc_mapped 0x1000).1.lookup 0x1000 = none := by
  refine ⟨rfl, ?_, rfl, rfl⟩
  have h : page_offsets 0x1000 = [0] := by decide
  unfold cache_page
  rw [h]
  have hl : two_page_cache.lookup ((0x1000 + 0) % 2 ^ 64) = some zero_page := rfl
  rw [if_pos (by decide), List.foldl_cons, List.foldl_nil]
  simp only [cache_one_page, hl, page_bytes_zero]
  exact if_pos ⟨rfl, rfl⟩

/-! ## The dirty ranges of `sync` -/

theorem dirty_run_end_spec (bitmap : PageBitmap) :
    ∀ (fuel j : Nat),
      j ≤ dirty_run_end bitmap fuel j ∧
      (∀ k, j ≤ k → k < dirty_run_end bitmap fuel j →
        bitmap k = .TAINT_DIRTY ∧ k < 0x1000) ∧
      (0x1000 ≤ fuel + j →
        0x1000 ≤ dirty_run_end bitmap fuel j ∨
          bitmap (dirty_run_end bitmap fuel j) ≠ .TAINT_DIRTY) := by
  intro fuel
  induction fuel with
  | zero =>
    intro j
    refine ⟨Nat.le_refl _, ?_, ?_⟩
    · intro k h1 h2
      simp only [dirty_run_end] at h2
      omega
    · intro h
      simp only [dirty_run_end]
      left
      omega
  | succ f ih =>
    intro j
    by_cases hc : j < 0x1000 ∧ bitmap j = .TAINT_DIRTY
    · have he : dirty_run_end bitmap (f + 1) j = dirty_run_end bitmap f (j + 1) := by
        simp only [dirty_run_end, hc, and_self, if_true]
      rw [he]
      obtain ⟨i1, i2, i3⟩ := ih (j + 1)
      refine ⟨by omega, ?_, ?_⟩
      · intro k h1 h2
        by_cases hk : k = j
        · rw [hk]
          exact ⟨hc.2, hc.1⟩
        · exact i2 k (by omega) h2
      · intro h
        exact i3 (by omega)
    · have he : dirty_run_end bitmap (f + 1) j = j := by
        simp only [dirty_run_end, hc, if_false]
      rw [he]
      refine ⟨Nat.le_refl _, ?_, ?_⟩
      · intro k h1 h2
        omega
      · intro _
        by_cases hj : j < 0x1000
        · right
          exact fun hd => hc ⟨hj, hd⟩
        · left
          omega

theorem dirty_run_end_step (bitmap : PageBitmap) (fuel j : Nat) (hj : j < 0x1000)
    (hd : bitmap j = .TAINT_DIRTY) :
    dirty_run_end bitmap (fuel + 1) j = dirty_run_end bitmap fuel (j + 1) := by
  simp only [dirty_run_end, hj, hd, and_self, if_true]

/-- The end of the run that starts at a dirty offset `i` of the page. -/
theorem dirty_run_end_page (bitmap : PageBitmap) (i : Nat) (hi : i < 0x1000)
    (hd : bitmap i = .TAINT_DIRTY) :
    i < dirty_run_end bitmap 0x1000 i ∧ dirty_run_end bitmap 0x1000 i ≤ 0x1000 ∧
      (∀ k, i ≤ k → k < dirty_run_end bitmap 0x1000 i → bitmap k = .TAINT_DIRTY) ∧
      (dirty_run_end bitmap 0x1000 i = 0x1000 ∨
        bitmap (dirty_run_end bitmap 0x1000 i) ≠ .TAINT_DIRTY) := by
  obtain ⟨h1, h2, h3⟩ := dirty_run_end_spec bitmap 0x1000 i
  have hle : dirty_run_end bitmap 0x1000 i ≤ 0x1000 := by
    by_contra hgt
    have := (h2 0x1000 (by omega) (by omega)).2
    omega
  have hlt : i < dirty_run_end bitmap 0x1000 i := by
    have he : dirty_run_end bitmap 0x1000 i = dirty_run_end bitmap 0xFFF (i + 1) :=
      dirty_run_end_step bitmap 0xFFF i hi hd
    have := (dirty_run_end_spec bitmap 0xFFF (i + 1)).1
    omega
  refine ⟨hlt, hle, fun k a b => (h2 k a b).1, ?_⟩
  rcases h3 (by omega) with h | h
  · left
    omega
  · right
    exact h


theorem page_runs_dirty (bitmap : PageBitmap) (fuel i : Nat) (hi : i < 0x1000)
    (hd : bitmap i = .TAINT_DIRTY) :
    page_runs bitmap (fuel + 1) i =
      (i, dirty_run_end bitmap 0x1000 i - i) ::
        page_runs bitmap fuel (dirty_run_end bitmap 0x1000 i + 1) := by
  simp only [page_runs, hi, hd, if_true]

theorem page_runs_clean (bitmap : PageBitmap) (fuel i : Nat) (hi : i < 0x1000)
    (hd : bitmap i ≠ .TAINT_DIRTY) :
    page_runs bitmap (fuel + 1) i = page_runs bitmap fuel (i + 1) := by
  simp only [page_runs, hi, hd, if_true, if_false]

theorem page_runs_end (bitmap : PageBitmap) (fuel i : Nat) (hi : ¬ i < 0x1000) :
    page_runs bitmap fuel i = [] := by
  cases fuel with
  | zero => rfl
  | succ f => simp only [page_runs, hi, if_false]

/-- Every run that the scan finds from offset `i` on starts at `i` or later, is not
empty, ends inside the page, holds dirty bytes only, is followed by the end of the page or
a byte that is not dirty, and starts at `i` or after a byte that is not dirty. -/
theorem page_runs_sound (bitmap : PageBitmap) :
    ∀ (fuel i : Nat), ∀ r ∈ page_runs bitmap fuel i,
      i ≤ r.1 ∧ 0 < r.2 ∧ r.1 + r.2 ≤ 0x1000 ∧
      (∀ k, k < r.2 → bitmap (r.1 + k) = .TAINT_DIRTY) ∧
      (r.1 + r.2 = 0x1000 ∨ bitmap (r.1 + r.2) ≠ .TAINT_DIRTY) ∧
      (r.1 = i ∨ bitmap (r.1 - 1) ≠ .TAINT_DIRTY) := by
  intro fuel
  induction fuel with
  | zero =>
    intro i r hr
    simp only [page_runs, List.not_mem_nil] at hr
  | succ f ih =>
    intro i r hr
    by_cases hi : i < 0x1000
    · by_cases hd : bitmap i = .TAINT_DIRTY
      · obtain ⟨e1, e2, e3, e4⟩ := dirty_run_end_page bitmap i hi hd
        rw [page_runs_dirty bitmap f i hi hd, List.mem_cons] at hr
        rcases hr with hr | hr
        · subst hr
          refine ⟨Nat.le_refl _, by simp only; omega, by simp only; omega, ?_, ?_, Or.inl rfl⟩
          · intro k hk
            simp only at hk ⊢
            exact e3 (i + k) (by omega) (by omega)
          · simp only
            have hsum : i + (dirty_run_end bitmap 0x1000 i - i) =
                dirty_run_end bitmap 0x1000 i := by omega
            rw [hsum]
            exact e4
        · obtain ⟨a1, a2, a3, a4, a5, a6⟩ := ih _ r hr
          refine ⟨by omega, a2, a3, a4, a5, Or.inr ?_⟩
          rcases a6 with a6 | a6
          · rcases e4 with e4 | e4
            · omega
            · rw [a6, Nat.add_sub_cancel]
              exact e4
          · exact a6
      · rw [page_runs_clean bitmap f i hi hd] at hr
        obtain ⟨a1, a2, a3, a4, a5, a6⟩ := ih _ r hr
        refine ⟨by omega, a2, a3, a4, a5, Or.inr ?_⟩
        rcases a6 with a6 | a6
        · rw [a6, Nat.add_sub_cancel]
          exact hd
        · exact a6
    · rw [page_runs_end bitmap (f + 1) i hi] at hr
      cases hr

/-- The runs that the scan finds are in ascending order, with at least one byte between
two of them. -/
theorem page_runs_sorted (bitmap : PageBitmap) :
    ∀ (fuel i : Nat),
      (page_runs bitmap fuel i).Pairwise (fun r1 r2 => r1.1 + r1.2 < r2.1) := by
  intro fuel
  induction fuel with
  | zero =>
    intro i
    simp only [page_runs, List.Pairwise.nil]
  | succ f ih =>
    intro i
    by_cases hi : i < 0x1000
    · by_cases hd : bitmap i = .TAINT_DIRTY
      · obtain ⟨e1, e2, e3, e4⟩ := dirty_run_end_page bitmap i hi hd
        rw [page_runs_dirty bitmap f i hi hd, List.pairwise_cons]
        refine ⟨?_, ih _⟩
        intro r hr
        have := (page_runs_sound bitmap f _ r hr).1
        simp only
        omega
      · rw [page_runs_clean bitmap f i hi hd]
        exact ih _
    · rw [page_runs_end bitmap (f + 1) i hi]
      exact List.Pairwise.nil

/-- With enough iterations the scan finds a run for every dirty byte at offset `i` or
later. -/
theorem page_runs_complete (bitmap : PageBitmap) :
    ∀ (fuel i : Nat), 0x1000 ≤ fuel + i →
      ∀ k, i ≤ k → k < 0x1000 → bitmap k = .TAINT_DIRTY →
        ∃ r ∈ page_runs bitmap fuel i, r.1 ≤ k ∧ k < r.1 + r.2 := by
  intro fuel
  induction fuel with
  | zero =>
    intro i h k h1 h2 _
    omega
  | succ f ih =>
    intro i h k h1 h2 hk
    have hi : i < 0x1000 := by omega
    by_cases hd : bitmap i = .TAINT_DIRTY
    · obtain ⟨e1, e2, e3, e4⟩ := dirty_run_end_page bitmap i hi hd
      rw [page_runs_dirty bitmap f i hi hd]
      by_cases hin : k < dirty_run_end bitmap 0x1000 i
      · refine ⟨_, List.mem_cons_self _ _, h1, ?_⟩
        simp only
        omega
      · have hne : k ≠ dirty_run_end bitmap 0x1000 i := by
          intro e
          rcases e4 with e4 | e4
          · omega
          · rw [← e] at e4
            exact e4 hk
        obtain ⟨r, hr, b1, b2⟩ := ih (dirty_run_end bitmap 0x1000 i + 1) (by omega) k
          (by omega) h2 hk
        exact ⟨r, List.mem_cons_of_mem _ hr, b1, b2⟩
    · rw [page_runs_clean bitmap f i hi hd]
      have hne : k ≠ i := by
        intro e
        rw [e] at hk
        exact hd hk
      exact ih (i + 1) (by omega) k (by omega) h2 hk

/-- The loop of `sync` over one page puts the ranges of the runs it finds in front of
`head`, the last one found first. -/
theorem sync_page_runs (first : Nat) (bitmap : PageBitmap) :
    ∀ (fuel i : Nat) (head : List mem_update_t),
      sync_page first bitmap fuel i head =
        ((page_runs bitmap fuel i).map (run_update first)).reverse ++ head := by
  intro fuel
  induction fuel with
  | zero =>
    intro i head
    rfl
  | succ f ih =>
    intro i head
    by_cases hi : i < 0x1000
    · by_cases hd : bitmap i = .TAINT_DIRTY
      · rw [page_runs_dirty bitmap f i hi hd]
        simp only [sync_page, hi, hd, if_true, ih, List.map_cons, List.reverse_cons,
          List.append_assoc, List.singleton_append]
        rfl
      · rw [page_runs_clean bitmap f i hi hd]
        simp only [sync_page, hi, hd, if_true, if_false, ih]
    · rw [page_runs_end bitmap (f + 1) i hi]
      simp only [sync_page, hi, if_false, List.map_nil, List.reverse_nil, List.nil_append]


theorem mem_sync_fold (l : ActivePages) :
    ∀ (head : List mem_update_t) (r : mem_update_t),
      r ∈ l.foldl (fun head page => sync_page page.1 page.2 0x1000 0 head) head ↔
        r ∈ head ∨ ∃ p ∈ l, r ∈ (page_runs p.2 0x1000 0).map (run_update p.1) := by
  induction l with
  | nil =>
    intro head r
    simp
  | cons p rest ih =>
    intro head r
    rw [List.foldl_cons, ih, sync_page_runs, List.mem_append, List.mem_reverse]
    constructor
    · rintro ((h | h) | ⟨q, hq, h⟩)
      · exact Or.inr ⟨p, List.mem_cons_self _ _, h⟩
      · exact Or.inl h
      · exact Or.inr ⟨q, List.mem_cons_of_mem _ hq, h⟩
    · rintro (h | ⟨q, hq, h⟩)
      · exact Or.inl (Or.inr h)
      · rcases List.mem_cons.mp hq with rfl | hq
        · exact Or.inl (Or.inl h)
        · exact Or.inr ⟨q, hq, h⟩

/-- A range that `sync` makes from a run of an aligned page: where it lies and what it
holds. -/
theorem run_update_spec (p : Nat × PageBitmap) (hp : p.1 % 0x1000 = 0 ∧ p.1 < 2 ^ 64)
    (r : mem_update_t) (hr : r ∈ (page_runs p.2 0x1000 0).map (run_update p.1)) :
    dirty_run_of p r ∧ p.1 ≤ r.address ∧ r.address + r.length ≤ p.1 + 0x1000 := by
  obtain ⟨run, hrun, rfl⟩ := List.mem_map.mp hr
  obtain ⟨a1, a2, a3, a4, a5, a6⟩ := page_runs_sound p.2 0x1000 0 run hrun
  have h64 : (2 : Nat) ^ 64 = 18446744073709551616 := by norm_num
  have hmod : (p.1 + run.1) % 2 ^ 64 = p.1 + run.1 := by
    apply Nat.mod_eq_of_lt
    omega
  refine ⟨⟨run.1, ?_, a2, a3, a4, ?_, a5⟩, ?_, ?_⟩
  · exact hmod
  · rcases a6 with a6 | a6
    · exact Or.inl a6
    · exact Or.inr a6
  · show p.1 ≤ (p.1 + run.1) % 2 ^ 64
    rw [hmod]
    omega
  · show (p.1 + run.1) % 2 ^ 64 + run.2 ≤ p.1 + 0x1000
    rw [hmod]
    omega

theorem page_ranges_disjoint (first : Nat) (bitmap : PageBitmap)
    (hp : first % 0x1000 = 0 ∧ first < 2 ^ 64) :
    (((page_runs bitmap 0x1000 0).map (run_update first)).reverse).Pairwise
      ranges_disjoint := by
  rw [List.pairwise_reverse, List.pairwise_map]
  have hs := page_runs_sorted bitmap 0x1000 0
  have h64 : (2 : Nat) ^ 64 = 18446744073709551616 := by norm_num
  have hall : ∀ run ∈ page_runs bitmap 0x1000 0,
      (first + run.1) % 2 ^ 64 = first + run.1 := by
    intro run hrun
    obtain ⟨_, a2, a3, _⟩ := page_runs_sound bitmap 0x1000 0 run hrun
    apply Nat.mod_eq_of_lt
    omega
  refine List.Pairwise.imp_of_mem ?_ hs
  intro r1 r2 h1 h2 h
  unfold ranges_disjoint run_update
  simp only [hall r1 h1, hall r2 h2]
  right
  omega

theorem sync_fold_disjoint (l : ActivePages) :
    ∀ (head : List mem_update_t),
      (∀ p ∈ l, p.1 % 0x1000 = 0 ∧ p.1 < 2 ^ 64) →
      (l.map Prod.fst).Nodup →
      head.Pairwise ranges_disjoint →
      (∀ a ∈ head, ∀ p ∈ l, a.address + a.length ≤ p.1 ∨ p.1 + 0x1000 ≤ a.address) →
      (l.foldl (fun head page => sync_page page.1 page.2 0x1000 0 head) head).Pairwise
        ranges_disjoint := by
  induction l with
  | nil =>
    intro head _ _ h _
    exact h
  | cons p rest ih =>
    intro head hal hnd hhead hcross
    rw [List.foldl_cons, sync_page_runs]
    have hp := hal p (List.mem_cons_self _ _)
    rw [List.map_cons, List.nodup_cons] at hnd
    apply ih
    · exact fun q hq => hal q (List.mem_cons_of_mem _ hq)
    · exact hnd.2
    · rw [List.pairwise_append]
      refine ⟨page_ranges_disjoint p.1 p.2 hp, hhead, ?_⟩
      intro a ha b hb
      rw [List.mem_reverse] at ha
      obtain ⟨_, a1, a2⟩ := run_update_spec p hp a ha
      rcases hcross b hb p (List.mem_cons_self _ _) with h | h
      · right
        omega
      · left
        omega
    · intro a ha q hq
      rcases List.mem_append.mp ha with ha | ha
      · rw [List.mem_reverse] at ha
        obtain ⟨_, a1, a2⟩ := run_update_spec p hp a ha
        have hq2 := hal q (List.mem_cons_of_mem _ hq)
        have hne : p.1 ≠ q.1 := by
          intro e
          apply hnd.1
          rw [e]
          exact List.mem_map_of_mem Prod.fst hq
        omega
      · exact hcross a ha q (List.mem_cons_of_mem _ hq)

/-- C36: when the keys of `active_pages` are page-aligned 64-bit addresses, no two of them
equal, the ranges that `sync` returns are pairwise disjoint, none crosses a page boundary,
each is a maximal run of consecutive dirty bytes of an active page, and an address lies in
one of them if and only if its byte is tagged dirty in an active page. -/
theorem sync_dirty_ranges (s : State)
    (halign : ∀ p ∈ s.active_pages, p.1 % 0x1000 = 0 ∧ p.1 < 2 ^ 64)
    (hkeys : (s.active_pages.map Prod.fst).Nodup) :
    (sync s).Pairwise ranges_disjoint ∧
    (∀ r ∈ sync s, r.address / 0x1000 = (r.address + r.length - 1) / 0x1000) ∧
    (∀ r ∈ sync s, ∃ p ∈ s.active_pages, dirty_run_of p r) ∧
    (∀ a, (∃ r ∈ sync s, r.address ≤ a ∧ a < r.address + r.length) ↔
      ∃ p ∈ s.active_pages, ∃ i, i < 0x1000 ∧ a = p.1 + i ∧ p.2 i = .TAINT_DIRTY) := by
  have hmem : ∀ r, r ∈ sync s ↔
      ∃ p ∈ s.active_pages, r ∈ (page_runs p.2 0x1000 0).map (run_update p.1) := by
    intro r
    unfold sync
    rw [mem_sync_fold]
    simp
  refine ⟨?_, ?_, ?_, ?_⟩
  · unfold sync
    exact sync_fold_disjoint s.active_pages [] halign hkeys List.Pairwise.nil
      (fun a ha => by cases ha)
  · intro r hr
    obtain ⟨p, hp, hrp⟩ := (hmem r).mp hr
    obtain ⟨⟨i, e1, e2, e3, _⟩, _, _⟩ := run_update_spec p (halign p hp) r hrp
    have ha := (halign p hp).1
    rw [e1]
    omega
  · intro r hr
    obtain ⟨p, hp, hrp⟩ := (hmem r).mp hr
    exact ⟨p, hp, (run_update_spec p (halign p hp) r hrp).1⟩
  · intro a
    constructor
    · rintro ⟨r, hr, h1, h2⟩
      obtain ⟨p, hp, hrp⟩ := (hmem r).mp hr
      obtain ⟨⟨i, e1, e2, e3, e4, _⟩, _, _⟩ := run_update_spec p (halign p hp) r hrp
      refine ⟨p, hp, a - p.1, by omega, by omega, ?_⟩
      have hk := e4 (a - r.address) (by omega)
      have hidx : i + (a - r.address) = a - p.1 := by omega
      rw [hidx] at hk
      exact hk
    · rintro ⟨p, hp, i, hi, rfl, hd⟩
      obtain ⟨run, hrun, b1, b2⟩ := page_runs_complete p.2 0x1000 0 (by omega) i
        (Nat.zero_le _) hi hd
      have hrp : run_update p.1 run ∈ (page_runs p.2 0x1000 0).map (run_update p.1) :=
        List.mem_map_of_mem _ hrun
      obtain ⟨⟨j, e1, _⟩, _, _⟩ := run_update_spec p (halign p hp) _ hrp
      refine ⟨_, (hmem _).mpr ⟨p, hp, hrp⟩, ?_, ?_⟩
      · have h64 : (2 : Nat) ^ 64 = 18446744073709551616 := by norm_num
        have hal := halign p hp
        show (p.1 + run.1) % 2 ^ 64 ≤ p.1 + i
        rw [Nat.mod_eq_of_lt (by omega)]
        omega
      · have h64 : (2 : Nat) ^ 64 = 18446744073709551616 := by norm_num
        have hal := halign p hp
        show p.1 + i < (p.1 + run.1) % 2 ^ 64 + run.2
        rw [Nat.mod_eq_of_lt (by omega)]
        omega

/-- C36 at `mixed_state`, whose page `0x1000` has one dirty and one symbolic byte. -/
theorem sync_dirty_ranges_witness :
    (sync mixed_state).Pairwise ranges_disjoint ∧
    (∀ r ∈ sync mixed_state, r.address / 0x1000 = (r.address + r.length - 1) / 0x1000) ∧
    (∀ r ∈ sync mixed_state, ∃ p ∈ mixed_state.active_pages, dirty_run_of p r) ∧
    (∀ a, (∃ r ∈ sync mixed_state, r.address ≤ a ∧ a < r.address + r.length) ↔
      ∃ p ∈ mixed_state.active_pages, ∃ i, i < 0x1000 ∧ a = p.1 + i ∧
        p.2 i = .TAINT_DIRTY) :=
  sync_dirty_ranges mixed_state (by decide) (by decide)

/-! ## The exit guard of a block -/

theorem last_exit_guard_cons (x : IRStmt) (rest : List IRStmt) :
    last_exit_guard (x :: rest) =
      ((last_exit_guard rest).map some).getD (exit_guard x) := by
  unfold last_exit_guard
  cases hx : exit_guard x with
  | none =>
    rw [List.filterMap_cons_none hx]
    cases (List.filterMap exit_guard rest).getLast? <;> rfl
  | some g =>
    rw [List.filterMap_cons_some hx]
    cases hr : List.filterMap exit_guard rest with
    | nil => rfl
    | cons y ys =>
      rw [List.getLast?_cons_cons]
      cases hl : (y :: ys).getLast? with
      | none => simp at hl
      | some z => rfl

theorem taint_stmts_exit_deps (uninit : Nat) (stmts : List IRStmt) :
    ∀ (st : taint_loop_t), (∀ x ∈ stmts, taint_supported_stmt x = true) →
    ∃ st1, taint_stmts uninit st stmts = some st1 ∧
      st1.entry.exit_stmt_guard_expr_deps =
        ((last_exit_guard stmts).map (flatten_sources uninit)).getD
          st.entry.exit_stmt_guard_expr_deps := by
  induction stmts with
  | nil =>
    intro st _
    exact ⟨st, rfl, rfl⟩
  | cons x rest ih =>
    intro st hall
    have hx := hall x (List.mem_cons_self _ _)
    have hrest : ∀ y ∈ rest, taint_supported_stmt y = true :=
      fun y hy => hall y (List.mem_cons_of_mem _ hy)
    rw [last_exit_guard_cons]
    have hkeep : ∀ st0 : taint_loop_t, exit_guard x = none →
        taint_stmt uninit st x = some st0 →
        st0.entry.exit_stmt_guard_expr_deps = st.entry.exit_stmt_guard_expr_deps →
        ∃ st1, taint_stmts uninit st (x :: rest) = some st1 ∧
          st1.entry.exit_stmt_guard_expr_deps =
            ((((last_exit_guard rest).map some).getD (exit_guard x)).map
              (flatten_sources uninit)).getD st.entry.exit_stmt_guard_expr_deps := by
      intro st0 hg h0 hd
      obtain ⟨st1, e1, e2⟩ := ih st0 hrest
      refine ⟨st1, ?_, ?_⟩
      · simp only [taint_stmts, h0, e1]
      · rw [e2, hd, hg]
        cases last_exit_guard rest <;> rfl
    cases x with
    | Ist_Put offset data =>
      simp only [taint_supported_stmt, Bool.not_eq_true'] at hx
      obtain ⟨i1, h1⟩ := get_taint_sources_flatten uninit st.curr_instr_addr data
        st.temp_ite_cond_map hx
      have hstep : ∃ st0, taint_stmt uninit st (.Ist_Put offset data) = some st0 ∧
          st0.entry.exit_stmt_guard_expr_deps = st.entry.exit_stmt_guard_expr_deps := by
        simp only [taint_stmt, h1]
        refine ⟨_, rfl, ?_⟩
        simp only []
        split <;> rfl
      obtain ⟨st0, h0, hd⟩ := hstep
      exact hkeep st0 rfl h0 hd
    | Ist_WrTmp tmp data =>
      simp only [taint_supported_stmt, Bool.not_eq_true'] at hx
      obtain ⟨i1, h1⟩ := get_taint_sources_flatten uninit st.curr_instr_addr data
        st.temp_ite_cond_map hx
      have hstep : ∃ st0, taint_stmt uninit st (.Ist_WrTmp tmp data) = some st0 ∧
          st0.entry.exit_stmt_guard_expr_deps = st.entry.exit_stmt_guard_expr_deps := by
        simp only [taint_stmt, h1]
        refine ⟨_, rfl, ?_⟩
        simp only []
        split <;> rfl
      obtain ⟨st0, h0, hd⟩ := hstep
      exact hkeep st0 rfl h0 hd
    | Ist_Store addr data =>
      simp only [taint_supported_stmt, Bool.and_eq_true, Bool.not_eq_true'] at hx
      obtain ⟨i1, h1⟩ := get_taint_sources_flatten uninit st.curr_instr_addr addr
        st.temp_ite_cond_map hx.1
      obtain ⟨i2, h2⟩ := get_taint_sources_flatten uninit st.curr_instr_addr data i1 hx.2
      have hstep : ∃ st0, taint_stmt uninit st (.Ist_Store addr data) = some st0 ∧
          st0.entry.exit_stmt_guard_expr_deps = st.entry.exit_stmt_guard_expr_deps := by
        simp only [taint_stmt, h1, h2]
        refine ⟨_, rfl, ?_⟩
        simp only []
        split <;> rfl
      obtain ⟨st0, h0, hd⟩ := hstep
      exact hkeep st0 rfl h0 hd
    | Ist_Exit guard dst =>
      simp only [taint_supported_stmt, Bool.not_eq_true'] at hx
      obtain ⟨i1, h1⟩ := get_taint_sources_flatten uninit st.curr_instr_addr guard
        st.temp_ite_cond_map hx
      obtain ⟨st1, e1, e2⟩ := ih
        { st with
          temp_ite_cond_map := i1
          entry := { st.entry with exit_stmt_guard_expr_deps := flatten_sources uninit guard } }
        hrest
      refine ⟨st1, ?_, ?_⟩
      · simp only [taint_stmts, taint_stmt, h1, e1]
      · rw [e2]
        cases last_exit_guard rest <;> rfl
    | Ist_IMark a len => exact hkeep _ rfl rfl rfl
    | Ist_MBE => exact hkeep _ rfl rfl rfl
    | Ist_NoOp => exact hkeep _ rfl rfl rfl
    | Ist_AbiHint _ _ _ => exact hkeep _ rfl rfl rfl
    | Ist_PutI _ _ => simp [taint_supported_stmt] at hx
    | Ist_StoreG _ _ _ => simp [taint_supported_stmt] at hx
    | Ist_LoadG _ _ _ => simp [taint_supported_stmt] at hx
    | Ist_CAS _ _ _ _ _ => simp [taint_supported_stmt] at hx
    | Ist_LLSC _ _ => simp [taint_supported_stmt] at hx
    | Ist_Dirty _ _ _ => simp [taint_supported_stmt] at hx

/-- C37 (amended): for a block whose statements the taint flow analysis handles,
`exit_stmt_guard_expr_deps` of the summary holds the taint entities of the guard of the
last exit statement of the block, and is empty when the block has no exit statement: each
exit statement replaces the set. -/
theorem exit_deps_of_last_exit (uninit : Nat) (temp_ite_cond_map : List (Nat × TaintEntitySet))
    (vex_block : IRSB)
    (h : ∀ x ∈ vex_block.stmts, taint_supported_stmt x = true) :
    ∃ entry, compute_taint_sink_source_relation_of_block uninit temp_ite_cond_map vex_block =
        some entry ∧
      entry.exit_stmt_guard_expr_deps =
        ((last_exit_guard vex_block.stmts).map (flatten_sources uninit)).getD [] := by
  obtain ⟨st1, e1, e2⟩ := taint_stmts_exit_deps uninit vex_block.stmts
    { entry := { taint_sink_src_data := [], exit_stmt_guard_expr_deps := [],
                 ite_cond_map := [] }
      temp_ite_cond_map := temp_ite_cond_map
      curr_instr_addr := uninit } h
  unfold compute_taint_sink_source_relation_of_block
  rw [e1]
  exact ⟨_, rfl, by simpa using e2⟩

/-- C37 (amended) at `two_exit_block`. -/
theorem exit_deps_of_last_exit_witness :
    ∃ entry, compute_taint_sink_source_relation_of_block 0 [] two_exit_block = some entry ∧
      entry.exit_stmt_guard_expr_deps =
        ((last_exit_guard two_exit_block.stmts).map (flatten_sources 0)).getD [] :=
  exit_deps_of_last_exit 0 [] two_exit_block (by decide)

/-- C37 fails for the first of two exits: the summary of `two_exit_block` holds the
temporary 1, the guard of the second exit, and not the temporary 0, the guard of the
first. With the register at offset 16 symbolic the block hook marks the temporary 0
symbolic, and in the next block hook, after its commit,
`is_symbolic_exit_guard_previous_block` returns false. -/
theorem first_exit_guard_dropped :
    (compute_taint_sink_source_relation_of_block 0 [] two_exit_block).map
        (fun e => e.exit_stmt_guard_expr_deps.map
          (fun x => (taint_entity_t.beq x (.TAINT_ENTITY_TMP 0 0),
            taint_entity_t.beq x (.TAINT_ENTITY_TMP 1 0)))) = some [(false, true)] ∧
    (hook_block (lift_at 0x2000 two_exit_block) 0 symbolic_register_state 0x2000 4).map
        (fun s => (s.stopped, s.prev_block_addr, is_symbolic_temp s 0, is_symbolic_temp s 1)) =
      some (false, 0x2000, true, false) ∧
    ((hook_block (lift_at 0x2000 two_exit_block) 0 symbolic_register_state 0x2000 4).bind
        commit).map
        (fun s => (is_symbolic_temp s 0, is_symbolic_exit_guard_previous_block s)) =
      some (true, some false) := by
  decide

/-! ## Claims about the cache of `check_block` and about `rollback` -/

/-- C38 at an explicit input: `check_block` on `symbolic_register_state`, whose register
at offset 16 is symbolic, for a block at `0x2000` that the lifter fails to lift. The first
call returns false and leaves the entry it created before lifting in the cache, with
`try_unicorn = true` and empty register sets; the second call, with the same
`symbolic_registers`, finds that entry and returns true. -/
theorem check_block_lift_failure_cached_as_accepted :
    symbolic_register_state.symbolic_registers = [16] ∧
    (check_block lift_none symbolic_register_state 0x2000 4).1 = false ∧
    (check_block lift_none symbolic_register_state 0x2000 4).2.symbolic_registers = [16] ∧
    (check_block lift_none symbolic_register_state 0x2000 4).2.block_cache.map
        (fun e => (e.1, e.2.try_unicorn, e.2.used_registers, e.2.clobbered_registers)) =
      [(0x2000, true, [], [])] ∧
    (check_block lift_none (check_block lift_none symbolic_register_state 0x2000 4).2 0x2000
      4).1 = true := by
  decide

/-- The method `rollback` changes none of the block-level and state-level symbolic
sets. -/
theorem rollback_keeps_taint_sets (s s1 : State) (h : rollback s = some s1) :
    s1.block_symbolic_registers = s.block_symbolic_registers ∧
    s1.block_concrete_registers = s.block_concrete_registers ∧
    s1.block_symbolic_temps = s.block_symbolic_temps ∧
    s1.symbolic_registers = s.symbolic_registers ∧
    s1.symbolic_temps = s.symbolic_temps := by
  unfold rollback at h
  cases hl : rollback_loop s.uc s.active_pages s.mem_writes.reverse with
  | none =>
    rw [hl] at h
    cases h
  | some r =>
    rw [hl] at h
    simp only [Option.some.injEq] at h
    subst h
    exact ⟨rfl, rfl, rfl, rfl, rfl⟩

/-- C39 at an explicit input: the block hook enters `copy_block` at `0x2000` from
`symbolic_register_state`, whose only symbolic register is that at offset 16, and
`rollback` follows. `rollback` leaves the register 24 in `block_symbolic_registers` and
the temporary 0 in `block_symbolic_temps`, and the next `commit` puts them in
`symbolic_registers` and `symbolic_temps`. -/
theorem rollback_leaves_block_taint :
    (symbolic_register_state.symbolic_registers, symbolic_register_state.symbolic_temps) =
      ([16], []) ∧
    (hook_block (lift_at 0x2000 copy_block) 0 symbolic_register_state 0x2000 4).map
        (fun s => (s.stopped, s.block_symbolic_registers, s.block_concrete_registers,
          s.block_symbolic_temps)) =
      some (false, [24], [], [0]) ∧
    ((hook_block (lift_at 0x2000 copy_block) 0 symbolic_register_state 0x2000 4).bind
        rollback).map
        (fun s => (s.block_symbolic_registers, s.block_concrete_registers,
          s.block_symbolic_temps, s.bbl_addrs)) =
      some ([24], [], [0], []) ∧
    (((hook_block (lift_at 0x2000 copy_block) 0 symbolic_register_state 0x2000 4).bind
        rollback).bind commit).map
        (fun s => (s.symbolic_registers, s.symbolic_temps)) =
      some ([24, 16], [0]) :=
  ⟨by decide, by decide, by decide, by decide⟩

/-! ## Several writes of one register in a block -/

end SimUnicorn
